import Mathlib

/-!
# Filter line search of Ipopt (`src/Algorithm/IpFilterLineSearch.cpp`)

A shallow embedding of the filter and of the filter line search.

Conventions of the embedding.
* `Number` (a C++ `double`) is the ordered field `ℚ`: comparisons and the
  field operations are exact; NaN, infinities and rounding are not modelled.
* `Index` (a C++ `int`) is `Int`.
* `std::list<FilterEntry*>` is a `List FilterEntry`; an iterator is a position
  in it, the position `length` being `end()`.
-/

namespace Ipopt

/-- The C++ type `Number`. -/
abbrev Number := ℚ

/-- The C++ type `Index`. -/
abbrev Index := Int

/-! ## Filter entries -/

/-- Data of `FilterLineSearch::FilterEntry` (constructor at lines 719-725). -/
structure FilterEntry where
  phi_ : Number
  theta_ : Number
  iter_ : Index
deriving DecidableEq, Repr

/-- Modelled from the spec: `FilterEntry::Acceptable` is defined inline in
`IpFilterLineSearch.hpp`, which is not among the sources.  The spec says that
an entry dominates a candidate `(φ, θ)` iff `φ_i ≤ φ` and `θ_i ≤ θ` (non-strict)
and that a pair is acceptable iff it is not dominated. -/
def FilterEntry.Acceptable (e : FilterEntry) (phi theta : Number) : Bool :=
  !(decide (e.phi_ ≤ phi) && decide (e.theta_ ≤ theta))

/-- Modelled from the spec: `FilterEntry::Dominated` is defined inline in
`IpFilterLineSearch.hpp`, which is not among the sources.  The stored entry is
dominated by the given coordinates iff `φ ≤ φ_i` and `θ ≤ θ_i`. -/
def FilterEntry.Dominated (e : FilterEntry) (phi theta : Number) : Bool :=
  decide (phi ≤ e.phi_) && decide (theta ≤ e.theta_)

/-! ## Iterators of `std::list` -/

/-- The operation `iter++`: the nodes form a ring through the `end()` sentinel. -/
def iterNext {α : Type} (l : List α) (iter : Nat) : Nat :=
  if iter < l.length then iter + 1 else 0

/-- The operation `iter--`; stepping back from `begin()` reaches the sentinel. -/
def iterPrev {α : Type} (l : List α) (iter : Nat) : Nat :=
  if iter = 0 then l.length else iter - 1

/-- Position of the node an iterator points to once the node at position
`removed` (a different node) has been erased. -/
def iterAfterErase (removed iter : Nat) : Nat :=
  if removed < iter then iter - 1 else iter

/-! ## Filter -/

/-- Data of `FilterLineSearch::Filter`: the list `filter_list_`. -/
structure Filter where
  filter_list_ : List FilterEntry
deriving DecidableEq, Repr

/-- The filter of a freshly constructed line search (`filter_()`). -/
def Filter.empty : Filter := ⟨[]⟩

/-- Loop of `Filter::Acceptable` (lines 739-745): walk the list, stop with
`false` at the first entry that does not accept the pair. -/
def Filter.AcceptableLoop (phi theta : Number) : List FilterEntry → Bool
  | [] => true
  | e :: rest =>
    if !e.Acceptable phi theta then false else Filter.AcceptableLoop phi theta rest

/-- Embedding of `Filter::Acceptable` (lines 734-747). -/
def Filter.Acceptable (f : Filter) (phi theta : Number) : Bool :=
  Filter.AcceptableLoop phi theta f.filter_list_

/-- Loop of `Filter::AddEntry` (lines 753-762).  When the entry under the
iterator is dominated, the iterator steps back, the entry is erased, and the
`iter++` of the loop header moves on; otherwise only `iter++` is done. -/
def Filter.AddEntryLoop (phi theta : Number) (l : List FilterEntry) (iter : Nat) :
    List FilterEntry :=
  if h : iter < l.length then
    if (l.get ⟨iter, h⟩).Dominated phi theta then
      let iter_to_remove := iter
      let iter1 := iterPrev l iter
      let l1 := l.eraseIdx iter_to_remove
      let iter2 := iterAfterErase iter_to_remove iter1
      Filter.AddEntryLoop phi theta l1 (iterNext l1 iter2)
    else
      Filter.AddEntryLoop phi theta l (iterNext l iter)
  else l
termination_by l.length - iter
decreasing_by
  · simp only [iterNext, iterPrev, iterAfterErase, List.length_eraseIdx, h, if_true]
    split_ifs <;> omega
  · simp only [iterNext, h, if_true]
    omega

/-- Embedding of `Filter::AddEntry` (lines 749-765). -/
def Filter.AddEntry (f : Filter) (phi theta : Number) (iteration : Index) : Filter :=
  ⟨Filter.AddEntryLoop phi theta f.filter_list_ 0 ++ [⟨phi, theta, iteration⟩]⟩

/-- Embedding of `Filter::Clear` (lines 767-775): pop entries until empty. -/
def Filter.ClearLoop : List FilterEntry → List FilterEntry
  | [] => []
  | e :: rest => Filter.ClearLoop ((e :: rest).dropLast)
termination_by l => l.length
decreasing_by simp

/-- Embedding of `Filter::Clear`. -/
def Filter.Clear (f : Filter) : Filter := ⟨Filter.ClearLoop f.filter_list_⟩

/-- A call on the filter that changes it. -/
inductive FilterOp where
  | AddEntry (phi theta : Number) (iteration : Index)
  | Clear
deriving DecidableEq, Repr

/-- The filter after one call. -/
def Filter.apply (f : Filter) : FilterOp → Filter
  | FilterOp.AddEntry phi theta iteration => f.AddEntry phi theta iteration
  | FilterOp.Clear => f.Clear

/-- The filter after a sequence of calls, starting from the empty filter. -/
def Filter.run (ops : List FilterOp) : Filter :=
  ops.foldl Filter.apply Filter.empty

/-- The entry `a` dominates the entry `b`: `φ_a ≤ φ_b` and `θ_a ≤ θ_b`. -/
def FilterEntry.Dominates (a b : FilterEntry) : Prop :=
  a.phi_ ≤ b.phi_ ∧ a.theta_ ≤ b.theta_

/-- No two entries at different places of the filter are such that one
dominates the other. -/
def Filter.NoDominatedPair (f : Filter) : Prop :=
  f.filter_list_.Pairwise (fun a b => ¬ a.Dominates b ∧ ¬ b.Dominates a)

/-- Every `AddEntry` of the sequence is called, on the filter `f` and on its
successors, with a pair that is acceptable to the filter at that time. -/
def Filter.AddsAcceptable : Filter → List FilterOp → Prop
  | _, [] => True
  | f, FilterOp.AddEntry phi theta iteration :: ops =>
    f.Acceptable phi theta = true ∧
      Filter.AddsAcceptable (f.AddEntry phi theta iteration) ops
  | f, FilterOp.Clear :: ops => Filter.AddsAcceptable f.Clear ops

/-! ## The line-search object and its collaborators -/

/-- Exceptions the line search can meet: `IpoptNLP::Eval_Error`
(`IpIpoptNLP.hpp`, line 46) and a failed `DBG_ASSERT`. -/
inductive Exception where
  | Eval_Error
  | DBG_ASSERT
deriving DecidableEq, Repr

/-- The functions of `<cmath>` used on `Number`s whose values are not rational;
they are parameters of the embedding. -/
structure CMath where
  pow : Number → Number → Number
  log10 : Number → Number

/-- What `IpCq()` answers for the current iterate and for the point held in the
trial slot.  The trial quantities are evaluated on demand and raise
`Eval_Error` when a callback of the NLP fails; a failed evaluation leaves
nothing in the cache, so that asking again for the same point raises again. -/
structure IpoptCalculatedQuantities where
  curr_barrier_obj : Number
  curr_constraint_violation : Number
  curr_gradBarrTDelta : Number
  trial_constraint_violation : Except Exception Number
  trial_barrier_obj : Except Exception Number

/-- Members of `FilterLineSearch`.  `resto_phase_` and `pd_solver_` hold
`IsValid` of the respective smart pointer. -/
structure FilterLineSearch where
  resto_phase_ : Bool
  pd_solver_ : Bool
  theta_max_fact_ : Number
  theta_min_fact_ : Number
  eta_phi_ : Number
  delta_ : Number
  s_phi_ : Number
  s_theta_ : Number
  gamma_phi_ : Number
  gamma_theta_ : Number
  alpha_min_frac_ : Number
  alpha_red_factor_ : Number
  max_soc_ : Index
  kappa_soc_ : Number
  obj_max_inc_ : Number
  magic_steps_ : Bool
  theta_min_ : Number
  theta_max_ : Number
  filter_ : Filter

namespace FilterLineSearch

/-- Embedding of `FilterLineSearch::Compare_le` (lines 571-577). -/
def Compare_le (lhs rhs BasVal : Number) : Bool :=
  decide (lhs - rhs ≤ 1e-15 * |BasVal|)

/-- Embedding of `FilterLineSearch::IsFtype` (lines 419-428). -/
def IsFtype (s : FilterLineSearch) (m : CMath) (cq : IpoptCalculatedQuantities)
    (alpha_primal_test : Number) : Bool :=
  let curr_theta := cq.curr_constraint_violation
  decide (cq.curr_gradBarrTDelta < 0) &&
    decide (alpha_primal_test * m.pow (-cq.curr_gradBarrTDelta) s.s_phi_ >
      s.delta_ * m.pow curr_theta s.s_theta_)

/-- Embedding of `FilterLineSearch::AugmentFilter` (lines 430-441). -/
def AugmentFilter (s : FilterLineSearch) (cq : IpoptCalculatedQuantities)
    (iter_count : Index) : FilterLineSearch :=
  let curr_barr := cq.curr_barrier_obj
  let curr_theta := cq.curr_constraint_violation
  let phi_add := curr_barr - s.gamma_phi_ * curr_theta
  let theta_add := (1 - s.gamma_theta_) * curr_theta
  { s with filter_ := s.filter_.AddEntry phi_add theta_add iter_count }

/-- Embedding of `FilterLineSearch::ArmijoHolds` (lines 514-519); asking for
the trial barrier objective may raise. -/
def ArmijoHolds (s : FilterLineSearch) (cq : IpoptCalculatedQuantities)
    (alpha_primal_test : Number) : Except Exception Bool :=
  match cq.trial_barrier_obj with
  | .error e => .error e
  | .ok trial_barr =>
    .ok (Compare_le (trial_barr - cq.curr_barrier_obj)
      (s.eta_phi_ * alpha_primal_test * cq.curr_gradBarrTDelta) cq.curr_barrier_obj)

/-- Embedding of `FilterLineSearch::CalculateAlphaMin` (lines 521-538). -/
def CalculateAlphaMin (s : FilterLineSearch) (m : CMath)
    (cq : IpoptCalculatedQuantities) : Number :=
  let gBD := cq.curr_gradBarrTDelta
  let curr_theta := cq.curr_constraint_violation
  let alpha_min := s.gamma_theta_
  let alpha_min :=
    if gBD < 0 then
      let alpha_min := min s.gamma_theta_ (s.gamma_phi_ * curr_theta / (-gBD))
      if curr_theta ≤ s.theta_min_ then
        min alpha_min (s.delta_ * m.pow curr_theta s.s_theta_ / m.pow (-gBD) s.s_phi_)
      else alpha_min
    else alpha_min
  s.alpha_min_frac_ * alpha_min

/-- Embedding of `FilterLineSearch::IsAcceptableToCurrentIterate`
(lines 540-564). -/
def IsAcceptableToCurrentIterate (s : FilterLineSearch) (m : CMath)
    (cq : IpoptCalculatedQuantities) (trial_barr trial_theta : Number) : Bool :=
  let curr_barr := cq.curr_barrier_obj
  let basval : Number := if |curr_barr| > 10 then m.log10 |curr_barr| else 1
  if trial_barr > curr_barr ∧ m.log10 (trial_barr - curr_barr) > s.obj_max_inc_ * basval then
    false
  else
    let curr_theta := cq.curr_constraint_violation
    Compare_le trial_theta ((1 - s.gamma_theta_) * curr_theta) curr_theta ||
      Compare_le (trial_barr - curr_barr) (-s.gamma_phi_ * curr_theta) curr_barr

/-- Embedding of `FilterLineSearch::IsAcceptableToCurrentFilter`
(lines 566-569). -/
def IsAcceptableToCurrentFilter (s : FilterLineSearch)
    (trial_barr trial_theta : Number) : Bool :=
  s.filter_.Acceptable trial_barr trial_theta

/-- Lines 461-466 of `CheckAcceptabilityOfTrialPoint`: the lazy initialisation
of `theta_max_` and `theta_min_`. -/
def InitThetaGates (s : FilterLineSearch) (curr_theta : Number) : FilterLineSearch :=
  let s1 := if s.theta_max_ < 0 then
      { s with theta_max_ := s.theta_max_fact_ * max 1 curr_theta } else s
  if s1.theta_min_ < 0 then
    { s1 with theta_min_ := s1.theta_min_fact_ * max 1 curr_theta } else s1

/-- Lines 468-511 of `CheckAcceptabilityOfTrialPoint`: the tests made once the
gates are set; nothing is written from here on. -/
def CheckTests (s : FilterLineSearch) (m : CMath) (cq : IpoptCalculatedQuantities)
    (alpha_primal_test trial_theta : Number) : Except Exception Bool :=
  let curr_theta := cq.curr_constraint_violation
  if s.theta_max_ > 0 ∧ trial_theta > s.theta_max_ then .ok false
  else
    match cq.trial_barrier_obj with
    | .error e => .error e
    | .ok trial_barr =>
      let accept : Except Exception Bool :=
        if IsFtype s m cq alpha_primal_test ∧ curr_theta ≤ s.theta_min_ then
          ArmijoHolds s cq alpha_primal_test
        else
          .ok (IsAcceptableToCurrentIterate s m cq trial_barr trial_theta)
      match accept with
      | .error e => .error e
      | .ok false => .ok false
      | .ok true => .ok (IsAcceptableToCurrentFilter s trial_barr trial_theta)

/-- Embedding of `FilterLineSearch::CheckAcceptabilityOfTrialPoint`
(lines 443-512).  The first component is the object after the call (the call
writes `theta_max_` and `theta_min_`), the second the returned value or the
exception that left the call. -/
def CheckAcceptabilityOfTrialPoint (s : FilterLineSearch) (m : CMath)
    (cq : IpoptCalculatedQuantities) (alpha_primal_test : Number) :
    FilterLineSearch × Except Exception Bool :=
  let curr_theta := cq.curr_constraint_violation
  match cq.trial_constraint_violation with
  | .error e => (s, .error e)
  | .ok trial_theta =>
    let s := InitThetaGates s curr_theta
    (s, CheckTests s m cq alpha_primal_test trial_theta)

/-- Embedding of `FilterLineSearch::Reset` (lines 579-583). -/
def Reset (s : FilterLineSearch) : FilterLineSearch :=
  { s with filter_ := s.filter_.Clear }

end FilterLineSearch

/-! ## `FindAcceptableTrialPoint` -/

/-- The search direction the local pointers `delta_x`, ... refer to: the step
held by `IpData()` or the direction of the SOC step number `count_soc`. -/
inductive Direction where
  | orig
  | soc (count_soc : Nat)
deriving DecidableEq, Repr

/-- What the calculated quantities answer once a trial point has been set. -/
structure TrialPoint where
  trial_constraint_violation : Except Exception Number
  trial_barrier_obj : Except Exception Number

/-- Calls on the collaborators, in the order they are made. -/
inductive Event where
  | SetTrialPrimalVariablesFromStep (alpha : Number) (dir : Direction)
  | PerformMagicStep
  | CheckAcceptabilityOfTrialPoint (alpha_primal_test : Number)
  | Solve (count_soc : Nat)
  | PerformRestoration
  | AugmentFilter
  | SetTrialEqMultipilersFromStep (alpha : Number) (dir : Direction)
  | SetTrialBoundMutlipliersFromStep (alpha : Number) (dir : Direction)
deriving DecidableEq, Repr

/-- The collaborators of one call of `FindAcceptableTrialPoint`, seen as
functions of the current iterate (which the line search does not change).
* `trial dir alpha`: quantities of the trial point set from the step `alpha`
  along `dir` (after the magic step when that is switched on);
* `magic alpha`: whether `PerformMagicStep` at that trial point raises;
* `primal_frac_to_the_bound count_soc`: the fraction-to-the-boundary step of
  the SOC direction number `count_soc`;
* `dual_frac_to_the_bound dir`: the dual fraction-to-the-boundary step;
* `resto`: result of `resto_phase_->PerformRestoration()` and the calculated
  quantities afterwards;
* `debug`: whether `DBG_ASSERT` is compiled in. -/
structure Env where
  m : CMath
  iter_count : Index
  curr_primal_frac_to_the_bound : Number
  trial : Direction → Number → TrialPoint
  magic : Number → Except Exception Unit
  primal_frac_to_the_bound : Nat → Number
  dual_frac_to_the_bound : Direction → Number
  resto : Bool × IpoptCalculatedQuantities
  debug : Bool

/-- Mutable state touched by `FindAcceptableTrialPoint`: the line-search
object, the calculated quantities, the info fields of `IpData()` and the
record of the calls made. -/
structure LSRun where
  ls : FilterLineSearch
  cq : IpoptCalculatedQuantities
  info_alpha_primal : Number
  info_alpha_dual : Number
  info_alpha_primal_char : Char
  info_ls_count : Index
  trace : List Event

/-- Local variables of the backtracking loop. -/
structure Locals where
  alpha_primal : Number
  alpha_primal_test : Number
  accept : Bool
  soc_taken : Bool
  n_steps : Nat
  dir : Direction

namespace FilterLineSearch

/-- The call `IpData().SetTrialPrimalVariablesFromStep(alpha, ...)`: the trial
slot is overwritten, so the trial quantities are those of the new point. -/
def SetTrialPrimalVariablesFromStep (env : Env) (r : LSRun) (alpha : Number)
    (dir : Direction) : LSRun :=
  { r with
    cq := { r.cq with
      trial_constraint_violation := (env.trial dir alpha).trial_constraint_violation
      trial_barrier_obj := (env.trial dir alpha).trial_barrier_obj }
    trace := r.trace ++ [Event.SetTrialPrimalVariablesFromStep alpha dir] }

/-- The call of `CheckAcceptabilityOfTrialPoint` on the running state. -/
def RunCheck (env : Env) (r : LSRun) (alpha_primal_test : Number) :
    LSRun × Except Exception Bool :=
  let res := CheckAcceptabilityOfTrialPoint r.ls env.m r.cq alpha_primal_test
  ({ r with ls := res.1
            trace := r.trace ++ [Event.CheckAcceptabilityOfTrialPoint alpha_primal_test] },
   res.2)

/-- A `catch(IpoptNLP::Eval_Error&)` handler that sets `accept = false`
(lines 246-251 and 322-326); any other exception passes. -/
def CatchEvalError (res : Except Exception Bool) : Except Exception Bool :=
  match res with
  | .error Exception.Eval_Error => .ok false
  | other => other

/-- The `try` block of lines 234-245. -/
def TryTrialPoint (env : Env) (r : LSRun) (alpha_primal alpha_primal_test : Number)
    (dir : Direction) : LSRun × Except Exception Bool :=
  let r := SetTrialPrimalVariablesFromStep env r alpha_primal dir
  if r.ls.magic_steps_ then
    let r := { r with trace := r.trace ++ [Event.PerformMagicStep] }
    match env.magic alpha_primal with
    | .error e => (r, .error e)
    | .ok _ => RunCheck env r alpha_primal_test
  else RunCheck env r alpha_primal_test

/-- Local variables of the second-order-correction loop. -/
structure SocLocals where
  count_soc : Nat
  theta_soc_old : Number
  theta_trial : Number
  alpha_primal_soc : Number
  accept : Bool

/-- One pass through the body of the loop of lines 271-346. -/
def SocStep (env : Env) (alpha_primal_test theta_curr : Number) (r : LSRun)
    (v : SocLocals) : LSRun × Except Exception SocLocals :=
  let theta_soc_old := if v.count_soc = 0 then theta_curr else v.theta_trial
  let r := { r with trace := r.trace ++ [Event.Solve v.count_soc] }
  let alpha_primal_soc := env.primal_frac_to_the_bound v.count_soc
  let r := SetTrialPrimalVariablesFromStep env r alpha_primal_soc (Direction.soc v.count_soc)
  let res := RunCheck env r alpha_primal_test
  match CatchEvalError res.2 with
  | .error e => (res.1, .error e)
  | .ok true =>
    (res.1, .ok { v with theta_soc_old := theta_soc_old
                         alpha_primal_soc := alpha_primal_soc
                         accept := true })
  | .ok false =>
    match res.1.cq.trial_constraint_violation with
    | .error e => (res.1, .error e)
    | .ok theta_trial =>
      (res.1, .ok { count_soc := v.count_soc + 1
                    theta_soc_old := theta_soc_old
                    theta_trial := theta_trial
                    alpha_primal_soc := alpha_primal_soc
                    accept := false })

/-- The loop of lines 271-346.  `fuel` bounds the number of times the loop
condition is evaluated; `none` means the bound was reached. -/
def SocLoop (env : Env) (alpha_primal_test theta_curr : Number) :
    Nat → LSRun → SocLocals → Option (LSRun × Except Exception SocLocals)
  | 0, _, _ => none
  | fuel + 1, r, v =>
    if (v.count_soc : Index) < r.ls.max_soc_ ∧
        v.theta_trial ≤ r.ls.kappa_soc_ * v.theta_soc_old ∧ v.accept = false then
      match SocStep env alpha_primal_test theta_curr r v with
      | (r, .error e) => some (r, .error e)
      | (r, .ok v) => SocLoop env alpha_primal_test theta_curr fuel r v
    else some (r, .ok v)

/-- Lines 257-351: the second-order correction tried after a rejected trial
point.  The result has `accept` set when a corrected step was accepted. -/
def TrySecondOrderCorrection (env : Env) (alpha_primal_max : Number) (r : LSRun)
    (v : Locals) : Option (LSRun × Except Exception Locals) :=
  let theta_curr := r.cq.curr_constraint_violation
  match r.cq.trial_constraint_violation with
  | .error e => some (r, .error e)
  | .ok theta_trial =>
    if v.alpha_primal = alpha_primal_max ∧ theta_curr ≤ theta_trial ∧ r.ls.max_soc_ > 0 then
      match SocLoop env v.alpha_primal_test theta_curr (r.ls.max_soc_.toNat + 1) r
          { count_soc := 0, theta_soc_old := 0, theta_trial := 0
            alpha_primal_soc := v.alpha_primal, accept := false } with
      | none => none
      | some (r, .error e) => some (r, .error e)
      | some (r, .ok w) =>
        if w.accept then
          some (r, .ok { v with alpha_primal := w.alpha_primal_soc
                                accept := true
                                soc_taken := true
                                dir := Direction.soc w.count_soc })
        else some (r, .ok v)
    else some (r, .ok v)

/-- One pass through the body of the loop of lines 228-356.  The result has
`accept` set when the loop is left by a `break`. -/
def BacktrackingStep (env : Env) (alpha_primal_max : Number) (r : LSRun) (v : Locals) :
    Option (LSRun × Except Exception Locals) :=
  let alpha_primal_test := v.alpha_primal
  let res := TryTrialPoint env r v.alpha_primal alpha_primal_test v.dir
  match CatchEvalError res.2 with
  | .error e => some (res.1, .error e)
  | .ok true =>
    some (res.1, .ok { v with alpha_primal_test := alpha_primal_test, accept := true })
  | .ok false =>
    match TrySecondOrderCorrection env alpha_primal_max res.1
        { v with alpha_primal_test := alpha_primal_test, accept := false } with
    | none => none
    | some (r, .error e) => some (r, .error e)
    | some (r, .ok v) =>
      if v.accept then some (r, .ok v)
      else
        some (r, .ok { v with alpha_primal := v.alpha_primal * r.ls.alpha_red_factor_
                              n_steps := v.n_steps + 1 })

/-- The loop of lines 228-356.  `fuel` bounds the number of times the loop
condition is evaluated; `none` means the bound was reached. -/
def BacktrackingLoop (env : Env) (alpha_min alpha_primal_max : Number) :
    Nat → LSRun → Locals → Option (LSRun × Except Exception Locals)
  | 0, _, _ => none
  | fuel + 1, r, v =>
    if v.alpha_primal > alpha_min ∨ v.n_steps = 0 then
      match BacktrackingStep env alpha_primal_max r v with
      | none => none
      | some (r, .error e) => some (r, .error e)
      | some (r, .ok v) =>
        if v.accept then some (r, .ok v)
        else BacktrackingLoop env alpha_min alpha_primal_max fuel r v
    else some (r, .ok v)

/-- Lines 207-226: the locals on entry of the backtracking loop. -/
def InitialLocals (env : Env) : Locals :=
  { alpha_primal := env.curr_primal_frac_to_the_bound
    alpha_primal_test := 0
    accept := false
    soc_taken := false
    n_steps := 0
    dir := Direction.orig }

/-- Lines 358-380: the restoration phase is asked when no trial point was
accepted; a `DBG_ASSERT(false)` raises when assertions are compiled in. -/
def RestorationFallback (env : Env) (r : LSRun) (v : Locals) :
    LSRun × Except Exception Bool :=
  let step : LSRun × Except Exception Bool :=
    if v.accept = false then
      if r.ls.resto_phase_ then
        ({ r with info_alpha_primal := v.alpha_primal
                  info_alpha_dual := 0
                  info_alpha_primal_char := 'R'
                  info_ls_count := (v.n_steps : Index) + 1
                  cq := env.resto.2
                  trace := r.trace ++ [Event.PerformRestoration] },
         .ok env.resto.1)
      else if env.debug then (r, .error Exception.DBG_ASSERT)
      else (r, .ok v.accept)
    else (r, .ok v.accept)
  match step with
  | (r, .error e) => (r, .error e)
  | (r, .ok accept) =>
    if accept = false ∧ env.debug = true then (r, .error Exception.DBG_ASSERT)
    else (r, .ok accept)

/-- Lines 382-415: filter augmentation, info fields and the trial values of
the multipliers. -/
def Commit (env : Env) (r : LSRun) (v : Locals) : LSRun × Except Exception Unit :=
  let augment : Except Exception Bool :=
    if IsFtype r.ls env.m r.cq v.alpha_primal_test = false then .ok true
    else
      match ArmijoHolds r.ls r.cq v.alpha_primal_test with
      | .error e => .error e
      | .ok armijo => .ok (!armijo)
  match augment with
  | .error e => (r, .error e)
  | .ok augment =>
    let r : LSRun :=
      if augment then
        { r with ls := AugmentFilter r.ls r.cq env.iter_count
                 trace := r.trace ++ [Event.AugmentFilter] }
      else r
    let info_alpha_primal_char : Char := if augment then 'h' else 'f'
    let info_alpha_primal_char : Char :=
      if v.soc_taken then info_alpha_primal_char.toUpper else info_alpha_primal_char
    let alpha_dual_max := env.dual_frac_to_the_bound v.dir
    ({ r with info_alpha_primal_char := info_alpha_primal_char
              info_ls_count := (v.n_steps : Index) + 1
              info_alpha_primal := v.alpha_primal
              info_alpha_dual := alpha_dual_max
              trace := r.trace ++
                [Event.SetTrialEqMultipilersFromStep v.alpha_primal v.dir,
                 Event.SetTrialBoundMutlipliersFromStep alpha_dual_max v.dir] },
     .ok ())

/-- Embedding of `FilterLineSearch::FindAcceptableTrialPoint` (lines 188-417).
`none` means that the backtracking loop did not end within `fuel` passes. -/
def FindAcceptableTrialPoint (env : Env) (fuel : Nat) (r : LSRun) :
    Option (LSRun × Except Exception Unit) :=
  let alpha_min := CalculateAlphaMin r.ls env.m r.cq
  let alpha_primal_max := env.curr_primal_frac_to_the_bound
  match BacktrackingLoop env alpha_min alpha_primal_max fuel r (InitialLocals env) with
  | none => none
  | some (r, .error e) => some (r, .error e)
  | some (r, .ok v) =>
    match RestorationFallback env r v with
    | (r, .error e) => some (r, .error e)
    | (r, .ok _) => some (Commit env r v)

end FilterLineSearch

/-! ## Relations between states, used to state what a call leaves unchanged -/

/-- The object `s'` differs from `s` at most in `theta_min_` and `theta_max_`. -/
def FilterLineSearch.GatesOnly (s s' : FilterLineSearch) : Prop :=
  s' = { s with theta_min_ := s'.theta_min_, theta_max_ := s'.theta_max_ }

/-- A gate of `s` that is already set (non-negative) has the same value in `s'`. -/
def FilterLineSearch.GatesKept (s s' : FilterLineSearch) : Prop :=
  (0 ≤ s.theta_max_ → s'.theta_max_ = s.theta_max_) ∧
    (0 ≤ s.theta_min_ → s'.theta_min_ = s.theta_min_)

/-- What the backtracking loop leaves unchanged: the object up to its gates,
the gates once set, and the quantities of the current iterate. -/
def LSRun.LoopFrame (r r' : LSRun) : Prop :=
  r.ls.GatesOnly r'.ls ∧ r.ls.GatesKept r'.ls ∧
    r'.cq.curr_barrier_obj = r.cq.curr_barrier_obj ∧
    r'.cq.curr_constraint_violation = r.cq.curr_constraint_violation ∧
    r'.cq.curr_gradBarrTDelta = r.cq.curr_gradBarrTDelta

/-- The point in the trial slot of `r` passes the tests of
`CheckAcceptabilityOfTrialPoint` at the test step size `alpha`. -/
def LSRun.AcceptedAt (env : Env) (r : LSRun) (alpha : Number) : Prop :=
  ∃ trial_theta, r.cq.trial_constraint_violation = .ok trial_theta ∧
    FilterLineSearch.CheckTests r.ls env.m r.cq alpha trial_theta = .ok true

/-! ## Sequences of operations of the line search -/

/-- An operation of the line search that can write members of the object,
with the inputs it is given. -/
inductive LSOp where
  | CheckAcceptabilityOfTrialPoint (m : CMath) (cq : IpoptCalculatedQuantities)
      (alpha_primal_test : Number)
  | AugmentFilter (cq : IpoptCalculatedQuantities) (iter_count : Index)
  | FindAcceptableTrialPoint (env : Env) (fuel : Nat) (r : LSRun)
  | Reset

/-- The object after one operation (`r.ls` of a `FindAcceptableTrialPoint`
operation is replaced by the object at hand); `none` when the backtracking
loop does not end within its fuel. -/
def FilterLineSearch.applyOp (s : FilterLineSearch) : LSOp → Option FilterLineSearch
  | LSOp.CheckAcceptabilityOfTrialPoint m cq alpha =>
    some (FilterLineSearch.CheckAcceptabilityOfTrialPoint s m cq alpha).1
  | LSOp.AugmentFilter cq iter_count => some (FilterLineSearch.AugmentFilter s cq iter_count)
  | LSOp.FindAcceptableTrialPoint env fuel r =>
    match FilterLineSearch.FindAcceptableTrialPoint env fuel { r with ls := s } with
    | none => none
    | some out => some out.1.ls
  | LSOp.Reset => some (FilterLineSearch.Reset s)

/-- The object after a sequence of operations. -/
def FilterLineSearch.applyOps (s : FilterLineSearch) : List LSOp → Option FilterLineSearch
  | [] => some s
  | op :: ops =>
    match s.applyOp op with
    | none => none
    | some s' => FilterLineSearch.applyOps s' ops

/-- The state of a line search in use: `InitializeImpl` has set a positive
`theta_max_fact_` (lines 48-55), and `theta_max_` is either still negative, as
the constructor left it (line 34), or positive.  Every operation preserves
this (`applyOps_Initialised` below). -/
def FilterLineSearch.Initialised (s : FilterLineSearch) : Prop :=
  0 < s.theta_max_fact_ ∧ (s.theta_max_ < 0 ∨ 0 < s.theta_max_)

/-! ## Concrete objects used to instantiate the theorems -/

/-- A line search as left by the constructor (lines 26-36: `theta_min_` and
`theta_max_` are `-1`, the filter is empty) and by `InitializeImpl` without
options (lines 41-186), with a restoration phase and a PD solver. -/
def exampleLineSearch : FilterLineSearch :=
  { resto_phase_ := true
    pd_solver_ := true
    theta_max_fact_ := 1e4
    theta_min_fact_ := 1e-4
    eta_phi_ := 1e-4
    delta_ := 1
    s_phi_ := 2.3
    s_theta_ := 1.1
    gamma_phi_ := 1e-5
    gamma_theta_ := 1e-5
    alpha_min_frac_ := 0.05
    alpha_red_factor_ := 0.5
    max_soc_ := 4
    kappa_soc_ := 0.99
    obj_max_inc_ := 5
    magic_steps_ := false
    theta_min_ := -1
    theta_max_ := -1
    filter_ := Filter.empty }

/-- An instance of the `<cmath>` functions: `pow` is exact for exponents that
are natural numbers (the only ones it is used with below); `log10` is not
consulted on the inputs below. -/
def exampleMath : CMath :=
  { pow := fun x y => x ^ y.num.toNat
    log10 := fun _ => 0 }

/-- Calculated quantities of an iterate with `φ = 0`, `θ = 1`, `∇φᵀΔ = 0`
and a trial point with `θ = 1/2`, `φ = 0`. -/
def exampleCq : IpoptCalculatedQuantities :=
  { curr_barrier_obj := 0
    curr_constraint_violation := 1
    curr_gradBarrTDelta := 0
    trial_constraint_violation := .ok (1 / 2)
    trial_barrier_obj := .ok 0 }

/-- A line search whose gates were set at an earlier iterate (`θ ≤ 1`), with
the exponents `s_phi = s_theta = 2` (admissible: both exceed 1). -/
def exampleLineSearchF : FilterLineSearch :=
  { exampleLineSearch with
    s_phi_ := 2
    s_theta_ := 2
    theta_min_ := 1e-4
    theta_max_ := 1e4 }

/-- An iterate with `φ = 0`, `θ = 1/2`, `∇φᵀΔ = -1`. -/
def exampleCqF : IpoptCalculatedQuantities :=
  { curr_barrier_obj := 0
    curr_constraint_violation := 1 / 2
    curr_gradBarrTDelta := -1
    trial_constraint_violation := .ok 0
    trial_barrier_obj := .ok 0 }

/-- Collaborators for that iterate: the full step is allowed
(`α_max = 1`) and every trial point is feasible with barrier objective `-1`. -/
def exampleEnvF : Env :=
  { m := exampleMath
    iter_count := 3
    curr_primal_frac_to_the_bound := 1
    trial := fun _ _ => { trial_constraint_violation := .ok 0, trial_barrier_obj := .ok (-1) }
    magic := fun _ => .ok ()
    primal_frac_to_the_bound := fun _ => 1
    dual_frac_to_the_bound := fun _ => 1
    resto := (true, exampleCqF)
    debug := false }

/-- The state in which `FindAcceptableTrialPoint` is called. -/
def exampleRunF : LSRun :=
  { ls := exampleLineSearchF
    cq := exampleCqF
    info_alpha_primal := 0
    info_alpha_dual := 0
    info_alpha_primal_char := ' '
    info_ls_count := 0
    trace := [] }

/-- The state when the backtracking loop of the example is left. -/
def exampleRunF1 : LSRun :=
  { exampleRunF with
    cq := { exampleCqF with
      trial_constraint_violation := .ok 0
      trial_barrier_obj := .ok (-1) }
    trace := [Event.SetTrialPrimalVariablesFromStep 1 Direction.orig,
      Event.CheckAcceptabilityOfTrialPoint 1] }

/-- The locals when the backtracking loop of the example is left. -/
def exampleLocalsF1 : Locals :=
  { alpha_primal := 1
    alpha_primal_test := 1
    accept := true
    soc_taken := false
    n_steps := 0
    dir := Direction.orig }

/-- The state when `FindAcceptableTrialPoint` returns in the example. -/
def exampleRunF2 : LSRun :=
  { exampleRunF1 with
    info_alpha_primal_char := 'f'
    info_ls_count := 1
    info_alpha_primal := 1
    info_alpha_dual := 1
    trace := exampleRunF1.trace ++
      [Event.SetTrialEqMultipilersFromStep 1 Direction.orig,
       Event.SetTrialBoundMutlipliersFromStep 1 Direction.orig] }

/-- Calculated quantities of an iterate with `θ = 1` whose trial point cannot
be evaluated: the constraint callback fails. -/
def exampleCqE : IpoptCalculatedQuantities :=
  { exampleCq with
    trial_constraint_violation := .error Exception.Eval_Error
    trial_barrier_obj := .error Exception.Eval_Error }

/-- Collaborators for an iterate at which the constraints cannot be evaluated
at any trial point. -/
def exampleEnvE : Env :=
  { exampleEnvF with
    trial := fun _ _ =>
      { trial_constraint_violation := .error Exception.Eval_Error
        trial_barrier_obj := .error Exception.Eval_Error } }

/-- The state in which the evaluation error leaves `FindAcceptableTrialPoint`. -/
def exampleRunE1 : LSRun :=
  { exampleRunF with
    cq := { exampleCqF with
      trial_constraint_violation := .error Exception.Eval_Error
      trial_barrier_obj := .error Exception.Eval_Error }
    trace := [Event.SetTrialPrimalVariablesFromStep 1 Direction.orig,
      Event.CheckAcceptabilityOfTrialPoint 1] }

/-- An iterate that is feasible (`θ = 0`) with a descent direction
(`∇φᵀΔ = -1`). -/
def exampleCqZ : IpoptCalculatedQuantities :=
  { exampleCq with
    curr_constraint_violation := 0
    curr_gradBarrTDelta := -1 }

/-- An instance of the `<cmath>` functions whose `log10` is the integer part of
the decimal logarithm (exact on the powers of ten). -/
def exampleMathLog : CMath :=
  { pow := exampleMath.pow
    log10 := fun x => (Nat.log 10 ⌊x⌋₊ : Number) }

/-! ## `InitializeImpl` -/

/-- The exception `OptionsList::OPTION_OUT_OF_RANGE` raised by
`ASSERT_EXCEPTION` in `InitializeImpl`. -/
inductive OptionsException where
  | OPTION_OUT_OF_RANGE
deriving DecidableEq, Repr

/-- The options list as `InitializeImpl` reads it: `GetNumericValue tag pfx` and
`GetIntegerValue tag pfx` give the value when the option `tag` is set (under
the given name prefix) and `none` when it is not. -/
structure OptionsList where
  GetNumericValue : String → String → Option Number
  GetIntegerValue : String → String → Option Index

/-- Outcome of a part of `InitializeImpl`: the object as it stands, and whether
an exception was raised. -/
abbrev InitOutcome := FilterLineSearch × Except OptionsException Unit

/-- Sequencing of the statements of `InitializeImpl`: a raised exception ends
the call, with the members written so far left as they are. -/
def InitOutcome.andThen (r : InitOutcome) (f : FilterLineSearch → InitOutcome) :
    InitOutcome :=
  match r with
  | (s, .ok _) => f s
  | (s, .error e) => (s, .error e)

/-- The pattern of lines 48-55, repeated for every numeric option: a supplied
value is checked by `ASSERT_EXCEPTION` and stored; without a supplied value
the default is stored. -/
def InitNumeric (opt : Option Number) (inRange : Number → Bool) (dflt : Number)
    (set : FilterLineSearch → Number → FilterLineSearch) (s : FilterLineSearch) :
    InitOutcome :=
  match opt with
  | some value =>
    if inRange value then (set s value, .ok ())
    else (s, .error OptionsException.OPTION_OUT_OF_RANGE)
  | none => (set s dflt, .ok ())

/-- Lines 139-150: the option `max_soc`, and the check that a PD solver is at
hand when corrections are allowed. -/
def InitMaxSoc (opt : Option Index) (s : FilterLineSearch) : InitOutcome :=
  let r : InitOutcome :=
    match opt with
    | some ivalue =>
      if ivalue ≥ 0 then ({ s with max_soc_ := ivalue }, .ok ())
      else (s, .error OptionsException.OPTION_OUT_OF_RANGE)
    | none => ({ s with max_soc_ := 4 }, .ok ())
  r.andThen fun s =>
    if s.max_soc_ > 0 ∧ s.pd_solver_ = false then
      (s, .error OptionsException.OPTION_OUT_OF_RANGE)
    else (s, .ok ())

/-- Lines 170-175: the option `magic_steps`. -/
def InitMagicSteps (opt : Option Index) (s : FilterLineSearch) : InitOutcome :=
  match opt with
  | some ivalue => ({ s with magic_steps_ := decide (ivalue ≠ 0) }, .ok ())
  | none => ({ s with magic_steps_ := false }, .ok ())

/-- Lines 47-175 of `FilterLineSearch::InitializeImpl`: the options are read in
the order of the source. -/
def FilterLineSearch.InitializeOptions (s : FilterLineSearch) (options : OptionsList)
    (pfx : String) : InitOutcome :=
  (InitNumeric (options.GetNumericValue "theta_max_fact" pfx)
      (fun value => decide (value > 0)) 1e4
      (fun s value => { s with theta_max_fact_ := value }) s).andThen fun s =>
  (InitNumeric (options.GetNumericValue "theta_min_fact" pfx)
      (fun value => decide (value > 0 ∧ value < s.theta_max_fact_)) 1e-4
      (fun s value => { s with theta_min_fact_ := value }) s).andThen fun s =>
  (InitNumeric (options.GetNumericValue "eta_phi" pfx)
      (fun value => decide (value > 0 ∧ value < 0.5)) 1e-4
      (fun s value => { s with eta_phi_ := value }) s).andThen fun s =>
  (InitNumeric (options.GetNumericValue "delta" pfx)
      (fun value => decide (value > 0)) 1
      (fun s value => { s with delta_ := value }) s).andThen fun s =>
  (InitNumeric (options.GetNumericValue "s_phi" pfx)
      (fun value => decide (value > 1)) 2.3
      (fun s value => { s with s_phi_ := value }) s).andThen fun s =>
  (InitNumeric (options.GetNumericValue "s_theta" pfx)
      (fun value => decide (value > 1)) 1.1
      (fun s value => { s with s_theta_ := value }) s).andThen fun s =>
  (InitNumeric (options.GetNumericValue "gamma_phi" pfx)
      (fun value => decide (value > 0 ∧ value < 1)) 1e-5
      (fun s value => { s with gamma_phi_ := value }) s).andThen fun s =>
  (InitNumeric (options.GetNumericValue "gamma_theta" pfx)
      (fun value => decide (value > 0 ∧ value < 1)) 1e-5
      (fun s value => { s with gamma_theta_ := value }) s).andThen fun s =>
  (InitNumeric (options.GetNumericValue "alpha_min_frac" pfx)
      (fun value => decide (value > 0)) 0.05
      (fun s value => { s with alpha_min_frac_ := value }) s).andThen fun s =>
  (InitNumeric (options.GetNumericValue "alpha_red_factor" pfx)
      (fun value => decide (value > 0)) 0.5
      (fun s value => { s with alpha_red_factor_ := value }) s).andThen fun s =>
  (InitMaxSoc (options.GetIntegerValue "max_soc" pfx) s).andThen fun s =>
  (InitNumeric (options.GetNumericValue "kappa_soc" pfx)
      (fun value => decide (value > 0)) 0.99
      (fun s value => { s with kappa_soc_ := value }) s).andThen fun s =>
  (InitNumeric (options.GetNumericValue "obj_max_inc_" pfx)
      (fun value => decide (value > 1)) 5
      (fun s value => { s with obj_max_inc_ := value }) s).andThen fun s =>
  InitMagicSteps (options.GetIntegerValue "magic_steps" pfx) s

/-- Embedding of `FilterLineSearch::InitializeImpl` (lines 41-186).
`resto_Initialize` is what `resto_phase_->Initialize(...)` returns when the
restoration phase is there (lines 177-181).  The first component is the
object after the call, the second the returned value or the exception. -/
def FilterLineSearch.InitializeImpl (s : FilterLineSearch) (options : OptionsList)
    (pfx : String) (resto_Initialize : Bool) :
    FilterLineSearch × Except OptionsException Bool :=
  match FilterLineSearch.InitializeOptions s options pfx with
  | (s, .error e) => (s, .error e)
  | (s, .ok _) =>
    let retvalue := if s.resto_phase_ then resto_Initialize else true
    (s, .ok retvalue)

/-- The options list in which no option is set. -/
def exampleOptionsNone : OptionsList :=
  { GetNumericValue := fun _ _ => none
    GetIntegerValue := fun _ _ => none }

/-- The options list in which only `theta_max_fact` is set, to `1e-5`. -/
def exampleOptionsSmallMax : OptionsList :=
  { GetNumericValue := fun tag _ => if tag = "theta_max_fact" then some 1e-5 else none
    GetIntegerValue := fun _ _ => none }

/-- Every supplied option value lies in the range `InitializeImpl` asks for
(lines 47-159), and a PD solver is at hand when the effective `max_soc` is
positive.  The bound of `theta_min_fact` is the effective `theta_max_fact`. -/
def OptionsList.InRange (options : OptionsList) (pfx : String) (pd_solver : Bool) : Prop :=
  (∀ v, options.GetNumericValue "theta_max_fact" pfx = some v → v > 0) ∧
  (∀ v, options.GetNumericValue "theta_min_fact" pfx = some v →
    v > 0 ∧ v < (options.GetNumericValue "theta_max_fact" pfx).getD 1e4) ∧
  (∀ v, options.GetNumericValue "eta_phi" pfx = some v → v > 0 ∧ v < 0.5) ∧
  (∀ v, options.GetNumericValue "delta" pfx = some v → v > 0) ∧
  (∀ v, options.GetNumericValue "s_phi" pfx = some v → v > 1) ∧
  (∀ v, options.GetNumericValue "s_theta" pfx = some v → v > 1) ∧
  (∀ v, options.GetNumericValue "gamma_phi" pfx = some v → v > 0 ∧ v < 1) ∧
  (∀ v, options.GetNumericValue "gamma_theta" pfx = some v → v > 0 ∧ v < 1) ∧
  (∀ v, options.GetNumericValue "alpha_min_frac" pfx = some v → v > 0) ∧
  (∀ v, options.GetNumericValue "alpha_red_factor" pfx = some v → v > 0) ∧
  ((∀ v, options.GetIntegerValue "max_soc" pfx = some v → v ≥ 0) ∧
    ((options.GetIntegerValue "max_soc" pfx).getD 4 > 0 → pd_solver = true)) ∧
  (∀ v, options.GetNumericValue "kappa_soc" pfx = some v → v > 0) ∧
  (∀ v, options.GetNumericValue "obj_max_inc_" pfx = some v → v > 1)

/-- The object after a successful `InitializeImpl`: every parameter holds the
supplied value of its option, or the default. -/
def FilterLineSearch.withOptions (s : FilterLineSearch) (options : OptionsList)
    (pfx : String) : FilterLineSearch :=
  { s with
    theta_max_fact_ := (options.GetNumericValue "theta_max_fact" pfx).getD 1e4
    theta_min_fact_ := (options.GetNumericValue "theta_min_fact" pfx).getD 1e-4
    eta_phi_ := (options.GetNumericValue "eta_phi" pfx).getD 1e-4
    delta_ := (options.GetNumericValue "delta" pfx).getD 1
    s_phi_ := (options.GetNumericValue "s_phi" pfx).getD 2.3
    s_theta_ := (options.GetNumericValue "s_theta" pfx).getD 1.1
    gamma_phi_ := (options.GetNumericValue "gamma_phi" pfx).getD 1e-5
    gamma_theta_ := (options.GetNumericValue "gamma_theta" pfx).getD 1e-5
    alpha_min_frac_ := (options.GetNumericValue "alpha_min_frac" pfx).getD 0.05
    alpha_red_factor_ := (options.GetNumericValue "alpha_red_factor" pfx).getD 0.5
    max_soc_ := (options.GetIntegerValue "max_soc" pfx).getD 4
    kappa_soc_ := (options.GetNumericValue "kappa_soc" pfx).getD 0.99
    obj_max_inc_ := (options.GetNumericValue "obj_max_inc_" pfx).getD 5
    magic_steps_ :=
      match options.GetIntegerValue "magic_steps" pfx with
      | some ivalue => decide (ivalue ≠ 0)
      | none => false }

/-- The options list in which only `delta` is set, to `-1`. -/
def exampleOptionsBadDelta : OptionsList :=
  { GetNumericValue := fun tag _ => if tag = "delta" then some (-1) else none
    GetIntegerValue := fun _ _ => none }

/-! ## The record of calls -/

/-- The record of calls of `r'` is the one of `r` followed by calls that all
satisfy `Q`. -/
def LSRun.Extends (Q : Event → Prop) (r r' : LSRun) : Prop :=
  ∃ added, r'.trace = r.trace ++ added ∧ ∀ e ∈ added, Q e

/-- What is asked of `Q` so that every call made by the backtracking loop
satisfies it, for a line search whose `max_soc_` is `ms`: calls that belong to
a second-order correction are only made when `ms > 0`. -/
def LoopEventsOk (Q : Event → Prop) (ms : Index) : Prop :=
  (∀ alpha, Q (Event.SetTrialPrimalVariablesFromStep alpha Direction.orig)) ∧
  Q Event.PerformMagicStep ∧
  (∀ alpha, Q (Event.CheckAcceptabilityOfTrialPoint alpha)) ∧
  (0 < ms → (∀ k, Q (Event.Solve k)) ∧
    ∀ alpha k, Q (Event.SetTrialPrimalVariablesFromStep alpha (Direction.soc k)))

/-- The call has nothing to do with a second-order correction: it is not a
solve of the PD system and it does not use an SOC direction. -/
def Event.NoSoc : Event → Prop
  | Event.Solve _ => False
  | Event.SetTrialPrimalVariablesFromStep _ (Direction.soc _) => False
  | Event.SetTrialEqMultipilersFromStep _ (Direction.soc _) => False
  | Event.SetTrialBoundMutlipliersFromStep _ (Direction.soc _) => False
  | _ => True

/-- The locals of a line search that has not accepted a second-order
correction: the direction is the original one and `soc_taken` is false. -/
def Locals.Plain (v : Locals) : Prop :=
  v.dir = Direction.orig ∧ v.soc_taken = false

/-- A line search without restoration phase and with `max_soc = 0`, its gates
set at an earlier iterate. -/
def exampleLineSearchN : FilterLineSearch :=
  { exampleLineSearchF with
    resto_phase_ := false
    max_soc_ := 0 }

/-- Collaborators of an optimized build (`DBG_ASSERT` compiled out) at an
iterate whose step is cut to `α_max = 1e-7` by the fraction-to-the-boundary
rule and whose trial points all violate the constraints by `1e5`. -/
def exampleEnvN : Env :=
  { exampleEnvF with
    curr_primal_frac_to_the_bound := 1e-7
    trial := fun _ _ =>
      { trial_constraint_violation := .ok 100000, trial_barrier_obj := .ok 0 }
    debug := false }

/-- The state in which `FindAcceptableTrialPoint` is called in that example. -/
def exampleRunN : LSRun :=
  { exampleRunF with ls := exampleLineSearchN }

/-- The state when the backtracking loop of that example is left. -/
def exampleRunN1 : LSRun :=
  { exampleRunN with
    cq := { exampleCqF with
      trial_constraint_violation := .ok 100000
      trial_barrier_obj := .ok 0 }
    trace := [Event.SetTrialPrimalVariablesFromStep 1e-7 Direction.orig,
      Event.CheckAcceptabilityOfTrialPoint 1e-7] }

/-- The locals when the backtracking loop of that example is left: no trial
point was accepted. -/
def exampleLocalsN1 : Locals :=
  { alpha_primal := 1e-7 * 0.5
    alpha_primal_test := 1e-7
    accept := false
    soc_taken := false
    n_steps := 1
    dir := Direction.orig }

/-- A line search with `alpha_red_factor = 1` (admitted by `InitializeImpl`,
which asks for a positive value) and `max_soc = 1`, its gates set at an
earlier iterate. -/
def exampleLineSearchS : FilterLineSearch :=
  { exampleLineSearchF with
    alpha_red_factor_ := 1
    max_soc_ := 1 }

/-- Collaborators at an iterate (`φ = 0`, `θ = 1/2`, `∇φᵀΔ = -1`, `α_max = 1`)
all of whose trial points, corrected or not, have `θ = 1` and `φ = 0`. -/
def exampleEnvS : Env :=
  { exampleEnvF with
    trial := fun _ _ => { trial_constraint_violation := .ok 1, trial_barrier_obj := .ok 0 } }

/-- The state in which `FindAcceptableTrialPoint` is called in that example. -/
def exampleRunS : LSRun :=
  { exampleRunF with ls := exampleLineSearchS }

/-- The calls made in one pass of the backtracking loop of that example: the
trial point, its check, the solve for the correction, the corrected trial
point, its check. -/
def examplePassS : List Event :=
  [Event.SetTrialPrimalVariablesFromStep 1 Direction.orig,
    Event.CheckAcceptabilityOfTrialPoint 1,
    Event.Solve 0,
    Event.SetTrialPrimalVariablesFromStep 1 (Direction.soc 0),
    Event.CheckAcceptabilityOfTrialPoint 1]

/-- The state of that example after some passes of the loop, with the calls
made so far. -/
def exampleRunSAfter (calls : List Event) : LSRun :=
  { exampleRunS with
    cq := { exampleCqF with
      trial_constraint_violation := .ok 1
      trial_barrier_obj := .ok 0 }
    trace := calls }

/-- The locals of that example after `n_steps` rejected step sizes. -/
def exampleLocalsS (n_steps : Nat) : Locals :=
  { alpha_primal := 1
    alpha_primal_test := 1
    accept := false
    soc_taken := false
    n_steps := n_steps
    dir := Direction.orig }

/-- The options list that sets `alpha_red_factor = 1`, `max_soc = 1` and
`s_phi = s_theta = 2`, every other option at its default. -/
def exampleOptionsS : OptionsList :=
  { GetNumericValue := fun tag _ =>
      if tag = "alpha_red_factor" then some 1
      else if tag = "s_phi" then some 2
      else if tag = "s_theta" then some 2
      else none
    GetIntegerValue := fun tag _ => if tag = "max_soc" then some 1 else none }

/-- The options list in which only the option named `obj_max_inc` is set, to
`value`. -/
def exampleOptionsObjMaxInc (value : Number) : OptionsList :=
  { GetNumericValue := fun tag _ => if tag = "obj_max_inc" then some value else none
    GetIntegerValue := fun _ _ => none }

/-- The options list in which `theta_max_fact` is set to `7` and `delta` to
`-1`. -/
def exampleOptionsPartial : OptionsList :=
  { GetNumericValue := fun tag _ =>
      if tag = "theta_max_fact" then some 7
      else if tag = "delta" then some (-1)
      else none
    GetIntegerValue := fun _ _ => none }

/-- The options list in which only `max_soc` is set, to `ivalue`. -/
def exampleOptionsMaxSoc (ivalue : Index) : OptionsList :=
  { GetNumericValue := fun _ _ => none
    GetIntegerValue := fun tag _ => if tag = "max_soc" then some ivalue else none }

/-- The object in which the first `k` parameters, in the order in which
`InitializeImpl` stores them (lines 47-175), hold the values of
`withOptions`, and everything else is as in `s`. -/
def FilterLineSearch.withOptionsUpTo (k : Nat) (s : FilterLineSearch)
    (options : OptionsList) (pfx : String) : FilterLineSearch :=
  let t := s.withOptions options pfx
  { s with
    theta_max_fact_ := if 0 < k then t.theta_max_fact_ else s.theta_max_fact_
    theta_min_fact_ := if 1 < k then t.theta_min_fact_ else s.theta_min_fact_
    eta_phi_ := if 2 < k then t.eta_phi_ else s.eta_phi_
    delta_ := if 3 < k then t.delta_ else s.delta_
    s_phi_ := if 4 < k then t.s_phi_ else s.s_phi_
    s_theta_ := if 5 < k then t.s_theta_ else s.s_theta_
    gamma_phi_ := if 6 < k then t.gamma_phi_ else s.gamma_phi_
    gamma_theta_ := if 7 < k then t.gamma_theta_ else s.gamma_theta_
    alpha_min_frac_ := if 8 < k then t.alpha_min_frac_ else s.alpha_min_frac_
    alpha_red_factor_ := if 9 < k then t.alpha_red_factor_ else s.alpha_red_factor_
    max_soc_ := if 10 < k then t.max_soc_ else s.max_soc_
    kappa_soc_ := if 11 < k then t.kappa_soc_ else s.kappa_soc_
    obj_max_inc_ := if 12 < k then t.obj_max_inc_ else s.obj_max_inc_
    magic_steps_ := if 13 < k then t.magic_steps_ else s.magic_steps_ }

/-- The checks of `InitializeImpl` in the order of the source (lines 48-163),
numbered from 0: the ten numeric options from `theta_max_fact` to
`alpha_red_factor`, the range of `max_soc` (10), the PD solver needed by a
positive `max_soc` (11), `kappa_soc` (12) and `obj_max_inc_` (13).  The bound
of `theta_min_fact` is the effective `theta_max_fact`. -/
def OptionsList.CheckHolds (options : OptionsList) (pfx : String) (pd_solver : Bool) :
    Nat → Prop
  | 0 => ∀ v, options.GetNumericValue "theta_max_fact" pfx = some v → v > 0
  | 1 => ∀ v, options.GetNumericValue "theta_min_fact" pfx = some v →
      v > 0 ∧ v < (options.GetNumericValue "theta_max_fact" pfx).getD 1e4
  | 2 => ∀ v, options.GetNumericValue "eta_phi" pfx = some v → v > 0 ∧ v < 0.5
  | 3 => ∀ v, options.GetNumericValue "delta" pfx = some v → v > 0
  | 4 => ∀ v, options.GetNumericValue "s_phi" pfx = some v → v > 1
  | 5 => ∀ v, options.GetNumericValue "s_theta" pfx = some v → v > 1
  | 6 => ∀ v, options.GetNumericValue "gamma_phi" pfx = some v → v > 0 ∧ v < 1
  | 7 => ∀ v, options.GetNumericValue "gamma_theta" pfx = some v → v > 0 ∧ v < 1
  | 8 => ∀ v, options.GetNumericValue "alpha_min_frac" pfx = some v → v > 0
  | 9 => ∀ v, options.GetNumericValue "alpha_red_factor" pfx = some v → v > 0
  | 10 => ∀ v, options.GetIntegerValue "max_soc" pfx = some v → v ≥ 0
  | 11 => (options.GetIntegerValue "max_soc" pfx).getD 4 > 0 → pd_solver = true
  | 12 => ∀ v, options.GetNumericValue "kappa_soc" pfx = some v → v > 0
  | 13 => ∀ v, options.GetNumericValue "obj_max_inc_" pfx = some v → v > 1
  | _ => True

/-- The number of parameters `InitializeImpl` has stored when it comes to its
check number `i`: one per check passed, except that `max_soc_` is stored
between the checks 10 and 11 (lines 142 and 148). -/
def InitializeImpl.storedBefore (i : Nat) : Nat :=
  if i ≤ 11 then i else i - 1

/-- An instance of the `<cmath>` functions whose `pow` underflows: it returns
`0` for bases below `1e-200` (as `pow(1e-300, 2)` does in double precision)
and is exact for natural exponents otherwise. -/
def exampleMathUnderflow : CMath :=
  { pow := fun x y => if x < 1e-200 then 0 else x ^ y.num.toNat
    log10 := fun _ => 0 }

/-- An iterate with `φ = 0`, `θ = 1e-300 > 0` and `∇φᵀΔ = -1`. -/
def exampleCqU : IpoptCalculatedQuantities :=
  { exampleCqF with curr_constraint_violation := 1e-300 }

/-- A line search at its first call: initialised with `s_phi = s_theta = 2`
and the other options at their defaults, the gates `theta_min_` and
`theta_max_` still at `-1` as the constructor left them. -/
def exampleLineSearchP : FilterLineSearch :=
  { exampleLineSearch with
    s_phi_ := 2
    s_theta_ := 2 }

/-- An iterate with `φ = 0`, `θ = 1e-5` and `∇φᵀΔ = -10`. -/
def exampleCqP : IpoptCalculatedQuantities :=
  { curr_barrier_obj := 0
    curr_constraint_violation := 1e-5
    curr_gradBarrTDelta := -10
    trial_constraint_violation := .ok 0
    trial_barrier_obj := .ok 0 }

/-! ## The C interface: `StdInterfaceTNLP`

Embedding of `src/Apps/StdInterface/IpStdInterfaceTNLP.cpp`.  A C array behind
a non-null pointer is a map from the index, a pointer that may be `NULL` is an
`Option` of it.  A failed `DBG_ASSERT` of a debug build ends the call with
`.error` and the text of the assertion; in an optimised build the macro expands
to nothing. -/

/-- An array of `Number` behind a C pointer. -/
abbrev NumberArray := Index → Number

/-- An array of `Index` behind a C pointer. -/
abbrev IndexArray := Index → Index

/-- The loop `for (Index i=0; i<n; i++) { dst[i] = src[i]; }`, from the counter
`i` on. -/
def CopyLoop (n : Index) (src : NumberArray) : Nat → Index → NumberArray → NumberArray
  | 0, _, dst => dst
  | fuel + 1, i, dst =>
    if i < n then CopyLoop n src fuel (i + 1) (Function.update dst i (src i)) else dst

/-- The whole loop `for (Index i=0; i<n; i++) { dst[i] = src[i]; }`: it runs
`n` times when `n` is positive and not at all otherwise. -/
def CopyArray (n : Index) (src dst : NumberArray) : NumberArray :=
  CopyLoop n src n.toNat 0 dst

/-- The pointers `iRow`, `jCol` and `values` of a Jacobian evaluation with the
arrays behind them. -/
structure JacBuffers where
  iRow : Option IndexArray
  jCol : Option IndexArray
  values : Option NumberArray

/-- The callback type `Eval_Jac_G_CB`: called with
`(n, x, new_x, nele_jac, iRow, jCol, values)` (and the user data, which is part
of the function here), it returns a C `Bool`, an `int`, and the buffers as it
left them. -/
abbrev Eval_Jac_G_CB :=
  Index → Option NumberArray → Int → Index → JacBuffers → Int × JacBuffers

/-- The members of `StdInterfaceTNLP` that `get_starting_point`, `apply_new_x`
and `eval_jac_g` use.  `start_x_` is never `NULL` (constructor, line 70);
`debug` tells whether `DBG_ASSERT` is compiled in. -/
structure StdInterfaceTNLP where
  debug : Bool
  n_var_ : Index
  n_con_ : Index
  nele_jac_ : Index
  start_x_ : NumberArray
  start_lam_ : Option NumberArray
  start_z_L_ : Option NumberArray
  start_z_U_ : Option NumberArray
  eval_jac_g_ : Eval_Jac_G_CB
  non_const_x_ : Option NumberArray

/-- The output arrays `x`, `z_L`, `z_U` and `lambda` of `get_starting_point`. -/
structure StartBuffers where
  x : NumberArray
  z_L : NumberArray
  z_U : NumberArray
  lambda : NumberArray

/-- `StdInterfaceTNLP::get_starting_point` (lines 118-166): the buffers after
the call and the returned `retval`. -/
def StdInterfaceTNLP.get_starting_point (t : StdInterfaceTNLP) (n : Index) (init_x : Bool)
    (init_z : Bool) (m : Index) (init_lambda : Bool) (b : StartBuffers) :
    Except String (StartBuffers × Bool) :=
  if t.debug && n != t.n_var_ then .error "n == n_var_"
  else if t.debug && m != t.n_con_ then .error "m == n_con_"
  else
    let retval := true
    let x := if init_x then CopyArray n t.start_x_ b.x else b.x
    let (z_L, retval) :=
      if init_z then
        match t.start_z_L_ with
        | none => (b.z_L, false)
        | some start_z_L => (CopyArray n start_z_L b.z_L, retval)
      else (b.z_L, retval)
    let (z_U, retval) :=
      if init_z then
        match t.start_z_U_ with
        | none => (b.z_U, false)
        | some start_z_U => (CopyArray n start_z_U b.z_U, retval)
      else (b.z_U, retval)
    let (lambda, retval) :=
      if init_lambda then
        match t.start_lam_ with
        | none => (b.lambda, false)
        | some start_lam => (CopyArray m start_lam b.lambda, retval)
      else (b.lambda, retval)
    .ok ({ x := x, z_L := z_L, z_U := z_U, lambda := lambda }, retval)

/-- `StdInterfaceTNLP::apply_new_x` (lines 257-271) for a non-null `x`; the
array that `new Number[n]` returns is taken to hold zeros before the copy. -/
def StdInterfaceTNLP.apply_new_x (t : StdInterfaceTNLP) (new_x : Bool) (n : Index)
    (x : NumberArray) : StdInterfaceTNLP :=
  if new_x then
    { t with non_const_x_ := some (CopyArray n x (t.non_const_x_.getD (fun _ => 0))) }
  else t

/-- What a call of `eval_jac_g` leaves: the object, the buffers, the calls of
the user's callback made on the way (each with the buffers it was given), and
the returned value. -/
structure EvalJacGResult where
  tnlp : StdInterfaceTNLP
  buffers : JacBuffers
  calls : List JacBuffers
  retval : Bool

/-- `StdInterfaceTNLP::eval_jac_g` (lines 205-223). -/
def StdInterfaceTNLP.eval_jac_g (t : StdInterfaceTNLP) (n : Index) (x : NumberArray)
    (new_x : Bool) (nele_jac : Index) (b : JacBuffers) : Except String EvalJacGResult :=
  if t.debug && n != t.n_var_ then .error "n==n_var_"
  else if t.debug && nele_jac != t.nele_jac_ then .error "nele_jac==nele_jac_"
  else
    let retval : Int := 1
    if (b.iRow.isSome && b.jCol.isSome && !b.values.isSome) ||
        (!b.iRow.isSome && !b.jCol.isSome && b.values.isSome) then
      let t1 := t.apply_new_x new_x n x
      let out := t1.eval_jac_g_ n t1.non_const_x_ (if new_x then 1 else 0) nele_jac b
      .ok { tnlp := t1, buffers := out.2, calls := [b], retval := out.1 != 0 }
    else if t.debug then
      .error "false && \"Invalid combination of iRow, jCol, and values pointers\""
    else
      .ok { tnlp := t, buffers := b, calls := [], retval := retval != 0 }

/-- A problem with two variables and one constraint whose Jacobian callback
always reports failure; no multipliers were supplied for the bounds. -/
def exampleTNLP : StdInterfaceTNLP :=
  { debug := false
    n_var_ := 2
    n_con_ := 1
    nele_jac_ := 2
    start_x_ := fun i => if i = 0 then 3 else 4
    start_lam_ := some (fun _ => 5)
    start_z_L_ := none
    start_z_U_ := none
    eval_jac_g_ := fun _ _ _ _ b => (0, b)
    non_const_x_ := none }

/-- Buffers in which `iRow`, `jCol` and `values` are all present. -/
def exampleJacBuffersAll : JacBuffers :=
  { iRow := some (fun _ => 0)
    jCol := some (fun _ => 0)
    values := some (fun _ => 0) }

/-- Buffers in which `iRow`, `jCol` and `values` are all absent. -/
def exampleJacBuffersNone : JacBuffers :=
  { iRow := none
    jCol := none
    values := none }

/-- Output arrays that hold zeros before the call. -/
def exampleStartBuffers : StartBuffers :=
  { x := fun _ => 0
    z_L := fun _ => 0
    z_U := fun _ => 0
    lambda := fun _ => 0 }

/-! ## The calls of the backtracking loop, pass by pass -/

/-- The call forms a regular trial point: one along the uncorrected
direction. -/
def Event.isRegularTrial : Event → Bool
  | Event.SetTrialPrimalVariablesFromStep _ Direction.orig => true
  | _ => false

namespace FilterLineSearch

/-- The calls of the `try` block of lines 234-245 for the step size `alpha`
along `dir`: the trial point is formed; with magic steps switched on
`PerformMagicStep` is called; the acceptance test follows unless the magic
step raised. -/
def TrialEvents (env : Env) (magic_steps : Bool) (alpha alpha_test : Number)
    (dir : Direction) : List Event :=
  Event.SetTrialPrimalVariablesFromStep alpha dir ::
    (if magic_steps then
      Event.PerformMagicStep ::
        (match env.magic alpha with
         | .error _ => []
         | .ok _ => [Event.CheckAcceptabilityOfTrialPoint alpha_test])
     else [Event.CheckAcceptabilityOfTrialPoint alpha_test])

/-- The calls of pass number `c` (counted from 0) of the correction loop of
lines 271-346: the solve for the correction, the trial point formed with the
fraction-to-the-boundary step of the corrected direction, and the acceptance
test at the test step size. -/
def SocPass (env : Env) (alpha_test : Number) (c : Nat) : List Event :=
  [Event.Solve c,
   Event.SetTrialPrimalVariablesFromStep (env.primal_frac_to_the_bound c) (Direction.soc c),
   Event.CheckAcceptabilityOfTrialPoint alpha_test]

/-- The calls of the `n` passes number `c`, ..., `c + n - 1` of the correction
loop. -/
def SocPasses (env : Env) (alpha_test : Number) : Nat → Nat → List Event
  | _, 0 => []
  | c, n + 1 => SocPass env alpha_test c ++ SocPasses env alpha_test (c + 1) n

/-- The constraint violation of the trial point of the correction number `c`
(counted from 0). -/
def SocTheta (env : Env) (c : Nat) : Except Exception Number :=
  (env.trial (Direction.soc c) (env.primal_frac_to_the_bound c)).trial_constraint_violation

/-- The constraint violation `theta_prev` belongs to the trial point that
preceded the correction number `c`, as line 274-279 take it: the current
iterate's for the first correction, the previous correction's afterwards. -/
def SocThetaOld (env : Env) (theta_curr : Number) (c : Nat) (theta_prev : Number) : Prop :=
  match c with
  | 0 => theta_prev = theta_curr
  | c + 1 => SocTheta env c = .ok theta_prev

/-- The correction number `c + 1` was computed after a contraction: the trial
point of the correction number `c` has a constraint violation of at most
`kappa_soc` times the value that correction started from. -/
def SocContracted (env : Env) (kappa_soc theta_curr : Number) (c : Nat) : Prop :=
  ∃ theta_new theta_prev, SocTheta env c = .ok theta_new ∧
    SocThetaOld env theta_curr c theta_prev ∧ theta_new ≤ kappa_soc * theta_prev

/-- The locals of the correction loop agree with the trial points formed so
far. -/
def SocInv (env : Env) (theta_curr : Number) (v : SocLocals) : Prop :=
  match v.count_soc with
  | 0 => True
  | c + 1 => SocTheta env c = .ok v.theta_trial ∧ SocThetaOld env theta_curr c v.theta_soc_old

/-- What holds of a correction attempt of `n` passes made after the regular
trial with step size `alpha`: corrections are only tried at `alpha_primal_max`
after a trial that did not reduce the constraint violation, their number stays
below `max_soc`, and each one after the first follows a contraction. -/
def SocAttemptOk (env : Env) (max_soc : Index) (kappa_soc theta_curr alpha_primal_max : Number)
    (alpha : Number) (n : Nat) : Prop :=
  (1 ≤ n → alpha = alpha_primal_max ∧
    ∃ theta_trial, (env.trial Direction.orig alpha).trial_constraint_violation =
      .ok theta_trial ∧ theta_curr ≤ theta_trial) ∧
  ∀ c, c < n → (c : Index) < max_soc ∧
    (1 ≤ c → SocContracted env kappa_soc theta_curr (c - 1))

/-- The calls of the passes number `j`, `j + 1`, ... of the backtracking loop,
where `passes` lists for each of them the number of passes of the correction
loop: pass `j` tries the step size `alpha_primal_max * alpha_red_factor ^ j`. -/
def LoopEvents (env : Env) (magic_steps : Bool) (alpha_primal_max alpha_red_factor : Number) :
    Nat → List Nat → List Event
  | _, [] => []
  | j, n :: passes =>
    TrialEvents env magic_steps (alpha_primal_max * alpha_red_factor ^ j)
        (alpha_primal_max * alpha_red_factor ^ j) Direction.orig ++
      SocPasses env (alpha_primal_max * alpha_red_factor ^ j) 0 n ++
      LoopEvents env magic_steps alpha_primal_max alpha_red_factor (j + 1) passes

/-- Every pass of `passes`, numbered from `j` on, satisfies `P`. -/
def LoopPassesOk (P : Nat → Nat → Prop) : Nat → List Nat → Prop
  | _, [] => True
  | j, n :: passes => P j n ∧ LoopPassesOk P (j + 1) passes

/-- What holds of pass number `j` of the backtracking loop, followed by a
correction attempt of `n` passes: the pass is made because it is the first one
or because its step size exceeds `alpha_min`, and the correction attempt is as
`SocAttemptOk` says. -/
def LoopPassOk (env : Env) (max_soc : Index)
    (kappa_soc alpha_red_factor theta_curr alpha_min alpha_primal_max : Number)
    (j n : Nat) : Prop :=
  (j = 0 ∨ alpha_min < alpha_primal_max * alpha_red_factor ^ j) ∧
    SocAttemptOk env max_soc kappa_soc theta_curr alpha_primal_max
      (alpha_primal_max * alpha_red_factor ^ j) n

/-- The locals `w` with which the backtracking loop ends after the passes
`passes`, the first of them having the number `j0`: a regular trial was
accepted, or a corrected one, or the step size fell to `alpha_min`. -/
def LoopEnd (env : Env) (alpha_red_factor alpha_min alpha_primal_max : Number) (j0 : Nat)
    (passes : List Nat) (w : Locals) : Prop :=
  (w.accept = true ∧ w.soc_taken = false ∧ w.dir = Direction.orig ∧
    w.n_steps + 1 = j0 + passes.length ∧ passes.getLast? = some 0 ∧
    w.alpha_primal = alpha_primal_max * alpha_red_factor ^ w.n_steps ∧
    w.alpha_primal_test = alpha_primal_max * alpha_red_factor ^ w.n_steps) ∨
  (w.accept = true ∧ w.soc_taken = true ∧
    ∃ k, w.dir = Direction.soc k ∧
      w.n_steps + 1 = j0 + passes.length ∧ passes.getLast? = some (k + 1) ∧
      w.alpha_primal = env.primal_frac_to_the_bound k ∧
      w.alpha_primal_test = alpha_primal_max * alpha_red_factor ^ w.n_steps) ∨
  (w.accept = false ∧ w.soc_taken = false ∧ w.dir = Direction.orig ∧
    w.n_steps = j0 + passes.length ∧
    w.alpha_primal = alpha_primal_max * alpha_red_factor ^ w.n_steps ∧
    ¬ (w.alpha_primal > alpha_min ∨ w.n_steps = 0))

end FilterLineSearch

/-- Collaborators for an iterate at which every regular trial point violates
the constraints by `1e5`, while the trial points of the second-order
corrections are feasible with barrier objective `-1`; the corrected steps are
cut to `1/2` by the fraction-to-the-boundary rule. -/
def exampleEnvC : Env :=
  { exampleEnvF with
    trial := fun dir _ =>
      match dir with
      | Direction.orig =>
        { trial_constraint_violation := .ok 100000, trial_barrier_obj := .ok 0 }
      | Direction.soc _ =>
        { trial_constraint_violation := .ok 0, trial_barrier_obj := .ok (-1) }
    primal_frac_to_the_bound := fun _ => 1 / 2 }

/-- The state of that example after the regular trial at `α_max = 1`. -/
def exampleRunC1 : LSRun :=
  { exampleRunF with
    cq := { exampleCqF with
      trial_constraint_violation := .ok 100000
      trial_barrier_obj := .ok 0 }
    trace := [Event.SetTrialPrimalVariablesFromStep 1 Direction.orig,
      Event.CheckAcceptabilityOfTrialPoint 1] }

/-- The state of that example when the backtracking loop is left, after the
first second-order correction. -/
def exampleRunC2 : LSRun :=
  { exampleRunF with
    cq := { exampleCqF with
      trial_constraint_violation := .ok 0
      trial_barrier_obj := .ok (-1) }
    trace := [Event.SetTrialPrimalVariablesFromStep 1 Direction.orig,
      Event.CheckAcceptabilityOfTrialPoint 1,
      Event.Solve 0,
      Event.SetTrialPrimalVariablesFromStep (1 / 2) (Direction.soc 0),
      Event.CheckAcceptabilityOfTrialPoint 1] }

/-- The locals of that example when the backtracking loop is left. -/
def exampleLocalsC2 : Locals :=
  { alpha_primal := 1 / 2
    alpha_primal_test := 1
    accept := true
    soc_taken := true
    n_steps := 0
    dir := Direction.soc 0 }

/-- The line search of `exampleLineSearchN` with a restoration phase. -/
def exampleLineSearchR : FilterLineSearch :=
  { exampleLineSearchN with resto_phase_ := true }

/-- The state in which `FindAcceptableTrialPoint` is called in the example
with a restoration phase. -/
def exampleRunR : LSRun :=
  { exampleRunF with ls := exampleLineSearchR }

/-- The state when the backtracking loop of that example is left. -/
def exampleRunR1 : LSRun :=
  { exampleRunR with
    cq := { exampleCqF with
      trial_constraint_violation := .ok 100000
      trial_barrier_obj := .ok 0 }
    trace := [Event.SetTrialPrimalVariablesFromStep 1e-7 Direction.orig,
      Event.CheckAcceptabilityOfTrialPoint 1e-7] }

/-- A line search with magic steps switched on, its gates set at an earlier
iterate. -/
def exampleLineSearchM : FilterLineSearch :=
  { exampleLineSearchF with magic_steps_ := true }

/-- Collaborators for an iterate at which the constraints cannot be evaluated
at any trial point, so that `PerformMagicStep` raises `Eval_Error`. -/
def exampleEnvM : Env :=
  { exampleEnvE with magic := fun _ => .error Exception.Eval_Error }

/-- The state in which `FindAcceptableTrialPoint` is called in the example
with magic steps. -/
def exampleRunM : LSRun :=
  { exampleRunF with ls := exampleLineSearchM }

/-- The state in which the evaluation error leaves `FindAcceptableTrialPoint`
in that example. -/
def exampleRunM1 : LSRun :=
  { exampleRunM with
    cq := { exampleCqF with
      trial_constraint_violation := .error Exception.Eval_Error
      trial_barrier_obj := .error Exception.Eval_Error }
    trace := [Event.SetTrialPrimalVariablesFromStep 1 Direction.orig,
      Event.PerformMagicStep] }

/-! ## `PerformMagicStep`

Embedding of `FilterLineSearch::PerformMagicStep` (lines 623-713).  The classes
`Vector` and `ExpansionMatrix` are not under src/; their methods are modelled
here on vectors given by their components. -/

/-- A vector with `n` components. -/
abbrev Vec (n : Nat) := Fin n → Number

namespace Vec

/-- Modelled from the spec: `Vector::MakeNew` (class `Vector` is not under
src/) returns a vector of the wanted space; its storage is not initialised, and
every use below overwrites it or multiplies it by `0`. -/
def MakeNew {m : Nat} (n : Nat) (_ : Vec m) : Vec n := fun _ => 0

/-- Modelled from the spec: `Vector::Set(alpha)` sets every component to
`alpha`. -/
def Set {n : Nat} (_ : Vec n) (alpha : Number) : Vec n := fun _ => alpha

/-- Modelled from the spec: `Vector::Copy(x)` makes the vector equal to `x`. -/
def Copy {n : Nat} (_ : Vec n) (x : Vec n) : Vec n := x

/-- Modelled from the spec: `Vector::ElementWiseMax(x)` replaces each component
by the larger of it and the component of `x` (§4.4.3: `max(0, ·)`). -/
def ElementWiseMax {n : Nat} (v x : Vec n) : Vec n := fun i => max (v i) (x i)

/-- Modelled from the spec: `Vector::ElementWiseMin(x)` replaces each component
by the smaller of it and the component of `x` (§4.4.3: `min(0, ·)`). -/
def ElementWiseMin {n : Nat} (v x : Vec n) : Vec n := fun i => min (v i) (x i)

/-- Modelled from the spec: `Vector::ElementWiseAbs()` replaces each component
by its absolute value. -/
def ElementWiseAbs {n : Nat} (v : Vec n) : Vec n := fun i => |v i|

/-- Modelled from the spec: `Vector::ElementWiseSgn()` replaces each component
by its sign: `1`, `-1` or `0`. -/
def ElementWiseSgn {n : Nat} (v : Vec n) : Vec n :=
  fun i => if v i > 0 then 1 else if v i < 0 then -1 else 0

/-- Modelled from the spec: `Vector::ElementWiseMultiply(x)` multiplies each
component by the component of `x`. -/
def ElementWiseMultiply {n : Nat} (v x : Vec n) : Vec n := fun i => v i * x i

/-- Modelled from the spec: `Vector::Axpy(alpha, x)` adds `alpha * x`. -/
def Axpy {n : Nat} (v : Vec n) (alpha : Number) (x : Vec n) : Vec n :=
  fun i => v i + alpha * x i

/-- Modelled from the spec: `Vector::Amax()` is the max-norm `‖·‖_∞`, the
largest absolute value of a component (`0` for a vector without
components). -/
def Amax {n : Nat} (v : Vec n) : Number :=
  (List.finRange n).foldr (fun i acc => max |v i| acc) 0

end Vec

/-- Modelled from the spec: an `ExpansionMatrix` (class not under src/) with
`nrows` rows and `ncols` columns, the injection `P` of §4.4.3: column `j` has
its single `1` in the row `exp_pos j`. -/
structure ExpansionMatrix (nrows ncols : Nat) where
  exp_pos : Fin ncols → Fin nrows

/-- Modelled from the spec: `Matrix::MultVector(alpha, x, beta, y)` for an
expansion matrix, `y ← alpha·P·x + beta·y`: every component `x_j` is added,
times `alpha`, to the component `exp_pos j` of `beta·y`. -/
def ExpansionMatrix.MultVector {nrows ncols : Nat} (P : ExpansionMatrix nrows ncols)
    (alpha : Number) (x : Vec ncols) (beta : Number) (y : Vec nrows) : Vec nrows :=
  fun i => beta * y i + alpha * ∑ j : Fin ncols, if P.exp_pos j = i then x j else 0

/-- Modelled from the spec: `Matrix::TransMultVector(alpha, x, beta, y)` for an
expansion matrix, `y ← alpha·Pᵀ·x + beta·y`. -/
def ExpansionMatrix.TransMultVector {nrows ncols : Nat} (P : ExpansionMatrix nrows ncols)
    (alpha : Number) (x : Vec nrows) (beta : Number) (y : Vec ncols) : Vec ncols :=
  fun j => beta * y j + alpha * x (P.exp_pos j)

/-- What `PerformMagicStep` reads and writes: the trial slacks `trial_s`, the
value `d(x_trial) - s_trial` that `IpCq().trial_d_minus_s()` returns, the
bounds `d_L`, `d_U` with their expansion matrices, the machine epsilon
`std::numeric_limits<Number>::epsilon()`, and the info string of `IpData()`. -/
structure MagicData (n nL nU : Nat) where
  trial_s : Vec n
  trial_d_minus_s : Vec n
  d_L : Vec nL
  Pd_L : ExpansionMatrix n nL
  d_U : Vec nU
  Pd_U : ExpansionMatrix n nU
  mach_eps : Number
  info_string : String

namespace FilterLineSearch

/-- Lines 636-691 of `PerformMagicStep`: the vector `delta_s_magic` before the
test of line 694. -/
def delta_s_magic {n nL nU : Nat} (m : MagicData n nL nU) : Vec n :=
  let d_L := m.d_L
  let Pd_L := m.Pd_L
  let delta_s_magic_L := (Vec.MakeNew nL d_L).Set 0
  let tmp := Pd_L.TransMultVector 1 m.trial_d_minus_s 0 (Vec.MakeNew nL d_L)
  let delta_s_magic_L := delta_s_magic_L.ElementWiseMax tmp
  let d_U := m.d_U
  let Pd_U := m.Pd_U
  let delta_s_magic_U := (Vec.MakeNew nU d_U).Set 0
  let tmp := Pd_U.TransMultVector 1 m.trial_d_minus_s 0 (Vec.MakeNew nU d_U)
  let delta_s_magic_U := delta_s_magic_U.ElementWiseMin tmp
  let delta_s_magic := Pd_L.MultVector 1 delta_s_magic_L 0 (Vec.MakeNew n m.trial_s)
  let delta_s_magic := Pd_U.MultVector 1 delta_s_magic_U 1 delta_s_magic
  let tmp := (Vec.MakeNew n delta_s_magic).Copy m.trial_s
  let tmp := Pd_L.MultVector 1 d_L (-2) tmp
  let tmp := Pd_U.MultVector 1 d_U 1 tmp
  let tmp2 := (Vec.MakeNew n tmp).Copy tmp
  let tmp2 := tmp2.ElementWiseAbs
  let tmp := tmp.Axpy (-2) delta_s_magic
  let tmp := tmp.ElementWiseAbs
  let tmp := tmp.Axpy (-1) tmp2
  let tmp := tmp.ElementWiseSgn
  let tmp2 := tmp2.Set 0
  let tmp2 := tmp2.ElementWiseMax tmp
  let tmp := Pd_L.TransMultVector 1 tmp2 0 (Vec.MakeNew nL d_L)
  let tmp2 := Pd_L.MultVector 1 tmp 0 tmp2
  let tmp := Pd_U.TransMultVector 1 tmp2 0 (Vec.MakeNew nU d_U)
  let tmp2 := Pd_U.MultVector 1 tmp 0 tmp2
  let tmp := (Vec.MakeNew n delta_s_magic).Copy delta_s_magic
  let tmp := tmp.ElementWiseMultiply tmp2
  delta_s_magic.Axpy (-1) tmp

/-- `FilterLineSearch::PerformMagicStep` (lines 623-713).  After
`SetTrialSVariables` the value of `d(x_trial) - s_trial` is the old one minus
the change of the slacks. -/
def PerformMagicStep {n nL nU : Nat} (m : MagicData n nL nU) : MagicData n nL nU :=
  let delta_s_magic := delta_s_magic m
  let delta_s_magic_max := delta_s_magic.Amax
  let mach_eps := m.mach_eps
  if delta_s_magic_max > 0 then
    let info_string :=
      if delta_s_magic_max > 10 * mach_eps * m.trial_s.Amax then m.info_string ++ "M"
      else m.info_string
    let new_s := delta_s_magic.Axpy 1 m.trial_s
    { m with
      info_string := info_string
      trial_s := new_s
      trial_d_minus_s := fun i => m.trial_d_minus_s i - (new_s i - m.trial_s i) }
  else m

end FilterLineSearch

/-- One inequality with the lower bound `0`, the slack `1` and
`d(x_trial) - s_trial = 1e-15`, for the machine epsilon `2^-52` of IEEE
doubles. -/
def exampleMagic : MagicData 1 1 0 :=
  { trial_s := fun _ => 1
    trial_d_minus_s := fun _ => 1e-15
    d_L := fun _ => 0
    Pd_L := ⟨fun _ => 0⟩
    d_U := fun _ => 0
    Pd_U := ⟨fun j => j.elim0⟩
    mach_eps := 1 / 2 ^ 52
    info_string := "" }

/-- Modelled from the spec: `Vector::Scal(alpha)` (class `Vector` is not under
src/) multiplies every component by `alpha`. -/
def Vec.Scal {n : Nat} (v : Vec n) (alpha : Number) : Vec n := fun i => alpha * v i

/-- Modelled from the spec: a block of a `CompoundMatrix` with `nrows` rows and
`ncols` columns.  The classes of the blocks are not under src/; a block is
given by the products `A·x` and `Aᵀ·x` that its `MultVectorImpl` and
`TransMultVectorImpl` compute. -/
structure BlockMatrix (nrows ncols : Nat) where
  mult : Vec ncols → Vec nrows
  transMult : Vec nrows → Vec ncols

/-- `Matrix::MultVector` (`IpMatrix.cpp`, lines 25-29) for a block:
`y ← alpha·A·x + beta·y`. -/
def BlockMatrix.MultVector {nrows ncols : Nat} (A : BlockMatrix nrows ncols) (alpha : Number)
    (x : Vec ncols) (beta : Number) (y : Vec nrows) : Vec nrows :=
  fun k => beta * y k + alpha * A.mult x k

/-- `Matrix::TransMultVector` (`IpMatrix.cpp`, lines 31-35) for a block:
`y ← alpha·Aᵀ·x + beta·y`. -/
def BlockMatrix.TransMultVector {nrows ncols : Nat} (A : BlockMatrix nrows ncols)
    (alpha : Number) (x : Vec nrows) (beta : Number) (y : Vec ncols) : Vec ncols :=
  fun k => beta * y k + alpha * A.transMult x k

/-- A `CompoundMatrix` with `nr` block rows and `nc` block columns of the sizes
`block_rows` and `block_cols`: `ConstComp i j` is `none` for a block that is
not set. -/
structure CompoundMatrix (nr nc : Nat) (block_rows : Fin nr → Nat)
    (block_cols : Fin nc → Nat) where
  ConstComp : (i : Fin nr) → (j : Fin nc) → Option (BlockMatrix (block_rows i) (block_cols j))

/-- A `CompoundVector` whose component `i` has `dims i` entries. -/
abbrev CompoundVector (n : Nat) (dims : Fin n → Nat) := (i : Fin n) → Vec (dims i)

/-- `CompoundVector::ScalImpl` (`IpCompoundVector.cpp`, lines 87-95). -/
def CompoundVector.Scal {n : Nat} {dims : Fin n → Nat} (y : CompoundVector n dims)
    (alpha : Number) : CompoundVector n dims :=
  fun i => (y i).Scal alpha

/-- `CompoundVector::SetImpl` (`IpCompoundVector.cpp`, lines 159-166). -/
def CompoundVector.Set {n : Nat} {dims : Fin n → Nat} (y : CompoundVector n dims)
    (value : Number) : CompoundVector n dims :=
  fun i => (y i).Set value

/-- `CompoundMatrix::MultVectorImpl` (lines 64-125) for compound `x` and `y`:
the vector `y` after the call. -/
def CompoundMatrix.MultVectorImpl {nr nc : Nat} {block_rows : Fin nr → Nat}
    {block_cols : Fin nc → Nat} (A : CompoundMatrix nr nc block_rows block_cols)
    (alpha : Number) (x : CompoundVector nc block_cols) (beta : Number)
    (y : CompoundVector nr block_rows) : CompoundVector nr block_rows :=
  let y := if beta ≠ 0 then y.Scal beta else y.Set 0
  (List.finRange nr).foldl (fun y irow =>
    let y_i := (List.finRange nc).foldl (fun y_i jcol =>
      (A.ConstComp irow jcol).elim y_i (fun comp => comp.MultVector alpha (x jcol) 1 y_i))
      (y irow)
    Function.update y irow y_i) y

/-- `CompoundMatrix::TransMultVectorImpl` (lines 127-187) for compound `x` and
`y`: the vector `y` after the call. -/
def CompoundMatrix.TransMultVectorImpl {nr nc : Nat} {block_rows : Fin nr → Nat}
    {block_cols : Fin nc → Nat} (A : CompoundMatrix nr nc block_rows block_cols)
    (alpha : Number) (x : CompoundVector nr block_rows) (beta : Number)
    (y : CompoundVector nc block_cols) : CompoundVector nc block_cols :=
  let y := if beta ≠ 0 then y.Scal beta else y.Set 0
  (List.finRange nc).foldl (fun y irow =>
    let y_i := (List.finRange nr).foldl (fun y_i jcol =>
      (A.ConstComp jcol irow).elim y_i (fun comp => comp.TransMultVector alpha (x jcol) 1 y_i))
      (y irow)
    Function.update y irow y_i) y

/-! ## `TripletHelper`: vectors

Embedding of `TripletHelper::FillValuesFromVector` and `PutValuesInVector`
(`src/PDSystemImpl/PDFullSpace/IpTripletHelper.cpp`, lines 561-609).  A C array
is the map from the index to the entry, a pointer into it is the array together
with an offset.  The `DBG_ASSERT`s of the two functions (`dim ==
vector.Dim()`, `total_dim == dim`) are debug-only and left out. -/

/-- The vectors that `TripletHelper` handles: a `DenseVector` with its
dimension and its array of values, or a `CompoundVector` with the dimension of
its space, the number of its components and the components.  A vector of
another kind makes both functions throw `UNKNOWN_VECTOR_TYPE`; such vectors
are not part of the model. -/
inductive Vector where
  | dense (dim : Nat) (values : Nat → Number)
  | compound (dim : Nat) (ncomps : Nat) (comp : Fin ncomps → Vector)

/-- The method `Vector::Dim()`. -/
def Vector.Dim : Vector → Nat
  | .dense dim _ => dim
  | .compound dim _ _ => dim

/-- The dimension of every compound vector is the sum of the dimensions of its
components, as the constructor of `CompoundVector` asserts
(`IpCompoundVector.cpp`, line 43). -/
def Vector.WellFormed : Vector → Prop
  | .dense _ _ => True
  | .compound dim ncomps comp =>
    dim = ((List.finRange ncomps).map (fun i => (comp i).Dim)).sum ∧
      ∀ i, (comp i).WellFormed

/-- Modelled from the spec: `IpBlasDcopy(size, x, 1, y, 1)` (`IpBlas` is not
under src/) copies `size` entries from `x` to `y`; here `x` is the array `x`
from the offset `xoff` on and `y` the array `y` from the offset `yoff` on. -/
def IpBlasDcopy (size : Nat) (x : Nat → Number) (xoff : Nat) (y : Nat → Number) (yoff : Nat) :
    Nat → Number :=
  fun k => if yoff ≤ k ∧ k < yoff + size then x (xoff + (k - yoff)) else y k

namespace TripletHelper

/-- `TripletHelper::FillValuesFromVector(dim, vector, values)` (lines 561-584),
where the pointer `values` is the array `values` at the offset `off`: the
array after the call. -/
def FillValuesFromVector (dim : Nat) : Vector → (Nat → Number) → Nat → (Nat → Number)
  | .dense _ dv_vals, values, off => IpBlasDcopy dim dv_vals 0 values off
  | .compound _ ncomps comp, values, off =>
    ((List.finRange ncomps).foldl (fun (st : (Nat → Number) × Nat) i =>
      let comp_dim := (comp i).Dim
      (FillValuesFromVector comp_dim (comp i) st.1 st.2, st.2 + comp_dim)) (values, off)).1

/-- `TripletHelper::PutValuesInVector(dim, values, vector)` (lines 586-609),
where the pointer `values` is the array `values` at the offset `off`: the
vector after the call. -/
def PutValuesInVector (dim : Nat) (values : Nat → Number) (off : Nat) : Vector → Vector
  | .dense d dv_vals => .dense d (IpBlasDcopy dim values off dv_vals 0)
  | .compound d ncomps comp =>
    .compound d ncomps
      ((List.finRange ncomps).foldl (fun (st : (Fin ncomps → Vector) × Nat) i =>
        let comp_dim := (comp i).Dim
        (Function.update st.1 i (PutValuesInVector comp_dim values st.2 (comp i)),
          st.2 + comp_dim)) (comp, off)).1

end TripletHelper

/-- A compound vector of dimension 3 whose components are a dense vector of
dimension 1 and a compound vector with one dense component of dimension 2. -/
def exampleVector : Vector :=
  .compound 3 2 (fun i =>
    if i = 0 then .dense 1 (fun _ => 0)
    else .compound 2 1 (fun _ => .dense 2 (fun _ => 0)))

/-! ## `TripletHelper`: matrices

Embedding of `TripletHelper::GetNumberEntries`, `FillRowCol` and `FillValues`
(`src/PDSystemImpl/PDFullSpace/IpTripletHelper.cpp`, lines 30-554).  The
arrays `iRow`, `jCol` and `values` are maps from the index to the entry; the
pointers `iRow` and `jCol` are moved together, so one offset stands for both.
The `DBG_ASSERT`s on `n_entries` are debug-only and left out, and so is the
counter `total_n_entries` that only they read. -/

/-- The matrices that `TripletHelper` handles, each with the data that
`TripletHelper` reads from it: `GenTMatrix` and `SymTMatrix` (`Nonzeros()`,
`Irows()`, `Jcols()`, `Values()`), `DiagMatrix` (`Dim()`, `GetDiag()`),
`IdentityMatrix` (`Dim()`, `GetFactor()`), `ExpansionMatrix` (`NCols()`,
`ExpandedPosIndices()`), `SumMatrix` and `SumSymMatrix` (`NTerms()` and the
factor and the matrix of each term, as `GetTerm` returns them), `ZeroMatrix`,
`CompoundMatrix` (`NComps_Rows()`, `NComps_Cols()`, `GetBlockRows` and
`GetBlockCols` of the owner space, and for each block whether `GetComp(i, j)`
is valid, and the block) and `CompoundSymMatrix` (`NComps_Dim()`,
`GetBlockDim` of the owner space, and the blocks).  A matrix of another kind
makes every function of `TripletHelper` throw `UNKNOWN_MATRIX_TYPE`; such
matrices are not part of the model. -/
inductive Matrix where
  | genT (Nonzeros : Nat) (Irows Jcols : Nat → Index) (Values : Nat → Number)
  | symT (Nonzeros : Nat) (Irows Jcols : Nat → Index) (Values : Nat → Number)
  | diag (Dim : Nat) (GetDiag : Vector)
  | identity (Dim : Nat) (GetFactor : Number)
  | expansion (NCols : Nat) (ExpandedPosIndices : Nat → Index)
  | sum (NTerms : Nat) (factor : Fin NTerms → Number) (term : Fin NTerms → Matrix)
  | sumSym (NTerms : Nat) (factor : Fin NTerms → Number) (term : Fin NTerms → Matrix)
  | zero
  | compound (NComps_Rows NComps_Cols : Nat) (GetBlockRows : Fin NComps_Rows → Index)
      (GetBlockCols : Fin NComps_Cols → Index)
      (IsValid : Fin NComps_Rows → Fin NComps_Cols → Bool)
      (GetComp : Fin NComps_Rows → Fin NComps_Cols → Matrix)
  | compoundSym (NComps_Dim : Nat) (GetBlockDim : Fin NComps_Dim → Index)
      (IsValid : Fin NComps_Dim → Fin NComps_Dim → Bool)
      (GetComp : Fin NComps_Dim → Fin NComps_Dim → Matrix)

/-- The loop `for (Index i=0; i<n; i++) { a[i] = f(i); }` through the pointer
`a` at the offset `off`. -/
def AssignLoop {α : Type} (n : Nat) (f : Nat → α) (a : Nat → α) (off : Nat) : Nat → α :=
  (List.range n).foldl (fun a i => Function.update a (off + i) (f i)) a

/-- Modelled from the spec: `IpBlasDscal(size, alpha, x, 1)` (`IpBlas` is not
under src/) multiplies `size` entries of `x` by `alpha`; here `x` is the array
`x` from the offset `off` on. -/
def IpBlasDscal (size : Nat) (alpha : Number) (x : Nat → Number) (off : Nat) : Nat → Number :=
  fun k => if off ≤ k ∧ k < off + size then alpha * x k else x k

/-- Modelled from the spec: `SymTMatrix::FillValues(values)` (`SymTMatrix` is
not under src/) copies the `Nonzeros()` values of the matrix to `values`. -/
def SymTMatrix_FillValues (Nonzeros : Nat) (Values : Nat → Number) (values : Nat → Number)
    (off : Nat) : Nat → Number :=
  IpBlasDcopy Nonzeros Values 0 values off

namespace TripletHelper

/-- `TripletHelper::GetNumberEntries(matrix)` (lines 30-85) with the four
`GetNumberEntries_` (lines 220-275). -/
def GetNumberEntries : Matrix → Nat
  | .genT Nonzeros _ _ _ => Nonzeros
  | .symT Nonzeros _ _ _ => Nonzeros
  | .diag Dim _ => Dim
  | .identity Dim _ => Dim
  | .expansion NCols _ => NCols
  | .sum nterms _ term =>
    (List.finRange nterms).foldl (fun n_entries i => n_entries + GetNumberEntries (term i)) 0
  | .sumSym nterms _ term =>
    (List.finRange nterms).foldl (fun n_entries i => n_entries + GetNumberEntries (term i)) 0
  | .zero => 0
  | .compound nrows ncols _ _ IsValid GetComp =>
    (List.finRange nrows).foldl (fun n_entries i =>
      (List.finRange ncols).foldl (fun n_entries j =>
        if IsValid i j then n_entries + GetNumberEntries (GetComp i j) else n_entries)
        n_entries) 0
  | .compoundSym dim _ IsValid GetComp =>
    (List.finRange dim).foldl (fun n_entries i =>
      ((List.finRange dim).filter (fun j => j ≤ i)).foldl (fun n_entries j =>
        if IsValid i j then n_entries + GetNumberEntries (GetComp i j) else n_entries)
        n_entries) 0

/-- `TripletHelper::FillRowCol(n_entries, matrix, iRow, jCol, row_offset,
col_offset)` (lines 87-151) with the `FillRowCol_` of each kind (lines
277-530), where both pointers are at the offset `off` of their arrays: the
arrays `iRow` and `jCol` after the call. -/
def FillRowCol (n_entries : Nat) :
    Matrix → (Nat → Index) → (Nat → Index) → Nat → Index → Index →
      (Nat → Index) × (Nat → Index)
  | .genT _ irow jcol _, iRow, jCol, off, row_offset, col_offset =>
    (AssignLoop n_entries (fun i => irow i + row_offset) iRow off,
      AssignLoop n_entries (fun i => jcol i + col_offset) jCol off)
  | .symT _ irow jcol _, iRow, jCol, off, row_offset, col_offset =>
    (AssignLoop n_entries (fun i => irow i + row_offset) iRow off,
      AssignLoop n_entries (fun i => jcol i + col_offset) jCol off)
  | .diag _ _, iRow, jCol, off, row_offset, col_offset =>
    (AssignLoop n_entries (fun i => (i : Index) + row_offset + 1) iRow off,
      AssignLoop n_entries (fun i => (i : Index) + col_offset + 1) jCol off)
  | .identity _ _, iRow, jCol, off, row_offset, col_offset =>
    (AssignLoop n_entries (fun i => (i : Index) + row_offset + 1) iRow off,
      AssignLoop n_entries (fun i => (i : Index) + col_offset + 1) jCol off)
  | .expansion _ exp_pos, iRow, jCol, off, row_offset, col_offset =>
    (AssignLoop n_entries (fun i => exp_pos i + row_offset + 1) iRow off,
      AssignLoop n_entries (fun i => (i : Index) + col_offset + 1) jCol off)
  | .sum nterms _ term, iRow, jCol, off, row_offset, col_offset =>
    let st := (List.finRange nterms).foldl
      (fun (st : (Nat → Index) × (Nat → Index) × Nat) i =>
        let term_n_entries := GetNumberEntries (term i)
        let rc := FillRowCol term_n_entries (term i) st.1 st.2.1 st.2.2 row_offset col_offset
        (rc.1, rc.2, st.2.2 + term_n_entries)) (iRow, jCol, off)
    (st.1, st.2.1)
  | .sumSym nterms _ term, iRow, jCol, off, row_offset, col_offset =>
    let st := (List.finRange nterms).foldl
      (fun (st : (Nat → Index) × (Nat → Index) × Nat) i =>
        let term_n_entries := GetNumberEntries (term i)
        let rc := FillRowCol term_n_entries (term i) st.1 st.2.1 st.2.2 row_offset col_offset
        (rc.1, rc.2, st.2.2 + term_n_entries)) (iRow, jCol, off)
    (st.1, st.2.1)
  | .zero, iRow, jCol, _, _, _ => (iRow, jCol)
  | .compound nrows ncols GetBlockRows GetBlockCols IsValid GetComp,
      iRow, jCol, off, row_offset, col_offset =>
    let st := (List.finRange nrows).foldl
      (fun (st : ((Nat → Index) × (Nat → Index) × Nat) × Index) i =>
        let c_row_offset := st.2
        let st_i := (List.finRange ncols).foldl
          (fun (st : ((Nat → Index) × (Nat → Index) × Nat) × Index) j =>
            let c_col_offset := st.2
            (if IsValid i j then
              let blk_n_entries := GetNumberEntries (GetComp i j)
              let rc := FillRowCol blk_n_entries (GetComp i j) st.1.1 st.1.2.1 st.1.2.2
                c_row_offset c_col_offset
              (rc.1, rc.2, st.1.2.2 + blk_n_entries)
            else st.1, c_col_offset + GetBlockCols j)) (st.1, col_offset)
        (st_i.1, c_row_offset + GetBlockRows i)) ((iRow, jCol, off), row_offset)
    (st.1.1, st.1.2.1)
  | .compoundSym dim GetBlockDim IsValid GetComp, iRow, jCol, off, row_offset, col_offset =>
    let st := (List.finRange dim).foldl
      (fun (st : ((Nat → Index) × (Nat → Index) × Nat) × Index) i =>
        let c_row_offset := st.2
        let st_i := ((List.finRange dim).filter (fun j => j ≤ i)).foldl
          (fun (st : ((Nat → Index) × (Nat → Index) × Nat) × Index) j =>
            let c_col_offset := st.2
            (if IsValid i j then
              let blk_n_entries := GetNumberEntries (GetComp i j)
              let rc := FillRowCol blk_n_entries (GetComp i j) st.1.1 st.1.2.1 st.1.2.2
                c_row_offset c_col_offset
              (rc.1, rc.2, st.1.2.2 + blk_n_entries)
            else st.1, c_col_offset + GetBlockDim j)) (st.1, col_offset)
        (st_i.1, c_row_offset + GetBlockDim i)) ((iRow, jCol, off), row_offset)
    (st.1.1, st.1.2.1)

/-- `TripletHelper::FillValues(n_entries, matrix, values)` (lines 153-218)
with the `FillValues_` of each kind (lines 288-554), where the pointer
`values` is at the offset `off` of its array: the array after the call. -/
def FillValues (n_entries : Nat) : Matrix → (Nat → Number) → Nat → (Nat → Number)
  | .genT _ _ _ vals, values, off => AssignLoop n_entries vals values off
  | .symT Nonzeros _ _ vals, values, off => SymTMatrix_FillValues Nonzeros vals values off
  | .diag _ v, values, off => FillValuesFromVector n_entries v values off
  | .identity _ factor, values, off => AssignLoop n_entries (fun _ => factor) values off
  | .expansion _ _, values, off => AssignLoop n_entries (fun _ => 1) values off
  | .sum nterms factor term, values, off =>
    ((List.finRange nterms).foldl (fun (st : (Nat → Number) × Nat) i =>
      let retFactor := factor i
      let term_n_entries := GetNumberEntries (term i)
      let values := FillValues term_n_entries (term i) st.1 st.2
      (IpBlasDscal term_n_entries retFactor values st.2, st.2 + term_n_entries))
      (values, off)).1
  | .sumSym nterms factor term, values, off =>
    ((List.finRange nterms).foldl (fun (st : (Nat → Number) × Nat) i =>
      let retFactor := factor i
      let term_n_entries := GetNumberEntries (term i)
      let values := FillValues term_n_entries (term i) st.1 st.2
      (IpBlasDscal term_n_entries retFactor values st.2, st.2 + term_n_entries))
      (values, off)).1
  | .zero, values, _ => values
  | .compound nrows ncols _ _ IsValid GetComp, values, off =>
    ((List.finRange nrows).foldl (fun (st : (Nat → Number) × Nat) i =>
      (List.finRange ncols).foldl (fun (st : (Nat → Number) × Nat) j =>
        if IsValid i j then
          let blk_n_entries := GetNumberEntries (GetComp i j)
          (FillValues blk_n_entries (GetComp i j) st.1 st.2, st.2 + blk_n_entries)
        else st) st) (values, off)).1
  | .compoundSym dim _ IsValid GetComp, values, off =>
    ((List.finRange dim).foldl (fun (st : (Nat → Number) × Nat) i =>
      ((List.finRange dim).filter (fun j => j ≤ i)).foldl
        (fun (st : (Nat → Number) × Nat) j =>
          if IsValid i j then
            let blk_n_entries := GetNumberEntries (GetComp i j)
            (FillValues blk_n_entries (GetComp i j) st.1 st.2, st.2 + blk_n_entries)
          else st) st) (values, off)).1

end TripletHelper

/-! ### What the triplets stand for -/

/-- The entries of a vector in their order: a dense vector has its `dim`
values, a compound vector the entries of its components one after the other. -/
def Vector.toList : Vector → List Number
  | .dense dim values => (List.range dim).map values
  | .compound _ ncomps comp => (List.finRange ncomps).flatMap (fun i => (comp i).toList)

/-- The total size of the blocks before block `i`. -/
def BlockOffset {n : Nat} (size : Fin n → Index) (i : Fin n) : Index :=
  (((List.finRange n).filter (fun j => j < i)).map size).sum

/-- The list `l` written to the array `a` from the index `off` on. -/
def writeEntries {α : Type} (l : List α) (a : Nat → α) (off : Nat) : Nat → α :=
  fun k => if off ≤ k then (l[k - off]?).getD (a k) else a k

/-- The triplets (row, column, value) of a matrix in the order of its entries,
rows and columns shifted by `row_offset` and `col_offset`: a triplet matrix
has its own entries, a diagonal matrix, an identity and an expansion matrix one
entry for each diagonal element or column, with rows and columns counted from
1, a sum the triplets of its terms, term after term, each value times the
factor of the term, a compound matrix the triplets of its valid blocks, row of
blocks after row of blocks, each block shifted by the total rows and columns of
the blocks before it (a symmetric compound matrix those of the blocks
`j ≤ i`). -/
def Matrix.triplets : Matrix → Index → Index → List (Index × Index × Number)
  | .genT Nonzeros irow jcol vals, row_offset, col_offset =>
    (List.range Nonzeros).map (fun (k : Nat) => (irow k + row_offset, jcol k + col_offset, vals k))
  | .symT Nonzeros irow jcol vals, row_offset, col_offset =>
    (List.range Nonzeros).map (fun (k : Nat) => (irow k + row_offset, jcol k + col_offset, vals k))
  | .diag Dim v, row_offset, col_offset =>
    (List.range Dim).map (fun (k : Nat) =>
      ((k : Index) + row_offset + 1, (k : Index) + col_offset + 1, v.toList.getD k 0))
  | .identity Dim factor, row_offset, col_offset =>
    (List.range Dim).map (fun (k : Nat) =>
      ((k : Index) + row_offset + 1, (k : Index) + col_offset + 1, factor))
  | .expansion NCols exp_pos, row_offset, col_offset =>
    (List.range NCols).map (fun (k : Nat) =>
      (exp_pos k + row_offset + 1, (k : Index) + col_offset + 1, 1))
  | .sum nterms factor term, row_offset, col_offset =>
    (List.finRange nterms).flatMap (fun i =>
      ((term i).triplets row_offset col_offset).map (fun t => (t.1, t.2.1, factor i * t.2.2)))
  | .sumSym nterms factor term, row_offset, col_offset =>
    (List.finRange nterms).flatMap (fun i =>
      ((term i).triplets row_offset col_offset).map (fun t => (t.1, t.2.1, factor i * t.2.2)))
  | .zero, _, _ => []
  | .compound nrows ncols GetBlockRows GetBlockCols IsValid GetComp, row_offset, col_offset =>
    (List.finRange nrows).flatMap (fun i =>
      (List.finRange ncols).flatMap (fun j =>
        if IsValid i j then
          (GetComp i j).triplets (row_offset + BlockOffset GetBlockRows i)
            (col_offset + BlockOffset GetBlockCols j)
        else []))
  | .compoundSym dim GetBlockDim IsValid GetComp, row_offset, col_offset =>
    (List.finRange dim).flatMap (fun i =>
      ((List.finRange dim).filter (fun j => j ≤ i)).flatMap (fun j =>
        if IsValid i j then
          (GetComp i j).triplets (row_offset + BlockOffset GetBlockDim i)
            (col_offset + BlockOffset GetBlockDim j)
        else []))

/-- Modelled from the spec: the element at row `r` and column `c` (counted
from 1) of a matrix of each kind (of the matrix classes only `CompoundMatrix`
is under src/).  A triplet matrix has the sum of its entries at `(r, c)`, a
diagonal matrix its diagonal, an identity its factor on the diagonal, an
expansion matrix a 1 in column `c` at row `exp_pos[c - 1] + 1`, a sum the sum
of its terms times their factors, a compound matrix its valid blocks, each
shifted by the total rows and columns of the blocks before it.  The symmetric
kinds store one triangle: a symmetric triplet matrix has the entries at
`(r, c)` and at `(c, r)`, a symmetric compound matrix the blocks `j ≤ i` and,
for `j < i`, their transposes. -/
def Matrix.element : Matrix → Index → Index → Number
  | .genT Nonzeros irow jcol vals, r, c =>
    ((List.range Nonzeros).map (fun (k : Nat) =>
      if irow k = r ∧ jcol k = c then vals k else 0)).sum
  | .symT Nonzeros irow jcol vals, r, c =>
    ((List.range Nonzeros).map (fun (k : Nat) =>
      if (irow k = r ∧ jcol k = c) ∨ (irow k = c ∧ jcol k = r) then vals k else 0)).sum
  | .diag Dim v, r, c =>
    if r = c ∧ 1 ≤ r ∧ r ≤ Dim then v.toList.getD (r - 1).toNat 0 else 0
  | .identity Dim factor, r, c => if r = c ∧ 1 ≤ r ∧ r ≤ Dim then factor else 0
  | .expansion NCols exp_pos, r, c =>
    if 1 ≤ c ∧ c ≤ NCols ∧ r = exp_pos (c - 1).toNat + 1 then 1 else 0
  | .sum nterms factor term, r, c =>
    ((List.finRange nterms).map (fun i => factor i * (term i).element r c)).sum
  | .sumSym nterms factor term, r, c =>
    ((List.finRange nterms).map (fun i => factor i * (term i).element r c)).sum
  | .zero, _, _ => 0
  | .compound nrows ncols GetBlockRows GetBlockCols IsValid GetComp, r, c =>
    ((List.finRange nrows).map (fun i =>
      ((List.finRange ncols).map (fun j =>
        if IsValid i j then
          (GetComp i j).element (r - BlockOffset GetBlockRows i) (c - BlockOffset GetBlockCols j)
        else 0)).sum)).sum
  | .compoundSym dim GetBlockDim IsValid GetComp, r, c =>
    ((List.finRange dim).map (fun i =>
      (((List.finRange dim).filter (fun j => j ≤ i)).map (fun j =>
        if IsValid i j then
          (GetComp i j).element (r - BlockOffset GetBlockDim i) (c - BlockOffset GetBlockDim j) +
            (if j < i then
              (GetComp i j).element (c - BlockOffset GetBlockDim i)
                (r - BlockOffset GetBlockDim j)
            else 0)
        else 0)).sum)).sum

/-- The sum of the values of the triplets at row `r` and column `c`. -/
def tripletSum (l : List (Index × Index × Number)) (r c : Index) : Number :=
  (l.map (fun t => if t.1 = r ∧ t.2.1 = c then t.2.2 else 0)).sum

/-- The diagonal of every diagonal matrix in use (in a term of a sum, in a
valid block of a compound matrix, in a valid block `j ≤ i` of a symmetric
compound matrix) is a well-formed vector of the dimension of the matrix. -/
def Matrix.WellFormed : Matrix → Prop
  | .diag Dim v => v.Dim = Dim ∧ v.WellFormed
  | .sum _ _ term => ∀ i, (term i).WellFormed
  | .sumSym _ _ term => ∀ i, (term i).WellFormed
  | .compound _ _ _ _ IsValid GetComp => ∀ i j, IsValid i j = true → (GetComp i j).WellFormed
  | .compoundSym _ _ IsValid GetComp =>
    ∀ i j, j ≤ i → IsValid i j = true → (GetComp i j).WellFormed
  | _ => True

/-- The matrix is built from the non-symmetric kinds only. -/
def Matrix.NonSym : Matrix → Prop
  | .symT _ _ _ _ => False
  | .sumSym _ _ _ => False
  | .compoundSym _ _ _ _ => False
  | .sum _ _ term => ∀ i, (term i).NonSym
  | .compound _ _ _ _ IsValid GetComp => ∀ i j, IsValid i j = true → (GetComp i j).NonSym
  | _ => True

/-- The number of entries of a matrix in the words of the specification: the
number of nonzeros of a triplet matrix, the dimension of a diagonal matrix and
of an identity, the number of columns of an expansion matrix, 0 for a zero
matrix, the sum over the terms of a sum, over the valid blocks of a compound
matrix and over the valid blocks `j ≤ i` of a symmetric compound matrix. -/
def Matrix.numberOfEntries : Matrix → Nat
  | .genT Nonzeros _ _ _ => Nonzeros
  | .symT Nonzeros _ _ _ => Nonzeros
  | .diag Dim _ => Dim
  | .identity Dim _ => Dim
  | .expansion NCols _ => NCols
  | .sum nterms _ term => ((List.finRange nterms).map (fun i => (term i).numberOfEntries)).sum
  | .sumSym nterms _ term => ((List.finRange nterms).map (fun i => (term i).numberOfEntries)).sum
  | .zero => 0
  | .compound nrows ncols _ _ IsValid GetComp =>
    ((List.finRange nrows).map (fun i =>
      ((List.finRange ncols).map (fun j =>
        if IsValid i j then (GetComp i j).numberOfEntries else 0)).sum)).sum
  | .compoundSym dim _ IsValid GetComp =>
    ((List.finRange dim).map (fun i =>
      (((List.finRange dim).filter (fun j => j ≤ i)).map (fun j =>
        if IsValid i j then (GetComp i j).numberOfEntries else 0)).sum)).sum

/-- The sum `2 A + 3 C` of the identity of dimension 2 with the factor 5, `A`,
and a compound matrix `C` with one row of two blocks: a diagonal matrix with
the diagonal `(1, 2)` and a block that is not set. -/
def exampleMatrix : Matrix :=
  .sum 2 (fun i => if i = 0 then 2 else 3) (fun i =>
    if i = 0 then .identity 2 5
    else .compound 1 2 (fun _ => 2) (fun _ => 2) (fun _ j => decide (j = 0))
      (fun _ _ => .diag 2 (.dense 2 (fun k => (k : Number) + 1))))

/-! ## Facts about the filter -/

theorem Filter.AcceptableLoop_iff (phi theta : Number) (l : List FilterEntry) :
    Filter.AcceptableLoop phi theta l = true ↔
      ∀ e ∈ l, ¬ (e.phi_ ≤ phi ∧ e.theta_ ≤ theta) := by
  induction l with
  | nil => simp [Filter.AcceptableLoop]
  | cons e rest ih =>
    by_cases h : e.phi_ ≤ phi ∧ e.theta_ ≤ theta
    · have : e.Acceptable phi theta = false := by
        simp [FilterEntry.Acceptable, h.1, h.2]
      simp [Filter.AcceptableLoop, this, h]
    · have : e.Acceptable phi theta = true := by
        unfold FilterEntry.Acceptable
        rcases not_and_or.mp h with h1 | h1 <;> simp [h1]
      simp only [Filter.AcceptableLoop, this, List.mem_cons, forall_eq_or_imp]
      simp [ih, h]

theorem Filter.AddEntryLoop_eq (phi theta : Number) (n : Nat) :
    ∀ (l : List FilterEntry) (iter : Nat), l.length - iter = n → iter ≤ l.length →
      Filter.AddEntryLoop phi theta l iter =
        l.take iter ++ (l.drop iter).filter (fun e => !e.Dominated phi theta) := by
  induction n with
  | zero =>
    intro l iter hn hle
    have hlen : l.length ≤ iter := by omega
    rw [Filter.AddEntryLoop]
    simp [Nat.not_lt.mpr hlen, List.take_of_length_le hlen, List.drop_of_length_le hlen]
  | succ n ih =>
    intro l iter hn hle
    have hlt : iter < l.length := by omega
    rw [Filter.AddEntryLoop]
    simp only [hlt, dite_true]
    have hdrop : l.drop iter = l[iter] :: l.drop (iter + 1) :=
      List.drop_eq_getElem_cons hlt
    by_cases hd : (l.get ⟨iter, hlt⟩).Dominated phi theta = true
    · have hlen1 : (l.eraseIdx iter).length = l.length - 1 := by
        simp [List.length_eraseIdx, hlt]
      have hpos : iterNext (l.eraseIdx iter) (iterAfterErase iter (iterPrev l iter)) = iter := by
        simp only [iterNext, iterAfterErase, iterPrev, hlen1]
        split_ifs <;> omega
      simp only [hd, if_true, hpos]
      rw [ih (l.eraseIdx iter) iter (by omega) (by omega)]
      have htake : (l.eraseIdx iter).take iter = l.take iter := by
        rw [List.eraseIdx_eq_take_drop_succ, List.take_append_eq_append_take]
        simp [List.length_take, Nat.min_eq_left hle]
      have hdr : (l.eraseIdx iter).drop iter = l.drop (iter + 1) := by
        rw [List.eraseIdx_eq_take_drop_succ, List.drop_append_eq_append_drop]
        simp [List.length_take, Nat.min_eq_left hle]
      have hd' : l[iter].Dominated phi theta = true := hd
      rw [htake, hdr, hdrop, List.filter_cons]
      simp [hd']
    · have hd' : l[iter].Dominated phi theta = false := by
        simpa using hd
      have hpos : iterNext l iter = iter + 1 := by simp [iterNext, hlt]
      simp only [hd, hpos]
      rw [if_neg (by simp), ih l (iter + 1) (by omega) (by omega), hdrop, List.filter_cons,
        List.take_succ, List.getElem?_eq_getElem hlt]
      simp only [hd', Bool.not_false, if_true, Option.toList, List.append_assoc,
        List.singleton_append]

theorem Filter.AddEntry_list (f : Filter) (phi theta : Number) (iteration : Index) :
    (f.AddEntry phi theta iteration).filter_list_ =
      f.filter_list_.filter (fun e => !e.Dominated phi theta) ++ [⟨phi, theta, iteration⟩] := by
  simp [Filter.AddEntry, Filter.AddEntryLoop_eq phi theta _ f.filter_list_ 0 rfl (Nat.zero_le _)]

theorem Filter.ClearLoop_eq (n : Nat) :
    ∀ l : List FilterEntry, l.length = n → Filter.ClearLoop l = [] := by
  induction n with
  | zero =>
    intro l hl
    have : l = [] := List.length_eq_zero.mp hl
    subst this
    rw [Filter.ClearLoop]
  | succ n ih =>
    intro l hl
    cases l with
    | nil => simp at hl
    | cons e rest =>
      rw [Filter.ClearLoop]
      apply ih
      simp at hl ⊢
      exact hl

theorem Filter.Clear_eq (f : Filter) : f.Clear = Filter.empty := by
  simp [Filter.Clear, Filter.empty, Filter.ClearLoop_eq _ f.filter_list_ rfl]

theorem Filter.NoDominatedPair_AddEntry (f : Filter) (phi theta : Number)
    (iteration : Index) (hf : f.NoDominatedPair) (hacc : f.Acceptable phi theta = true) :
    (f.AddEntry phi theta iteration).NoDominatedPair := by
  unfold Filter.NoDominatedPair at hf ⊢
  rw [Filter.AddEntry_list, List.pairwise_append]
  refine ⟨hf.sublist (List.filter_sublist _), List.pairwise_singleton _ _, ?_⟩
  intro a ha b hb
  rw [List.mem_singleton] at hb
  subst hb
  rw [List.mem_filter] at ha
  have h1 := (Filter.AcceptableLoop_iff phi theta f.filter_list_).mp hacc a ha.1
  have h2 : ¬ (phi ≤ a.phi_ ∧ theta ≤ a.theta_) := by
    intro hc
    have hd : a.Dominated phi theta = true := by
      simp [FilterEntry.Dominated, hc.1, hc.2]
    have := ha.2
    simp [hd] at this
  exact ⟨h1, h2⟩

theorem Filter.NoDominatedPair_foldl (ops : List FilterOp) :
    ∀ f : Filter, f.NoDominatedPair → f.AddsAcceptable ops →
      (ops.foldl Filter.apply f).NoDominatedPair := by
  induction ops with
  | nil => intro f hf _; exact hf
  | cons op ops ih =>
    intro f hf hadm
    cases op with
    | AddEntry phi theta iteration =>
      exact ih _ (Filter.NoDominatedPair_AddEntry f phi theta iteration hf hadm.1) hadm.2
    | Clear =>
      refine ih _ ?_ hadm
      show f.Clear.NoDominatedPair
      rw [Filter.Clear_eq]
      exact List.Pairwise.nil

/-! ## Facts about `CheckAcceptabilityOfTrialPoint` -/

namespace FilterLineSearch

theorem InitThetaGates_theta_max (s : FilterLineSearch) (curr_theta : Number) :
    (InitThetaGates s curr_theta).theta_max_ =
      if s.theta_max_ < 0 then s.theta_max_fact_ * max 1 curr_theta else s.theta_max_ := by
  unfold InitThetaGates
  dsimp only
  split_ifs <;> rfl

theorem InitThetaGates_theta_min (s : FilterLineSearch) (curr_theta : Number) :
    (InitThetaGates s curr_theta).theta_min_ =
      if s.theta_min_ < 0 then s.theta_min_fact_ * max 1 curr_theta else s.theta_min_ := by
  unfold InitThetaGates
  dsimp only
  split_ifs <;> rfl

theorem InitThetaGates_frame (s : FilterLineSearch) (curr_theta : Number) :
    InitThetaGates s curr_theta =
      { s with theta_min_ := (InitThetaGates s curr_theta).theta_min_
               theta_max_ := (InitThetaGates s curr_theta).theta_max_ } := by
  unfold InitThetaGates
  dsimp only
  split_ifs <;> rfl

theorem InitThetaGates_theta_max_pos (s : FilterLineSearch) (curr_theta : Number)
    (hfact : 0 < s.theta_max_fact_) (hmax : s.theta_max_ < 0 ∨ 0 < s.theta_max_) :
    0 < (InitThetaGates s curr_theta).theta_max_ := by
  rw [InitThetaGates_theta_max]
  split_ifs with h
  · exact mul_pos hfact (lt_of_lt_of_le one_pos (le_max_left 1 curr_theta))
  · rcases hmax with h' | h'
    · exact absurd h' h
    · exact h'

theorem CheckAcceptabilityOfTrialPoint_fst (s : FilterLineSearch) (m : CMath)
    (cq : IpoptCalculatedQuantities) (alpha_primal_test : Number) :
    (CheckAcceptabilityOfTrialPoint s m cq alpha_primal_test).1 =
      match cq.trial_constraint_violation with
      | .error _ => s
      | .ok _ => InitThetaGates s cq.curr_constraint_violation := by
  unfold CheckAcceptabilityOfTrialPoint
  rcases cq.trial_constraint_violation with e | trial_theta <;> rfl

theorem CheckAcceptabilityOfTrialPoint_snd (s : FilterLineSearch) (m : CMath)
    (cq : IpoptCalculatedQuantities) (alpha_primal_test : Number) :
    (CheckAcceptabilityOfTrialPoint s m cq alpha_primal_test).2 =
      match cq.trial_constraint_violation with
      | .error e => .error e
      | .ok trial_theta =>
        CheckTests (InitThetaGates s cq.curr_constraint_violation) m cq alpha_primal_test
          trial_theta := by
  unfold CheckAcceptabilityOfTrialPoint
  rcases cq.trial_constraint_violation with e | trial_theta <;> rfl

theorem IsFtype_InitThetaGates (s : FilterLineSearch) (m : CMath)
    (cq : IpoptCalculatedQuantities) (alpha curr_theta : Number) :
    IsFtype (InitThetaGates s curr_theta) m cq alpha = IsFtype s m cq alpha := by
  rw [InitThetaGates_frame]; rfl

theorem ArmijoHolds_InitThetaGates (s : FilterLineSearch)
    (cq : IpoptCalculatedQuantities) (alpha curr_theta : Number) :
    ArmijoHolds (InitThetaGates s curr_theta) cq alpha = ArmijoHolds s cq alpha := by
  rw [InitThetaGates_frame]; rfl

theorem IsAcceptableToCurrentIterate_InitThetaGates (s : FilterLineSearch) (m : CMath)
    (cq : IpoptCalculatedQuantities) (curr_theta trial_barr trial_theta : Number) :
    IsAcceptableToCurrentIterate (InitThetaGates s curr_theta) m cq trial_barr trial_theta =
      IsAcceptableToCurrentIterate s m cq trial_barr trial_theta := by
  rw [InitThetaGates_frame]; rfl

theorem IsAcceptableToCurrentFilter_InitThetaGates (s : FilterLineSearch)
    (curr_theta trial_barr trial_theta : Number) :
    IsAcceptableToCurrentFilter (InitThetaGates s curr_theta) trial_barr trial_theta =
      s.filter_.Acceptable trial_barr trial_theta := by
  rw [InitThetaGates_frame]; rfl

/-- The tests of `CheckAcceptabilityOfTrialPoint` succeed exactly when the
trial barrier objective can be evaluated, the `theta_max_` gate (if positive)
is passed, the branch test holds and the filter accepts. -/
theorem CheckTests_eq_true_iff (s : FilterLineSearch) (m : CMath)
    (cq : IpoptCalculatedQuantities) (alpha trial_theta : Number) :
    CheckTests s m cq alpha trial_theta = .ok true ↔
      ∃ trial_barr, cq.trial_barrier_obj = .ok trial_barr ∧
        ¬ (s.theta_max_ > 0 ∧ trial_theta > s.theta_max_) ∧
        (if IsFtype s m cq alpha = true ∧ cq.curr_constraint_violation ≤ s.theta_min_ then
            ArmijoHolds s cq alpha = .ok true
          else IsAcceptableToCurrentIterate s m cq trial_barr trial_theta = true) ∧
        s.filter_.Acceptable trial_barr trial_theta = true := by
  unfold CheckTests
  by_cases hgate : s.theta_max_ > 0 ∧ trial_theta > s.theta_max_
  · simp [hgate]
  · rcases hb : cq.trial_barrier_obj with e | trial_barr
    · simp [hgate]
    · by_cases hbr : IsFtype s m cq alpha = true ∧ cq.curr_constraint_violation ≤ s.theta_min_
      · have harm : ArmijoHolds s cq alpha = .ok (Compare_le (trial_barr - cq.curr_barrier_obj)
            (s.eta_phi_ * alpha * cq.curr_gradBarrTDelta) cq.curr_barrier_obj) := by
          simp [ArmijoHolds, hb]
        rcases hc : Compare_le (trial_barr - cq.curr_barrier_obj)
            (s.eta_phi_ * alpha * cq.curr_gradBarrTDelta) cq.curr_barrier_obj
        · simp [hgate, hbr, harm, hc]
        · simp [hgate, hbr, harm, hc, IsAcceptableToCurrentFilter]
      · rcases hc : IsAcceptableToCurrentIterate s m cq trial_barr trial_theta
        · simp [hgate, hbr, hc]
        · simp [hgate, hbr, hc, IsAcceptableToCurrentFilter]

end FilterLineSearch

/-! ## Facts about the loops of `FindAcceptableTrialPoint` -/

theorem FilterLineSearch.GatesOnly.refl_gates (s : FilterLineSearch) : s.GatesOnly s := rfl

theorem FilterLineSearch.GatesOnly.trans_gates {s1 s2 s3 : FilterLineSearch}
    (h12 : s1.GatesOnly s2) (h23 : s2.GatesOnly s3) : s1.GatesOnly s3 := by
  unfold FilterLineSearch.GatesOnly at *
  rw [h23, h12]

theorem FilterLineSearch.GatesKept.refl_kept (s : FilterLineSearch) : s.GatesKept s :=
  ⟨fun _ => rfl, fun _ => rfl⟩

theorem FilterLineSearch.GatesKept.trans_kept {s1 s2 s3 : FilterLineSearch}
    (h12 : s1.GatesKept s2) (h23 : s2.GatesKept s3) : s1.GatesKept s3 := by
  constructor
  · intro h
    have e := h12.1 h
    rw [h23.1 (by rw [e]; exact h), e]
  · intro h
    have e := h12.2 h
    rw [h23.2 (by rw [e]; exact h), e]

theorem LSRun.LoopFrame.refl_frame (r : LSRun) : r.LoopFrame r :=
  ⟨FilterLineSearch.GatesOnly.refl_gates _, FilterLineSearch.GatesKept.refl_kept _, rfl, rfl, rfl⟩

theorem LSRun.LoopFrame.trans_frame {r1 r2 r3 : LSRun} (h12 : r1.LoopFrame r2)
    (h23 : r2.LoopFrame r3) : r1.LoopFrame r3 :=
  ⟨h12.1.trans_gates h23.1, h12.2.1.trans_kept h23.2.1, h23.2.2.1.trans h12.2.2.1,
    h23.2.2.2.1.trans h12.2.2.2.1, h23.2.2.2.2.trans h12.2.2.2.2⟩

namespace FilterLineSearch

theorem InitThetaGates_GatesKept (s : FilterLineSearch) (curr_theta : Number) :
    s.GatesKept (InitThetaGates s curr_theta) := by
  constructor
  · intro h
    rw [InitThetaGates_theta_max, if_neg (not_lt.mpr h)]
  · intro h
    rw [InitThetaGates_theta_min, if_neg (not_lt.mpr h)]

theorem CheckAcceptabilityOfTrialPoint_GatesOnly (s : FilterLineSearch) (m : CMath)
    (cq : IpoptCalculatedQuantities) (alpha : Number) :
    s.GatesOnly (CheckAcceptabilityOfTrialPoint s m cq alpha).1 := by
  rw [CheckAcceptabilityOfTrialPoint_fst]
  rcases cq.trial_constraint_violation with e | t
  · exact GatesOnly.refl_gates s
  · exact InitThetaGates_frame s _

theorem CheckAcceptabilityOfTrialPoint_GatesKept (s : FilterLineSearch) (m : CMath)
    (cq : IpoptCalculatedQuantities) (alpha : Number) :
    s.GatesKept (CheckAcceptabilityOfTrialPoint s m cq alpha).1 := by
  rw [CheckAcceptabilityOfTrialPoint_fst]
  rcases cq.trial_constraint_violation with e | t
  · exact GatesKept.refl_kept s
  · exact InitThetaGates_GatesKept s _

theorem SetTrialPrimalVariablesFromStep_LoopFrame (env : Env) (r : LSRun)
    (alpha : Number) (dir : Direction) :
    r.LoopFrame (SetTrialPrimalVariablesFromStep env r alpha dir) :=
  ⟨GatesOnly.refl_gates _, GatesKept.refl_kept _, rfl, rfl, rfl⟩

theorem RunCheck_LoopFrame (env : Env) (r : LSRun) (alpha : Number) :
    r.LoopFrame (RunCheck env r alpha).1 :=
  ⟨CheckAcceptabilityOfTrialPoint_GatesOnly _ _ _ _,
    CheckAcceptabilityOfTrialPoint_GatesKept _ _ _ _, rfl, rfl, rfl⟩

theorem RunCheck_AcceptedAt (env : Env) (r : LSRun) (alpha : Number)
    (h : (RunCheck env r alpha).2 = .ok true) :
    (RunCheck env r alpha).1.AcceptedAt env alpha := by
  unfold RunCheck at h ⊢
  simp only at h ⊢
  rw [CheckAcceptabilityOfTrialPoint_snd] at h
  unfold LSRun.AcceptedAt
  simp only [CheckAcceptabilityOfTrialPoint_fst]
  rcases ht : r.cq.trial_constraint_violation with e | t
  · rw [ht] at h
    simp at h
  · rw [ht] at h
    exact ⟨t, rfl, h⟩

theorem CatchEvalError_eq_ok_true (res : Except Exception Bool)
    (h : CatchEvalError res = .ok true) : res = .ok true := by
  unfold CatchEvalError at h
  split at h
  · simp at h
  · exact h

theorem TryTrialPoint_LoopFrame (env : Env) (r : LSRun) (alpha alpha_test : Number)
    (dir : Direction) : r.LoopFrame (TryTrialPoint env r alpha alpha_test dir).1 := by
  unfold TryTrialPoint
  simp only
  split_ifs
  · split
    · exact SetTrialPrimalVariablesFromStep_LoopFrame env r alpha dir
    · exact (SetTrialPrimalVariablesFromStep_LoopFrame env r alpha dir).trans_frame
        (RunCheck_LoopFrame env _ alpha_test)
  · exact (SetTrialPrimalVariablesFromStep_LoopFrame env r alpha dir).trans_frame
      (RunCheck_LoopFrame env _ alpha_test)

theorem TryTrialPoint_AcceptedAt (env : Env) (r : LSRun) (alpha alpha_test : Number)
    (dir : Direction) (h : (TryTrialPoint env r alpha alpha_test dir).2 = .ok true) :
    (TryTrialPoint env r alpha alpha_test dir).1.AcceptedAt env alpha_test := by
  unfold TryTrialPoint at h ⊢
  simp only at h ⊢
  split_ifs at h ⊢
  · split at h
    · simp at h
    · exact RunCheck_AcceptedAt env _ alpha_test h
  · exact RunCheck_AcceptedAt env _ alpha_test h

end FilterLineSearch

namespace FilterLineSearch

end FilterLineSearch

namespace FilterLineSearch

theorem SocStep_LoopFrame (env : Env) (alpha_test theta_curr : Number) (r : LSRun)
    (v : SocLocals) : r.LoopFrame (SocStep env alpha_test theta_curr r v).1 := by
  have hstep : r.LoopFrame (RunCheck env (SetTrialPrimalVariablesFromStep env
      { r with trace := r.trace ++ [Event.Solve v.count_soc] }
      (env.primal_frac_to_the_bound v.count_soc) (Direction.soc v.count_soc)) alpha_test).1 :=
    (SetTrialPrimalVariablesFromStep_LoopFrame env
        { r with trace := r.trace ++ [Event.Solve v.count_soc] } _ _).trans_frame
      (RunCheck_LoopFrame env _ alpha_test)
  unfold SocStep
  simp only
  split
  · exact hstep
  · exact hstep
  · split <;> exact hstep

theorem SocStep_AcceptedAt (env : Env) (alpha_test theta_curr : Number) (r r1 : LSRun)
    (v w : SocLocals) (h : SocStep env alpha_test theta_curr r v = (r1, .ok w))
    (hw : w.accept = true) : r1.AcceptedAt env alpha_test := by
  unfold SocStep at h
  simp only at h
  split at h
  · simp at h
  · rename_i hres
    simp only [Prod.mk.injEq] at h
    rw [← h.1]
    exact RunCheck_AcceptedAt env _ alpha_test (CatchEvalError_eq_ok_true _ hres)
  · split at h
    · simp at h
    · simp only [Prod.mk.injEq, Except.ok.injEq] at h
      rw [← h.2] at hw
      simp at hw

theorem SocLoop_LoopFrame (env : Env) (alpha_test theta_curr : Number) (fuel : Nat) :
    ∀ (r : LSRun) (v : SocLocals) (out : LSRun × Except Exception SocLocals),
      SocLoop env alpha_test theta_curr fuel r v = some out → r.LoopFrame out.1 := by
  induction fuel with
  | zero => intro r v out h; simp [SocLoop] at h
  | succ fuel ih =>
    intro r v out h
    rw [SocLoop] at h
    have hstep := SocStep_LoopFrame env alpha_test theta_curr r v
    by_cases hc : (v.count_soc : Index) < r.ls.max_soc_ ∧
        v.theta_trial ≤ r.ls.kappa_soc_ * v.theta_soc_old ∧ v.accept = false
    · rw [if_pos hc] at h
      rcases hs : SocStep env alpha_test theta_curr r v with ⟨r', e | v'⟩
      · rw [hs] at h hstep
        simp only [Option.some.injEq] at h
        rw [← h]
        exact hstep
      · rw [hs] at h hstep
        exact hstep.trans_frame (ih _ _ _ h)
    · rw [if_neg hc] at h
      simp only [Option.some.injEq] at h
      rw [← h]
      exact LSRun.LoopFrame.refl_frame r

theorem SocLoop_AcceptedAt (env : Env) (alpha_test theta_curr : Number) (fuel : Nat) :
    ∀ (r r1 : LSRun) (v w : SocLocals),
      SocLoop env alpha_test theta_curr fuel r v = some (r1, .ok w) →
      (v.accept = true → r.AcceptedAt env alpha_test) →
      w.accept = true → r1.AcceptedAt env alpha_test := by
  induction fuel with
  | zero => intro r r1 v w h; simp [SocLoop] at h
  | succ fuel ih =>
    intro r r1 v w h hv hw
    rw [SocLoop] at h
    by_cases hc : (v.count_soc : Index) < r.ls.max_soc_ ∧
        v.theta_trial ≤ r.ls.kappa_soc_ * v.theta_soc_old ∧ v.accept = false
    · rw [if_pos hc] at h
      rcases hs : SocStep env alpha_test theta_curr r v with ⟨r', e | v'⟩
      · rw [hs] at h
        simp at h
      · rw [hs] at h
        exact ih _ _ _ _ h (SocStep_AcceptedAt env alpha_test theta_curr r r' v v' hs) hw
    · rw [if_neg hc] at h
      simp only [Option.some.injEq, Prod.mk.injEq, Except.ok.injEq] at h
      rw [← h.1]
      exact hv (by rw [h.2]; exact hw)

end FilterLineSearch

namespace FilterLineSearch

theorem TrySecondOrderCorrection_LoopFrame (env : Env) (alpha_primal_max : Number)
    (r : LSRun) (v : Locals) (out : LSRun × Except Exception Locals)
    (h : TrySecondOrderCorrection env alpha_primal_max r v = some out) :
    r.LoopFrame out.1 := by
  unfold TrySecondOrderCorrection at h
  simp only at h
  rcases ht : r.cq.trial_constraint_violation with e | theta_trial
  · rw [ht] at h
    simp only [Option.some.injEq] at h
    rw [← h]
    exact LSRun.LoopFrame.refl_frame r
  · rw [ht] at h
    simp only at h
    by_cases hc : v.alpha_primal = alpha_primal_max ∧
        r.cq.curr_constraint_violation ≤ theta_trial ∧ r.ls.max_soc_ > 0
    · rw [if_pos hc] at h
      rcases hs : SocLoop env v.alpha_primal_test r.cq.curr_constraint_violation
          (r.ls.max_soc_.toNat + 1) r
          { count_soc := 0, theta_soc_old := 0, theta_trial := 0
            alpha_primal_soc := v.alpha_primal, accept := false } with _ | ⟨r', e | w⟩
      · rw [hs] at h
        simp at h
      · rw [hs] at h
        simp only [Option.some.injEq] at h
        rw [← h]
        exact SocLoop_LoopFrame _ _ _ _ _ _ _ hs
      · rw [hs] at h
        simp only at h
        have hf := SocLoop_LoopFrame _ _ _ _ _ _ _ hs
        split_ifs at h <;>
        · simp only [Option.some.injEq] at h
          rw [← h]
          exact hf
    · rw [if_neg hc] at h
      simp only [Option.some.injEq] at h
      rw [← h]
      exact LSRun.LoopFrame.refl_frame r

theorem TrySecondOrderCorrection_AcceptedAt (env : Env) (alpha_primal_max : Number)
    (r r1 : LSRun) (v v1 : Locals)
    (h : TrySecondOrderCorrection env alpha_primal_max r v = some (r1, .ok v1))
    (hv : v.accept = false) (hv1 : v1.accept = true) :
    r1.AcceptedAt env v1.alpha_primal_test := by
  unfold TrySecondOrderCorrection at h
  simp only at h
  rcases ht : r.cq.trial_constraint_violation with e | theta_trial
  · rw [ht] at h
    simp at h
  · rw [ht] at h
    simp only at h
    by_cases hc : v.alpha_primal = alpha_primal_max ∧
        r.cq.curr_constraint_violation ≤ theta_trial ∧ r.ls.max_soc_ > 0
    · rw [if_pos hc] at h
      rcases hs : SocLoop env v.alpha_primal_test r.cq.curr_constraint_violation
          (r.ls.max_soc_.toNat + 1) r
          { count_soc := 0, theta_soc_old := 0, theta_trial := 0
            alpha_primal_soc := v.alpha_primal, accept := false } with _ | ⟨r', e | w⟩
      · rw [hs] at h
        simp at h
      · rw [hs] at h
        simp at h
      · rw [hs] at h
        simp only at h
        by_cases hw : w.accept = true
        · rw [if_pos hw] at h
          simp only [Option.some.injEq, Prod.mk.injEq, Except.ok.injEq] at h
          rw [← h.1, ← h.2]
          exact SocLoop_AcceptedAt _ _ _ _ _ _ _ _ hs (by simp) hw
        · rw [if_neg hw] at h
          simp only [Option.some.injEq, Prod.mk.injEq, Except.ok.injEq] at h
          rw [← h.2, hv] at hv1
          simp at hv1
    · rw [if_neg hc] at h
      simp only [Option.some.injEq, Prod.mk.injEq, Except.ok.injEq] at h
      rw [← h.2, hv] at hv1
      simp at hv1

theorem BacktrackingStep_LoopFrame (env : Env) (alpha_primal_max : Number)
    (r : LSRun) (v : Locals) (out : LSRun × Except Exception Locals)
    (h : BacktrackingStep env alpha_primal_max r v = some out) : r.LoopFrame out.1 := by
  unfold BacktrackingStep at h
  simp only at h
  have htry := TryTrialPoint_LoopFrame env r v.alpha_primal v.alpha_primal v.dir
  split at h
  · simp only [Option.some.injEq] at h
    rw [← h]
    exact htry
  · simp only [Option.some.injEq] at h
    rw [← h]
    exact htry
  · rcases hs : TrySecondOrderCorrection env alpha_primal_max
        (TryTrialPoint env r v.alpha_primal v.alpha_primal v.dir).1
        { v with alpha_primal_test := v.alpha_primal, accept := false } with _ | ⟨r', e | w⟩
    · rw [hs] at h
      simp at h
    · rw [hs] at h
      simp only [Option.some.injEq] at h
      rw [← h]
      exact htry.trans_frame (TrySecondOrderCorrection_LoopFrame _ _ _ _ _ hs)
    · rw [hs] at h
      simp only at h
      have hf := htry.trans_frame (TrySecondOrderCorrection_LoopFrame _ _ _ _ _ hs)
      split_ifs at h <;>
      · simp only [Option.some.injEq] at h
        rw [← h]
        exact hf

theorem BacktrackingStep_AcceptedAt (env : Env) (alpha_primal_max : Number)
    (r r1 : LSRun) (v v1 : Locals)
    (h : BacktrackingStep env alpha_primal_max r v = some (r1, .ok v1))
    (hv1 : v1.accept = true) : r1.AcceptedAt env v1.alpha_primal_test := by
  unfold BacktrackingStep at h
  simp only at h
  split at h
  · simp at h
  · rename_i hres
    simp only [Option.some.injEq, Prod.mk.injEq, Except.ok.injEq] at h
    rw [← h.1, ← h.2]
    exact TryTrialPoint_AcceptedAt env r _ _ _ (CatchEvalError_eq_ok_true _ hres)
  · rcases hs : TrySecondOrderCorrection env alpha_primal_max
        (TryTrialPoint env r v.alpha_primal v.alpha_primal v.dir).1
        { v with alpha_primal_test := v.alpha_primal, accept := false } with _ | ⟨r', e | w⟩
    · rw [hs] at h
      simp at h
    · rw [hs] at h
      simp at h
    · rw [hs] at h
      simp only at h
      by_cases hw : w.accept = true
      · rw [if_pos hw] at h
        simp only [Option.some.injEq, Prod.mk.injEq, Except.ok.injEq] at h
        rw [← h.1, ← h.2]
        exact TrySecondOrderCorrection_AcceptedAt _ _ _ _ _ _ hs rfl hw
      · rw [if_neg hw] at h
        simp only [Option.some.injEq, Prod.mk.injEq, Except.ok.injEq] at h
        rw [← h.2] at hv1
        exact absurd hv1 hw

theorem BacktrackingLoop_LoopFrame (env : Env) (alpha_min alpha_primal_max : Number)
    (fuel : Nat) :
    ∀ (r : LSRun) (v : Locals) (out : LSRun × Except Exception Locals),
      BacktrackingLoop env alpha_min alpha_primal_max fuel r v = some out →
      r.LoopFrame out.1 := by
  induction fuel with
  | zero => intro r v out h; simp [BacktrackingLoop] at h
  | succ fuel ih =>
    intro r v out h
    rw [BacktrackingLoop] at h
    by_cases hc : v.alpha_primal > alpha_min ∨ v.n_steps = 0
    · rw [if_pos hc] at h
      rcases hs : BacktrackingStep env alpha_primal_max r v with _ | ⟨r', e | w⟩
      · rw [hs] at h
        simp at h
      · rw [hs] at h
        simp only [Option.some.injEq] at h
        rw [← h]
        exact BacktrackingStep_LoopFrame _ _ _ _ _ hs
      · rw [hs] at h
        simp only at h
        have hf := BacktrackingStep_LoopFrame _ _ _ _ _ hs
        by_cases hw : w.accept = true
        · rw [if_pos hw] at h
          simp only [Option.some.injEq] at h
          rw [← h]
          exact hf
        · rw [if_neg hw] at h
          exact hf.trans_frame (ih _ _ _ h)
    · rw [if_neg hc] at h
      simp only [Option.some.injEq] at h
      rw [← h]
      exact LSRun.LoopFrame.refl_frame r

theorem BacktrackingLoop_AcceptedAt (env : Env) (alpha_min alpha_primal_max : Number)
    (fuel : Nat) :
    ∀ (r r1 : LSRun) (v v1 : Locals),
      BacktrackingLoop env alpha_min alpha_primal_max fuel r v = some (r1, .ok v1) →
      v.accept = false → v1.accept = true → r1.AcceptedAt env v1.alpha_primal_test := by
  induction fuel with
  | zero => intro r r1 v v1 h; simp [BacktrackingLoop] at h
  | succ fuel ih =>
    intro r r1 v v1 h hv hv1
    rw [BacktrackingLoop] at h
    by_cases hc : v.alpha_primal > alpha_min ∨ v.n_steps = 0
    · rw [if_pos hc] at h
      rcases hs : BacktrackingStep env alpha_primal_max r v with _ | ⟨r', e | w⟩
      · rw [hs] at h
        simp at h
      · rw [hs] at h
        simp at h
      · rw [hs] at h
        simp only at h
        by_cases hw : w.accept = true
        · rw [if_pos hw] at h
          simp only [Option.some.injEq, Prod.mk.injEq, Except.ok.injEq] at h
          rw [← h.1, ← h.2]
          exact BacktrackingStep_AcceptedAt _ _ _ _ _ _ hs hw
        · rw [if_neg hw] at h
          exact ih _ _ _ _ h (by simpa using hw) hv1
    · rw [if_neg hc] at h
      simp only [Option.some.injEq, Prod.mk.injEq, Except.ok.injEq] at h
      rw [← h.2, hv] at hv1
      simp at hv1

end FilterLineSearch

namespace FilterLineSearch

theorem IsFtype_of_GatesOnly {s s' : FilterLineSearch} (h : s.GatesOnly s') (m : CMath)
    (cq : IpoptCalculatedQuantities) (alpha : Number) :
    IsFtype s' m cq alpha = IsFtype s m cq alpha := by
  rw [h]; rfl

theorem ArmijoHolds_of_GatesOnly {s s' : FilterLineSearch} (h : s.GatesOnly s')
    (cq : IpoptCalculatedQuantities) (alpha : Number) :
    ArmijoHolds s' cq alpha = ArmijoHolds s cq alpha := by
  rw [h]; rfl

theorem AugmentFilter_filter (s : FilterLineSearch) (cq : IpoptCalculatedQuantities)
    (iter_count : Index) :
    (AugmentFilter s cq iter_count).filter_ =
      s.filter_.AddEntry (cq.curr_barrier_obj - s.gamma_phi_ * cq.curr_constraint_violation)
        ((1 - s.gamma_theta_) * cq.curr_constraint_violation) iter_count := rfl

theorem AugmentFilter_GatesKept (s : FilterLineSearch) (cq : IpoptCalculatedQuantities)
    (iter_count : Index) : s.GatesKept (AugmentFilter s cq iter_count) :=
  ⟨fun _ => rfl, fun _ => rfl⟩

theorem AcceptedAt_trial_barrier_obj {env : Env} {r : LSRun} {alpha : Number}
    (h : r.AcceptedAt env alpha) : ∃ trial_barr, r.cq.trial_barrier_obj = .ok trial_barr := by
  obtain ⟨trial_theta, _, ht⟩ := h
  obtain ⟨trial_barr, hb, _⟩ := (CheckTests_eq_true_iff _ _ _ _ _).mp ht
  exact ⟨trial_barr, hb⟩

theorem ArmijoHolds_ok_of_trial_barrier_obj (s : FilterLineSearch)
    (cq : IpoptCalculatedQuantities) (alpha : Number)
    (h : ∃ trial_barr, cq.trial_barrier_obj = .ok trial_barr) :
    ∃ armijo, ArmijoHolds s cq alpha = .ok armijo := by
  obtain ⟨trial_barr, hb⟩ := h
  unfold ArmijoHolds
  rw [hb]
  exact ⟨_, rfl⟩

/-- What `Commit` does once `ArmijoHolds` can be evaluated. -/
theorem Commit_of_ArmijoHolds (env : Env) (r : LSRun) (v : Locals) (armijo : Bool)
    (h : ArmijoHolds r.ls r.cq v.alpha_primal_test = .ok armijo) :
    (Commit env r v).2 = .ok () ∧
      (Commit env r v).1.ls =
        (if IsFtype r.ls env.m r.cq v.alpha_primal_test = false ∨ armijo = false then
          AugmentFilter r.ls r.cq env.iter_count else r.ls) ∧
      (Commit env r v).1.info_alpha_primal_char =
        (if v.soc_taken = true then
          (if IsFtype r.ls env.m r.cq v.alpha_primal_test = false ∨ armijo = false then
            'h' else 'f').toUpper
        else
          (if IsFtype r.ls env.m r.cq v.alpha_primal_test = false ∨ armijo = false then
            'h' else 'f')) := by
  unfold Commit
  rw [h]
  rcases hf : IsFtype r.ls env.m r.cq v.alpha_primal_test <;> rcases armijo <;> simp

end FilterLineSearch

namespace FilterLineSearch

theorem exampleF_IsFtype :
    IsFtype exampleLineSearchF exampleMath exampleRunF1.cq 1 = true := by
  simp [IsFtype, exampleLineSearchF, exampleLineSearch, exampleMath, exampleRunF1, exampleCqF]
  norm_num

theorem exampleF_Check :
    CheckAcceptabilityOfTrialPoint exampleLineSearchF exampleMath exampleRunF1.cq 1 =
      (exampleLineSearchF, .ok true) := by
  have hI := exampleF_IsFtype
  have hg : InitThetaGates exampleLineSearchF (1/2) = exampleLineSearchF := by
    unfold InitThetaGates
    norm_num [exampleLineSearchF, exampleLineSearch]
  have hcq : exampleRunF1.cq.curr_constraint_violation = 1/2 := rfl
  have ht : exampleRunF1.cq.trial_constraint_violation = .ok 0 := rfl
  have hb : exampleRunF1.cq.trial_barrier_obj = .ok (-1) := rfl
  unfold CheckAcceptabilityOfTrialPoint
  rw [ht]
  simp only [hcq, hg]
  unfold CheckTests
  rw [hb]
  simp only [hI, hcq]
  norm_num [exampleLineSearchF, exampleLineSearch, IsAcceptableToCurrentIterate,
    IsAcceptableToCurrentFilter, Compare_le, exampleRunF1, exampleCqF, Filter.empty,
    Filter.Acceptable, Filter.AcceptableLoop]


theorem exampleF_TryTrialPoint :
    TryTrialPoint exampleEnvF exampleRunF 1 1 Direction.orig = (exampleRunF1, .ok true) := by
  have hc := exampleF_Check
  have hset : SetTrialPrimalVariablesFromStep exampleEnvF exampleRunF 1 Direction.orig =
      { exampleRunF1 with trace := [Event.SetTrialPrimalVariablesFromStep 1 Direction.orig] } :=
    rfl
  unfold TryTrialPoint
  rw [hset]
  have hm : exampleRunF1.ls.magic_steps_ = false := rfl
  simp only [hm, Bool.false_eq_true, if_false]
  unfold RunCheck
  have hc' : CheckAcceptabilityOfTrialPoint exampleRunF1.ls exampleEnvF.m exampleRunF1.cq 1 =
      (exampleLineSearchF, .ok true) := hc
  simp only [hc']
  rfl

theorem exampleF_BacktrackingLoop (alpha_min : Number) :
    BacktrackingLoop exampleEnvF alpha_min 1 1 exampleRunF (InitialLocals exampleEnvF) =
      some (exampleRunF1, .ok exampleLocalsF1) := by
  have ht := exampleF_TryTrialPoint
  have hi : InitialLocals exampleEnvF =
      { alpha_primal := 1, alpha_primal_test := 0, accept := false, soc_taken := false,
        n_steps := 0, dir := Direction.orig } := rfl
  rw [BacktrackingLoop, hi]
  simp only [or_true, if_true]
  unfold BacktrackingStep
  simp only [ht, CatchEvalError]
  rfl

theorem exampleF_ArmijoHolds :
    ArmijoHolds exampleLineSearchF exampleRunF1.cq 1 = .ok true := by
  norm_num [ArmijoHolds, Compare_le, exampleRunF1, exampleCqF, exampleLineSearchF,
    exampleLineSearch]

theorem exampleF_FindAcceptableTrialPoint :
    FindAcceptableTrialPoint exampleEnvF 1 exampleRunF = some (exampleRunF2, .ok ()) := by
  have hI : IsFtype exampleRunF1.ls exampleEnvF.m exampleRunF1.cq
      exampleLocalsF1.alpha_primal_test = true := exampleF_IsFtype
  have hA : ArmijoHolds exampleRunF1.ls exampleRunF1.cq exampleLocalsF1.alpha_primal_test =
      .ok true := exampleF_ArmijoHolds
  have hR : RestorationFallback exampleEnvF exampleRunF1 exampleLocalsF1 =
      (exampleRunF1, .ok true) := by
    simp [RestorationFallback, exampleLocalsF1]
  have hC : Commit exampleEnvF exampleRunF1 exampleLocalsF1 = (exampleRunF2, .ok ()) := by
    unfold Commit
    simp only [hI, hA]
    rfl
  unfold FindAcceptableTrialPoint
  have hmax : exampleEnvF.curr_primal_frac_to_the_bound = 1 := rfl
  simp only [hmax, exampleF_BacktrackingLoop, hR, hC]

theorem RestorationFallback_of_accept (env : Env) (r : LSRun) (v : Locals)
    (h : v.accept = true) : RestorationFallback env r v = (r, .ok true) := by
  simp [RestorationFallback, h]

/-- A call whose backtracking loop accepts a trial point goes on to `Commit`,
where `ArmijoHolds` can be evaluated. -/
theorem FindAcceptableTrialPoint_of_accept (env : Env) (fuel : Nat) (r r1 : LSRun)
    (v1 : Locals)
    (hloop : BacktrackingLoop env (CalculateAlphaMin r.ls env.m r.cq)
      env.curr_primal_frac_to_the_bound fuel r (InitialLocals env) = some (r1, .ok v1))
    (hacc : v1.accept = true) :
    FindAcceptableTrialPoint env fuel r = some (Commit env r1 v1) ∧
      ∃ armijo, ArmijoHolds r1.ls r1.cq v1.alpha_primal_test = .ok armijo := by
  constructor
  · unfold FindAcceptableTrialPoint
    simp only [hloop, RestorationFallback_of_accept env r1 v1 hacc]
  · exact ArmijoHolds_ok_of_trial_barrier_obj _ _ _
      (AcceptedAt_trial_barrier_obj
        (BacktrackingLoop_AcceptedAt env _ _ fuel r r1 _ v1 hloop rfl hacc))

end FilterLineSearch

theorem FilterLineSearch.GatesOnly.filter_eq {s s' : FilterLineSearch}
    (h : s.GatesOnly s') : s'.filter_ = s.filter_ := by
  rw [h]

theorem FilterLineSearch.GatesOnly.gamma_phi_eq {s s' : FilterLineSearch}
    (h : s.GatesOnly s') : s'.gamma_phi_ = s.gamma_phi_ := by
  rw [h]

theorem FilterLineSearch.GatesOnly.gamma_theta_eq {s s' : FilterLineSearch}
    (h : s.GatesOnly s') : s'.gamma_theta_ = s.gamma_theta_ := by
  rw [h]

namespace FilterLineSearch

theorem RestorationFallback_ls (env : Env) (r : LSRun) (v : Locals) :
    (RestorationFallback env r v).1.ls = r.ls := by
  unfold RestorationFallback
  simp only
  split_ifs <;> simp only [] <;> split_ifs <;> rfl

theorem Commit_GatesKept (env : Env) (r : LSRun) (v : Locals) :
    r.ls.GatesKept (Commit env r v).1.ls := by
  unfold Commit
  simp only
  split
  · exact GatesKept.refl_kept _
  · simp only
    split_ifs <;>
      first
        | exact AugmentFilter_GatesKept _ _ _
        | exact GatesKept.refl_kept _

theorem FindAcceptableTrialPoint_GatesKept (env : Env) (fuel : Nat) (r : LSRun)
    (out : LSRun × Except Exception Unit)
    (h : FindAcceptableTrialPoint env fuel r = some out) : r.ls.GatesKept out.1.ls := by
  unfold FindAcceptableTrialPoint at h
  simp only at h
  rcases hl : BacktrackingLoop env (CalculateAlphaMin r.ls env.m r.cq)
      env.curr_primal_frac_to_the_bound fuel r (InitialLocals env) with _ | ⟨r1, e | v1⟩
  · rw [hl] at h
    simp at h
  · rw [hl] at h
    simp only [Option.some.injEq] at h
    rw [← h]
    exact (BacktrackingLoop_LoopFrame env _ _ fuel r _ _ hl).2.1
  · rw [hl] at h
    simp only at h
    have hf : r.ls.GatesKept r1.ls := (BacktrackingLoop_LoopFrame env _ _ fuel r _ _ hl).2.1
    have hr := RestorationFallback_ls env r1 v1
    rcases hrf : RestorationFallback env r1 v1 with ⟨r2, e | b⟩
    · rw [hrf] at h hr
      simp only [Option.some.injEq] at h
      rw [← h]
      simp only at hr ⊢
      rw [hr]
      exact hf
    · rw [hrf] at h hr
      simp only [Option.some.injEq] at h
      rw [← h]
      simp only at hr
      have hc := Commit_GatesKept env r2 v1
      rw [hr] at hc
      exact hf.trans_kept hc

theorem applyOp_GatesKept (s s' : FilterLineSearch) (op : LSOp)
    (h : s.applyOp op = some s') : s.GatesKept s' := by
  cases op with
  | CheckAcceptabilityOfTrialPoint m cq alpha =>
    simp only [applyOp, Option.some.injEq] at h
    rw [← h]
    exact CheckAcceptabilityOfTrialPoint_GatesKept s m cq alpha
  | AugmentFilter cq iter_count =>
    simp only [applyOp, Option.some.injEq] at h
    rw [← h]
    exact AugmentFilter_GatesKept s cq iter_count
  | FindAcceptableTrialPoint env fuel r =>
    simp only [applyOp] at h
    rcases hf : FindAcceptableTrialPoint env fuel { r with ls := s } with _ | out
    · rw [hf] at h
      simp at h
    · rw [hf] at h
      simp only [Option.some.injEq] at h
      rw [← h]
      exact FindAcceptableTrialPoint_GatesKept env fuel _ out hf
  | Reset =>
    simp only [applyOp, Option.some.injEq] at h
    rw [← h]
    exact ⟨fun _ => rfl, fun _ => rfl⟩

theorem applyOps_GatesKept (ops : List LSOp) :
    ∀ s s' : FilterLineSearch, s.applyOps ops = some s' → s.GatesKept s' := by
  induction ops with
  | nil =>
    intro s s' h
    simp only [applyOps, Option.some.injEq] at h
    rw [← h]
    exact GatesKept.refl_kept s
  | cons op ops ih =>
    intro s s' h
    simp only [applyOps] at h
    rcases ho : s.applyOp op with _ | s1
    · rw [ho] at h
      simp at h
    · rw [ho] at h
      exact (applyOp_GatesKept s s1 op ho).trans_kept (ih s1 s' h)

theorem exampleE_FindAcceptableTrialPoint (fuel : Nat) :
    FindAcceptableTrialPoint exampleEnvE (fuel + 1) exampleRunF =
      some (exampleRunE1, .error Exception.Eval_Error) := by
  have hset : SetTrialPrimalVariablesFromStep exampleEnvE exampleRunF 1 Direction.orig =
      { exampleRunE1 with trace := [Event.SetTrialPrimalVariablesFromStep 1 Direction.orig] } :=
    rfl
  have hm : exampleRunE1.ls.magic_steps_ = false := rfl
  have hcheck : CheckAcceptabilityOfTrialPoint exampleRunE1.ls exampleEnvE.m exampleRunE1.cq 1 =
      (exampleRunE1.ls, .error Exception.Eval_Error) := rfl
  have htry : TryTrialPoint exampleEnvE exampleRunF 1 1 Direction.orig =
      (exampleRunE1, .error Exception.Eval_Error) := by
    unfold TryTrialPoint
    rw [hset]
    simp only [hm, Bool.false_eq_true, if_false]
    unfold RunCheck
    simp only [hcheck]
    rfl
  have hsoc : ∀ v, TrySecondOrderCorrection exampleEnvE 1 exampleRunE1 v =
      some (exampleRunE1, .error Exception.Eval_Error) := fun _ => rfl
  have hi : InitialLocals exampleEnvE =
      { alpha_primal := 1, alpha_primal_test := 0, accept := false, soc_taken := false,
        n_steps := 0, dir := Direction.orig } := rfl
  have hmax : exampleEnvE.curr_primal_frac_to_the_bound = 1 := rfl
  have hstep : BacktrackingStep exampleEnvE 1 exampleRunF
      { alpha_primal := 1, alpha_primal_test := 0, accept := false, soc_taken := false,
        n_steps := 0, dir := Direction.orig } =
      some (exampleRunE1, .error Exception.Eval_Error) := by
    unfold BacktrackingStep
    simp only [htry, CatchEvalError, hsoc]
  unfold FindAcceptableTrialPoint
  simp only [hmax, hi]
  rw [BacktrackingLoop]
  simp only [or_true, if_true, hstep]

end FilterLineSearch

/-! ## Properties of the object that every operation preserves -/

namespace FilterLineSearch

theorem TryTrialPoint_preserves (P : FilterLineSearch → Prop)
    (hcheck : ∀ s m cq alpha, P s → P (CheckAcceptabilityOfTrialPoint s m cq alpha).1)
    (env : Env) (r : LSRun) (alpha alpha_test : Number) (dir : Direction) (h : P r.ls) :
    P (TryTrialPoint env r alpha alpha_test dir).1.ls := by
  unfold TryTrialPoint
  simp only
  split_ifs
  · split
    · exact h
    · exact hcheck _ _ _ _ h
  · exact hcheck _ _ _ _ h

theorem SocStep_preserves (P : FilterLineSearch → Prop)
    (hcheck : ∀ s m cq alpha, P s → P (CheckAcceptabilityOfTrialPoint s m cq alpha).1)
    (env : Env) (alpha_test theta_curr : Number) (r : LSRun) (v : SocLocals) (h : P r.ls) :
    P (SocStep env alpha_test theta_curr r v).1.ls := by
  have hstep : P (RunCheck env (SetTrialPrimalVariablesFromStep env
      { r with trace := r.trace ++ [Event.Solve v.count_soc] }
      (env.primal_frac_to_the_bound v.count_soc) (Direction.soc v.count_soc))
      alpha_test).1.ls := hcheck _ _ _ _ h
  unfold SocStep
  simp only
  split
  · exact hstep
  · exact hstep
  · split <;> exact hstep

theorem SocLoop_preserves (P : FilterLineSearch → Prop)
    (hcheck : ∀ s m cq alpha, P s → P (CheckAcceptabilityOfTrialPoint s m cq alpha).1)
    (env : Env) (alpha_test theta_curr : Number) (fuel : Nat) :
    ∀ (r : LSRun) (v : SocLocals) (out : LSRun × Except Exception SocLocals),
      SocLoop env alpha_test theta_curr fuel r v = some out → P r.ls → P out.1.ls := by
  induction fuel with
  | zero => intro r v out h; simp [SocLoop] at h
  | succ fuel ih =>
    intro r v out h hP
    rw [SocLoop] at h
    have hstep := SocStep_preserves P hcheck env alpha_test theta_curr r v hP
    by_cases hc : (v.count_soc : Index) < r.ls.max_soc_ ∧
        v.theta_trial ≤ r.ls.kappa_soc_ * v.theta_soc_old ∧ v.accept = false
    · rw [if_pos hc] at h
      rcases hs : SocStep env alpha_test theta_curr r v with ⟨r', e | v'⟩
      · rw [hs] at h hstep
        simp only [Option.some.injEq] at h
        rw [← h]
        exact hstep
      · rw [hs] at h hstep
        exact ih _ _ _ h hstep
    · rw [if_neg hc] at h
      simp only [Option.some.injEq] at h
      rw [← h]
      exact hP

theorem TrySecondOrderCorrection_preserves (P : FilterLineSearch → Prop)
    (hcheck : ∀ s m cq alpha, P s → P (CheckAcceptabilityOfTrialPoint s m cq alpha).1)
    (env : Env) (alpha_primal_max : Number) (r : LSRun) (v : Locals)
    (out : LSRun × Except Exception Locals)
    (h : TrySecondOrderCorrection env alpha_primal_max r v = some out) (hP : P r.ls) :
    P out.1.ls := by
  unfold TrySecondOrderCorrection at h
  simp only at h
  rcases ht : r.cq.trial_constraint_violation with e | theta_trial
  · rw [ht] at h
    simp only [Option.some.injEq] at h
    rw [← h]
    exact hP
  · rw [ht] at h
    simp only at h
    by_cases hc : v.alpha_primal = alpha_primal_max ∧
        r.cq.curr_constraint_violation ≤ theta_trial ∧ r.ls.max_soc_ > 0
    · rw [if_pos hc] at h
      rcases hs : SocLoop env v.alpha_primal_test r.cq.curr_constraint_violation
          (r.ls.max_soc_.toNat + 1) r
          { count_soc := 0, theta_soc_old := 0, theta_trial := 0
            alpha_primal_soc := v.alpha_primal, accept := false } with _ | ⟨r', e | w⟩
      · rw [hs] at h
        simp at h
      · rw [hs] at h
        simp only [Option.some.injEq] at h
        rw [← h]
        exact SocLoop_preserves P hcheck _ _ _ _ _ _ _ hs hP
      · rw [hs] at h
        simp only at h
        have hf := SocLoop_preserves P hcheck _ _ _ _ _ _ _ hs hP
        split_ifs at h <;>
        · simp only [Option.some.injEq] at h
          rw [← h]
          exact hf
    · rw [if_neg hc] at h
      simp only [Option.some.injEq] at h
      rw [← h]
      exact hP

theorem BacktrackingStep_preserves (P : FilterLineSearch → Prop)
    (hcheck : ∀ s m cq alpha, P s → P (CheckAcceptabilityOfTrialPoint s m cq alpha).1)
    (env : Env) (alpha_primal_max : Number) (r : LSRun) (v : Locals)
    (out : LSRun × Except Exception Locals)
    (h : BacktrackingStep env alpha_primal_max r v = some out) (hP : P r.ls) :
    P out.1.ls := by
  unfold BacktrackingStep at h
  simp only at h
  have htry := TryTrialPoint_preserves P hcheck env r v.alpha_primal v.alpha_primal v.dir hP
  split at h
  · simp only [Option.some.injEq] at h
    rw [← h]
    exact htry
  · simp only [Option.some.injEq] at h
    rw [← h]
    exact htry
  · rcases hs : TrySecondOrderCorrection env alpha_primal_max
        (TryTrialPoint env r v.alpha_primal v.alpha_primal v.dir).1
        { v with alpha_primal_test := v.alpha_primal, accept := false } with _ | ⟨r', e | w⟩
    · rw [hs] at h
      simp at h
    · rw [hs] at h
      simp only [Option.some.injEq] at h
      rw [← h]
      exact TrySecondOrderCorrection_preserves P hcheck _ _ _ _ _ hs htry
    · rw [hs] at h
      simp only at h
      have hf := TrySecondOrderCorrection_preserves P hcheck _ _ _ _ _ hs htry
      split_ifs at h <;>
      · simp only [Option.some.injEq] at h
        rw [← h]
        exact hf

theorem BacktrackingLoop_preserves (P : FilterLineSearch → Prop)
    (hcheck : ∀ s m cq alpha, P s → P (CheckAcceptabilityOfTrialPoint s m cq alpha).1)
    (env : Env) (alpha_min alpha_primal_max : Number) (fuel : Nat) :
    ∀ (r : LSRun) (v : Locals) (out : LSRun × Except Exception Locals),
      BacktrackingLoop env alpha_min alpha_primal_max fuel r v = some out →
      P r.ls → P out.1.ls := by
  induction fuel with
  | zero => intro r v out h; simp [BacktrackingLoop] at h
  | succ fuel ih =>
    intro r v out h hP
    rw [BacktrackingLoop] at h
    by_cases hc : v.alpha_primal > alpha_min ∨ v.n_steps = 0
    · rw [if_pos hc] at h
      rcases hs : BacktrackingStep env alpha_primal_max r v with _ | ⟨r', e | w⟩
      · rw [hs] at h
        simp at h
      · rw [hs] at h
        simp only [Option.some.injEq] at h
        rw [← h]
        exact BacktrackingStep_preserves P hcheck _ _ _ _ _ hs hP
      · rw [hs] at h
        simp only at h
        have hf := BacktrackingStep_preserves P hcheck _ _ _ _ _ hs hP
        by_cases hw : w.accept = true
        · rw [if_pos hw] at h
          simp only [Option.some.injEq] at h
          rw [← h]
          exact hf
        · rw [if_neg hw] at h
          exact ih _ _ _ h hf
    · rw [if_neg hc] at h
      simp only [Option.some.injEq] at h
      rw [← h]
      exact hP

theorem Commit_preserves (P : FilterLineSearch → Prop)
    (haug : ∀ s cq iter_count, P s → P (AugmentFilter s cq iter_count))
    (env : Env) (r : LSRun) (v : Locals) (hP : P r.ls) : P (Commit env r v).1.ls := by
  unfold Commit
  simp only
  split
  · exact hP
  · simp only
    split_ifs <;>
      first
        | exact haug _ _ _ hP
        | exact hP

theorem FindAcceptableTrialPoint_preserves (P : FilterLineSearch → Prop)
    (hcheck : ∀ s m cq alpha, P s → P (CheckAcceptabilityOfTrialPoint s m cq alpha).1)
    (haug : ∀ s cq iter_count, P s → P (AugmentFilter s cq iter_count))
    (env : Env) (fuel : Nat) (r : LSRun) (out : LSRun × Except Exception Unit)
    (h : FindAcceptableTrialPoint env fuel r = some out) (hP : P r.ls) : P out.1.ls := by
  unfold FindAcceptableTrialPoint at h
  simp only at h
  rcases hl : BacktrackingLoop env (CalculateAlphaMin r.ls env.m r.cq)
      env.curr_primal_frac_to_the_bound fuel r (InitialLocals env) with _ | ⟨r1, e | v1⟩
  · rw [hl] at h
    simp at h
  · rw [hl] at h
    simp only [Option.some.injEq] at h
    rw [← h]
    exact BacktrackingLoop_preserves P hcheck env _ _ fuel r _ _ hl hP
  · rw [hl] at h
    simp only at h
    have hf : P r1.ls := BacktrackingLoop_preserves P hcheck env _ _ fuel r _ _ hl hP
    have hr := RestorationFallback_ls env r1 v1
    rcases hrf : RestorationFallback env r1 v1 with ⟨r2, e | b⟩
    · rw [hrf] at h hr
      simp only [Option.some.injEq] at h
      rw [← h]
      simp only at hr ⊢
      rw [hr]
      exact hf
    · rw [hrf] at h hr
      simp only [Option.some.injEq] at h
      rw [← h]
      simp only at hr
      exact Commit_preserves P haug env r2 v1 (by rw [hr]; exact hf)

theorem CheckAcceptabilityOfTrialPoint_Initialised (s : FilterLineSearch) (m : CMath)
    (cq : IpoptCalculatedQuantities) (alpha : Number) (h : s.Initialised) :
    (CheckAcceptabilityOfTrialPoint s m cq alpha).1.Initialised := by
  rw [CheckAcceptabilityOfTrialPoint_fst]
  rcases cq.trial_constraint_violation with e | t
  · exact h
  · refine ⟨?_, Or.inr (InitThetaGates_theta_max_pos s _ h.1 h.2)⟩
    rw [InitThetaGates_frame]
    exact h.1

/-- Every operation of the line search keeps the object initialised. -/
theorem applyOps_Initialised (ops : List LSOp) :
    ∀ s s' : FilterLineSearch, s.Initialised → s.applyOps ops = some s' →
      s'.Initialised := by
  induction ops with
  | nil =>
    intro s s' hs h
    simp only [applyOps, Option.some.injEq] at h
    rw [← h]
    exact hs
  | cons op ops ih =>
    intro s s' hs h
    simp only [applyOps] at h
    rcases ho : s.applyOp op with _ | s1
    · rw [ho] at h
      simp at h
    · rw [ho] at h
      refine ih s1 s' ?_ h
      cases op with
      | CheckAcceptabilityOfTrialPoint m cq alpha =>
        simp only [applyOp, Option.some.injEq] at ho
        rw [← ho]
        exact CheckAcceptabilityOfTrialPoint_Initialised s m cq alpha hs
      | AugmentFilter cq iter_count =>
        simp only [applyOp, Option.some.injEq] at ho
        rw [← ho]
        exact hs
      | FindAcceptableTrialPoint env fuel r =>
        simp only [applyOp] at ho
        rcases hf : FindAcceptableTrialPoint env fuel { r with ls := s } with _ | out
        · rw [hf] at ho
          simp at ho
        · rw [hf] at ho
          simp only [Option.some.injEq] at ho
          rw [← ho]
          exact FindAcceptableTrialPoint_preserves Initialised
            CheckAcceptabilityOfTrialPoint_Initialised (fun _ _ _ h => h) env fuel _ out hf hs
      | Reset =>
        simp only [applyOp, Option.some.injEq] at ho
        rw [← ho]
        exact hs

/-- The object as left by the constructor and `InitializeImpl` is initialised. -/
theorem exampleLineSearch_Initialised : exampleLineSearch.Initialised := by
  constructor
  · norm_num [exampleLineSearch]
  · left
    norm_num [exampleLineSearch]

end FilterLineSearch

/-! ## Facts about `InitializeImpl` -/

theorem InitOutcome.andThen_of_ok (s : FilterLineSearch) (u : Unit)
    (f : FilterLineSearch → InitOutcome) :
    InitOutcome.andThen (s, .ok u) f = f s := rfl

theorem InitOutcome.andThen_of_error (s : FilterLineSearch) (e : OptionsException)
    (f : FilterLineSearch → InitOutcome) :
    InitOutcome.andThen (s, .error e) f = (s, .error e) := rfl

theorem InitOutcome.andThen_ok_inv (r : InitOutcome) (f : FilterLineSearch → InitOutcome)
    (h : (r.andThen f).2 = .ok ()) : r.2 = .ok () ∧ (f r.1).2 = .ok () := by
  rcases r with ⟨s, e | u⟩
  · simp [InitOutcome.andThen] at h
  · exact ⟨rfl, h⟩

theorem InitNumeric_of_valid (opt : Option Number) (inRange : Number → Bool)
    (dflt : Number) (set : FilterLineSearch → Number → FilterLineSearch)
    (s : FilterLineSearch) (h : ∀ v, opt = some v → inRange v = true) :
    InitNumeric opt inRange dflt set s = (set s (opt.getD dflt), .ok ()) := by
  cases opt with
  | none => rfl
  | some v => simp [InitNumeric, h v rfl]

theorem InitNumeric_of_invalid (opt : Option Number) (inRange : Number → Bool)
    (dflt : Number) (set : FilterLineSearch → Number → FilterLineSearch)
    (s : FilterLineSearch) (v : Number) (hv : opt = some v) (h : inRange v = false) :
    InitNumeric opt inRange dflt set s =
      (s, .error OptionsException.OPTION_OUT_OF_RANGE) := by
  subst hv
  simp [InitNumeric, h]

theorem InitNumeric_ok_inv (opt : Option Number) (inRange : Number → Bool)
    (dflt : Number) (set : FilterLineSearch → Number → FilterLineSearch)
    (s : FilterLineSearch) (h : (InitNumeric opt inRange dflt set s).2 = .ok ()) :
    (∀ v, opt = some v → inRange v = true) ∧
      (InitNumeric opt inRange dflt set s).1 = set s (opt.getD dflt) := by
  cases opt with
  | none => exact ⟨fun v hv => by simp at hv, rfl⟩
  | some w =>
    rcases hr : inRange w
    · simp [InitNumeric, hr] at h
    · refine ⟨fun v hv => ?_, by simp [InitNumeric, hr]⟩
      injection hv with hv
      rw [← hv, hr]

theorem InitMaxSoc_of_valid (opt : Option Index) (s : FilterLineSearch)
    (h1 : ∀ v, opt = some v → v ≥ 0) (h2 : opt.getD 4 > 0 → s.pd_solver_ = true) :
    InitMaxSoc opt s = ({ s with max_soc_ := opt.getD 4 }, .ok ()) := by
  cases opt with
  | none =>
    have hp : s.pd_solver_ = true := h2 (by simp)
    simp [InitMaxSoc, InitOutcome.andThen, hp]
  | some v =>
    have hv := h1 v rfl
    by_cases hpos : v > 0
    · have hp : s.pd_solver_ = true := h2 (by simpa using hpos)
      simp [InitMaxSoc, InitOutcome.andThen, hv, hp]
    · simp [InitMaxSoc, InitOutcome.andThen, hv, hpos]

theorem InitMaxSoc_ok_inv (opt : Option Index) (s : FilterLineSearch)
    (h : (InitMaxSoc opt s).2 = .ok ()) :
    ((∀ v, opt = some v → v ≥ 0) ∧ (opt.getD 4 > 0 → s.pd_solver_ = true)) ∧
      (InitMaxSoc opt s).1 = { s with max_soc_ := opt.getD 4 } := by
  have hvalid : (∀ v, opt = some v → v ≥ 0) ∧ (opt.getD 4 > 0 → s.pd_solver_ = true) := by
    cases opt with
    | none =>
      refine ⟨fun v hv => by simp at hv, fun _ => ?_⟩
      by_contra hp
      simp [InitMaxSoc, InitOutcome.andThen, hp] at h
    | some w =>
      by_cases hw : w ≥ 0
      · refine ⟨fun v hv => by injection hv with hv; rw [← hv]; exact hw, fun hpos => ?_⟩
        by_contra hp
        have hpos' : w > 0 := by simpa using hpos
        simp [InitMaxSoc, InitOutcome.andThen, hw, hp, hpos'] at h
      · simp [InitMaxSoc, InitOutcome.andThen, hw] at h
  refine ⟨hvalid, ?_⟩
  rw [InitMaxSoc_of_valid opt s hvalid.1 hvalid.2]

theorem FilterLineSearch.InitializeOptions_of_InRange (s : FilterLineSearch)
    (options : OptionsList) (pfx : String) (h : options.InRange pfx s.pd_solver_) :
    FilterLineSearch.InitializeOptions s options pfx = (s.withOptions options pfx, .ok ()) := by
  obtain ⟨h1, h2, h3, h4, h5, h6, h7, h8, h9, h10, ⟨h11, h11'⟩, h12, h13⟩ := h
  unfold FilterLineSearch.InitializeOptions
  rw [InitNumeric_of_valid _ _ _ _ _ (fun v hv => by simpa using h1 v hv),
    InitOutcome.andThen_of_ok]
  simp only []
  rw [InitNumeric_of_valid _ _ _ _ _ (fun v hv => by simpa using h2 v hv),
    InitOutcome.andThen_of_ok]
  simp only []
  rw [InitNumeric_of_valid _ _ _ _ _ (fun v hv => by simpa using h3 v hv),
    InitOutcome.andThen_of_ok]
  simp only []
  rw [InitNumeric_of_valid _ _ _ _ _ (fun v hv => by simpa using h4 v hv),
    InitOutcome.andThen_of_ok]
  simp only []
  rw [InitNumeric_of_valid _ _ _ _ _ (fun v hv => by simpa using h5 v hv),
    InitOutcome.andThen_of_ok]
  simp only []
  rw [InitNumeric_of_valid _ _ _ _ _ (fun v hv => by simpa using h6 v hv),
    InitOutcome.andThen_of_ok]
  simp only []
  rw [InitNumeric_of_valid _ _ _ _ _ (fun v hv => by simpa using h7 v hv),
    InitOutcome.andThen_of_ok]
  simp only []
  rw [InitNumeric_of_valid _ _ _ _ _ (fun v hv => by simpa using h8 v hv),
    InitOutcome.andThen_of_ok]
  simp only []
  rw [InitNumeric_of_valid _ _ _ _ _ (fun v hv => by simpa using h9 v hv),
    InitOutcome.andThen_of_ok]
  simp only []
  rw [InitNumeric_of_valid _ _ _ _ _ (fun v hv => by simpa using h10 v hv),
    InitOutcome.andThen_of_ok]
  simp only []
  rw [InitMaxSoc_of_valid _ _ h11 (by exact h11'), InitOutcome.andThen_of_ok]
  simp only []
  rw [InitNumeric_of_valid _ _ _ _ _ (fun v hv => by simpa using h12 v hv),
    InitOutcome.andThen_of_ok]
  simp only []
  rw [InitNumeric_of_valid _ _ _ _ _ (fun v hv => by simpa using h13 v hv),
    InitOutcome.andThen_of_ok]
  simp only []
  unfold InitMagicSteps FilterLineSearch.withOptions
  cases options.GetIntegerValue "magic_steps" pfx <;> rfl

theorem FilterLineSearch.InitializeOptions_ok_inv (s : FilterLineSearch)
    (options : OptionsList) (pfx : String)
    (h : (FilterLineSearch.InitializeOptions s options pfx).2 = .ok ()) :
    options.InRange pfx s.pd_solver_ := by
  unfold FilterLineSearch.InitializeOptions at h
  obtain ⟨ha, h⟩ := InitOutcome.andThen_ok_inv _ _ h
  obtain ⟨v1, he⟩ := InitNumeric_ok_inv _ _ _ _ _ ha
  rw [he] at h
  simp only [] at h
  clear ha he
  obtain ⟨ha, h⟩ := InitOutcome.andThen_ok_inv _ _ h
  obtain ⟨v2, he⟩ := InitNumeric_ok_inv _ _ _ _ _ ha
  rw [he] at h
  simp only [] at h
  clear ha he
  obtain ⟨ha, h⟩ := InitOutcome.andThen_ok_inv _ _ h
  obtain ⟨v3, he⟩ := InitNumeric_ok_inv _ _ _ _ _ ha
  rw [he] at h
  simp only [] at h
  clear ha he
  obtain ⟨ha, h⟩ := InitOutcome.andThen_ok_inv _ _ h
  obtain ⟨v4, he⟩ := InitNumeric_ok_inv _ _ _ _ _ ha
  rw [he] at h
  simp only [] at h
  clear ha he
  obtain ⟨ha, h⟩ := InitOutcome.andThen_ok_inv _ _ h
  obtain ⟨v5, he⟩ := InitNumeric_ok_inv _ _ _ _ _ ha
  rw [he] at h
  simp only [] at h
  clear ha he
  obtain ⟨ha, h⟩ := InitOutcome.andThen_ok_inv _ _ h
  obtain ⟨v6, he⟩ := InitNumeric_ok_inv _ _ _ _ _ ha
  rw [he] at h
  simp only [] at h
  clear ha he
  obtain ⟨ha, h⟩ := InitOutcome.andThen_ok_inv _ _ h
  obtain ⟨v7, he⟩ := InitNumeric_ok_inv _ _ _ _ _ ha
  rw [he] at h
  simp only [] at h
  clear ha he
  obtain ⟨ha, h⟩ := InitOutcome.andThen_ok_inv _ _ h
  obtain ⟨v8, he⟩ := InitNumeric_ok_inv _ _ _ _ _ ha
  rw [he] at h
  simp only [] at h
  clear ha he
  obtain ⟨ha, h⟩ := InitOutcome.andThen_ok_inv _ _ h
  obtain ⟨v9, he⟩ := InitNumeric_ok_inv _ _ _ _ _ ha
  rw [he] at h
  simp only [] at h
  clear ha he
  obtain ⟨ha, h⟩ := InitOutcome.andThen_ok_inv _ _ h
  obtain ⟨v10, he⟩ := InitNumeric_ok_inv _ _ _ _ _ ha
  rw [he] at h
  simp only [] at h
  clear ha he
  obtain ⟨ha, h⟩ := InitOutcome.andThen_ok_inv _ _ h
  obtain ⟨v11, he⟩ := InitMaxSoc_ok_inv _ _ ha
  rw [he] at h
  simp only [] at h
  clear ha he
  obtain ⟨ha, h⟩ := InitOutcome.andThen_ok_inv _ _ h
  obtain ⟨v12, he⟩ := InitNumeric_ok_inv _ _ _ _ _ ha
  rw [he] at h
  simp only [] at h
  clear ha he
  obtain ⟨ha, h⟩ := InitOutcome.andThen_ok_inv _ _ h
  obtain ⟨v13, -⟩ := InitNumeric_ok_inv _ _ _ _ _ ha
  clear ha h
  refine ⟨fun v hv => by simpa using v1 v hv, fun v hv => by simpa using v2 v hv,
    fun v hv => by simpa using v3 v hv, fun v hv => by simpa using v4 v hv,
    fun v hv => by simpa using v5 v hv, fun v hv => by simpa using v6 v hv,
    fun v hv => by simpa using v7 v hv, fun v hv => by simpa using v8 v hv,
    fun v hv => by simpa using v9 v hv, fun v hv => by simpa using v10 v hv,
    v11, fun v hv => by simpa using v12 v hv, fun v hv => by simpa using v13 v hv⟩

theorem FilterLineSearch.InitializeImpl_of_InRange (s : FilterLineSearch)
    (options : OptionsList) (pfx : String) (resto_Initialize : Bool)
    (h : options.InRange pfx s.pd_solver_) :
    FilterLineSearch.InitializeImpl s options pfx resto_Initialize =
      (s.withOptions options pfx,
        .ok (if s.resto_phase_ = true then resto_Initialize else true)) := by
  unfold FilterLineSearch.InitializeImpl
  rw [FilterLineSearch.InitializeOptions_of_InRange s options pfx h]
  rfl

theorem FilterLineSearch.InitializeImpl_error_of_not_InRange (s : FilterLineSearch)
    (options : OptionsList) (pfx : String) (resto_Initialize : Bool)
    (h : ¬ options.InRange pfx s.pd_solver_) :
    (FilterLineSearch.InitializeImpl s options pfx resto_Initialize).2 =
      .error OptionsException.OPTION_OUT_OF_RANGE := by
  unfold FilterLineSearch.InitializeImpl
  rcases hr : FilterLineSearch.InitializeOptions s options pfx with ⟨s1, e | u⟩
  · cases e
    rfl
  · exact absurd (FilterLineSearch.InitializeOptions_ok_inv s options pfx (by rw [hr])) h

/-! ## Facts about the record of calls -/

theorem LSRun.Extends.refl_ext (Q : Event → Prop) (r : LSRun) : r.Extends Q r :=
  ⟨[], by simp, fun e he => by simp at he⟩

theorem LSRun.Extends.trans_ext {Q : Event → Prop} {r1 r2 r3 : LSRun}
    (h12 : r1.Extends Q r2) (h23 : r2.Extends Q r3) : r1.Extends Q r3 := by
  obtain ⟨a, ha, hqa⟩ := h12
  obtain ⟨b, hb, hqb⟩ := h23
  refine ⟨a ++ b, by rw [hb, ha, List.append_assoc], fun e he => ?_⟩
  rcases List.mem_append.mp he with h | h
  · exact hqa e h
  · exact hqb e h

theorem LSRun.Extends.of_append {Q : Event → Prop} (r r' : LSRun) (l : List Event)
    (h : r'.trace = r.trace ++ l) (hq : ∀ e ∈ l, Q e) : r.Extends Q r' :=
  ⟨l, h, hq⟩

theorem LSRun.Extends.count_eq {Q : Event → Prop} {r r' : LSRun} (e0 : Event)
    (h : r.Extends Q r') (hq : ¬ Q e0) : r'.trace.count e0 = r.trace.count e0 := by
  obtain ⟨a, ha, hqa⟩ := h
  rw [ha, List.count_append]
  have : a.count e0 = 0 := List.count_eq_zero.mpr (fun hmem => hq (hqa e0 hmem))
  omega

namespace FilterLineSearch

theorem CheckAcceptabilityOfTrialPoint_max_soc (ms : Index) (s : FilterLineSearch)
    (m : CMath) (cq : IpoptCalculatedQuantities) (alpha : Number) (h : s.max_soc_ = ms) :
    (CheckAcceptabilityOfTrialPoint s m cq alpha).1.max_soc_ = ms := by
  rw [CheckAcceptabilityOfTrialPoint_GatesOnly s m cq alpha]
  exact h

theorem RunCheck_Extends (Q : Event → Prop) (env : Env) (r : LSRun) (alpha : Number)
    (hq : Q (Event.CheckAcceptabilityOfTrialPoint alpha)) :
    r.Extends Q (RunCheck env r alpha).1 :=
  ⟨[Event.CheckAcceptabilityOfTrialPoint alpha], rfl, fun e he => by
    rw [List.mem_singleton] at he
    rw [he]
    exact hq⟩

theorem SetTrialPrimalVariablesFromStep_Extends (Q : Event → Prop) (env : Env)
    (r : LSRun) (alpha : Number) (dir : Direction)
    (hq : Q (Event.SetTrialPrimalVariablesFromStep alpha dir)) :
    r.Extends Q (SetTrialPrimalVariablesFromStep env r alpha dir) :=
  ⟨[Event.SetTrialPrimalVariablesFromStep alpha dir], rfl, fun e he => by
    rw [List.mem_singleton] at he
    rw [he]
    exact hq⟩

theorem TryTrialPoint_Extends (Q : Event → Prop) (env : Env) (r : LSRun)
    (alpha alpha_test : Number) (dir : Direction)
    (hmagic : Q Event.PerformMagicStep)
    (hcheck : Q (Event.CheckAcceptabilityOfTrialPoint alpha_test)) :
    (SetTrialPrimalVariablesFromStep env r alpha dir).Extends Q
      (TryTrialPoint env r alpha alpha_test dir).1 := by
  have hm : (SetTrialPrimalVariablesFromStep env r alpha dir).Extends Q
      { SetTrialPrimalVariablesFromStep env r alpha dir with
        trace := (SetTrialPrimalVariablesFromStep env r alpha dir).trace ++
          [Event.PerformMagicStep] } :=
    ⟨[Event.PerformMagicStep], rfl, fun e he => by
      rw [List.mem_singleton] at he
      rw [he]
      exact hmagic⟩
  unfold TryTrialPoint
  simp only
  split_ifs
  · split
    · exact hm
    · exact hm.trans_ext (RunCheck_Extends Q env _ alpha_test hcheck)
  · exact RunCheck_Extends Q env _ alpha_test hcheck

theorem SocStep_Extends (Q : Event → Prop) (env : Env) (alpha_test theta_curr : Number)
    (r : LSRun) (v : SocLocals) (ms : Index) (hQ : LoopEventsOk Q ms) (hms : 0 < ms) :
    r.Extends Q (SocStep env alpha_test theta_curr r v).1 := by
  obtain ⟨_, _, hcheck, hsoc⟩ := hQ
  obtain ⟨hsolve, hset⟩ := hsoc hms
  have h1 : r.Extends Q { r with trace := r.trace ++ [Event.Solve v.count_soc] } :=
    ⟨[Event.Solve v.count_soc], rfl, fun e he => by
      rw [List.mem_singleton] at he
      rw [he]
      exact hsolve _⟩
  have hstep : r.Extends Q (RunCheck env (SetTrialPrimalVariablesFromStep env
      { r with trace := r.trace ++ [Event.Solve v.count_soc] }
      (env.primal_frac_to_the_bound v.count_soc) (Direction.soc v.count_soc)) alpha_test).1 :=
    h1.trans_ext ((SetTrialPrimalVariablesFromStep_Extends Q env _ _ _ (hset _ _)).trans_ext
      (RunCheck_Extends Q env _ alpha_test (hcheck _)))
  unfold SocStep
  simp only
  split
  · exact hstep
  · exact hstep
  · split <;> exact hstep

theorem SocLoop_Extends (Q : Event → Prop) (env : Env) (alpha_test theta_curr : Number)
    (ms : Index) (hQ : LoopEventsOk Q ms) (hms : 0 < ms) (fuel : Nat) :
    ∀ (r : LSRun) (v : SocLocals) (out : LSRun × Except Exception SocLocals),
      SocLoop env alpha_test theta_curr fuel r v = some out → r.Extends Q out.1 := by
  induction fuel with
  | zero => intro r v out h; simp [SocLoop] at h
  | succ fuel ih =>
    intro r v out h
    rw [SocLoop] at h
    have hstep := SocStep_Extends Q env alpha_test theta_curr r v ms hQ hms
    by_cases hc : (v.count_soc : Index) < r.ls.max_soc_ ∧
        v.theta_trial ≤ r.ls.kappa_soc_ * v.theta_soc_old ∧ v.accept = false
    · rw [if_pos hc] at h
      rcases hs : SocStep env alpha_test theta_curr r v with ⟨r', e | v'⟩
      · rw [hs] at h hstep
        simp only [Option.some.injEq] at h
        rw [← h]
        exact hstep
      · rw [hs] at h hstep
        exact hstep.trans_ext (ih _ _ _ h)
    · rw [if_neg hc] at h
      simp only [Option.some.injEq] at h
      rw [← h]
      exact LSRun.Extends.refl_ext Q r

end FilterLineSearch

namespace FilterLineSearch

/-- The second-order correction only adds calls satisfying `Q`, and either
leaves the locals as they are or (only when `max_soc_ > 0`) accepts. -/
theorem TrySecondOrderCorrection_Extends (Q : Event → Prop) (env : Env)
    (alpha_primal_max : Number) (r : LSRun) (v : Locals)
    (out : LSRun × Except Exception Locals) (hQ : LoopEventsOk Q r.ls.max_soc_)
    (h : TrySecondOrderCorrection env alpha_primal_max r v = some out) :
    r.Extends Q out.1 ∧
      ∀ w, out.2 = .ok w → w = v ∨ (0 < r.ls.max_soc_ ∧ w.accept = true) := by
  unfold TrySecondOrderCorrection at h
  simp only at h
  rcases ht : r.cq.trial_constraint_violation with e | theta_trial
  · rw [ht] at h
    simp only [Option.some.injEq] at h
    rw [← h]
    exact ⟨LSRun.Extends.refl_ext Q r, fun w hw => by simp at hw⟩
  · rw [ht] at h
    simp only at h
    by_cases hc : v.alpha_primal = alpha_primal_max ∧
        r.cq.curr_constraint_violation ≤ theta_trial ∧ r.ls.max_soc_ > 0
    · rw [if_pos hc] at h
      have hms : 0 < r.ls.max_soc_ := hc.2.2
      rcases hs : SocLoop env v.alpha_primal_test r.cq.curr_constraint_violation
          (r.ls.max_soc_.toNat + 1) r
          { count_soc := 0, theta_soc_old := 0, theta_trial := 0
            alpha_primal_soc := v.alpha_primal, accept := false } with _ | ⟨r', e | w⟩
      · rw [hs] at h
        simp at h
      · rw [hs] at h
        simp only [Option.some.injEq] at h
        rw [← h]
        exact ⟨SocLoop_Extends Q env _ _ _ hQ hms _ _ _ _ hs, fun w hw => by simp at hw⟩
      · rw [hs] at h
        simp only at h
        have hf := SocLoop_Extends Q env _ _ _ hQ hms _ _ _ _ hs
        by_cases hw : w.accept = true
        · rw [if_pos hw] at h
          simp only [Option.some.injEq] at h
          rw [← h]
          refine ⟨hf, fun w' hw' => Or.inr ⟨hms, ?_⟩⟩
          simp only [Except.ok.injEq] at hw'
          rw [← hw']
        · rw [if_neg hw] at h
          simp only [Option.some.injEq] at h
          rw [← h]
          refine ⟨hf, fun w' hw' => Or.inl ?_⟩
          simp only [Except.ok.injEq] at hw'
          exact hw'.symm
    · rw [if_neg hc] at h
      simp only [Option.some.injEq] at h
      rw [← h]
      refine ⟨LSRun.Extends.refl_ext Q r, fun w' hw' => Or.inl ?_⟩
      simp only [Except.ok.injEq] at hw'
      exact hw'.symm

/-- One pass of the backtracking loop, started with the original direction:
the record of calls is extended by the call that sets the trial point at the
current step size, followed by calls satisfying `Q`; the direction and
`soc_taken` only change when a second-order correction is accepted. -/
theorem BacktrackingStep_Extends (Q : Event → Prop) (env : Env)
    (alpha_primal_max : Number) (r : LSRun) (v : Locals)
    (out : LSRun × Except Exception Locals) (hQ : LoopEventsOk Q r.ls.max_soc_)
    (h : BacktrackingStep env alpha_primal_max r v = some out) :
    (SetTrialPrimalVariablesFromStep env r v.alpha_primal v.dir).Extends Q out.1 ∧
      ∀ w, out.2 = .ok w →
        (w.dir = v.dir ∧ w.soc_taken = v.soc_taken) ∨
          (0 < r.ls.max_soc_ ∧ w.accept = true) := by
  unfold BacktrackingStep at h
  simp only at h
  have htry := TryTrialPoint_Extends Q env r v.alpha_primal v.alpha_primal v.dir
    hQ.2.1 (hQ.2.2.1 _)
  have hms : (TryTrialPoint env r v.alpha_primal v.alpha_primal v.dir).1.ls.max_soc_ =
      r.ls.max_soc_ :=
    TryTrialPoint_preserves (fun s => s.max_soc_ = r.ls.max_soc_)
      (CheckAcceptabilityOfTrialPoint_max_soc r.ls.max_soc_) env r _ _ _ rfl
  split at h
  · simp only [Option.some.injEq] at h
    rw [← h]
    exact ⟨htry, fun w hw => by simp at hw⟩
  · simp only [Option.some.injEq] at h
    rw [← h]
    refine ⟨htry, fun w hw => Or.inl ?_⟩
    simp only [Except.ok.injEq] at hw
    rw [← hw]
    exact ⟨rfl, rfl⟩
  · rcases hs : TrySecondOrderCorrection env alpha_primal_max
        (TryTrialPoint env r v.alpha_primal v.alpha_primal v.dir).1
        { v with alpha_primal_test := v.alpha_primal, accept := false } with _ | ⟨r', e | w⟩
    · rw [hs] at h
      simp at h
    · rw [hs] at h
      simp only [Option.some.injEq] at h
      rw [← h]
      exact ⟨htry.trans_ext
        (TrySecondOrderCorrection_Extends Q env _ _ _ _ (by rw [hms]; exact hQ) hs).1,
        fun w hw => by simp at hw⟩
    · rw [hs] at h
      simp only at h
      obtain ⟨hext, hloc⟩ :=
        TrySecondOrderCorrection_Extends Q env _ _ _ _ (by rw [hms]; exact hQ) hs
      have hw := hloc w rfl
      rw [hms] at hw
      by_cases hacc : w.accept = true
      · rw [if_pos hacc] at h
        simp only [Option.some.injEq] at h
        rw [← h]
        refine ⟨htry.trans_ext hext, fun w' hw' => ?_⟩
        simp only [Except.ok.injEq] at hw'
        rw [← hw']
        rcases hw with hw | hw
        · rw [hw] at hacc
          simp at hacc
        · exact Or.inr hw
      · rw [if_neg hacc] at h
        simp only [Option.some.injEq] at h
        rw [← h]
        refine ⟨htry.trans_ext hext, fun w' hw' => Or.inl ?_⟩
        simp only [Except.ok.injEq] at hw'
        rw [← hw']
        rcases hw with hw | hw
        · rw [hw]
          exact ⟨rfl, rfl⟩
        · exact absurd hw.2 hacc

end FilterLineSearch

namespace FilterLineSearch

theorem BacktrackingLoop_Extends (Q : Event → Prop) (env : Env)
    (alpha_min alpha_primal_max : Number) (fuel : Nat) :
    ∀ (r : LSRun) (v : Locals) (out : LSRun × Except Exception Locals),
      BacktrackingLoop env alpha_min alpha_primal_max fuel r v = some out →
      LoopEventsOk Q r.ls.max_soc_ → v.dir = Direction.orig →
      r.Extends Q out.1 ∧
        ∀ w, out.2 = .ok w →
          (w.dir = Direction.orig ∧ w.soc_taken = v.soc_taken) ∨ 0 < r.ls.max_soc_ := by
  induction fuel with
  | zero => intro r v out h; simp [BacktrackingLoop] at h
  | succ fuel ih =>
    intro r v out h hQ hdir
    rw [BacktrackingLoop] at h
    by_cases hc : v.alpha_primal > alpha_min ∨ v.n_steps = 0
    · rw [if_pos hc] at h
      have hset : r.Extends Q (SetTrialPrimalVariablesFromStep env r v.alpha_primal v.dir) :=
        SetTrialPrimalVariablesFromStep_Extends Q env r _ _ (by rw [hdir]; exact hQ.1 _)
      rcases hs : BacktrackingStep env alpha_primal_max r v with _ | ⟨r', e | w⟩
      · rw [hs] at h
        simp at h
      · rw [hs] at h
        simp only [Option.some.injEq] at h
        rw [← h]
        exact ⟨hset.trans_ext (BacktrackingStep_Extends Q env _ _ _ _ hQ hs).1,
          fun w hw => by simp at hw⟩
      · rw [hs] at h
        simp only at h
        obtain ⟨hext, hloc⟩ := BacktrackingStep_Extends Q env _ _ _ _ hQ hs
        have hw := hloc w rfl
        have hms : r'.ls.max_soc_ = r.ls.max_soc_ :=
          BacktrackingStep_preserves (fun s => s.max_soc_ = r.ls.max_soc_)
            (CheckAcceptabilityOfTrialPoint_max_soc r.ls.max_soc_) env _ r v _ hs rfl
        by_cases hacc : w.accept = true
        · rw [if_pos hacc] at h
          simp only [Option.some.injEq] at h
          rw [← h]
          refine ⟨hset.trans_ext hext, fun w' hw' => ?_⟩
          simp only [Except.ok.injEq] at hw'
          rw [← hw']
          rcases hw with hw | hw
          · exact Or.inl ⟨by rw [hw.1, hdir], hw.2⟩
          · exact Or.inr hw.1
        · rw [if_neg hacc] at h
          have hwd : w.dir = Direction.orig ∧ w.soc_taken = v.soc_taken := by
            rcases hw with hw | hw
            · exact ⟨by rw [hw.1, hdir], hw.2⟩
            · exact absurd hw.2 hacc
          obtain ⟨hext2, hloc2⟩ := ih r' w out h (by rw [hms]; exact hQ) hwd.1
          refine ⟨(hset.trans_ext hext).trans_ext hext2, fun w' hw' => ?_⟩
          rcases hloc2 w' hw' with h2 | h2
          · exact Or.inl ⟨h2.1, by rw [h2.2, hwd.2]⟩
          · exact Or.inr (by rw [← hms]; exact h2)
    · rw [if_neg hc] at h
      simp only [Option.some.injEq] at h
      rw [← h]
      refine ⟨LSRun.Extends.refl_ext Q r, fun w' hw' => Or.inl ?_⟩
      simp only [Except.ok.injEq] at hw'
      rw [← hw']
      exact ⟨hdir, rfl⟩

theorem LoopEventsOk_True (ms : Index) : LoopEventsOk (fun _ => True) ms :=
  ⟨fun _ => trivial, trivial, fun _ => trivial, fun _ => ⟨fun _ => trivial, fun _ _ => trivial⟩⟩

/-- The first call made by the backtracking loop, when it is entered with
`n_steps = 0` and the original direction, sets the trial point with the step
size the loop was entered with. -/
theorem BacktrackingLoop_first_call (env : Env) (alpha_min alpha_primal_max : Number)
    (fuel : Nat) (r : LSRun) (v : Locals) (out : LSRun × Except Exception Locals)
    (h : BacktrackingLoop env alpha_min alpha_primal_max fuel r v = some out)
    (hn : v.n_steps = 0) (hdir : v.dir = Direction.orig) :
    ∃ rest, out.1.trace =
      r.trace ++ Event.SetTrialPrimalVariablesFromStep v.alpha_primal Direction.orig :: rest := by
  have key : ∀ r' : LSRun,
      (SetTrialPrimalVariablesFromStep env r v.alpha_primal v.dir).Extends (fun _ => True) r' →
      ∃ rest, r'.trace =
        r.trace ++ Event.SetTrialPrimalVariablesFromStep v.alpha_primal Direction.orig :: rest := by
    rintro r' ⟨added, ha, -⟩
    refine ⟨added, ?_⟩
    rw [ha, hdir]
    simp [SetTrialPrimalVariablesFromStep]
  cases fuel with
  | zero => simp [BacktrackingLoop] at h
  | succ fuel =>
    rw [BacktrackingLoop, if_pos (Or.inr hn)] at h
    rcases hs : BacktrackingStep env alpha_primal_max r v with _ | ⟨r', e | w⟩
    · rw [hs] at h
      simp at h
    · rw [hs] at h
      simp only [Option.some.injEq] at h
      rw [← h]
      exact key _ (BacktrackingStep_Extends _ env _ _ _ _ (LoopEventsOk_True _) hs).1
    · rw [hs] at h
      simp only at h
      obtain ⟨hext, hloc⟩ := BacktrackingStep_Extends _ env _ _ _ _ (LoopEventsOk_True _) hs
      by_cases hacc : w.accept = true
      · rw [if_pos hacc] at h
        simp only [Option.some.injEq] at h
        rw [← h]
        exact key _ hext
      · rw [if_neg hacc] at h
        have hwd : w.dir = Direction.orig := by
          rcases hloc w rfl with hw | hw
          · rw [hw.1, hdir]
          · exact absurd hw.2 hacc
        exact key _ (hext.trans_ext
          (BacktrackingLoop_Extends _ env _ _ fuel r' w out h (LoopEventsOk_True _) hwd).1)

theorem RestorationFallback_trace (env : Env) (r : LSRun) (v : Locals) :
    (RestorationFallback env r v).1.trace =
      if v.accept = false ∧ r.ls.resto_phase_ = true then
        r.trace ++ [Event.PerformRestoration]
      else r.trace := by
  unfold RestorationFallback
  rcases v.accept <;> rcases r.ls.resto_phase_ <;> rcases env.debug <;>
    rcases env.resto.1 <;> simp

theorem Commit_Extends (Q : Event → Prop) (env : Env) (r : LSRun) (v : Locals)
    (haug : Q Event.AugmentFilter)
    (heq : Q (Event.SetTrialEqMultipilersFromStep v.alpha_primal v.dir))
    (hbound : Q (Event.SetTrialBoundMutlipliersFromStep
      (env.dual_frac_to_the_bound v.dir) v.dir)) :
    r.Extends Q (Commit env r v).1 := by
  unfold Commit
  simp only
  split
  · exact LSRun.Extends.refl_ext Q r
  · rename_i augment _
    rcases augment
    · refine ⟨[Event.SetTrialEqMultipilersFromStep v.alpha_primal v.dir,
        Event.SetTrialBoundMutlipliersFromStep (env.dual_frac_to_the_bound v.dir) v.dir],
        by simp, fun e he => ?_⟩
      simp only [List.mem_cons, List.mem_singleton, List.not_mem_nil, or_false] at he
      rcases he with he | he <;> rw [he] <;> assumption
    · refine ⟨[Event.AugmentFilter,
        Event.SetTrialEqMultipilersFromStep v.alpha_primal v.dir,
        Event.SetTrialBoundMutlipliersFromStep (env.dual_frac_to_the_bound v.dir) v.dir],
        by simp, fun e he => ?_⟩
      simp only [List.mem_cons, List.mem_singleton, List.not_mem_nil, or_false] at he
      rcases he with he | he | he <;> rw [he] <;> assumption

theorem Commit_flag_of_Plain (env : Env) (r : LSRun) (v : Locals)
    (hv : v.soc_taken = false) (h : (Commit env r v).2 = .ok ()) :
    (Commit env r v).1.info_alpha_primal_char = 'f' ∨
      (Commit env r v).1.info_alpha_primal_char = 'h' := by
  unfold Commit at h ⊢
  simp only at h ⊢
  split
  · rename_i heq
    rw [heq] at h
    simp at h
  · rename_i augment _
    rcases augment <;> simp [hv]

end FilterLineSearch

namespace FilterLineSearch

theorem LoopEventsOk_ne_PerformRestoration (ms : Index) :
    LoopEventsOk (fun e => e ≠ Event.PerformRestoration) ms :=
  ⟨fun _ => by simp, by simp, fun _ => by simp, fun _ => ⟨fun _ => by simp, fun _ _ => by simp⟩⟩

theorem LoopEventsOk_NoSoc : LoopEventsOk Event.NoSoc 0 :=
  ⟨fun _ => trivial, trivial, fun _ => trivial, fun h => absurd h (lt_irrefl 0)⟩

/-- The outcome of `FindAcceptableTrialPoint` once the backtracking loop has
ended normally: the restoration fallback, then `Commit` unless an assertion
failed. -/
theorem FindAcceptableTrialPoint_of_loop (env : Env) (fuel : Nat) (r r1 : LSRun)
    (v1 : Locals)
    (hloop : BacktrackingLoop env (CalculateAlphaMin r.ls env.m r.cq)
      env.curr_primal_frac_to_the_bound fuel r (InitialLocals env) = some (r1, .ok v1)) :
    FindAcceptableTrialPoint env fuel r =
      match RestorationFallback env r1 v1 with
      | (r, .error e) => some (r, .error e)
      | (r, .ok _) => some (Commit env r v1) := by
  unfold FindAcceptableTrialPoint
  simp only [hloop]

theorem FindAcceptableTrialPoint_of_loop_error (env : Env) (fuel : Nat) (r r1 : LSRun)
    (e : Exception)
    (hloop : BacktrackingLoop env (CalculateAlphaMin r.ls env.m r.cq)
      env.curr_primal_frac_to_the_bound fuel r (InitialLocals env) = some (r1, .error e)) :
    FindAcceptableTrialPoint env fuel r = some (r1, .error e) := by
  unfold FindAcceptableTrialPoint
  simp only [hloop]

theorem FindAcceptableTrialPoint_none_of_loop (env : Env) (fuel : Nat) (r : LSRun)
    (hloop : BacktrackingLoop env (CalculateAlphaMin r.ls env.m r.cq)
      env.curr_primal_frac_to_the_bound fuel r (InitialLocals env) = none) :
    FindAcceptableTrialPoint env fuel r = none := by
  unfold FindAcceptableTrialPoint
  simp only [hloop]

end FilterLineSearch

namespace FilterLineSearch

theorem exampleN_Check :
    CheckAcceptabilityOfTrialPoint exampleLineSearchN exampleMath exampleRunN1.cq 1e-7 =
      (exampleLineSearchN, .ok false) := by
  have hg : InitThetaGates exampleLineSearchN (1/2) = exampleLineSearchN := by
    unfold InitThetaGates
    norm_num [exampleLineSearchN, exampleLineSearchF, exampleLineSearch]
  have hcq : exampleRunN1.cq.curr_constraint_violation = 1/2 := rfl
  have ht : exampleRunN1.cq.trial_constraint_violation = .ok 100000 := rfl
  unfold CheckAcceptabilityOfTrialPoint
  rw [ht]
  simp only [hcq, hg]
  unfold CheckTests
  norm_num [exampleLineSearchN, exampleLineSearchF, exampleLineSearch]

theorem exampleN_TryTrialPoint :
    TryTrialPoint exampleEnvN exampleRunN 1e-7 1e-7 Direction.orig =
      (exampleRunN1, .ok false) := by
  have hset : SetTrialPrimalVariablesFromStep exampleEnvN exampleRunN 1e-7 Direction.orig =
      { exampleRunN1 with
        trace := [Event.SetTrialPrimalVariablesFromStep 1e-7 Direction.orig] } := rfl
  unfold TryTrialPoint
  rw [hset]
  have hm : exampleRunN1.ls.magic_steps_ = false := rfl
  simp only [hm, Bool.false_eq_true, if_false]
  unfold RunCheck
  have hc : CheckAcceptabilityOfTrialPoint exampleRunN1.ls exampleEnvN.m exampleRunN1.cq 1e-7 =
      (exampleLineSearchN, .ok false) := exampleN_Check
  simp only [hc]
  rfl

theorem exampleN_CalculateAlphaMin :
    CalculateAlphaMin exampleRunN.ls exampleEnvN.m exampleRunN.cq = 2.5e-7 := by
  norm_num [CalculateAlphaMin, exampleRunN, exampleRunF, exampleLineSearchN,
    exampleLineSearchF, exampleLineSearch, exampleCqF]

theorem exampleN_BacktrackingLoop :
    BacktrackingLoop exampleEnvN
        (CalculateAlphaMin exampleRunN.ls exampleEnvN.m exampleRunN.cq)
        exampleEnvN.curr_primal_frac_to_the_bound 2 exampleRunN (InitialLocals exampleEnvN) =
      some (exampleRunN1, .ok exampleLocalsN1) := by
  have hi : InitialLocals exampleEnvN =
      { alpha_primal := 1e-7, alpha_primal_test := 0, accept := false, soc_taken := false,
        n_steps := 0, dir := Direction.orig } := rfl
  have hmax : exampleEnvN.curr_primal_frac_to_the_bound = 1e-7 := rfl
  have hsoc : ∀ v : Locals,
      TrySecondOrderCorrection exampleEnvN 1e-7 exampleRunN1 v = some (exampleRunN1, .ok v) := by
    intro v
    have ht : exampleRunN1.cq.trial_constraint_violation = .ok 100000 := rfl
    have hs : exampleRunN1.ls.max_soc_ = 0 := rfl
    unfold TrySecondOrderCorrection
    simp only [ht, hs]
    simp
  have hstep : BacktrackingStep exampleEnvN 1e-7 exampleRunN
      { alpha_primal := 1e-7, alpha_primal_test := 0, accept := false, soc_taken := false,
        n_steps := 0, dir := Direction.orig } = some (exampleRunN1, .ok exampleLocalsN1) := by
    unfold BacktrackingStep
    simp only [exampleN_TryTrialPoint, CatchEvalError, hsoc]
    rfl
  rw [exampleN_CalculateAlphaMin, hmax, hi, BacktrackingLoop]
  simp only [or_true, if_true, hstep]
  have hacc : exampleLocalsN1.accept = false := rfl
  simp only [hacc, Bool.false_eq_true, if_false]
  rw [BacktrackingLoop]
  have hcond : ¬ (exampleLocalsN1.alpha_primal > 2.5e-7 ∨ exampleLocalsN1.n_steps = 0) := by
    norm_num [exampleLocalsN1]
  rw [if_neg hcond]

theorem exampleN_IsFtype :
    IsFtype exampleRunN1.ls exampleEnvN.m exampleRunN1.cq exampleLocalsN1.alpha_primal_test =
      false := by
  simp [IsFtype, exampleRunN1, exampleRunN, exampleRunF, exampleLineSearchN,
    exampleLineSearchF, exampleLineSearch, exampleEnvN, exampleEnvF, exampleMath, exampleCqF,
    exampleLocalsN1]
  norm_num

theorem exampleN_FindAcceptableTrialPoint :
    FindAcceptableTrialPoint exampleEnvN 2 exampleRunN =
      some (Commit exampleEnvN exampleRunN1 exampleLocalsN1) := by
  rw [FindAcceptableTrialPoint_of_loop exampleEnvN 2 exampleRunN exampleRunN1 exampleLocalsN1
    exampleN_BacktrackingLoop]
  have hR : RestorationFallback exampleEnvN exampleRunN1 exampleLocalsN1 =
      (exampleRunN1, .ok false) := by
    simp [RestorationFallback, exampleLocalsN1, exampleRunN1, exampleRunN, exampleLineSearchN,
      exampleEnvN]
  rw [hR]

end FilterLineSearch

namespace FilterLineSearch

/-- With assertions compiled in, a call whose loop ends without an accepted
trial and that has no restoration phase ends at the `DBG_ASSERT` of line 374,
before the filter is augmented. -/
theorem FindAcceptableTrialPoint_assert_of_no_resto (env : Env) (fuel : Nat)
    (r r1 : LSRun) (v1 : Locals)
    (hloop : BacktrackingLoop env (CalculateAlphaMin r.ls env.m r.cq)
      env.curr_primal_frac_to_the_bound fuel r (InitialLocals env) = some (r1, .ok v1))
    (hacc : v1.accept = false) (hresto : r.ls.resto_phase_ = false)
    (hdebug : env.debug = true) :
    FindAcceptableTrialPoint env fuel r = some (r1, .error Exception.DBG_ASSERT) := by
  have hr1 : r1.ls.resto_phase_ = false := by
    have hG := (BacktrackingLoop_LoopFrame env _ _ fuel r _ _ hloop).1
    simp only at hG
    rw [hG]
    exact hresto
  rw [FindAcceptableTrialPoint_of_loop env fuel r r1 v1 hloop]
  simp [RestorationFallback, hacc, hr1, hdebug]

/-- With assertions compiled out, the same call goes on to `Commit`. -/
theorem FindAcceptableTrialPoint_commit_of_no_resto (env : Env) (fuel : Nat)
    (r r1 : LSRun) (v1 : Locals)
    (hloop : BacktrackingLoop env (CalculateAlphaMin r.ls env.m r.cq)
      env.curr_primal_frac_to_the_bound fuel r (InitialLocals env) = some (r1, .ok v1))
    (hacc : v1.accept = false) (hresto : r.ls.resto_phase_ = false)
    (hdebug : env.debug = false) :
    FindAcceptableTrialPoint env fuel r = some (Commit env r1 v1) := by
  have hr1 : r1.ls.resto_phase_ = false := by
    have hG := (BacktrackingLoop_LoopFrame env _ _ fuel r _ _ hloop).1
    simp only at hG
    rw [hG]
    exact hresto
  rw [FindAcceptableTrialPoint_of_loop env fuel r r1 v1 hloop]
  simp [RestorationFallback, hacc, hr1, hdebug]

end FilterLineSearch

namespace FilterLineSearch

theorem exampleS_Check :
    CheckAcceptabilityOfTrialPoint exampleLineSearchS exampleMath (exampleRunSAfter []).cq 1 =
      (exampleLineSearchS, .ok false) := by
  have hg : InitThetaGates exampleLineSearchS (1/2) = exampleLineSearchS := by
    unfold InitThetaGates
    norm_num [exampleLineSearchS, exampleLineSearchF, exampleLineSearch]
  have hcq : (exampleRunSAfter []).cq.curr_constraint_violation = 1/2 := rfl
  have ht : (exampleRunSAfter []).cq.trial_constraint_violation = .ok 1 := rfl
  have hb : (exampleRunSAfter []).cq.trial_barrier_obj = .ok 0 := rfl
  have hI : IsFtype exampleLineSearchS exampleMath (exampleRunSAfter []).cq 1 = true := by
    simp [IsFtype, exampleLineSearchS, exampleLineSearchF, exampleLineSearch, exampleMath,
      exampleRunSAfter, exampleCqF]
    norm_num
  have habs : |(1 / 2 : Number)| = 1 / 2 := abs_of_pos (by norm_num)
  unfold CheckAcceptabilityOfTrialPoint
  rw [ht]
  simp only [hcq, hg]
  unfold CheckTests
  rw [hb]
  simp only [hI, hcq]
  norm_num [exampleLineSearchS, exampleLineSearchF, exampleLineSearch,
    IsAcceptableToCurrentIterate, Compare_le, exampleRunSAfter, exampleCqF, habs]

theorem exampleS_RunCheck (calls : List Event) :
    RunCheck exampleEnvS (exampleRunSAfter calls) 1 =
      (exampleRunSAfter (calls ++ [Event.CheckAcceptabilityOfTrialPoint 1]), .ok false) := by
  have hc : CheckAcceptabilityOfTrialPoint (exampleRunSAfter calls).ls exampleEnvS.m
      (exampleRunSAfter calls).cq 1 = (exampleLineSearchS, .ok false) := exampleS_Check
  unfold RunCheck
  simp only [hc]
  rfl

theorem exampleS_TryTrialPoint (calls : List Event) (a b : Except Exception Number) :
    TryTrialPoint exampleEnvS
        { exampleRunS with
          cq := { exampleCqF with trial_constraint_violation := a, trial_barrier_obj := b }
          trace := calls } 1 1 Direction.orig =
      (exampleRunSAfter (calls ++ [Event.SetTrialPrimalVariablesFromStep 1 Direction.orig] ++
        [Event.CheckAcceptabilityOfTrialPoint 1]), .ok false) := by
  have hset : SetTrialPrimalVariablesFromStep exampleEnvS
      { exampleRunS with
        cq := { exampleCqF with trial_constraint_violation := a, trial_barrier_obj := b }
        trace := calls } 1 Direction.orig =
      exampleRunSAfter (calls ++ [Event.SetTrialPrimalVariablesFromStep 1 Direction.orig]) :=
    rfl
  unfold TryTrialPoint
  rw [hset]
  have hm : (exampleRunSAfter
      (calls ++ [Event.SetTrialPrimalVariablesFromStep 1 Direction.orig])).ls.magic_steps_ =
      false := rfl
  simp only [hm, Bool.false_eq_true, if_false]
  exact exampleS_RunCheck _

end FilterLineSearch

namespace FilterLineSearch

theorem exampleS_frac : exampleEnvS.primal_frac_to_the_bound 0 = 1 := rfl

theorem exampleS_SetTrial_soc (calls : List Event) :
    SetTrialPrimalVariablesFromStep exampleEnvS
      { ls := (exampleRunSAfter calls).ls
        cq := (exampleRunSAfter calls).cq
        info_alpha_primal := (exampleRunSAfter calls).info_alpha_primal
        info_alpha_dual := (exampleRunSAfter calls).info_alpha_dual
        info_alpha_primal_char := (exampleRunSAfter calls).info_alpha_primal_char
        info_ls_count := (exampleRunSAfter calls).info_ls_count
        trace := (exampleRunSAfter calls).trace ++ [Event.Solve 0] }
      1 (Direction.soc 0) =
      exampleRunSAfter (calls ++ [Event.Solve 0] ++
        [Event.SetTrialPrimalVariablesFromStep 1 (Direction.soc 0)]) := rfl

theorem exampleS_trial (calls : List Event) :
    (exampleRunSAfter calls).cq.trial_constraint_violation = .ok 1 := rfl

theorem exampleS_SocStep (calls : List Event) (w : SocLocals) (hw : w.count_soc = 0) :
    SocStep exampleEnvS 1 (1/2) (exampleRunSAfter calls) w =
      (exampleRunSAfter (calls ++ [Event.Solve 0] ++
          [Event.SetTrialPrimalVariablesFromStep 1 (Direction.soc 0)] ++
          [Event.CheckAcceptabilityOfTrialPoint 1]),
        .ok { count_soc := 1, theta_soc_old := 1/2, theta_trial := 1,
              alpha_primal_soc := 1, accept := false }) := by
  rw [SocStep, hw, exampleS_frac, exampleS_SetTrial_soc, exampleS_RunCheck]
  simp only [CatchEvalError, exampleS_trial, if_true, Nat.zero_add]

end FilterLineSearch

namespace FilterLineSearch

theorem exampleS_max_soc (calls : List Event) : (exampleRunSAfter calls).ls.max_soc_ = 1 := rfl

theorem exampleS_curr_theta (calls : List Event) :
    (exampleRunSAfter calls).cq.curr_constraint_violation = 1/2 := rfl

/-- The correction loop when its first pass is rejected and its condition
fails after that pass. -/
theorem SocLoop_reject_once (env : Env) (alpha_primal_test theta_curr : Number) (fuel : Nat)
    (r r1 : LSRun) (w w1 : SocLocals)
    (hc : (w.count_soc : Index) < r.ls.max_soc_ ∧
      w.theta_trial ≤ r.ls.kappa_soc_ * w.theta_soc_old ∧ w.accept = false)
    (hs : SocStep env alpha_primal_test theta_curr r w = (r1, .ok w1))
    (hn : ¬ ((w1.count_soc : Index) < r1.ls.max_soc_ ∧
      w1.theta_trial ≤ r1.ls.kappa_soc_ * w1.theta_soc_old ∧ w1.accept = false)) :
    SocLoop env alpha_primal_test theta_curr (fuel + 2) r w = some (r1, .ok w1) := by
  rw [SocLoop, if_pos hc, hs]
  simp only
  rw [SocLoop, if_neg hn]

/-- The second-order correction when it is tried and no corrected step is
accepted. -/
theorem TrySecondOrderCorrection_of_reject (env : Env) (alpha_primal_max theta_trial : Number)
    (r r1 : LSRun) (v : Locals) (w1 : SocLocals)
    (ht : r.cq.trial_constraint_violation = .ok theta_trial)
    (hcond : v.alpha_primal = alpha_primal_max ∧
      r.cq.curr_constraint_violation ≤ theta_trial ∧ r.ls.max_soc_ > 0)
    (hl : SocLoop env v.alpha_primal_test r.cq.curr_constraint_violation
        (r.ls.max_soc_.toNat + 1) r
        { count_soc := 0, theta_soc_old := 0, theta_trial := 0
          alpha_primal_soc := v.alpha_primal, accept := false } = some (r1, .ok w1))
    (hw : w1.accept = false) :
    TrySecondOrderCorrection env alpha_primal_max r v = some (r1, .ok v) := by
  rw [TrySecondOrderCorrection, ht]
  simp only
  rw [if_pos hcond, hl]
  simp only [hw, Bool.false_eq_true, if_false]

/-- One pass of the backtracking loop when neither the trial point nor a
corrected step is accepted: the step size is multiplied by
`alpha_red_factor`. -/
theorem BacktrackingStep_of_reject (env : Env) (alpha_primal_max : Number)
    (r r1 r2 : LSRun) (v v2 : Locals)
    (htry : TryTrialPoint env r v.alpha_primal v.alpha_primal v.dir = (r1, .ok false))
    (hsoc : TrySecondOrderCorrection env alpha_primal_max r1
        { v with alpha_primal_test := v.alpha_primal, accept := false } = some (r2, .ok v2))
    (hacc : v2.accept = false) :
    BacktrackingStep env alpha_primal_max r v =
      some (r2, .ok { v2 with alpha_primal := v2.alpha_primal * r2.ls.alpha_red_factor_
                              n_steps := v2.n_steps + 1 }) := by
  rw [BacktrackingStep]
  simp only [htry, CatchEvalError, hsoc, hacc, Bool.false_eq_true, if_false]

theorem exampleS_TrySecondOrderCorrection (calls : List Event) (v : Locals)
    (hv : v.alpha_primal = 1) (hvt : v.alpha_primal_test = 1) :
    TrySecondOrderCorrection exampleEnvS 1 (exampleRunSAfter calls) v =
      some (exampleRunSAfter (calls ++ [Event.Solve 0] ++
          [Event.SetTrialPrimalVariablesFromStep 1 (Direction.soc 0)] ++
          [Event.CheckAcceptabilityOfTrialPoint 1]), .ok v) := by
  have hcond : (v.alpha_primal = 1 ∧ (exampleRunSAfter calls).cq.curr_constraint_violation ≤ 1 ∧
      (exampleRunSAfter calls).ls.max_soc_ > 0) := by
    rw [exampleS_curr_theta, exampleS_max_soc]
    exact ⟨hv, by norm_num, by norm_num⟩
  have h2 : (exampleRunSAfter calls).ls.max_soc_.toNat + 1 = 0 + 2 := by
    rw [exampleS_max_soc]
    rfl
  have hc1 : (((0 : Nat) : Index) < (exampleRunSAfter calls).ls.max_soc_ ∧
      (0 : Number) ≤ (exampleRunSAfter calls).ls.kappa_soc_ * 0 ∧ false = false) := by
    rw [exampleS_max_soc]
    exact ⟨by norm_num, by norm_num, rfl⟩
  have hc2 : ∀ (l : List Event) (x y : Number), ¬ (((1 : Nat) : Index) <
      (exampleRunSAfter l).ls.max_soc_ ∧ x ≤ y ∧ false = false) := by
    intro l x y h
    rw [exampleS_max_soc] at h
    exact absurd h.1 (by norm_num)
  have hl : SocLoop exampleEnvS v.alpha_primal_test
      (exampleRunSAfter calls).cq.curr_constraint_violation
      ((exampleRunSAfter calls).ls.max_soc_.toNat + 1) (exampleRunSAfter calls)
      { count_soc := 0, theta_soc_old := 0, theta_trial := 0
        alpha_primal_soc := v.alpha_primal, accept := false } =
      some (exampleRunSAfter (calls ++ [Event.Solve 0] ++
          [Event.SetTrialPrimalVariablesFromStep 1 (Direction.soc 0)] ++
          [Event.CheckAcceptabilityOfTrialPoint 1]),
        .ok { count_soc := 1, theta_soc_old := 1/2, theta_trial := 1,
              alpha_primal_soc := 1, accept := false }) := by
    rw [hvt, exampleS_curr_theta, h2]
    exact SocLoop_reject_once exampleEnvS 1 (1/2) 0 (exampleRunSAfter calls) _ _ _ hc1
      (exampleS_SocStep calls _ rfl) (hc2 _ _ _)
  exact TrySecondOrderCorrection_of_reject exampleEnvS 1 1 (exampleRunSAfter calls) _ v _
    (exampleS_trial calls) hcond hl rfl

end FilterLineSearch

namespace FilterLineSearch

/-- The backtracking loop goes round again after a pass that accepted
nothing. -/
theorem BacktrackingLoop_of_reject (env : Env) (alpha_min alpha_primal_max : Number)
    (fuel : Nat) (r r1 : LSRun) (v v1 : Locals)
    (hc : v.alpha_primal > alpha_min ∨ v.n_steps = 0)
    (hs : BacktrackingStep env alpha_primal_max r v = some (r1, .ok v1))
    (hacc : v1.accept = false) :
    BacktrackingLoop env alpha_min alpha_primal_max (fuel + 1) r v =
      BacktrackingLoop env alpha_min alpha_primal_max fuel r1 v1 := by
  rw [BacktrackingLoop, if_pos hc, hs]
  simp only [hacc, Bool.false_eq_true, if_false]

/-- One pass of the backtracking loop of the example, whatever the number of
step sizes rejected so far: the trial point at `α = 1` is rejected, a
second-order correction is computed and rejected, and the step size stays
`1 · 1 = 1`. -/
theorem exampleS_BacktrackingStep (calls : List Event)
    (a b : Except Exception Number) (alpha_test : Number) (n : Nat) :
    BacktrackingStep exampleEnvS 1
        { exampleRunS with
          cq := { exampleCqF with trial_constraint_violation := a, trial_barrier_obj := b }
          trace := calls }
        { alpha_primal := 1, alpha_primal_test := alpha_test, accept := false,
          soc_taken := false, n_steps := n, dir := Direction.orig } =
      some (exampleRunSAfter (calls ++ examplePassS), .ok (exampleLocalsS (n + 1))) := by
  have htry := exampleS_TryTrialPoint calls a b
  have hsoc := exampleS_TrySecondOrderCorrection
    (calls ++ [Event.SetTrialPrimalVariablesFromStep 1 Direction.orig] ++
      [Event.CheckAcceptabilityOfTrialPoint 1])
    { alpha_primal := 1, alpha_primal_test := 1, accept := false,
      soc_taken := false, n_steps := n, dir := Direction.orig } rfl rfl
  rw [BacktrackingStep_of_reject exampleEnvS 1
    { exampleRunS with
      cq := { exampleCqF with trial_constraint_violation := a, trial_barrier_obj := b }
      trace := calls }
    (exampleRunSAfter (calls ++ [Event.SetTrialPrimalVariablesFromStep 1 Direction.orig] ++
      [Event.CheckAcceptabilityOfTrialPoint 1]))
    (exampleRunSAfter (calls ++ [Event.SetTrialPrimalVariablesFromStep 1 Direction.orig] ++
      [Event.CheckAcceptabilityOfTrialPoint 1] ++ [Event.Solve 0] ++
      [Event.SetTrialPrimalVariablesFromStep 1 (Direction.soc 0)] ++
      [Event.CheckAcceptabilityOfTrialPoint 1]))
    { alpha_primal := 1, alpha_primal_test := alpha_test, accept := false,
      soc_taken := false, n_steps := n, dir := Direction.orig }
    { alpha_primal := 1, alpha_primal_test := 1, accept := false,
      soc_taken := false, n_steps := n, dir := Direction.orig }
    htry hsoc rfl]
  have hf : ∀ l, (exampleRunSAfter l).ls.alpha_red_factor_ = 1 := fun _ => rfl
  simp only [hf, mul_one, exampleLocalsS, examplePassS, List.append_assoc,
    List.singleton_append, List.cons_append, List.nil_append]

theorem exampleS_CalculateAlphaMin :
    CalculateAlphaMin exampleRunS.ls exampleEnvS.m exampleRunS.cq = 2.5e-7 := by
  norm_num [CalculateAlphaMin, exampleRunS, exampleRunF, exampleLineSearchS,
    exampleLineSearchF, exampleLineSearch, exampleCqF]

end FilterLineSearch

/-! ## Facts about a failed `InitializeImpl` -/

theorem InitNumeric_cases (opt : Option Number) (inRange : Number → Bool)
    (dflt : Number) (set : FilterLineSearch → Number → FilterLineSearch)
    (s : FilterLineSearch) :
    InitNumeric opt inRange dflt set s = (s, .error OptionsException.OPTION_OUT_OF_RANGE) ∨
      InitNumeric opt inRange dflt set s = (set s (opt.getD dflt), .ok ()) := by
  cases opt with
  | none => exact Or.inr rfl
  | some v =>
    rcases hr : inRange v
    · exact Or.inl (by simp [InitNumeric, hr])
    · exact Or.inr (by simp [InitNumeric, hr])

theorem InitMaxSoc_cases (opt : Option Index) (s : FilterLineSearch) :
    InitMaxSoc opt s = (s, .error OptionsException.OPTION_OUT_OF_RANGE) ∨
      InitMaxSoc opt s =
        ({ s with max_soc_ := opt.getD 4 }, .error OptionsException.OPTION_OUT_OF_RANGE) ∨
      InitMaxSoc opt s = ({ s with max_soc_ := opt.getD 4 }, .ok ()) := by
  cases opt with
  | none =>
    by_cases hp : s.pd_solver_ = true
    · exact Or.inr (Or.inr (by simp [InitMaxSoc, InitOutcome.andThen, hp]))
    · exact Or.inr (Or.inl (by simp [InitMaxSoc, InitOutcome.andThen, hp]))
  | some v =>
    by_cases hv : v ≥ 0
    · by_cases hp : v > 0 ∧ s.pd_solver_ = false
      · exact Or.inr (Or.inl (by simp [InitMaxSoc, InitOutcome.andThen, hv, hp]))
      · refine Or.inr (Or.inr ?_)
        simp only [InitMaxSoc, InitOutcome.andThen, hv, if_true, Option.getD_some]
        rw [if_neg hp]
    · exact Or.inl (by simp [InitMaxSoc, InitOutcome.andThen, hv])

theorem InitOutcome.andThen_InitNumeric_cases (P : InitOutcome → Prop)
    (opt : Option Number) (inRange : Number → Bool) (dflt : Number)
    (set : FilterLineSearch → Number → FilterLineSearch) (s : FilterLineSearch)
    (f : FilterLineSearch → InitOutcome)
    (herr : P (s, .error OptionsException.OPTION_OUT_OF_RANGE))
    (hok : P (f (set s (opt.getD dflt)))) :
    P ((InitNumeric opt inRange dflt set s).andThen f) := by
  rcases InitNumeric_cases opt inRange dflt set s with h | h
  · rw [h]
    exact herr
  · rw [h]
    exact hok

theorem InitOutcome.andThen_InitMaxSoc_cases (P : InitOutcome → Prop)
    (opt : Option Index) (s : FilterLineSearch) (f : FilterLineSearch → InitOutcome)
    (herr : P (s, .error OptionsException.OPTION_OUT_OF_RANGE))
    (hpd : P ({ s with max_soc_ := opt.getD 4 }, .error OptionsException.OPTION_OUT_OF_RANGE))
    (hok : P (f { s with max_soc_ := opt.getD 4 })) :
    P ((InitMaxSoc opt s).andThen f) := by
  rcases InitMaxSoc_cases opt s with h | h | h
  · rw [h]
    exact herr
  · rw [h]
    exact hpd
  · rw [h]
    exact hok

theorem InitMagicSteps_snd (opt : Option Index) (s : FilterLineSearch) :
    (InitMagicSteps opt s).2 = .ok () := by
  cases opt <;> rfl

/-- A failed `InitializeOptions` leaves the parameters stored before the
failing check at their new values and the others untouched. -/
theorem FilterLineSearch.InitializeOptions_error_upTo (s : FilterLineSearch)
    (options : OptionsList) (pfx : String) (e : OptionsException)
    (h : (FilterLineSearch.InitializeOptions s options pfx).2 = .error e) :
    ∃ k, k ≤ 12 ∧
      (FilterLineSearch.InitializeOptions s options pfx).1 =
        s.withOptionsUpTo k options pfx := by
  revert h
  unfold FilterLineSearch.InitializeOptions
  refine InitOutcome.andThen_InitNumeric_cases (fun out => out.2 = .error e → ∃ k, k ≤ 12 ∧ out.1 = s.withOptionsUpTo k options pfx)
    _ _ _ _ _ _ (fun _ => ⟨0, by norm_num, rfl⟩) ?_
  refine InitOutcome.andThen_InitNumeric_cases (fun out => out.2 = .error e → ∃ k, k ≤ 12 ∧ out.1 = s.withOptionsUpTo k options pfx)
    _ _ _ _ _ _ (fun _ => ⟨1, by norm_num, rfl⟩) ?_
  refine InitOutcome.andThen_InitNumeric_cases (fun out => out.2 = .error e → ∃ k, k ≤ 12 ∧ out.1 = s.withOptionsUpTo k options pfx)
    _ _ _ _ _ _ (fun _ => ⟨2, by norm_num, rfl⟩) ?_
  refine InitOutcome.andThen_InitNumeric_cases (fun out => out.2 = .error e → ∃ k, k ≤ 12 ∧ out.1 = s.withOptionsUpTo k options pfx)
    _ _ _ _ _ _ (fun _ => ⟨3, by norm_num, rfl⟩) ?_
  refine InitOutcome.andThen_InitNumeric_cases (fun out => out.2 = .error e → ∃ k, k ≤ 12 ∧ out.1 = s.withOptionsUpTo k options pfx)
    _ _ _ _ _ _ (fun _ => ⟨4, by norm_num, rfl⟩) ?_
  refine InitOutcome.andThen_InitNumeric_cases (fun out => out.2 = .error e → ∃ k, k ≤ 12 ∧ out.1 = s.withOptionsUpTo k options pfx)
    _ _ _ _ _ _ (fun _ => ⟨5, by norm_num, rfl⟩) ?_
  refine InitOutcome.andThen_InitNumeric_cases (fun out => out.2 = .error e → ∃ k, k ≤ 12 ∧ out.1 = s.withOptionsUpTo k options pfx)
    _ _ _ _ _ _ (fun _ => ⟨6, by norm_num, rfl⟩) ?_
  refine InitOutcome.andThen_InitNumeric_cases (fun out => out.2 = .error e → ∃ k, k ≤ 12 ∧ out.1 = s.withOptionsUpTo k options pfx)
    _ _ _ _ _ _ (fun _ => ⟨7, by norm_num, rfl⟩) ?_
  refine InitOutcome.andThen_InitNumeric_cases (fun out => out.2 = .error e → ∃ k, k ≤ 12 ∧ out.1 = s.withOptionsUpTo k options pfx)
    _ _ _ _ _ _ (fun _ => ⟨8, by norm_num, rfl⟩) ?_
  refine InitOutcome.andThen_InitNumeric_cases (fun out => out.2 = .error e → ∃ k, k ≤ 12 ∧ out.1 = s.withOptionsUpTo k options pfx)
    _ _ _ _ _ _ (fun _ => ⟨9, by norm_num, rfl⟩) ?_
  refine InitOutcome.andThen_InitMaxSoc_cases (fun out => out.2 = .error e → ∃ k, k ≤ 12 ∧ out.1 = s.withOptionsUpTo k options pfx)
    _ _ _ (fun _ => ⟨10, by norm_num, rfl⟩) (fun _ => ⟨11, by norm_num, rfl⟩) ?_
  refine InitOutcome.andThen_InitNumeric_cases (fun out => out.2 = .error e → ∃ k, k ≤ 12 ∧ out.1 = s.withOptionsUpTo k options pfx)
    _ _ _ _ _ _ (fun _ => ⟨11, by norm_num, rfl⟩) ?_
  refine InitOutcome.andThen_InitNumeric_cases (fun out => out.2 = .error e → ∃ k, k ≤ 12 ∧ out.1 = s.withOptionsUpTo k options pfx)
    _ _ _ _ _ _ (fun _ => ⟨12, by norm_num, rfl⟩) ?_
  intro h
  rw [InitMagicSteps_snd] at h
  cases h

/-- The call of `InitializeImpl` with `theta_max_fact = 7` and `delta = -1`
stops at the check of `delta`, with three members written. -/
theorem examplePartial_InitializeImpl :
    exampleLineSearch.InitializeImpl exampleOptionsPartial "" true =
      ({ exampleLineSearch with
          theta_max_fact_ := 7
          theta_min_fact_ := 1e-4
          eta_phi_ := 1e-4 }, .error OptionsException.OPTION_OUT_OF_RANGE) := by
  have h1 : exampleOptionsPartial.GetNumericValue "theta_max_fact" "" = some 7 := by
    simp [exampleOptionsPartial]
  have h2 : exampleOptionsPartial.GetNumericValue "theta_min_fact" "" = none := by
    simp [exampleOptionsPartial]
  have h3 : exampleOptionsPartial.GetNumericValue "eta_phi" "" = none := by
    simp [exampleOptionsPartial]
  have h4 : exampleOptionsPartial.GetNumericValue "delta" "" = some (-1) := by
    simp [exampleOptionsPartial]
  unfold FilterLineSearch.InitializeImpl FilterLineSearch.InitializeOptions
  rw [h1, h2, h3, h4]
  rw [InitNumeric_of_valid _ _ _ _ _ (fun v hv => by
      injection hv with hv
      rw [← hv]
      norm_num), InitOutcome.andThen_of_ok]
  simp only []
  rw [InitNumeric_of_valid _ _ _ _ _ (fun v hv => by simp at hv), InitOutcome.andThen_of_ok]
  simp only []
  rw [InitNumeric_of_valid _ _ _ _ _ (fun v hv => by simp at hv), InitOutcome.andThen_of_ok]
  simp only []
  rw [InitNumeric_of_invalid _ _ _ _ _ (-1) rfl (by norm_num), InitOutcome.andThen_of_error]
  rfl

/-! ## Facts about the locals the backtracking loop ends with -/

namespace FilterLineSearch

/-- The second-order correction either leaves the locals as they are or
accepts a corrected step, whose direction and step size it installs. -/
theorem TrySecondOrderCorrection_locals (env : Env) (alpha_primal_max : Number)
    (r r' : LSRun) (v w : Locals)
    (h : TrySecondOrderCorrection env alpha_primal_max r v = some (r', .ok w)) :
    w = v ∨ ∃ a k, w = { v with alpha_primal := a, accept := true, soc_taken := true,
                                dir := Direction.soc k } := by
  unfold TrySecondOrderCorrection at h
  simp only at h
  rcases ht : r.cq.trial_constraint_violation with e | theta_trial
  · rw [ht] at h
    simp at h
  · rw [ht] at h
    simp only at h
    by_cases hc : v.alpha_primal = alpha_primal_max ∧
        r.cq.curr_constraint_violation ≤ theta_trial ∧ r.ls.max_soc_ > 0
    · rw [if_pos hc] at h
      rcases hs : SocLoop env v.alpha_primal_test r.cq.curr_constraint_violation
          (r.ls.max_soc_.toNat + 1) r
          { count_soc := 0, theta_soc_old := 0, theta_trial := 0
            alpha_primal_soc := v.alpha_primal, accept := false } with _ | ⟨r2, e | w2⟩
      · rw [hs] at h
        simp at h
      · rw [hs] at h
        simp at h
      · rw [hs] at h
        simp only at h
        by_cases hw : w2.accept = true
        · rw [if_pos hw] at h
          simp only [Option.some.injEq, Prod.mk.injEq, Except.ok.injEq] at h
          exact Or.inr ⟨w2.alpha_primal_soc, w2.count_soc, h.2.symm⟩
        · rw [if_neg hw] at h
          simp only [Option.some.injEq, Prod.mk.injEq, Except.ok.injEq] at h
          exact Or.inl h.2.symm
    · rw [if_neg hc] at h
      simp only [Option.some.injEq, Prod.mk.injEq, Except.ok.injEq] at h
      exact Or.inl h.2.symm

/-- The three ways in which one pass of the backtracking loop ends normally:
the trial point is accepted; a corrected step is accepted; or the step size
is cut. -/
theorem BacktrackingStep_locals (env : Env) (alpha_primal_max : Number)
    (r r' : LSRun) (v w : Locals)
    (h : BacktrackingStep env alpha_primal_max r v = some (r', .ok w)) :
    (r' = (TryTrialPoint env r v.alpha_primal v.alpha_primal v.dir).1 ∧
      w = { v with alpha_primal_test := v.alpha_primal, accept := true }) ∨
    (∃ a k, w = { v with alpha_primal := a, alpha_primal_test := v.alpha_primal,
                         accept := true, soc_taken := true, dir := Direction.soc k }) ∨
    w = { v with alpha_primal := v.alpha_primal * r'.ls.alpha_red_factor_,
                 alpha_primal_test := v.alpha_primal, accept := false,
                 n_steps := v.n_steps + 1 } := by
  unfold BacktrackingStep at h
  simp only at h
  split at h
  · simp at h
  · simp only [Option.some.injEq, Prod.mk.injEq, Except.ok.injEq] at h
    exact Or.inl ⟨h.1.symm, h.2.symm⟩
  · rcases hs : TrySecondOrderCorrection env alpha_primal_max
        (TryTrialPoint env r v.alpha_primal v.alpha_primal v.dir).1
        { v with alpha_primal_test := v.alpha_primal, accept := false } with _ | ⟨r2, e | w2⟩
    · rw [hs] at h
      simp at h
    · rw [hs] at h
      simp at h
    · rw [hs] at h
      simp only at h
      have hloc := TrySecondOrderCorrection_locals env _ _ _ _ _ hs
      by_cases hacc : w2.accept = true
      · rw [if_pos hacc] at h
        simp only [Option.some.injEq, Prod.mk.injEq, Except.ok.injEq] at h
        rcases hloc with hloc | ⟨a, k, hloc⟩
        · rw [hloc] at hacc
          simp at hacc
        · refine Or.inr (Or.inl ⟨a, k, ?_⟩)
          rw [← h.2, hloc]
      · rw [if_neg hacc] at h
        simp only [Option.some.injEq, Prod.mk.injEq, Except.ok.injEq] at h
        rcases hloc with hloc | ⟨a, k, hloc⟩
        · refine Or.inr (Or.inr ?_)
          rw [← h.2, ← h.1, hloc]
        · rw [hloc] at hacc
          simp at hacc

theorem CheckAcceptabilityOfTrialPoint_alpha_red_factor (c : Number) (s : FilterLineSearch)
    (m : CMath) (cq : IpoptCalculatedQuantities) (alpha : Number)
    (h : s.alpha_red_factor_ = c) :
    (CheckAcceptabilityOfTrialPoint s m cq alpha).1.alpha_red_factor_ = c := by
  rw [CheckAcceptabilityOfTrialPoint_GatesOnly s m cq alpha]
  exact h

end FilterLineSearch

/-! ## Facts about the second-order-correction loop -/

namespace FilterLineSearch

/-- The calls made by one pass of the correction loop. -/
theorem SocStep_trace (env : Env) (alpha_test theta_curr : Number) (r : LSRun)
    (v : SocLocals) :
    (SocStep env alpha_test theta_curr r v).1.trace =
      r.trace ++ [Event.Solve v.count_soc,
        Event.SetTrialPrimalVariablesFromStep (env.primal_frac_to_the_bound v.count_soc)
          (Direction.soc v.count_soc),
        Event.CheckAcceptabilityOfTrialPoint alpha_test] := by
  have hrun : (RunCheck env (SetTrialPrimalVariablesFromStep env
      { r with trace := r.trace ++ [Event.Solve v.count_soc] }
      (env.primal_frac_to_the_bound v.count_soc) (Direction.soc v.count_soc)) alpha_test).1.trace =
      r.trace ++ [Event.Solve v.count_soc,
        Event.SetTrialPrimalVariablesFromStep (env.primal_frac_to_the_bound v.count_soc)
          (Direction.soc v.count_soc),
        Event.CheckAcceptabilityOfTrialPoint alpha_test] := by
    simp [RunCheck, SetTrialPrimalVariablesFromStep]
  unfold SocStep
  simp only
  split
  · exact hrun
  · exact hrun
  · split <;> exact hrun

/-- The object after one pass of the correction loop differs from the one
before at most in its gates. -/
theorem SocStep_GatesOnly (env : Env) (alpha_test theta_curr : Number) (r : LSRun)
    (v : SocLocals) : r.ls.GatesOnly (SocStep env alpha_test theta_curr r v).1.ls := by
  have hrun : r.ls.GatesOnly (RunCheck env (SetTrialPrimalVariablesFromStep env
      { r with trace := r.trace ++ [Event.Solve v.count_soc] }
      (env.primal_frac_to_the_bound v.count_soc) (Direction.soc v.count_soc)) alpha_test).1.ls :=
    CheckAcceptabilityOfTrialPoint_GatesOnly r.ls env.m _ alpha_test
  unfold SocStep
  simp only
  split
  · exact hrun
  · exact hrun
  · split <;> exact hrun

/-- The locals after one pass of the correction loop that ends normally: an
accepted correction keeps its number and records its step size; a rejected one
is counted, and the constraint violation of its trial point is kept. -/
theorem SocStep_locals (env : Env) (alpha_test theta_curr : Number) (r r' : LSRun)
    (v w : SocLocals) (h : SocStep env alpha_test theta_curr r v = (r', .ok w)) :
    w.theta_soc_old = (if v.count_soc = 0 then theta_curr else v.theta_trial) ∧
    w.alpha_primal_soc = env.primal_frac_to_the_bound v.count_soc ∧
    ((w.accept = true ∧ w.count_soc = v.count_soc) ∨
      (w.accept = false ∧ w.count_soc = v.count_soc + 1 ∧
        (env.trial (Direction.soc v.count_soc)
          (env.primal_frac_to_the_bound v.count_soc)).trial_constraint_violation =
            .ok w.theta_trial)) := by
  have hcq : (RunCheck env (SetTrialPrimalVariablesFromStep env
      { r with trace := r.trace ++ [Event.Solve v.count_soc] }
      (env.primal_frac_to_the_bound v.count_soc) (Direction.soc v.count_soc))
      alpha_test).1.cq.trial_constraint_violation =
      (env.trial (Direction.soc v.count_soc)
        (env.primal_frac_to_the_bound v.count_soc)).trial_constraint_violation := rfl
  unfold SocStep at h
  simp only at h
  split at h
  · simp at h
  · simp only [Prod.mk.injEq, Except.ok.injEq] at h
    rw [← h.2]
    exact ⟨rfl, rfl, Or.inl ⟨rfl, rfl⟩⟩
  · split at h
    · simp at h
    · rename_i theta_trial ht
      simp only [Prod.mk.injEq, Except.ok.injEq] at h
      rw [← h.2]
      refine ⟨rfl, rfl, Or.inr ⟨rfl, rfl, ?_⟩⟩
      rw [← hcq]
      exact ht

end FilterLineSearch

/-! ## Which check fails in a failed `InitializeImpl` -/

theorem InitOutcome.andThen_InitNumeric_checked (P : InitOutcome → Prop)
    (opt : Option Number) (inRange : Number → Bool) (dflt : Number)
    (set : FilterLineSearch → Number → FilterLineSearch) (s : FilterLineSearch)
    (f : FilterLineSearch → InitOutcome)
    (herr : (∃ v, opt = some v ∧ inRange v = false) →
      P (s, .error OptionsException.OPTION_OUT_OF_RANGE))
    (hok : (∀ v, opt = some v → inRange v = true) → P (f (set s (opt.getD dflt)))) :
    P ((InitNumeric opt inRange dflt set s).andThen f) := by
  cases opt with
  | none =>
    have h : InitNumeric none inRange dflt set s = (set s dflt, .ok ()) := rfl
    rw [h]
    exact hok (fun v hv => by cases hv)
  | some w =>
    rcases hr : inRange w
    · rw [InitNumeric_of_invalid (some w) inRange dflt set s w rfl hr]
      exact herr ⟨w, rfl, hr⟩
    · have hall : ∀ v, some w = some v → inRange v = true := fun v hv => by
        injection hv with hv
        rw [← hv]
        exact hr
      rw [InitNumeric_of_valid (some w) inRange dflt set s hall]
      exact hok hall

theorem InitOutcome.andThen_InitMaxSoc_checked (P : InitOutcome → Prop)
    (opt : Option Index) (s : FilterLineSearch) (f : FilterLineSearch → InitOutcome)
    (herr : (∃ v, opt = some v ∧ v < 0) →
      P (s, .error OptionsException.OPTION_OUT_OF_RANGE))
    (hpd : (∀ v, opt = some v → v ≥ 0) → (opt.getD 4 > 0 ∧ s.pd_solver_ = false) →
      P ({ s with max_soc_ := opt.getD 4 }, .error OptionsException.OPTION_OUT_OF_RANGE))
    (hok : (∀ v, opt = some v → v ≥ 0) → (opt.getD 4 > 0 → s.pd_solver_ = true) →
      P (f { s with max_soc_ := opt.getD 4 })) :
    P ((InitMaxSoc opt s).andThen f) := by
  by_cases hrange : ∀ v, opt = some v → v ≥ 0
  · by_cases hp : opt.getD 4 > 0 → s.pd_solver_ = true
    · rw [InitMaxSoc_of_valid opt s hrange hp]
      exact hok hrange hp
    · have hp' : opt.getD 4 > 0 ∧ s.pd_solver_ = false := by
        by_contra hcon
        apply hp
        intro hpos
        by_contra hb
        exact hcon ⟨hpos, by simpa using hb⟩
      have h : InitMaxSoc opt s =
          ({ s with max_soc_ := opt.getD 4 }, .error OptionsException.OPTION_OUT_OF_RANGE) := by
        cases opt with
        | none => simp [InitMaxSoc, InitOutcome.andThen, hp'.2]
        | some v =>
          have hv := hrange v rfl
          have hpos : v > 0 := by simpa using hp'.1
          simp [InitMaxSoc, InitOutcome.andThen, hv, hp'.2, hpos]
      rw [h]
      exact hpd hrange hp'
  · have hex : ∃ v, opt = some v ∧ v < 0 := by
      by_contra hcon
      apply hrange
      intro v hv
      by_contra hlt
      exact hcon ⟨v, hv, not_le.mp hlt⟩
    obtain ⟨v, hv, hlt⟩ := hex
    have h : InitMaxSoc opt s = (s, .error OptionsException.OPTION_OUT_OF_RANGE) := by
      rw [hv]
      simp [InitMaxSoc, InitOutcome.andThen, not_le.mpr hlt]
    rw [h]
    exact herr ⟨v, hv, hlt⟩

/-- A failed `InitializeOptions` has passed the checks before some check `i`,
fails that one, and leaves the parameters stored up to there at their new
values and everything else untouched. -/
theorem FilterLineSearch.InitializeOptions_error_check (s : FilterLineSearch)
    (options : OptionsList) (pfx : String) (e : OptionsException)
    (h : (FilterLineSearch.InitializeOptions s options pfx).2 = .error e) :
    ∃ i, i < 14 ∧ (∀ j, j < i → options.CheckHolds pfx s.pd_solver_ j) ∧
      ¬ options.CheckHolds pfx s.pd_solver_ i ∧
      (FilterLineSearch.InitializeOptions s options pfx).1 =
        s.withOptionsUpTo (InitializeImpl.storedBefore i) options pfx := by
  revert h
  unfold FilterLineSearch.InitializeOptions
  refine InitOutcome.andThen_InitNumeric_checked (fun out => out.2 = .error e → ∃ i, i < 14 ∧ (∀ j, j < i → options.CheckHolds pfx s.pd_solver_ j) ∧ ¬ options.CheckHolds pfx s.pd_solver_ i ∧ out.1 = s.withOptionsUpTo (InitializeImpl.storedBefore i) options pfx)
    _ _ _ _ _ _
    (fun hfail _ => ⟨0, by norm_num, fun j hj => absurd hj (Nat.not_lt_zero j),
      (fun hc => by
        obtain ⟨v, hv, hf⟩ := hfail
        exact of_decide_eq_false hf (hc v hv)), rfl⟩) ?_
  intro hv0
  have hc0 : options.CheckHolds pfx s.pd_solver_ 0 := fun v hv =>
    of_decide_eq_true (hv0 v hv)
  clear hv0
  refine InitOutcome.andThen_InitNumeric_checked (fun out => out.2 = .error e → ∃ i, i < 14 ∧ (∀ j, j < i → options.CheckHolds pfx s.pd_solver_ j) ∧ ¬ options.CheckHolds pfx s.pd_solver_ i ∧ out.1 = s.withOptionsUpTo (InitializeImpl.storedBefore i) options pfx)
    _ _ _ _ _ _
    (fun hfail _ => ⟨1, by norm_num, (fun j hj => by interval_cases j; assumption),
      (fun hc => by
        obtain ⟨v, hv, hf⟩ := hfail
        exact of_decide_eq_false hf (hc v hv)), rfl⟩) ?_
  intro hv1
  have hc1 : options.CheckHolds pfx s.pd_solver_ 1 := fun v hv =>
    of_decide_eq_true (hv1 v hv)
  clear hv1
  refine InitOutcome.andThen_InitNumeric_checked (fun out => out.2 = .error e → ∃ i, i < 14 ∧ (∀ j, j < i → options.CheckHolds pfx s.pd_solver_ j) ∧ ¬ options.CheckHolds pfx s.pd_solver_ i ∧ out.1 = s.withOptionsUpTo (InitializeImpl.storedBefore i) options pfx)
    _ _ _ _ _ _
    (fun hfail _ => ⟨2, by norm_num, (fun j hj => by interval_cases j <;> assumption),
      (fun hc => by
        obtain ⟨v, hv, hf⟩ := hfail
        exact of_decide_eq_false hf (hc v hv)), rfl⟩) ?_
  intro hv2
  have hc2 : options.CheckHolds pfx s.pd_solver_ 2 := fun v hv =>
    of_decide_eq_true (hv2 v hv)
  clear hv2
  refine InitOutcome.andThen_InitNumeric_checked (fun out => out.2 = .error e → ∃ i, i < 14 ∧ (∀ j, j < i → options.CheckHolds pfx s.pd_solver_ j) ∧ ¬ options.CheckHolds pfx s.pd_solver_ i ∧ out.1 = s.withOptionsUpTo (InitializeImpl.storedBefore i) options pfx)
    _ _ _ _ _ _
    (fun hfail _ => ⟨3, by norm_num, (fun j hj => by interval_cases j <;> assumption),
      (fun hc => by
        obtain ⟨v, hv, hf⟩ := hfail
        exact of_decide_eq_false hf (hc v hv)), rfl⟩) ?_
  intro hv3
  have hc3 : options.CheckHolds pfx s.pd_solver_ 3 := fun v hv =>
    of_decide_eq_true (hv3 v hv)
  clear hv3
  refine InitOutcome.andThen_InitNumeric_checked (fun out => out.2 = .error e → ∃ i, i < 14 ∧ (∀ j, j < i → options.CheckHolds pfx s.pd_solver_ j) ∧ ¬ options.CheckHolds pfx s.pd_solver_ i ∧ out.1 = s.withOptionsUpTo (InitializeImpl.storedBefore i) options pfx)
    _ _ _ _ _ _
    (fun hfail _ => ⟨4, by norm_num, (fun j hj => by interval_cases j <;> assumption),
      (fun hc => by
        obtain ⟨v, hv, hf⟩ := hfail
        exact of_decide_eq_false hf (hc v hv)), rfl⟩) ?_
  intro hv4
  have hc4 : options.CheckHolds pfx s.pd_solver_ 4 := fun v hv =>
    of_decide_eq_true (hv4 v hv)
  clear hv4
  refine InitOutcome.andThen_InitNumeric_checked (fun out => out.2 = .error e → ∃ i, i < 14 ∧ (∀ j, j < i → options.CheckHolds pfx s.pd_solver_ j) ∧ ¬ options.CheckHolds pfx s.pd_solver_ i ∧ out.1 = s.withOptionsUpTo (InitializeImpl.storedBefore i) options pfx)
    _ _ _ _ _ _
    (fun hfail _ => ⟨5, by norm_num, (fun j hj => by interval_cases j <;> assumption),
      (fun hc => by
        obtain ⟨v, hv, hf⟩ := hfail
        exact of_decide_eq_false hf (hc v hv)), rfl⟩) ?_
  intro hv5
  have hc5 : options.CheckHolds pfx s.pd_solver_ 5 := fun v hv =>
    of_decide_eq_true (hv5 v hv)
  clear hv5
  refine InitOutcome.andThen_InitNumeric_checked (fun out => out.2 = .error e → ∃ i, i < 14 ∧ (∀ j, j < i → options.CheckHolds pfx s.pd_solver_ j) ∧ ¬ options.CheckHolds pfx s.pd_solver_ i ∧ out.1 = s.withOptionsUpTo (InitializeImpl.storedBefore i) options pfx)
    _ _ _ _ _ _
    (fun hfail _ => ⟨6, by norm_num, (fun j hj => by interval_cases j <;> assumption),
      (fun hc => by
        obtain ⟨v, hv, hf⟩ := hfail
        exact of_decide_eq_false hf (hc v hv)), rfl⟩) ?_
  intro hv6
  have hc6 : options.CheckHolds pfx s.pd_solver_ 6 := fun v hv =>
    of_decide_eq_true (hv6 v hv)
  clear hv6
  refine InitOutcome.andThen_InitNumeric_checked (fun out => out.2 = .error e → ∃ i, i < 14 ∧ (∀ j, j < i → options.CheckHolds pfx s.pd_solver_ j) ∧ ¬ options.CheckHolds pfx s.pd_solver_ i ∧ out.1 = s.withOptionsUpTo (InitializeImpl.storedBefore i) options pfx)
    _ _ _ _ _ _
    (fun hfail _ => ⟨7, by norm_num, (fun j hj => by interval_cases j <;> assumption),
      (fun hc => by
        obtain ⟨v, hv, hf⟩ := hfail
        exact of_decide_eq_false hf (hc v hv)), rfl⟩) ?_
  intro hv7
  have hc7 : options.CheckHolds pfx s.pd_solver_ 7 := fun v hv =>
    of_decide_eq_true (hv7 v hv)
  clear hv7
  refine InitOutcome.andThen_InitNumeric_checked (fun out => out.2 = .error e → ∃ i, i < 14 ∧ (∀ j, j < i → options.CheckHolds pfx s.pd_solver_ j) ∧ ¬ options.CheckHolds pfx s.pd_solver_ i ∧ out.1 = s.withOptionsUpTo (InitializeImpl.storedBefore i) options pfx)
    _ _ _ _ _ _
    (fun hfail _ => ⟨8, by norm_num, (fun j hj => by interval_cases j <;> assumption),
      (fun hc => by
        obtain ⟨v, hv, hf⟩ := hfail
        exact of_decide_eq_false hf (hc v hv)), rfl⟩) ?_
  intro hv8
  have hc8 : options.CheckHolds pfx s.pd_solver_ 8 := fun v hv =>
    of_decide_eq_true (hv8 v hv)
  clear hv8
  refine InitOutcome.andThen_InitNumeric_checked (fun out => out.2 = .error e → ∃ i, i < 14 ∧ (∀ j, j < i → options.CheckHolds pfx s.pd_solver_ j) ∧ ¬ options.CheckHolds pfx s.pd_solver_ i ∧ out.1 = s.withOptionsUpTo (InitializeImpl.storedBefore i) options pfx)
    _ _ _ _ _ _
    (fun hfail _ => ⟨9, by norm_num, (fun j hj => by interval_cases j <;> assumption),
      (fun hc => by
        obtain ⟨v, hv, hf⟩ := hfail
        exact of_decide_eq_false hf (hc v hv)), rfl⟩) ?_
  intro hv9
  have hc9 : options.CheckHolds pfx s.pd_solver_ 9 := fun v hv =>
    of_decide_eq_true (hv9 v hv)
  clear hv9
  refine InitOutcome.andThen_InitMaxSoc_checked (fun out => out.2 = .error e → ∃ i, i < 14 ∧ (∀ j, j < i → options.CheckHolds pfx s.pd_solver_ j) ∧ ¬ options.CheckHolds pfx s.pd_solver_ i ∧ out.1 = s.withOptionsUpTo (InitializeImpl.storedBefore i) options pfx)
    _ _ _
    (fun hfail _ => ⟨10, by norm_num, (fun j hj => by interval_cases j <;> assumption),
      (fun hc => by
        obtain ⟨v, hv, hf⟩ := hfail
        exact absurd (hc v hv) (not_le.mpr hf)), rfl⟩)
    (fun hrange hfail _ => ⟨11, by norm_num,
      (fun j hj => by interval_cases j <;> assumption),
      (fun hc => by
        have hp := hc hfail.1
        rw [hfail.2] at hp
        cases hp), rfl⟩) ?_
  intro hc10 hc11
  have hc10 : options.CheckHolds pfx s.pd_solver_ 10 := hc10
  have hc11 : options.CheckHolds pfx s.pd_solver_ 11 := hc11
  refine InitOutcome.andThen_InitNumeric_checked (fun out => out.2 = .error e → ∃ i, i < 14 ∧ (∀ j, j < i → options.CheckHolds pfx s.pd_solver_ j) ∧ ¬ options.CheckHolds pfx s.pd_solver_ i ∧ out.1 = s.withOptionsUpTo (InitializeImpl.storedBefore i) options pfx)
    _ _ _ _ _ _
    (fun hfail _ => ⟨12, by norm_num, (fun j hj => by interval_cases j <;> assumption),
      (fun hc => by
        obtain ⟨v, hv, hf⟩ := hfail
        exact of_decide_eq_false hf (hc v hv)), rfl⟩) ?_
  intro hv12
  have hc12 : options.CheckHolds pfx s.pd_solver_ 12 := fun v hv =>
    of_decide_eq_true (hv12 v hv)
  clear hv12
  refine InitOutcome.andThen_InitNumeric_checked (fun out => out.2 = .error e → ∃ i, i < 14 ∧ (∀ j, j < i → options.CheckHolds pfx s.pd_solver_ j) ∧ ¬ options.CheckHolds pfx s.pd_solver_ i ∧ out.1 = s.withOptionsUpTo (InitializeImpl.storedBefore i) options pfx)
    _ _ _ _ _ _
    (fun hfail _ => ⟨13, by norm_num, (fun j hj => by interval_cases j <;> assumption),
      (fun hc => by
        obtain ⟨v, hv, hf⟩ := hfail
        exact of_decide_eq_false hf (hc v hv)), rfl⟩) ?_
  intro hv13
  have hc13 : options.CheckHolds pfx s.pd_solver_ 13 := fun v hv =>
    of_decide_eq_true (hv13 v hv)
  clear hv13
  intro h
  rw [InitMagicSteps_snd] at h
  cases h

/-! ## The correction loop ends, and so does every pass of the backtracking loop -/

namespace FilterLineSearch

/-- The correction loop ends within `max_soc_ - count_soc + 1` evaluations of
its condition. -/
theorem SocLoop_terminates (env : Env) (alpha_test theta_curr : Number) (fuel : Nat) :
    ∀ (r : LSRun) (v : SocLocals),
      (v.accept = true ∨ r.ls.max_soc_.toNat + 1 ≤ fuel + 1 + v.count_soc) →
      ∃ out, SocLoop env alpha_test theta_curr (fuel + 1) r v = some out := by
  induction fuel with
  | zero =>
    intro r v hv
    rw [SocLoop]
    by_cases hc : (v.count_soc : Index) < r.ls.max_soc_ ∧
        v.theta_trial ≤ r.ls.kappa_soc_ * v.theta_soc_old ∧ v.accept = false
    · exfalso
      rcases hv with hv | hv
      · rw [hc.2.2] at hv
        cases hv
      · have h1 : v.count_soc < r.ls.max_soc_.toNat := Int.lt_toNat.mpr hc.1
        omega
    · rw [if_neg hc]
      exact ⟨_, rfl⟩
  | succ fuel ih =>
    intro r v hv
    rw [SocLoop]
    by_cases hc : (v.count_soc : Index) < r.ls.max_soc_ ∧
        v.theta_trial ≤ r.ls.kappa_soc_ * v.theta_soc_old ∧ v.accept = false
    · rw [if_pos hc]
      rcases hs : SocStep env alpha_test theta_curr r v with ⟨r', e | w⟩
      · exact ⟨_, rfl⟩
      · simp only
        apply ih
        have hG := SocStep_GatesOnly env alpha_test theta_curr r v
        rw [hs] at hG
        simp only at hG
        have hms : r'.ls.max_soc_ = r.ls.max_soc_ := by rw [hG]
        obtain ⟨-, -, hloc⟩ := SocStep_locals env alpha_test theta_curr r r' v w hs
        rcases hloc with hloc | hloc
        · exact Or.inl hloc.1
        · right
          rw [hms, hloc.2.1]
          rcases hv with hv | hv
          · rw [hc.2.2] at hv
            cases hv
          · have h1 : v.count_soc < r.ls.max_soc_.toNat := Int.lt_toNat.mpr hc.1
            omega
    · rw [if_neg hc]
      exact ⟨_, rfl⟩

/-- The second-order correction always ends: the bound on the passes of its
loop is never reached. -/
theorem TrySecondOrderCorrection_terminates (env : Env) (alpha_primal_max : Number)
    (r : LSRun) (v : Locals) :
    ∃ out, TrySecondOrderCorrection env alpha_primal_max r v = some out := by
  unfold TrySecondOrderCorrection
  simp only
  rcases r.cq.trial_constraint_violation with e | theta_trial
  · exact ⟨_, rfl⟩
  · simp only
    split_ifs with hc
    · obtain ⟨out, hout⟩ := SocLoop_terminates env v.alpha_primal_test
        r.cq.curr_constraint_violation r.ls.max_soc_.toNat r
        { count_soc := 0, theta_soc_old := 0, theta_trial := 0
          alpha_primal_soc := v.alpha_primal, accept := false } (Or.inr (by simp))
      rw [hout]
      rcases out with ⟨r', e | w⟩
      · exact ⟨_, rfl⟩
      · simp only
        split_ifs <;> exact ⟨_, rfl⟩
    · exact ⟨_, rfl⟩

/-- Every pass of the backtracking loop ends. -/
theorem BacktrackingStep_terminates (env : Env) (alpha_primal_max : Number) (r : LSRun)
    (v : Locals) : ∃ out, BacktrackingStep env alpha_primal_max r v = some out := by
  unfold BacktrackingStep
  simp only
  split
  · exact ⟨_, rfl⟩
  · exact ⟨_, rfl⟩
  · obtain ⟨out, hout⟩ := TrySecondOrderCorrection_terminates env alpha_primal_max
      (TryTrialPoint env r v.alpha_primal v.alpha_primal v.dir).1
      { v with alpha_primal_test := v.alpha_primal, accept := false }
    rw [hout]
    rcases out with ⟨r', e | w⟩
    · exact ⟨_, rfl⟩
    · simp only
      split_ifs <;> exact ⟨_, rfl⟩

/-- The first call of a pass of the backtracking loop sets the trial point
with the current step size along the current direction. -/
theorem BacktrackingStep_first_call (env : Env) (alpha_primal_max : Number) (r : LSRun)
    (v : Locals) (out : LSRun × Except Exception Locals)
    (h : BacktrackingStep env alpha_primal_max r v = some out) :
    ∃ rest, out.1.trace =
      r.trace ++ Event.SetTrialPrimalVariablesFromStep v.alpha_primal v.dir :: rest := by
  obtain ⟨⟨added, ha, -⟩, -⟩ := BacktrackingStep_Extends (fun _ => True) env
    alpha_primal_max r v out (LoopEventsOk_True _) h
  refine ⟨added, ?_⟩
  rw [ha]
  simp [SetTrialPrimalVariablesFromStep]

end FilterLineSearch

/-! ## Facts about the C interface -/

theorem CopyLoop_apply (n : Int) (src : NumberArray) (fuel : Nat) (i : Int)
    (dst : NumberArray) (hfuel : (n - i).toNat ≤ fuel) (j : Int) :
    CopyLoop n src fuel i dst j = if i ≤ j ∧ j < n then src j else dst j := by
  induction fuel generalizing i dst with
  | zero =>
    have hni : n ≤ i := by omega
    rw [CopyLoop, if_neg (by omega)]
  | succ fuel ih =>
    rw [CopyLoop]
    by_cases hin : i < n
    · rw [if_pos hin, ih (i + 1) _ (by omega)]
      by_cases hj : j = i
      · subst hj
        rw [if_neg (by omega), if_pos (by omega), Function.update_same]
      · rw [Function.update_noteq hj]
        by_cases h1 : i + 1 ≤ j ∧ j < n
        · rw [if_pos h1, if_pos (by omega)]
        · rw [if_neg h1, if_neg (by omega)]
    · rw [if_neg hin, if_neg (by omega)]

theorem CopyArray_apply (n : Int) (src dst : NumberArray) (j : Int) :
    CopyArray n src dst j = if 0 ≤ j ∧ j < n then src j else dst j := by
  rw [CopyArray, CopyLoop_apply n src n.toNat 0 dst (by omega) j]

theorem CopyArray_of_mem (n : Int) (src dst : NumberArray) (j : Int) (h0 : 0 ≤ j)
    (hn : j < n) : CopyArray n src dst j = src j := by
  rw [CopyArray_apply, if_pos ⟨h0, hn⟩]

theorem StdInterfaceTNLP.get_starting_point_eq (t : StdInterfaceTNLP) (n m : Index)
    (init_x init_z init_lambda : Bool) (b : StartBuffers)
    (hdbg : t.debug = true → n = t.n_var_ ∧ m = t.n_con_) :
    t.get_starting_point n init_x init_z m init_lambda b =
      .ok ({ x := if init_x then CopyArray n t.start_x_ b.x else b.x
             z_L := if init_z then
                 match t.start_z_L_ with
                 | none => b.z_L
                 | some start_z_L => CopyArray n start_z_L b.z_L
               else b.z_L
             z_U := if init_z then
                 match t.start_z_U_ with
                 | none => b.z_U
                 | some start_z_U => CopyArray n start_z_U b.z_U
               else b.z_U
             lambda := if init_lambda then
                 match t.start_lam_ with
                 | none => b.lambda
                 | some start_lam => CopyArray m start_lam b.lambda
               else b.lambda },
        !((init_z && (t.start_z_L_.isNone || t.start_z_U_.isNone)) ||
          (init_lambda && t.start_lam_.isNone))) := by
  have h1 : (t.debug && n != t.n_var_) = false := by
    cases hd : t.debug
    · rfl
    · simp [(hdbg hd).1]
  have h2 : (t.debug && m != t.n_con_) = false := by
    cases hd : t.debug
    · rfl
    · simp [(hdbg hd).2]
  unfold StdInterfaceTNLP.get_starting_point
  rw [h1, h2]
  cases init_x <;> cases init_z <;> cases init_lambda <;>
    cases t.start_z_L_ <;> cases t.start_z_U_ <;> cases t.start_lam_ <;> rfl

/-! ## The calls and the locals of the loops, pass by pass -/

theorem FilterLineSearch.GatesOnly.fields_eq {s s' : FilterLineSearch} (h : s.GatesOnly s') :
    s'.max_soc_ = s.max_soc_ ∧ s'.kappa_soc_ = s.kappa_soc_ ∧
      s'.alpha_red_factor_ = s.alpha_red_factor_ ∧ s'.magic_steps_ = s.magic_steps_ ∧
      s'.resto_phase_ = s.resto_phase_ := by
  rw [h]
  exact ⟨rfl, rfl, rfl, rfl, rfl⟩

namespace FilterLineSearch

theorem SocLoop_spec (env : Env) (alpha_test theta_curr : Number) (fuel : Nat) :
    ∀ (r : LSRun) (v : SocLocals) (out : LSRun × Except Exception SocLocals),
      SocLoop env alpha_test theta_curr fuel r v = some out →
      (v.accept = false → SocInv env theta_curr v) →
      ∃ n, out.1.trace = r.trace ++ SocPasses env alpha_test v.count_soc n ∧
        r.ls.GatesOnly out.1.ls ∧
        out.1.cq.curr_constraint_violation = r.cq.curr_constraint_violation ∧
        (∀ c, v.count_soc ≤ c → c < v.count_soc + n →
          (c : Index) < r.ls.max_soc_ ∧
            (1 ≤ c → SocContracted env r.ls.kappa_soc_ theta_curr (c - 1))) ∧
        ∀ w, out.2 = .ok w →
          (w = v ∧ n = 0) ∨
          (w.accept = true ∧ w.count_soc + 1 = v.count_soc + n ∧
            w.alpha_primal_soc = env.primal_frac_to_the_bound w.count_soc) ∨
          (w.accept = false ∧ w.count_soc = v.count_soc + n ∧ 1 ≤ n) := by
  induction fuel with
  | zero =>
    intro r v out h
    rw [SocLoop] at h
    cases h
  | succ fuel ih =>
    intro r v out h hinv
    rw [SocLoop] at h
    by_cases hc : (v.count_soc : Index) < r.ls.max_soc_ ∧
        v.theta_trial ≤ r.ls.kappa_soc_ * v.theta_soc_old ∧ v.accept = false
    · rw [if_pos hc] at h
      have htr := SocStep_trace env alpha_test theta_curr r v
      have hg := SocStep_GatesOnly env alpha_test theta_curr r v
      have hfr := (SocStep_LoopFrame env alpha_test theta_curr r v).2.2.2.1
      have hfirst : ∀ c, v.count_soc ≤ c → c < v.count_soc + 1 →
          (c : Index) < r.ls.max_soc_ ∧
            (1 ≤ c → SocContracted env r.ls.kappa_soc_ theta_curr (c - 1)) := by
        intro c h1 h2
        have hcv : c = v.count_soc := by omega
        subst hcv
        refine ⟨hc.1, fun h1c => ?_⟩
        have hi := hinv hc.2.2
        unfold SocInv at hi
        obtain ⟨c', hc'⟩ : ∃ c', v.count_soc = c' + 1 := ⟨v.count_soc - 1, by omega⟩
        rw [hc'] at hi ⊢
        simp only at hi
        rw [Nat.add_sub_cancel]
        exact ⟨v.theta_trial, v.theta_soc_old, hi.1, hi.2, hc.2.1⟩
      rcases hs : SocStep env alpha_test theta_curr r v with ⟨r', e | w⟩
      · rw [hs] at h htr hg hfr
        simp only [Option.some.injEq] at h
        subst h
        refine ⟨1, ?_, hg, hfr, hfirst, fun w hw => by cases hw⟩
        rw [htr]
        simp [SocPasses, SocPass]
      · rw [hs] at h htr hg hfr
        simp only at h htr hg hfr
        obtain ⟨hold, halpha, hcase⟩ := SocStep_locals env alpha_test theta_curr r r' v w hs
        rcases hcase with ⟨hacc, hcount⟩ | ⟨hacc, hcount, htheta⟩
        · -- the correction is accepted: the loop ends at its next test
          cases fuel with
          | zero =>
            rw [SocLoop] at h
            cases h
          | succ fuel =>
            rw [SocLoop, if_neg (by rw [hacc]; simp)] at h
            simp only [Option.some.injEq] at h
            subst h
            refine ⟨1, ?_, hg, hfr, hfirst, fun w' hw' => ?_⟩
            · rw [htr]
              simp [SocPasses, SocPass]
            · simp only [Except.ok.injEq] at hw'
              subst hw'
              exact Or.inr (Or.inl ⟨hacc, by rw [hcount], by rw [halpha, hcount]⟩)
        · have hinv' : w.accept = false → SocInv env theta_curr w := by
            intro _
            unfold SocInv
            rw [hcount]
            simp only
            refine ⟨htheta, ?_⟩
            rw [hold]
            have hi := hinv hc.2.2
            unfold SocInv at hi
            unfold SocThetaOld
            rcases hv : v.count_soc with _ | c'
            · simp
            · rw [hv] at hi
              simp only at hi
              simp only [Nat.succ_ne_zero, if_false]
              exact hi.1
          obtain ⟨n, htr2, hg2, hfr2, hpass, hloc⟩ := ih r' w out h hinv'
          obtain ⟨hms, hk, -⟩ := hg.fields_eq
          refine ⟨n + 1, ?_, hg.trans_gates hg2, hfr2.trans hfr, ?_, fun w' hw' => ?_⟩
          · rw [htr2, htr, hcount]
            simp [SocPasses, SocPass]
          · intro c h1 h2
            by_cases hcv : c = v.count_soc
            · exact hfirst c h1 (by omega)
            · have := hpass c (by omega) (by omega)
              rw [hms, hk] at this
              exact this
          · rcases hloc w' hw' with ⟨h1, h2⟩ | ⟨h1, h2, h3⟩ | ⟨h1, h2, h3⟩
            · subst h1
              exact Or.inr (Or.inr ⟨hacc, by omega, by omega⟩)
            · exact Or.inr (Or.inl ⟨h1, by omega, h3⟩)
            · exact Or.inr (Or.inr ⟨h1, by omega, by omega⟩)
    · rw [if_neg hc] at h
      simp only [Option.some.injEq] at h
      subst h
      refine ⟨0, by simp [SocPasses], GatesOnly.refl_gates _, rfl, fun c h1 h2 => by omega,
        fun w hw => ?_⟩
      simp only [Except.ok.injEq] at hw
      exact Or.inl ⟨hw.symm, rfl⟩

end FilterLineSearch
namespace FilterLineSearch

theorem RunCheck_trace (env : Env) (r : LSRun) (alpha : Number) :
    (RunCheck env r alpha).1.trace =
      r.trace ++ [Event.CheckAcceptabilityOfTrialPoint alpha] := rfl

theorem RunCheck_cq (env : Env) (r : LSRun) (alpha : Number) :
    (RunCheck env r alpha).1.cq = r.cq := rfl

theorem TryTrialPoint_trace (env : Env) (r : LSRun) (alpha alpha_test : Number)
    (dir : Direction) :
    (TryTrialPoint env r alpha alpha_test dir).1.trace =
      r.trace ++ TrialEvents env r.ls.magic_steps_ alpha alpha_test dir := by
  unfold TryTrialPoint TrialEvents
  simp only
  have hm : (SetTrialPrimalVariablesFromStep env r alpha dir).ls.magic_steps_ =
      r.ls.magic_steps_ := rfl
  rw [hm]
  cases r.ls.magic_steps_
  · simp [RunCheck_trace, SetTrialPrimalVariablesFromStep]
  · simp only [if_true]
    cases env.magic alpha
    · simp [SetTrialPrimalVariablesFromStep]
    · simp [RunCheck_trace, SetTrialPrimalVariablesFromStep]

theorem TryTrialPoint_trial (env : Env) (r : LSRun) (alpha alpha_test : Number)
    (dir : Direction) :
    (TryTrialPoint env r alpha alpha_test dir).1.cq.trial_constraint_violation =
      (env.trial dir alpha).trial_constraint_violation := by
  unfold TryTrialPoint
  simp only
  split_ifs
  · split
    · rfl
    · rfl
  · rfl

theorem TrySecondOrderCorrection_spec (env : Env) (alpha_primal_max : Number) (r : LSRun)
    (v : Locals) (out : LSRun × Except Exception Locals)
    (h : TrySecondOrderCorrection env alpha_primal_max r v = some out) :
    ∃ n, out.1.trace = r.trace ++ SocPasses env v.alpha_primal_test 0 n ∧
      r.ls.GatesOnly out.1.ls ∧
      out.1.cq.curr_constraint_violation = r.cq.curr_constraint_violation ∧
      (1 ≤ n → v.alpha_primal = alpha_primal_max ∧
        ∃ theta_trial, r.cq.trial_constraint_violation = .ok theta_trial ∧
          r.cq.curr_constraint_violation ≤ theta_trial) ∧
      (∀ c, c < n → (c : Index) < r.ls.max_soc_ ∧
        (1 ≤ c → SocContracted env r.ls.kappa_soc_ r.cq.curr_constraint_violation (c - 1))) ∧
      ∀ w, out.2 = .ok w →
        w = v ∨
        ∃ k, k + 1 = n ∧
          w = { v with alpha_primal := env.primal_frac_to_the_bound k, accept := true,
                       soc_taken := true, dir := Direction.soc k } := by
  unfold TrySecondOrderCorrection at h
  simp only at h
  rcases ht : r.cq.trial_constraint_violation with e | theta_trial
  · rw [ht] at h
    simp only [Option.some.injEq] at h
    subst h
    exact ⟨0, by simp [SocPasses], GatesOnly.refl_gates _, rfl, fun h0 => by omega,
      fun c hc => by omega, fun w' hw' => by cases hw'⟩
  · rw [ht] at h
    simp only at h
    by_cases hc : v.alpha_primal = alpha_primal_max ∧
        r.cq.curr_constraint_violation ≤ theta_trial ∧ r.ls.max_soc_ > 0
    · rw [if_pos hc] at h
      rcases hs : SocLoop env v.alpha_primal_test r.cq.curr_constraint_violation
          (r.ls.max_soc_.toNat + 1) r
          { count_soc := 0, theta_soc_old := 0, theta_trial := 0
            alpha_primal_soc := v.alpha_primal, accept := false } with _ | ⟨r', e | w⟩
      · rw [hs] at h
        cases h
      · rw [hs] at h
        simp only [Option.some.injEq] at h
        subst h
        obtain ⟨n, htr, hg, hfr, hpass, -⟩ := SocLoop_spec env _ _ _ _ _ _ hs
          (fun _ => by unfold SocInv; trivial)
        exact ⟨n, htr, hg, hfr, fun _ => ⟨hc.1, theta_trial, rfl, hc.2.1⟩,
          fun c hcn => hpass c (Nat.zero_le _) (by simpa using hcn), fun w' hw' => by cases hw'⟩
      · rw [hs] at h
        simp only at h
        obtain ⟨n, htr, hg, hfr, hpass, hloc⟩ := SocLoop_spec env _ _ _ _ _ _ hs
          (fun _ => by unfold SocInv; trivial)
        have hloc := hloc w rfl
        simp only [zero_add] at hloc
        by_cases hw : w.accept = true
        · rw [if_pos hw] at h
          simp only [Option.some.injEq] at h
          subst h
          refine ⟨n, htr, hg, hfr, fun _ => ⟨hc.1, theta_trial, rfl, hc.2.1⟩,
            fun c hcn => hpass c (Nat.zero_le _) (by simpa using hcn), fun w' hw' => Or.inr ?_⟩
          simp only [Except.ok.injEq] at hw'
          rcases hloc with ⟨h1, -⟩ | ⟨-, h2, h3⟩ | ⟨h1, -, -⟩
          · rw [h1] at hw
            cases hw
          · exact ⟨w.count_soc, h2, by rw [← hw', h3]⟩
          · rw [h1] at hw
            cases hw
        · rw [if_neg hw] at h
          simp only [Option.some.injEq] at h
          subst h
          exact ⟨n, htr, hg, hfr, fun _ => ⟨hc.1, theta_trial, rfl, hc.2.1⟩,
            fun c hcn => hpass c (Nat.zero_le _) (by simpa using hcn),
            fun w' hw' => Or.inl (by simp only [Except.ok.injEq] at hw'; exact hw'.symm)⟩
    · rw [if_neg hc] at h
      simp only [Option.some.injEq] at h
      subst h
      exact ⟨0, by simp [SocPasses], GatesOnly.refl_gates _, rfl, fun h0 => by omega,
        fun c hc => by omega, fun w' hw' =>
          Or.inl (by simp only [Except.ok.injEq] at hw'; exact hw'.symm)⟩

theorem BacktrackingStep_spec (env : Env) (alpha_primal_max : Number) (r : LSRun)
    (v : Locals) (out : LSRun × Except Exception Locals)
    (h : BacktrackingStep env alpha_primal_max r v = some out) (hdir : v.dir = Direction.orig) :
    ∃ n, out.1.trace = r.trace ++
        (TrialEvents env r.ls.magic_steps_ v.alpha_primal v.alpha_primal Direction.orig ++
          SocPasses env v.alpha_primal 0 n) ∧
      r.ls.GatesOnly out.1.ls ∧
      out.1.cq.curr_constraint_violation = r.cq.curr_constraint_violation ∧
      SocAttemptOk env r.ls.max_soc_ r.ls.kappa_soc_ r.cq.curr_constraint_violation
        alpha_primal_max v.alpha_primal n ∧
      ∀ w, out.2 = .ok w →
        (n = 0 ∧ w = { v with alpha_primal_test := v.alpha_primal, accept := true }) ∨
        (∃ k, k + 1 = n ∧
          w = { v with alpha_primal := env.primal_frac_to_the_bound k,
                       alpha_primal_test := v.alpha_primal, accept := true,
                       soc_taken := true, dir := Direction.soc k }) ∨
        w = { v with alpha_primal := v.alpha_primal * r.ls.alpha_red_factor_,
                     alpha_primal_test := v.alpha_primal, accept := false,
                     n_steps := v.n_steps + 1 } := by
  have htr : (TryTrialPoint env r v.alpha_primal v.alpha_primal v.dir).1.trace =
      r.trace ++ TrialEvents env r.ls.magic_steps_ v.alpha_primal v.alpha_primal
        Direction.orig := by
    rw [TryTrialPoint_trace, hdir]
  have hfr := TryTrialPoint_LoopFrame env r v.alpha_primal v.alpha_primal v.dir
  have htheta : (TryTrialPoint env r v.alpha_primal v.alpha_primal
      v.dir).1.cq.trial_constraint_violation =
      (env.trial Direction.orig v.alpha_primal).trial_constraint_violation := by
    rw [TryTrialPoint_trial, hdir]
  have hg := hfr.1
  have hcv := hfr.2.2.2.1
  unfold BacktrackingStep at h
  simp only at h
  rcases hres : CatchEvalError
      (TryTrialPoint env r v.alpha_primal v.alpha_primal v.dir).2 with e | b
  · rw [hres] at h
    simp only [Option.some.injEq] at h
    subst h
    exact ⟨0, by simp [SocPasses, htr], hg, hcv, ⟨fun h0 => by omega, fun c hc => by omega⟩,
      fun w hw => by cases hw⟩
  · rw [hres] at h
    cases b with
    | true =>
      simp only [Option.some.injEq] at h
      subst h
      exact ⟨0, by simp [SocPasses, htr], hg, hcv, ⟨fun h0 => by omega, fun c hc => by omega⟩,
        fun w hw => Or.inl ⟨rfl, by simp only [Except.ok.injEq] at hw; exact hw.symm⟩⟩
    | false =>
      simp only at h
      rcases hs : TrySecondOrderCorrection env alpha_primal_max
          (TryTrialPoint env r v.alpha_primal v.alpha_primal v.dir).1
          { v with alpha_primal_test := v.alpha_primal, accept := false } with _ | ⟨r', e | w⟩
      · rw [hs] at h
        cases h
      · rw [hs] at h
        simp only [Option.some.injEq] at h
        subst h
        obtain ⟨n, htr2, hg2, hfr2, hatt, hpass, -⟩ :=
          TrySecondOrderCorrection_spec env _ _ _ _ hs
        obtain ⟨hms, hk, -⟩ := hg.fields_eq
        refine ⟨n, ?_, hg.trans_gates hg2, hfr2.trans hcv, ⟨fun h1 => ?_, fun c hc => ?_⟩,
          fun w hw => by cases hw⟩
        · rw [htr2, htr, List.append_assoc]
        · obtain ⟨ha, t, ht, hle⟩ := hatt h1
          exact ⟨ha, t, by rw [← htheta]; exact ht, by rw [← hcv]; exact hle⟩
        · have := hpass c hc
          rw [hms, hk, hcv] at this
          exact this
      · rw [hs] at h
        simp only at h
        obtain ⟨n, htr2, hg2, hfr2, hatt, hpass, hloc⟩ :=
          TrySecondOrderCorrection_spec env _ _ _ _ hs
        obtain ⟨hms, hk, -⟩ := hg.fields_eq
        have hloc := hloc w rfl
        have hcommon : out.1 = r' → out.1.trace = r.trace ++
            (TrialEvents env r.ls.magic_steps_ v.alpha_primal v.alpha_primal Direction.orig ++
              SocPasses env v.alpha_primal 0 n) ∧
            r.ls.GatesOnly out.1.ls ∧
            out.1.cq.curr_constraint_violation = r.cq.curr_constraint_violation ∧
            SocAttemptOk env r.ls.max_soc_ r.ls.kappa_soc_ r.cq.curr_constraint_violation
              alpha_primal_max v.alpha_primal n := by
          intro ho
          rw [ho]
          refine ⟨?_, hg.trans_gates hg2, hfr2.trans hcv, ⟨fun h1 => ?_, fun c hc => ?_⟩⟩
          · rw [htr2, htr, List.append_assoc]
          · obtain ⟨ha, t, ht, hle⟩ := hatt h1
            exact ⟨ha, t, by rw [← htheta]; exact ht, by rw [← hcv]; exact hle⟩
          · have := hpass c hc
            rw [hms, hk, hcv] at this
            exact this
        have hred : r'.ls.alpha_red_factor_ = r.ls.alpha_red_factor_ :=
          (hg.trans_gates hg2).fields_eq.2.2.1
        by_cases hacc : w.accept = true
        · rw [if_pos hacc] at h
          simp only [Option.some.injEq] at h
          subst h
          obtain ⟨h1, h2, h3, h4⟩ := hcommon rfl
          refine ⟨n, h1, h2, h3, h4, fun w' hw' => Or.inr (Or.inl ?_)⟩
          simp only [Except.ok.injEq] at hw'
          rcases hloc with hl | ⟨k, hk1, hk2⟩
          · rw [hl] at hacc
            cases hacc
          · exact ⟨k, hk1, by rw [← hw', hk2]⟩
        · rw [if_neg hacc] at h
          simp only [Option.some.injEq] at h
          subst h
          obtain ⟨h1, h2, h3, h4⟩ := hcommon rfl
          refine ⟨n, h1, h2, h3, h4, fun w' hw' => Or.inr (Or.inr ?_)⟩
          simp only [Except.ok.injEq] at hw'
          rcases hloc with hl | ⟨k, hk1, hk2⟩
          · rw [← hw', hl, hred]
          · rw [hk2] at hacc
            exact absurd rfl hacc

end FilterLineSearch
namespace FilterLineSearch

theorem BacktrackingLoop_spec (env : Env) (alpha_min alpha_primal_max : Number) (fuel : Nat) :
    ∀ (r : LSRun) (v : Locals) (out : LSRun × Except Exception Locals),
      BacktrackingLoop env alpha_min alpha_primal_max fuel r v = some out →
      v.dir = Direction.orig → v.soc_taken = false → v.accept = false →
      v.alpha_primal = alpha_primal_max * r.ls.alpha_red_factor_ ^ v.n_steps →
      ∃ passes, out.1.trace = r.trace ++ LoopEvents env r.ls.magic_steps_ alpha_primal_max
          r.ls.alpha_red_factor_ v.n_steps passes ∧
        r.ls.GatesOnly out.1.ls ∧
        out.1.cq.curr_constraint_violation = r.cq.curr_constraint_violation ∧
        LoopPassesOk (LoopPassOk env r.ls.max_soc_ r.ls.kappa_soc_ r.ls.alpha_red_factor_
          r.cq.curr_constraint_violation alpha_min alpha_primal_max) v.n_steps passes ∧
        ∀ w, out.2 = .ok w →
          LoopEnd env r.ls.alpha_red_factor_ alpha_min alpha_primal_max v.n_steps passes w := by
  induction fuel with
  | zero =>
    intro r v out h
    rw [BacktrackingLoop] at h
    cases h
  | succ fuel ih =>
    intro r v out h hdir hsoc hacc0 halpha
    rw [BacktrackingLoop] at h
    by_cases hc : v.alpha_primal > alpha_min ∨ v.n_steps = 0
    · rw [if_pos hc] at h
      have hcond : v.n_steps = 0 ∨
          alpha_min < alpha_primal_max * r.ls.alpha_red_factor_ ^ v.n_steps := by
        rcases hc with hc | hc
        · exact Or.inr (by rw [← halpha]; exact hc)
        · exact Or.inl hc
      rcases hs : BacktrackingStep env alpha_primal_max r v with _ | ⟨r', e | w⟩
      · rw [hs] at h
        cases h
      · rw [hs] at h
        simp only [Option.some.injEq] at h
        subst h
        obtain ⟨n, htr, hg, hcv, hatt, -⟩ := BacktrackingStep_spec env _ _ _ _ hs hdir
        rw [halpha] at htr hatt
        exact ⟨[n], by rw [htr]; simp [LoopEvents], hg, hcv, ⟨⟨hcond, hatt⟩, trivial⟩,
          fun w hw => by cases hw⟩
      · rw [hs] at h
        simp only at h
        obtain ⟨n, htr, hg, hcv, hatt, hloc⟩ := BacktrackingStep_spec env _ _ _ _ hs hdir
        have hloc := hloc w rfl
        rw [halpha] at htr hatt
        by_cases hacc : w.accept = true
        · rw [if_pos hacc] at h
          simp only [Option.some.injEq] at h
          subst h
          refine ⟨[n], by rw [htr]; simp [LoopEvents], hg, hcv, ⟨⟨hcond, hatt⟩, trivial⟩,
            fun w' hw' => ?_⟩
          simp only [Except.ok.injEq] at hw'
          subst hw'
          rcases hloc with ⟨hn, hw⟩ | ⟨k, hk, hw⟩ | hw
          · refine Or.inl ?_
            rw [hw]
            exact ⟨rfl, hsoc, hdir, rfl, by rw [hn]; rfl, halpha, halpha⟩
          · refine Or.inr (Or.inl ?_)
            rw [hw]
            exact ⟨rfl, rfl, k, rfl, rfl, by rw [← hk]; rfl, rfl, halpha⟩
          · rw [hw] at hacc
            cases hacc
        · rw [if_neg hacc] at h
          have hw : w = { v with alpha_primal := v.alpha_primal * r.ls.alpha_red_factor_,
                                 alpha_primal_test := v.alpha_primal, accept := false,
                                 n_steps := v.n_steps + 1 } := by
            rcases hloc with ⟨hn, hw⟩ | ⟨k, hk, hw⟩ | hw
            · rw [hw] at hacc
              exact absurd rfl hacc
            · rw [hw] at hacc
              exact absurd rfl hacc
            · exact hw
          obtain ⟨hms, hk, hred, hmagic, -⟩ := hg.fields_eq
          have hwn : w.n_steps = v.n_steps + 1 := by rw [hw]
          have hwa : w.alpha_primal =
              alpha_primal_max * r'.ls.alpha_red_factor_ ^ w.n_steps := by
            rw [hwn, hred, hw, pow_succ, ← mul_assoc, ← halpha]
          obtain ⟨passes, htr2, hg2, hcv2, hpass, hend⟩ :=
            ih r' w out h (by rw [hw]; exact hdir) (by rw [hw]; exact hsoc) (by rw [hw]) hwa
          rw [hms, hk, hred, hcv, hwn] at hpass
          rw [hred, hwn] at hend
          rw [hmagic, hred, hwn] at htr2
          refine ⟨n :: passes, ?_, hg.trans_gates hg2, hcv2.trans hcv, ⟨⟨hcond, hatt⟩, hpass⟩,
            fun w' hw' => ?_⟩
          · rw [htr2, htr]
            simp [LoopEvents]
          · have hlast : ∀ x, passes.getLast? = some x → (n :: passes).getLast? = some x := by
              intro x hx
              cases passes with
              | nil => simp at hx
              | cons a t => rw [List.getLast?_cons_cons]; exact hx
            rcases hend w' hw' with ⟨h1, h2, h3, h4, h5, h6⟩ | ⟨h1, h2, k, h3, h4, h5, h6⟩ |
                ⟨h1, h2, h3, h4, h5⟩
            · exact Or.inl ⟨h1, h2, h3, by rw [List.length_cons]; omega, hlast _ h5, h6⟩
            · exact Or.inr (Or.inl ⟨h1, h2, k, h3, by rw [List.length_cons]; omega,
                hlast _ h5, h6⟩)
            · exact Or.inr (Or.inr ⟨h1, h2, h3, by rw [List.length_cons]; omega, h5⟩)
    · rw [if_neg hc] at h
      simp only [Option.some.injEq] at h
      subst h
      refine ⟨[], by simp [LoopEvents], GatesOnly.refl_gates _, rfl, trivial, fun w hw => ?_⟩
      simp only [Except.ok.injEq] at hw
      subst hw
      exact Or.inr (Or.inr ⟨hacc0, hsoc, hdir, by simp, halpha, hc⟩)

end FilterLineSearch
namespace FilterLineSearch

theorem TrialEvents_filter_isRegularTrial (env : Env) (magic_steps : Bool)
    (alpha alpha_test : Number) :
    (TrialEvents env magic_steps alpha alpha_test Direction.orig).filter
      Event.isRegularTrial = [Event.SetTrialPrimalVariablesFromStep alpha Direction.orig] := by
  unfold TrialEvents
  cases magic_steps
  · simp [Event.isRegularTrial]
  · cases env.magic alpha <;> simp [Event.isRegularTrial]

theorem SocPasses_filter_isRegularTrial (env : Env) (alpha_test : Number) (n : Nat) :
    ∀ c, (SocPasses env alpha_test c n).filter Event.isRegularTrial = [] := by
  induction n with
  | zero => intro c; rfl
  | succ n ih =>
    intro c
    rw [SocPasses, List.filter_append, ih]
    simp [SocPass, Event.isRegularTrial]

theorem SocPasses_succ_last (env : Env) (alpha_test : Number) (n : Nat) :
    ∀ c, SocPasses env alpha_test c (n + 1) =
      SocPasses env alpha_test c n ++ SocPass env alpha_test (c + n) := by
  induction n with
  | zero => intro c; simp [SocPasses]
  | succ n ih =>
    intro c
    rw [SocPasses, ih (c + 1), SocPasses, List.append_assoc]
    have : c + 1 + n = c + (n + 1) := by omega
    rw [this]

theorem LoopEvents_append_last (env : Env) (magic_steps : Bool)
    (alpha_primal_max alpha_red_factor : Number) (passes : List Nat) (n : Nat) :
    ∀ j, LoopEvents env magic_steps alpha_primal_max alpha_red_factor j (passes ++ [n]) =
      LoopEvents env magic_steps alpha_primal_max alpha_red_factor j passes ++
        (TrialEvents env magic_steps (alpha_primal_max * alpha_red_factor ^ (j + passes.length))
          (alpha_primal_max * alpha_red_factor ^ (j + passes.length)) Direction.orig ++
        SocPasses env (alpha_primal_max * alpha_red_factor ^ (j + passes.length)) 0 n) := by
  induction passes with
  | nil => intro j; simp [LoopEvents]
  | cons m passes ih =>
    intro j
    rw [List.cons_append, LoopEvents, ih, LoopEvents]
    have : j + 1 + passes.length = j + (m :: passes).length := by
      rw [List.length_cons]; omega
    rw [this]
    simp only [List.append_assoc]

end FilterLineSearch
namespace FilterLineSearch

theorem LoopPassesOk_append_last (P : Nat → Nat → Prop) (passes : List Nat) (n : Nat) :
    ∀ j, LoopPassesOk P j (passes ++ [n]) → P (j + passes.length) n := by
  induction passes with
  | nil => intro j h; exact h.1
  | cons m passes ih =>
    intro j h
    have := ih (j + 1) h.2
    rw [List.length_cons]
    have he : j + (passes.length + 1) = j + 1 + passes.length := by omega
    rw [he]
    exact this

/-- What a `Commit` that returns normally records: whether it augmented the
filter decides between `h` and `f`, `soc_taken` decides the case, and the
trial multipliers are set from the step size and the direction of the locals. -/
theorem Commit_spec (env : Env) (r : LSRun) (v : Locals) (out : LSRun)
    (h : Commit env r v = (out, .ok ())) :
    ∃ augment : Bool,
      out.trace = r.trace ++ ((if augment then [Event.AugmentFilter] else []) ++
        [Event.SetTrialEqMultipilersFromStep v.alpha_primal v.dir,
         Event.SetTrialBoundMutlipliersFromStep (env.dual_frac_to_the_bound v.dir) v.dir]) ∧
      out.info_alpha_primal_char =
        (if v.soc_taken then (if augment then 'H' else 'F')
         else (if augment then 'h' else 'f')) ∧
      out.info_alpha_primal = v.alpha_primal ∧
      out.info_ls_count = (v.n_steps : Index) + 1 ∧
      out.info_alpha_dual = env.dual_frac_to_the_bound v.dir := by
  unfold Commit at h
  simp only at h
  split at h
  · cases h
  · rename_i augment _
    simp only [Prod.mk.injEq, and_true] at h
    subst h
    refine ⟨augment, ?_, ?_, rfl, rfl, rfl⟩
    · cases augment <;> simp
    · cases augment <;> cases v.soc_taken <;> simp

theorem InitialLocals_alpha_primal (env : Env) (red : Number) :
    (InitialLocals env).alpha_primal =
      env.curr_primal_frac_to_the_bound * red ^ (InitialLocals env).n_steps := by
  simp [InitialLocals]

end FilterLineSearch
/-! ## An example in which a second-order correction is accepted -/

namespace FilterLineSearch

/-- The second-order correction when a corrected step is accepted. -/
theorem TrySecondOrderCorrection_of_accept (env : Env) (alpha_primal_max theta_trial : Number)
    (r r1 : LSRun) (v : Locals) (w1 : SocLocals)
    (ht : r.cq.trial_constraint_violation = .ok theta_trial)
    (hcond : v.alpha_primal = alpha_primal_max ∧
      r.cq.curr_constraint_violation ≤ theta_trial ∧ r.ls.max_soc_ > 0)
    (hl : SocLoop env v.alpha_primal_test r.cq.curr_constraint_violation
        (r.ls.max_soc_.toNat + 1) r
        { count_soc := 0, theta_soc_old := 0, theta_trial := 0
          alpha_primal_soc := v.alpha_primal, accept := false } = some (r1, .ok w1))
    (hw : w1.accept = true) :
    TrySecondOrderCorrection env alpha_primal_max r v =
      some (r1, .ok { v with alpha_primal := w1.alpha_primal_soc
                             accept := true
                             soc_taken := true
                             dir := Direction.soc w1.count_soc }) := by
  rw [TrySecondOrderCorrection, ht]
  simp only
  rw [if_pos hcond, hl]
  simp only
  rw [if_pos hw]

/-- A pass of the backtracking loop in which the regular trial is rejected and
a corrected step is accepted. -/
theorem BacktrackingStep_of_soc_accept (env : Env) (alpha_primal_max : Number)
    (r r1 r2 : LSRun) (v v2 : Locals)
    (htry : TryTrialPoint env r v.alpha_primal v.alpha_primal v.dir = (r1, .ok false))
    (hsoc : TrySecondOrderCorrection env alpha_primal_max r1
        { v with alpha_primal_test := v.alpha_primal, accept := false } = some (r2, .ok v2))
    (hacc : v2.accept = true) :
    BacktrackingStep env alpha_primal_max r v = some (r2, .ok v2) := by
  rw [BacktrackingStep]
  simp only [htry, CatchEvalError, hsoc, hacc, if_true]

/-- The backtracking loop ends with the pass that accepts a step. -/
theorem BacktrackingLoop_of_accept (env : Env) (alpha_min alpha_primal_max : Number)
    (fuel : Nat) (r r1 : LSRun) (v v1 : Locals)
    (hc : v.alpha_primal > alpha_min ∨ v.n_steps = 0)
    (hs : BacktrackingStep env alpha_primal_max r v = some (r1, .ok v1))
    (hacc : v1.accept = true) :
    BacktrackingLoop env alpha_min alpha_primal_max (fuel + 1) r v = some (r1, .ok v1) := by
  rw [BacktrackingLoop, if_pos hc, hs]
  simp only [hacc, if_true]

theorem exampleC_Check_orig :
    CheckAcceptabilityOfTrialPoint exampleLineSearchF exampleMath exampleRunC1.cq 1 =
      (exampleLineSearchF, .ok false) := by
  have hg : InitThetaGates exampleLineSearchF (1/2) = exampleLineSearchF := by
    unfold InitThetaGates
    norm_num [exampleLineSearchF, exampleLineSearch]
  have hcq : exampleRunC1.cq.curr_constraint_violation = 1/2 := rfl
  have ht : exampleRunC1.cq.trial_constraint_violation = .ok 100000 := rfl
  unfold CheckAcceptabilityOfTrialPoint
  rw [ht]
  simp only [hcq, hg]
  unfold CheckTests
  norm_num [exampleLineSearchF, exampleLineSearch]

theorem exampleC_TryTrialPoint :
    TryTrialPoint exampleEnvC exampleRunF 1 1 Direction.orig = (exampleRunC1, .ok false) := by
  have hset : SetTrialPrimalVariablesFromStep exampleEnvC exampleRunF 1 Direction.orig =
      { exampleRunC1 with
        trace := [Event.SetTrialPrimalVariablesFromStep 1 Direction.orig] } := rfl
  unfold TryTrialPoint
  rw [hset]
  have hm : exampleRunC1.ls.magic_steps_ = false := rfl
  simp only [hm, Bool.false_eq_true, if_false]
  unfold RunCheck
  have hc : CheckAcceptabilityOfTrialPoint exampleRunC1.ls exampleEnvC.m exampleRunC1.cq 1 =
      (exampleLineSearchF, .ok false) := exampleC_Check_orig
  simp only [hc]
  rfl

theorem exampleC_SetTrial_soc :
    SetTrialPrimalVariablesFromStep exampleEnvC
      { ls := exampleRunC1.ls
        cq := exampleRunC1.cq
        info_alpha_primal := exampleRunC1.info_alpha_primal
        info_alpha_dual := exampleRunC1.info_alpha_dual
        info_alpha_primal_char := exampleRunC1.info_alpha_primal_char
        info_ls_count := exampleRunC1.info_ls_count
        trace := exampleRunC1.trace ++ [Event.Solve 0] }
      (1 / 2) (Direction.soc 0) =
      { exampleRunC2 with
        trace := [Event.SetTrialPrimalVariablesFromStep 1 Direction.orig,
          Event.CheckAcceptabilityOfTrialPoint 1,
          Event.Solve 0,
          Event.SetTrialPrimalVariablesFromStep (1 / 2) (Direction.soc 0)] } := rfl

theorem exampleC_RunCheck_soc :
    RunCheck exampleEnvC
      { exampleRunC2 with
        trace := [Event.SetTrialPrimalVariablesFromStep 1 Direction.orig,
          Event.CheckAcceptabilityOfTrialPoint 1,
          Event.Solve 0,
          Event.SetTrialPrimalVariablesFromStep (1 / 2) (Direction.soc 0)] } 1 =
      (exampleRunC2, .ok true) := by
  have hc : CheckAcceptabilityOfTrialPoint exampleRunC2.ls exampleEnvC.m exampleRunC2.cq 1 =
      (exampleLineSearchF, .ok true) := exampleF_Check
  unfold RunCheck
  simp only [hc]
  rfl

theorem exampleC_frac : exampleEnvC.primal_frac_to_the_bound 0 = 1 / 2 := rfl

theorem exampleC_SocStep :
    SocStep exampleEnvC 1 (1/2) exampleRunC1
        { count_soc := 0, theta_soc_old := 0, theta_trial := 0
          alpha_primal_soc := 1, accept := false } =
      (exampleRunC2, .ok { count_soc := 0, theta_soc_old := 1/2, theta_trial := 0,
                           alpha_primal_soc := 1/2, accept := true }) := by
  rw [SocStep, exampleC_frac, exampleC_SetTrial_soc, exampleC_RunCheck_soc]
  simp only [CatchEvalError, if_true]

theorem exampleC_TrySecondOrderCorrection :
    TrySecondOrderCorrection exampleEnvC 1 exampleRunC1
        { alpha_primal := 1, alpha_primal_test := 1, accept := false,
          soc_taken := false, n_steps := 0, dir := Direction.orig } =
      some (exampleRunC2, .ok exampleLocalsC2) := by
  have hms : exampleRunC1.ls.max_soc_ = 4 := rfl
  have hth : exampleRunC1.cq.curr_constraint_violation = 1/2 := rfl
  have hcond : ((1 : Number) = 1 ∧ exampleRunC1.cq.curr_constraint_violation ≤ 100000 ∧
      exampleRunC1.ls.max_soc_ > 0) := by
    rw [hth, hms]
    exact ⟨rfl, by norm_num, by norm_num⟩
  have h2 : exampleRunC1.ls.max_soc_.toNat + 1 = 3 + 2 := by
    rw [hms]
    rfl
  have hc1 : (((0 : Nat) : Index) < exampleRunC1.ls.max_soc_ ∧
      (0 : Number) ≤ exampleRunC1.ls.kappa_soc_ * 0 ∧ false = false) := by
    rw [hms]
    exact ⟨by norm_num, by norm_num, rfl⟩
  have hc2 : ∀ (x y : Number), ¬ (((0 : Nat) : Index) < exampleRunC2.ls.max_soc_ ∧
      x ≤ y ∧ true = false) := by
    intro x y h
    exact absurd h.2.2 (by simp)
  have hl : SocLoop exampleEnvC 1 exampleRunC1.cq.curr_constraint_violation
      (exampleRunC1.ls.max_soc_.toNat + 1) exampleRunC1
      { count_soc := 0, theta_soc_old := 0, theta_trial := 0
        alpha_primal_soc := 1, accept := false } =
      some (exampleRunC2, .ok { count_soc := 0, theta_soc_old := 1/2, theta_trial := 0,
                                alpha_primal_soc := 1/2, accept := true }) := by
    rw [hth, h2]
    exact SocLoop_reject_once exampleEnvC 1 (1/2) 3 exampleRunC1 _ _ _ hc1
      exampleC_SocStep (hc2 _ _)
  exact TrySecondOrderCorrection_of_accept exampleEnvC 1 100000 exampleRunC1 exampleRunC2
    { alpha_primal := 1, alpha_primal_test := 1, accept := false,
      soc_taken := false, n_steps := 0, dir := Direction.orig } _ rfl hcond hl rfl

theorem exampleC_BacktrackingLoop (alpha_min : Number) (fuel : Nat) :
    BacktrackingLoop exampleEnvC alpha_min exampleEnvC.curr_primal_frac_to_the_bound
        (fuel + 1) exampleRunF (InitialLocals exampleEnvC) =
      some (exampleRunC2, .ok exampleLocalsC2) := by
  have hi : InitialLocals exampleEnvC =
      { alpha_primal := 1, alpha_primal_test := 0, accept := false, soc_taken := false,
        n_steps := 0, dir := Direction.orig } := rfl
  have hmax : exampleEnvC.curr_primal_frac_to_the_bound = 1 := rfl
  rw [hi, hmax]
  exact BacktrackingLoop_of_accept exampleEnvC alpha_min 1 fuel exampleRunF exampleRunC2 _
    exampleLocalsC2 (Or.inr rfl)
    (BacktrackingStep_of_soc_accept exampleEnvC 1 exampleRunF exampleRunC1 exampleRunC2 _
      exampleLocalsC2 exampleC_TryTrialPoint exampleC_TrySecondOrderCorrection rfl) rfl

end FilterLineSearch
namespace FilterLineSearch

end FilterLineSearch

/-! ## Examples for the first pass of the backtracking loop -/

namespace FilterLineSearch

/-- The backtracking loop after its first pass through the body. -/
theorem BacktrackingLoop_first_pass (env : Env) (alpha_min alpha_primal_max : Number)
    (fuel : Nat) (r r1 : LSRun) (v : Locals) (res : Except Exception Locals)
    (hc : v.alpha_primal > alpha_min ∨ v.n_steps = 0) :
    BacktrackingStep env alpha_primal_max r v = some (r1, res) →
    BacktrackingLoop env alpha_min alpha_primal_max (fuel + 1) r v =
      match res with
      | .error e => some (r1, .error e)
      | .ok v1 =>
        if v1.accept then some (r1, .ok v1)
        else BacktrackingLoop env alpha_min alpha_primal_max fuel r1 v1 := by
  intro hstep
  rw [BacktrackingLoop, if_pos hc, hstep]
  cases res <;> rfl

theorem exampleR_Check :
    CheckAcceptabilityOfTrialPoint exampleLineSearchR exampleMath exampleRunR1.cq 1e-7 =
      (exampleLineSearchR, .ok false) := by
  have hg : InitThetaGates exampleLineSearchR (1/2) = exampleLineSearchR := by
    unfold InitThetaGates
    norm_num [exampleLineSearchR, exampleLineSearchN, exampleLineSearchF, exampleLineSearch]
  have hcq : exampleRunR1.cq.curr_constraint_violation = 1/2 := rfl
  have ht : exampleRunR1.cq.trial_constraint_violation = .ok 100000 := rfl
  unfold CheckAcceptabilityOfTrialPoint
  rw [ht]
  simp only [hcq, hg]
  unfold CheckTests
  norm_num [exampleLineSearchR, exampleLineSearchN, exampleLineSearchF, exampleLineSearch]

theorem exampleR_TryTrialPoint :
    TryTrialPoint exampleEnvN exampleRunR 1e-7 1e-7 Direction.orig =
      (exampleRunR1, .ok false) := by
  have hset : SetTrialPrimalVariablesFromStep exampleEnvN exampleRunR 1e-7 Direction.orig =
      { exampleRunR1 with
        trace := [Event.SetTrialPrimalVariablesFromStep 1e-7 Direction.orig] } := rfl
  unfold TryTrialPoint
  rw [hset]
  have hm : exampleRunR1.ls.magic_steps_ = false := rfl
  simp only [hm, Bool.false_eq_true, if_false]
  unfold RunCheck
  have hc : CheckAcceptabilityOfTrialPoint exampleRunR1.ls exampleEnvN.m exampleRunR1.cq 1e-7 =
      (exampleLineSearchR, .ok false) := exampleR_Check
  simp only [hc]
  rfl

theorem exampleR_BacktrackingStep :
    BacktrackingStep exampleEnvN exampleEnvN.curr_primal_frac_to_the_bound exampleRunR
      (InitialLocals exampleEnvN) = some (exampleRunR1, .ok exampleLocalsN1) := by
  have hi : InitialLocals exampleEnvN =
      { alpha_primal := 1e-7, alpha_primal_test := 0, accept := false, soc_taken := false,
        n_steps := 0, dir := Direction.orig } := rfl
  have hmax : exampleEnvN.curr_primal_frac_to_the_bound = 1e-7 := rfl
  have hsoc : ∀ v : Locals,
      TrySecondOrderCorrection exampleEnvN 1e-7 exampleRunR1 v = some (exampleRunR1, .ok v) := by
    intro v
    have ht : exampleRunR1.cq.trial_constraint_violation = .ok 100000 := rfl
    have hs : exampleRunR1.ls.max_soc_ = 0 := rfl
    unfold TrySecondOrderCorrection
    simp only [ht, hs]
    simp
  rw [hi, hmax]
  unfold BacktrackingStep
  simp only [exampleR_TryTrialPoint, CatchEvalError, hsoc]
  rfl

theorem exampleR_CalculateAlphaMin :
    CalculateAlphaMin exampleRunR.ls exampleEnvN.m exampleRunR.cq = 2.5e-7 := by
  norm_num [CalculateAlphaMin, exampleRunR, exampleRunF, exampleLineSearchR, exampleLineSearchN,
    exampleLineSearchF, exampleLineSearch, exampleCqF]

theorem exampleM_FindAcceptableTrialPoint (fuel : Nat) :
    FindAcceptableTrialPoint exampleEnvM (fuel + 1) exampleRunM =
      some (exampleRunM1, .error Exception.Eval_Error) := by
  have htry : TryTrialPoint exampleEnvM exampleRunM 1 1 Direction.orig =
      (exampleRunM1, .error Exception.Eval_Error) := rfl
  have hsoc : ∀ v, TrySecondOrderCorrection exampleEnvM 1 exampleRunM1 v =
      some (exampleRunM1, .error Exception.Eval_Error) := fun _ => rfl
  have hi : InitialLocals exampleEnvM =
      { alpha_primal := 1, alpha_primal_test := 0, accept := false, soc_taken := false,
        n_steps := 0, dir := Direction.orig } := rfl
  have hmax : exampleEnvM.curr_primal_frac_to_the_bound = 1 := rfl
  have hstep : BacktrackingStep exampleEnvM 1 exampleRunM
      { alpha_primal := 1, alpha_primal_test := 0, accept := false, soc_taken := false,
        n_steps := 0, dir := Direction.orig } =
      some (exampleRunM1, .error Exception.Eval_Error) := by
    unfold BacktrackingStep
    simp only [htry, CatchEvalError, hsoc]
  unfold FindAcceptableTrialPoint
  simp only [hmax, hi]
  rw [BacktrackingLoop]
  simp only [or_true, if_true, hstep]

end FilterLineSearch

/-! ## Facts about `PerformMagicStep` -/

theorem Vec.abs_le_Amax {n : Nat} (v : Vec n) (i : Fin n) : |v i| ≤ v.Amax := by
  unfold Vec.Amax
  have key : ∀ l : List (Fin n), i ∈ l →
      |v i| ≤ l.foldr (fun i acc => max |v i| acc) 0 := by
    intro l
    induction l with
    | nil => intro h; cases h
    | cons a l ih =>
      intro h
      rw [List.foldr_cons]
      rcases List.mem_cons.mp h with h | h
      · rw [h]
        exact le_max_left _ _
      · exact le_trans (ih h) (le_max_right _ _)
  exact key _ (List.mem_finRange i)

theorem Vec.Amax_nonneg {n : Nat} (v : Vec n) : 0 ≤ v.Amax := by
  unfold Vec.Amax
  induction List.finRange n with
  | nil => exact le_refl 0
  | cons a l ih =>
    rw [List.foldr_cons]
    exact le_trans ih (le_max_right _ _)

theorem Vec.eq_zero_of_Amax_not_pos {n : Nat} (v : Vec n) (h : ¬ v.Amax > 0) (i : Fin n) :
    v i = 0 := by
  have h1 := Vec.abs_le_Amax v i
  have h2 : |v i| ≤ 0 := le_trans h1 (not_lt.mp h)
  exact abs_eq_zero.mp (le_antisymm h2 (abs_nonneg _))

theorem Vec.Amax_one (v : Vec 1) : v.Amax = |v 0| := by
  unfold Vec.Amax
  simp [List.finRange]

theorem ExpansionMatrix.sum_of_mem {nrows ncols : Nat} (P : ExpansionMatrix nrows ncols)
    (hP : Function.Injective P.exp_pos) (x : Vec ncols) (j0 : Fin ncols) :
    (∑ j : Fin ncols, if P.exp_pos j = P.exp_pos j0 then x j else 0) = x j0 := by
  rw [Finset.sum_eq_single j0]
  · rw [if_pos rfl]
  · intro j _ hj
    rw [if_neg (fun h => hj (hP h))]
  · intro h
    exact absurd (Finset.mem_univ j0) h

theorem ExpansionMatrix.sum_of_not_mem {nrows ncols : Nat} (P : ExpansionMatrix nrows ncols)
    (x : Vec ncols) (i : Fin nrows) (hi : ∀ j, P.exp_pos j ≠ i) :
    (∑ j : Fin ncols, if P.exp_pos j = i then x j else 0) = 0 := by
  apply Finset.sum_eq_zero
  intro j _
  rw [if_neg (hi j)]

theorem ExpansionMatrix.MultVector_of_eq {nrows ncols : Nat} (P : ExpansionMatrix nrows ncols)
    (hP : Function.Injective P.exp_pos) (j0 : Fin ncols) (i : Fin nrows)
    (h : P.exp_pos j0 = i) (alpha : Number) (x : Vec ncols) (beta : Number) (y : Vec nrows) :
    P.MultVector alpha x beta y i = beta * y i + alpha * x j0 := by
  unfold ExpansionMatrix.MultVector
  rw [← h, ExpansionMatrix.sum_of_mem P hP x j0]

theorem ExpansionMatrix.MultVector_of_ne {nrows ncols : Nat} (P : ExpansionMatrix nrows ncols)
    (i : Fin nrows) (h : ∀ j, P.exp_pos j ≠ i) (alpha : Number) (x : Vec ncols)
    (beta : Number) (y : Vec nrows) :
    P.MultVector alpha x beta y i = beta * y i := by
  unfold ExpansionMatrix.MultVector
  rw [ExpansionMatrix.sum_of_not_mem P x i h, mul_zero, add_zero]

theorem ExpansionMatrix.TransMultVector_apply {nrows ncols : Nat}
    (P : ExpansionMatrix nrows ncols) (alpha : Number) (x : Vec nrows) (beta : Number)
    (y : Vec ncols) (j : Fin ncols) :
    P.TransMultVector alpha x beta y j = beta * y j + alpha * x (P.exp_pos j) := rfl

namespace FilterLineSearch

theorem delta_s_magic_lower {n nL nU : Nat} (m : MagicData n nL nU)
    (hL : Function.Injective m.Pd_L.exp_pos)
    (i : Fin n) (jL : Fin nL) (hiL : m.Pd_L.exp_pos jL = i)
    (hiU : ∀ j, m.Pd_U.exp_pos j ≠ i) :
    delta_s_magic m i = max 0 (m.trial_d_minus_s i) := by
  simp only [delta_s_magic, Vec.MakeNew, Vec.Set, Vec.Copy, Vec.ElementWiseMax,
    Vec.ElementWiseMin, Vec.ElementWiseAbs, Vec.ElementWiseMultiply, Vec.Axpy,
    Vec.ElementWiseSgn,
    ExpansionMatrix.MultVector_of_eq m.Pd_L hL jL i hiL,
    ExpansionMatrix.MultVector_of_ne m.Pd_U i hiU,
    ExpansionMatrix.TransMultVector_apply, hiL]
  simp only [zero_mul, one_mul, zero_add, add_zero, mul_zero]

/-- The slacks after `PerformMagicStep`: `s_trial + delta_s_magic`, also when
the test of line 694 fails, because `delta_s_magic` is zero then. -/
theorem PerformMagicStep_trial_s {n nL nU : Nat} (m : MagicData n nL nU) (i : Fin n) :
    (PerformMagicStep m).trial_s i = m.trial_s i + delta_s_magic m i := by
  unfold PerformMagicStep
  simp only
  split_ifs with h1 h2
  · simp only [Vec.Axpy]
    ring
  · simp only [Vec.Axpy]
    ring
  · rw [Vec.eq_zero_of_Amax_not_pos _ h1 i, add_zero]

/-- The info string after `PerformMagicStep`. -/
theorem PerformMagicStep_info_string {n nL nU : Nat} (m : MagicData n nL nU) :
    (PerformMagicStep m).info_string =
      if (delta_s_magic m).Amax > 0 ∧
          (delta_s_magic m).Amax > 10 * m.mach_eps * m.trial_s.Amax then
        m.info_string ++ "M"
      else m.info_string := by
  unfold PerformMagicStep
  simp only
  split_ifs with h1 h2 h3 h3 h3
  · rfl
  · exact absurd ⟨h1, h2⟩ h3
  · exact absurd h3.2 h2
  · rfl
  · exact absurd h3.1 h1
  · rfl

end FilterLineSearch

/-! ## Facts about `CompoundMatrix` -/

/-- A loop that updates each component of a family once. -/
theorem List.foldl_update_apply {n : Nat} {β : Fin n → Type} (g : (i : Fin n) → β i → β i)
    (l : List (Fin n)) :
    ∀ (y : (i : Fin n) → β i), l.Nodup → ∀ i,
      (l.foldl (fun y i => Function.update y i (g i (y i))) y) i =
        if i ∈ l then g i (y i) else y i := by
  induction l with
  | nil => intro y _ i; simp
  | cons a l ih =>
    intro y hnd i
    rw [List.foldl_cons, ih _ (List.nodup_cons.mp hnd).2]
    by_cases hia : i = a
    · subst hia
      have hnot : i ∉ l := (List.nodup_cons.mp hnd).1
      rw [if_neg hnot, if_pos (List.mem_cons_self _ _), Function.update_same]
    · rw [Function.update_noteq hia]
      by_cases hil : i ∈ l
      · rw [if_pos hil, if_pos (List.mem_cons_of_mem _ hil)]
      · rw [if_neg hil, if_neg (by simp [hia, hil])]

/-- The inner loop of `MultVectorImpl`: the products of the blocks that are set
are added up. -/
theorem List.foldl_MultVector_apply {m nc : Nat} {block_cols : Fin nc → Nat} (alpha : Number)
    (x : CompoundVector nc block_cols) (c : (j : Fin nc) → Option (BlockMatrix m (block_cols j)))
    (l : List (Fin nc)) :
    ∀ (acc : Vec m) (k : Fin m),
      (l.foldl (fun (y_i : Vec m) jcol =>
        (c jcol).elim y_i (fun comp => comp.MultVector alpha (x jcol) 1 y_i)) acc) k =
      acc k + alpha * (l.map (fun j => (c j).elim 0 (fun comp => comp.mult (x j) k))).sum := by
  induction l with
  | nil => intro acc k; simp
  | cons a l ih =>
    intro acc k
    rw [List.foldl_cons, ih, List.map_cons, List.sum_cons]
    cases c a with
    | none => simp
    | some p => simp only [Option.elim, BlockMatrix.MultVector]; ring

/-- The inner loop of `TransMultVectorImpl`. -/
theorem List.foldl_TransMultVector_apply {m nr : Nat} {block_rows : Fin nr → Nat}
    (alpha : Number) (x : CompoundVector nr block_rows)
    (c : (j : Fin nr) → Option (BlockMatrix (block_rows j) m)) (l : List (Fin nr)) :
    ∀ (acc : Vec m) (k : Fin m),
      (l.foldl (fun (y_i : Vec m) jcol =>
        (c jcol).elim y_i (fun comp => comp.TransMultVector alpha (x jcol) 1 y_i)) acc) k =
      acc k +
        alpha * (l.map (fun j => (c j).elim 0 (fun comp => comp.transMult (x j) k))).sum := by
  induction l with
  | nil => intro acc k; simp
  | cons a l ih =>
    intro acc k
    rw [List.foldl_cons, ih, List.map_cons, List.sum_cons]
    cases c a with
    | none => simp
    | some p => simp only [Option.elim, BlockMatrix.TransMultVector]; ring

theorem CompoundMatrix.MultVectorImpl_apply {nr nc : Nat} {block_rows : Fin nr → Nat}
    {block_cols : Fin nc → Nat} (A : CompoundMatrix nr nc block_rows block_cols)
    (alpha : Number) (x : CompoundVector nc block_cols) (beta : Number)
    (y : CompoundVector nr block_rows) (i : Fin nr) (k : Fin (block_rows i)) :
    A.MultVectorImpl alpha x beta y i k =
      beta * y i k +
        alpha * ∑ j : Fin nc, (A.ConstComp i j).elim 0 (fun comp => comp.mult (x j) k) := by
  unfold CompoundMatrix.MultVectorImpl
  simp only
  rw [List.foldl_update_apply (fun irow (y_i : Vec (block_rows irow)) =>
    (List.finRange nc).foldl (fun y_i jcol =>
      (A.ConstComp irow jcol).elim y_i (fun comp => comp.MultVector alpha (x jcol) 1 y_i))
      y_i) (List.finRange nr) _ (List.nodup_finRange nr) i,
    if_pos (List.mem_finRange i),
    List.foldl_MultVector_apply alpha x (fun j => A.ConstComp i j), Fin.sum_univ_def]
  congr 1
  by_cases hb : beta = 0
  · rw [if_neg (not_not.mpr hb), hb, zero_mul]
    rfl
  · rw [if_pos hb]
    rfl

theorem CompoundMatrix.TransMultVectorImpl_apply {nr nc : Nat} {block_rows : Fin nr → Nat}
    {block_cols : Fin nc → Nat} (A : CompoundMatrix nr nc block_rows block_cols)
    (alpha : Number) (x : CompoundVector nr block_rows) (beta : Number)
    (y : CompoundVector nc block_cols) (j : Fin nc) (k : Fin (block_cols j)) :
    A.TransMultVectorImpl alpha x beta y j k =
      beta * y j k +
        alpha * ∑ i : Fin nr, (A.ConstComp i j).elim 0 (fun comp => comp.transMult (x i) k) := by
  unfold CompoundMatrix.TransMultVectorImpl
  simp only
  rw [List.foldl_update_apply (fun irow (y_i : Vec (block_cols irow)) =>
    (List.finRange nr).foldl (fun y_i jcol =>
      (A.ConstComp jcol irow).elim y_i
        (fun comp => comp.TransMultVector alpha (x jcol) 1 y_i)) y_i)
      (List.finRange nc) _ (List.nodup_finRange nc) j,
    if_pos (List.mem_finRange j),
    List.foldl_TransMultVector_apply alpha x (fun i => A.ConstComp i j), Fin.sum_univ_def]
  congr 1
  by_cases hb : beta = 0
  · rw [if_neg (not_not.mpr hb), hb, zero_mul]
    rfl
  · rw [if_pos hb]
    rfl

/-! ## Facts about `TripletHelper` on vectors -/

namespace TripletHelper

theorem PutValuesInVector_Dim (dim : Nat) (values : Nat → Number) (off : Nat) (vec : Vector) :
    (PutValuesInVector dim values off vec).Dim = vec.Dim := by
  cases vec <;> rfl

/-- The loop of `PutValuesInVector` leaves the components alone that it does
not visit. -/
theorem PutValuesInVector_loop_of_not_mem {n : Nat} (values : Nat → Number)
    (comp : Fin n → Vector) (l : List (Fin n)) :
    ∀ (cs : Fin n → Vector) (off : Nat) (i : Fin n), i ∉ l →
      (l.foldl (fun (st : (Fin n → Vector) × Nat) i =>
        (Function.update st.1 i (PutValuesInVector (comp i).Dim values st.2 (comp i)),
          st.2 + (comp i).Dim)) (cs, off)).1 i = cs i := by
  induction l with
  | nil => intro cs off i _; rfl
  | cons a l ih =>
    intro cs off i hi
    rw [List.foldl_cons, ih _ _ i (fun h => hi (List.mem_cons_of_mem _ h)),
      Function.update_noteq (fun h => hi (by rw [h]; exact List.mem_cons_self _ _))]

/-- The loops of `PutValuesInVector` and `FillValuesFromVector` over the same
components, one after the other, when each component makes the round trip. -/
theorem round_trip_loop {n : Nat} (v : Nat → Number) (comp : Fin n → Vector)
    (hcomp : ∀ i (voff : Nat) (out : Nat → Number) (off k : Nat),
      FillValuesFromVector (comp i).Dim
        (PutValuesInVector (comp i).Dim v voff (comp i)) out off k =
        if off ≤ k ∧ k < off + (comp i).Dim then v (voff + (k - off)) else out k)
    (l : List (Fin n)) :
    l.Nodup → ∀ (cs : Fin n → Vector) (voff : Nat) (out : Nat → Number) (off k : Nat),
      (l.foldl (fun (st : (Nat → Number) × Nat) i =>
        (FillValuesFromVector
          (((l.foldl (fun (st : (Fin n → Vector) × Nat) i =>
            (Function.update st.1 i (PutValuesInVector (comp i).Dim v st.2 (comp i)),
              st.2 + (comp i).Dim)) (cs, voff)).1 i).Dim)
          ((l.foldl (fun (st : (Fin n → Vector) × Nat) i =>
            (Function.update st.1 i (PutValuesInVector (comp i).Dim v st.2 (comp i)),
              st.2 + (comp i).Dim)) (cs, voff)).1 i) st.1 st.2,
          st.2 + ((l.foldl (fun (st : (Fin n → Vector) × Nat) i =>
            (Function.update st.1 i (PutValuesInVector (comp i).Dim v st.2 (comp i)),
              st.2 + (comp i).Dim)) (cs, voff)).1 i).Dim)) (out, off)).1 k =
        if off ≤ k ∧ k < off + (l.map (fun i => (comp i).Dim)).sum then v (voff + (k - off))
        else out k := by
  induction l with
  | nil =>
    intro _ cs voff out off k
    have h : ¬ (off ≤ k ∧ k < off + 0) := by omega
    simp only [List.foldl_nil, List.map_nil, List.sum_nil, if_neg h]
  | cons a l ih =>
    intro hnd cs voff out off k
    obtain ⟨ha, hnd'⟩ := List.nodup_cons.1 hnd
    simp only [List.foldl_cons, List.map_cons, List.sum_cons]
    have hFa : (l.foldl (fun (st : (Fin n → Vector) × Nat) i =>
        (Function.update st.1 i (PutValuesInVector (comp i).Dim v st.2 (comp i)),
          st.2 + (comp i).Dim))
        (Function.update cs a (PutValuesInVector (comp a).Dim v voff (comp a)),
          voff + (comp a).Dim)).1 a = PutValuesInVector (comp a).Dim v voff (comp a) := by
      rw [PutValuesInVector_loop_of_not_mem v comp l _ _ a ha, Function.update_same]
    rw [hFa, PutValuesInVector_Dim, ih hnd', hcomp]
    by_cases h1 : off + (comp a).Dim ≤ k ∧ k < off + (comp a).Dim + (l.map (fun i => (comp i).Dim)).sum
    · have h2 : off ≤ k ∧ k < off + ((comp a).Dim + (l.map (fun i => (comp i).Dim)).sum) := by
        omega
      rw [if_pos h1, if_pos h2]
      congr 1
      omega
    · rw [if_neg h1]
      by_cases h3 : off ≤ k ∧ k < off + (comp a).Dim
      · have h2 : off ≤ k ∧ k < off + ((comp a).Dim + (l.map (fun i => (comp i).Dim)).sum) := by
          omega
        rw [if_pos h3, if_pos h2]
      · have h2 : ¬ (off ≤ k ∧ k < off + ((comp a).Dim + (l.map (fun i => (comp i).Dim)).sum)) := by
          omega
        rw [if_neg h3, if_neg h2]

/-- Writing an array into a well-formed vector and reading the vector back. -/
theorem round_trip (vec : Vector) :
    vec.WellFormed → ∀ (v : Nat → Number) (voff : Nat) (out : Nat → Number) (off k : Nat),
      FillValuesFromVector vec.Dim (PutValuesInVector vec.Dim v voff vec) out off k =
        if off ≤ k ∧ k < off + vec.Dim then v (voff + (k - off)) else out k := by
  induction vec with
  | dense dim values =>
    intro _ v voff out off k
    simp only [PutValuesInVector, FillValuesFromVector, IpBlasDcopy, Vector.Dim]
    by_cases h : off ≤ k ∧ k < off + dim
    · have h0 : 0 ≤ 0 + (k - off) ∧ 0 + (k - off) < 0 + dim := by omega
      rw [if_pos h, if_pos h, if_pos h0]
      congr 1
      omega
    · rw [if_neg h, if_neg h]
  | compound dim ncomps comp ih =>
    intro hwf v voff out off k
    obtain ⟨hdim, hcomps⟩ := hwf
    rw [PutValuesInVector, FillValuesFromVector,
      round_trip_loop v comp (fun i => ih i (hcomps i) v) _ (List.nodup_finRange ncomps),
      ← hdim]
    rfl

end TripletHelper

/-! ## Facts about `TripletHelper` on matrices -/

theorem writeEntries_nil {α : Type} (a : Nat → α) (off : Nat) :
    writeEntries [] a off = a := by
  funext k
  simp [writeEntries]

theorem writeEntries_append {α : Type} (l₁ l₂ : List α) (a : Nat → α) (off : Nat) :
    writeEntries l₂ (writeEntries l₁ a off) (off + l₁.length) = writeEntries (l₁ ++ l₂) a off := by
  funext k
  unfold writeEntries
  by_cases h1 : off + l₁.length ≤ k
  · have h2 : off ≤ k := by omega
    have h3 : l₁.length ≤ k - off := by omega
    have h4 : k - (off + l₁.length) = k - off - l₁.length := by omega
    rw [if_pos h1, if_pos h2, if_pos h2, List.getElem?_append_right h3, h4,
      List.getElem?_eq_none (l := l₁) (by omega)]
    rfl
  · rw [if_neg h1]
    by_cases h2 : off ≤ k
    · have h3 : k - off < l₁.length := by omega
      rw [if_pos h2, if_pos h2, List.getElem?_append_left h3]
    · rw [if_neg h2, if_neg h2]

theorem writeEntries_singleton {α : Type} (x : α) (a : Nat → α) (off : Nat) :
    writeEntries [x] a off = Function.update a off x := by
  funext k
  unfold writeEntries
  by_cases h : k = off
  · subst h
    simp
  · rw [Function.update_noteq h]
    by_cases h2 : off ≤ k
    · have h3 : 1 ≤ k - off := by omega
      rw [if_pos h2, List.getElem?_eq_none (by simpa using h3)]
      rfl
    · rw [if_neg h2]

theorem writeEntries_apply_of_lt {α : Type} (l : List α) (a : Nat → α) (off k : Nat)
    (h : k < l.length) (d : α) : writeEntries l a off (off + k) = l.getD k d := by
  unfold writeEntries
  rw [if_pos (Nat.le_add_right _ _), Nat.add_sub_cancel_left, List.getD_eq_getElem?_getD,
    List.getElem?_eq_getElem h]
  rfl

theorem writeEntries_apply_of_ge {α : Type} (l : List α) (a : Nat → α) (off k : Nat)
    (h : off + l.length ≤ k) : writeEntries l a off k = a k := by
  unfold writeEntries
  have h2 : off ≤ k := by omega
  rw [if_pos h2, List.getElem?_eq_none (by omega)]
  rfl

theorem writeEntries_apply_of_before {α : Type} (l : List α) (a : Nat → α) (off k : Nat)
    (h : k < off) : writeEntries l a off k = a k := by
  unfold writeEntries
  rw [if_neg (by omega)]

theorem AssignLoop_eq {α : Type} (n : Nat) (f : Nat → α) (a : Nat → α) (off : Nat) :
    AssignLoop n f a off = writeEntries ((List.range n).map f) a off := by
  induction n with
  | zero => simp [AssignLoop, writeEntries_nil]
  | succ n ih =>
    have h : AssignLoop (n + 1) f a off =
        Function.update (AssignLoop n f a off) (off + n) (f n) := by
      simp [AssignLoop, List.range_succ]
    rw [h, ih, List.range_succ, List.map_append, ← writeEntries_append, List.map_singleton,
      writeEntries_singleton, List.length_map, List.length_range]

theorem IpBlasDcopy_eq (n : Nat) (x y : Nat → Number) (off : Nat) :
    IpBlasDcopy n x 0 y off = writeEntries ((List.range n).map x) y off := by
  funext k
  unfold IpBlasDcopy writeEntries
  by_cases h : off ≤ k
  · by_cases h2 : k < off + n
    · have h3 : k - off < n := by omega
      rw [if_pos ⟨h, h2⟩, if_pos h, List.getElem?_map, List.getElem?_range h3]
      simp
    · have h3 : ¬ (off ≤ k ∧ k < off + n) := fun hc => h2 hc.2
      rw [if_neg h3, if_pos h, List.getElem?_eq_none (by simp; omega)]
      rfl
  · have h3 : ¬ (off ≤ k ∧ k < off + n) := fun hc => h hc.1
    rw [if_neg h3, if_neg h]

theorem IpBlasDscal_writeEntries (l : List Number) (alpha : Number) (a : Nat → Number)
    (off : Nat) :
    IpBlasDscal l.length alpha (writeEntries l a off) off =
      writeEntries (l.map (fun v => alpha * v)) a off := by
  funext k
  unfold IpBlasDscal writeEntries
  by_cases h : off ≤ k
  · by_cases h2 : k < off + l.length
    · have h3 : k - off < l.length := by omega
      rw [if_pos ⟨h, h2⟩, if_pos h, if_pos h, List.getElem?_map, List.getElem?_eq_getElem h3]
      rfl
    · have h3 : ¬ (off ≤ k ∧ k < off + l.length) := fun hc => h2 hc.2
      rw [if_neg h3, if_pos h, if_pos h, List.getElem?_eq_none (by omega),
        List.getElem?_eq_none (by simp; omega)]
  · have h3 : ¬ (off ≤ k ∧ k < off + l.length) := fun hc => h hc.1
    rw [if_neg h3, if_neg h, if_neg h]

/-- A loop that writes one list after the other writes their concatenation. -/
theorem List.foldl_writeEntries {ι α : Type} (L : ι → List α)
    (f : (Nat → α) × Nat → ι → (Nat → α) × Nat) (l : List ι) :
    (∀ i ∈ l, ∀ st, f st i = (writeEntries (L i) st.1 st.2, st.2 + (L i).length)) →
    ∀ st, l.foldl f st =
      (writeEntries (l.flatMap L) st.1 st.2, st.2 + (l.flatMap L).length) := by
  induction l with
  | nil =>
    intro _ st
    simp [writeEntries_nil]
  | cons x l ih =>
    intro hf st
    rw [List.foldl_cons, hf x (List.mem_cons_self _ _),
      ih (fun i hi => hf i (List.mem_cons_of_mem _ hi)), List.flatMap_cons,
      writeEntries_append, List.length_append, Nat.add_assoc]

/-- A loop that writes one list of pairs after the other, the first parts to
one array and the second parts to another, writes their concatenation. -/
theorem List.foldl_writeEntries_pair {ι α β : Type} (L : ι → List (α × β))
    (f : (Nat → α) × (Nat → β) × Nat → ι → (Nat → α) × (Nat → β) × Nat) (l : List ι) :
    (∀ i ∈ l, ∀ st, f st i =
      (writeEntries ((L i).map Prod.fst) st.1 st.2.2,
        writeEntries ((L i).map Prod.snd) st.2.1 st.2.2, st.2.2 + (L i).length)) →
    ∀ st, l.foldl f st =
      (writeEntries ((l.flatMap L).map Prod.fst) st.1 st.2.2,
        writeEntries ((l.flatMap L).map Prod.snd) st.2.1 st.2.2,
        st.2.2 + (l.flatMap L).length) := by
  induction l with
  | nil =>
    intro _ st
    simp [writeEntries_nil]
  | cons x l ih =>
    intro hf st
    rw [List.foldl_cons, hf x (List.mem_cons_self _ _),
      ih (fun i hi => hf i (List.mem_cons_of_mem _ hi)), List.flatMap_cons, List.map_append,
      List.map_append, List.length_append, Nat.add_assoc]
    have h1 := writeEntries_append ((L x).map Prod.fst) ((l.flatMap L).map Prod.fst) st.1 st.2.2
    have h2 := writeEntries_append ((L x).map Prod.snd) ((l.flatMap L).map Prod.snd) st.2.1 st.2.2
    rw [List.length_map] at h1 h2
    rw [h1, h2]

/-- A counter that adds the size of each block visited is, at block `i`, the
total size of the blocks visited before `i`. -/
theorem List.foldl_offset {S : Type} {n : Nat} (size : Fin n → Index)
    (f : S → Index → Fin n → S) (l : List (Fin n)) :
    l.Pairwise (fun a b => a < b) → ∀ (s : S) (c : Index),
    l.foldl (fun (st : S × Index) i => (f st.1 st.2 i, st.2 + size i)) (s, c) =
      (l.foldl (fun s i => f s (c + ((l.filter (fun j => j < i)).map size).sum) i) s,
        c + (l.map size).sum) := by
  induction l with
  | nil =>
    intro _ s c
    simp
  | cons a l ih =>
    intro hl s c
    obtain ⟨ha, hl'⟩ := List.pairwise_cons.1 hl
    have h0 : (a :: l).filter (fun j => j < a) = [] := by
      rw [List.filter_eq_nil_iff]
      intro b hb
      rcases List.mem_cons.1 hb with h | h
      · subst h
        simp
      · have := ha b h
        simp only [decide_eq_true_eq]
        exact fun hc => absurd this (not_lt.2 (le_of_lt hc))
    rw [List.foldl_cons, List.foldl_cons, ih hl', h0, List.map_nil, List.sum_nil, add_zero,
      List.map_cons, List.sum_cons, add_assoc]
    congr 1
    apply List.foldl_ext
    intro s' i hi
    have hlt : a < i := ha i hi
    rw [List.filter_cons_of_pos (by simpa using hlt), List.map_cons, List.sum_cons, add_assoc]

theorem List.foldl_BlockOffset {S : Type} {n : Nat} (size : Fin n → Index)
    (f : S → Index → Fin n → S) (s : S) (c : Index) :
    (List.finRange n).foldl (fun (st : S × Index) i => (f st.1 st.2 i, st.2 + size i)) (s, c) =
      ((List.finRange n).foldl (fun s i => f s (c + BlockOffset size i) i) s,
        c + ((List.finRange n).map size).sum) :=
  List.foldl_offset size f (List.finRange n) (List.pairwise_lt_finRange n) s c

/-- The same for the loop `for (j = 0; j <= i; j++)`. -/
theorem List.foldl_BlockOffset_le {S : Type} {n : Nat} (size : Fin n → Index)
    (f : S → Index → Fin n → S) (i : Fin n) (s : S) (c : Index) :
    (((List.finRange n).filter (fun j => j ≤ i)).foldl
        (fun (st : S × Index) j => (f st.1 st.2 j, st.2 + size j)) (s, c)).1 =
      ((List.finRange n).filter (fun j => j ≤ i)).foldl
        (fun s j => f s (c + BlockOffset size j) j) s := by
  rw [List.foldl_offset size f _ ((List.pairwise_lt_finRange n).filter _) s c]
  apply List.foldl_ext
  intro s' j hj
  have hji : j ≤ i := by simpa using (List.mem_filter.1 hj).2
  have h : ((List.finRange n).filter (fun j => j ≤ i)).filter (fun x => x < j) =
      (List.finRange n).filter (fun x => x < j) := by
    rw [List.filter_filter]
    apply List.filter_congr
    intro x _
    have : x < j → x ≤ i := fun hx => le_trans (le_of_lt hx) hji
    by_cases hx : x < j
    · simp [hx, this hx]
    · simp [hx]
  rw [h]
  rfl

theorem List.foldl_add_eq {ι : Type} (g : ι → Nat) (l : List ι) :
    ∀ a, l.foldl (fun n i => n + g i) a = a + (l.map g).sum := by
  induction l with
  | nil => intro a; simp
  | cons x l ih => intro a; rw [List.foldl_cons, ih, List.map_cons, List.sum_cons, Nat.add_assoc]

theorem List.foldl_add_if_eq {ι : Type} (p : ι → Bool) (g : ι → Nat) (l : List ι) (a : Nat) :
    l.foldl (fun n i => if p i then n + g i else n) a =
      a + (l.map (fun i => if p i then g i else 0)).sum := by
  rw [← List.foldl_add_eq]
  apply List.foldl_ext
  intro n i _
  by_cases h : p i = true
  · rw [if_pos h, if_pos h]
  · rw [if_neg h, if_neg h, Nat.add_zero]

theorem List.length_flatMap_if {ι α : Type} (p : ι → Bool) (L : ι → List α) (l : List ι) :
    (l.flatMap (fun i => if p i then L i else [])).length =
      (l.map (fun i => if p i then (L i).length else 0)).sum := by
  rw [List.length_flatMap]
  congr 1
  apply List.map_congr_left
  intro i _
  by_cases h : p i = true
  · simp [h]
  · simp [h]

namespace TripletHelper

theorem Vector_length_toList (vec : Vector) : vec.WellFormed → vec.toList.length = vec.Dim := by
  induction vec with
  | dense dim values =>
    intro _
    simp [Vector.toList, Vector.Dim]
  | compound dim ncomps comp ih =>
    intro hwf
    obtain ⟨hdim, hcomps⟩ := hwf
    rw [Vector.toList, List.length_flatMap, Vector.Dim, hdim]
    congr 1
    apply List.map_congr_left
    intro i _
    exact ih i (hcomps i)

theorem FillValuesFromVector_eq (vec : Vector) :
    vec.WellFormed → ∀ (values : Nat → Number) (off : Nat),
      FillValuesFromVector vec.Dim vec values off = writeEntries vec.toList values off := by
  induction vec with
  | dense dim values =>
    intro _ out off
    rw [FillValuesFromVector, Vector.Dim, IpBlasDcopy_eq, Vector.toList]
  | compound dim ncomps comp ih =>
    intro hwf out off
    obtain ⟨_, hcomps⟩ := hwf
    rw [FillValuesFromVector, Vector.toList,
      List.foldl_writeEntries (fun i => (comp i).toList) _ (List.finRange ncomps)
        (fun i _ st => by
          show (FillValuesFromVector (comp i).Dim (comp i) st.1 st.2, st.2 + (comp i).Dim) =
            (writeEntries (comp i).toList st.1 st.2, st.2 + (comp i).toList.length)
          rw [ih i (hcomps i), Vector_length_toList (comp i) (hcomps i)])]

theorem length_triplets (m : Matrix) :
    ∀ (row_offset col_offset : Index),
      (m.triplets row_offset col_offset).length = GetNumberEntries m := by
  induction m with
  | genT Nonzeros irow jcol vals => intro _ _; simp [Matrix.triplets, GetNumberEntries]
  | symT Nonzeros irow jcol vals => intro _ _; simp [Matrix.triplets, GetNumberEntries]
  | diag Dim v => intro _ _; simp [Matrix.triplets, GetNumberEntries]
  | identity Dim factor => intro _ _; simp [Matrix.triplets, GetNumberEntries]
  | expansion NCols exp_pos => intro _ _; simp [Matrix.triplets, GetNumberEntries]
  | zero => intro _ _; rfl
  | sum nterms factor term ih =>
    intro ro co
    rw [Matrix.triplets, GetNumberEntries, List.length_flatMap, List.foldl_add_eq, Nat.zero_add]
    congr 1
    apply List.map_congr_left
    intro i _
    simp [ih i]
  | sumSym nterms factor term ih =>
    intro ro co
    rw [Matrix.triplets, GetNumberEntries, List.length_flatMap, List.foldl_add_eq, Nat.zero_add]
    congr 1
    apply List.map_congr_left
    intro i _
    simp [ih i]
  | compound nrows ncols br bc valid comp ih =>
    intro ro co
    rw [Matrix.triplets, GetNumberEntries, List.length_flatMap]
    have h : ∀ (n : Nat) (i : Fin nrows),
        (List.finRange ncols).foldl (fun n_entries j =>
          if valid i j then n_entries + GetNumberEntries (comp i j) else n_entries) n =
        n + ((List.finRange ncols).map (fun j =>
          if valid i j then GetNumberEntries (comp i j) else 0)).sum :=
      fun n i => List.foldl_add_if_eq (valid i) (fun j => GetNumberEntries (comp i j)) _ n
    simp only [h]
    rw [List.foldl_add_eq, Nat.zero_add]
    congr 1
    apply List.map_congr_left
    intro i _
    rw [Function.comp_apply,
      List.length_flatMap_if (valid i) (fun j => (comp i j).triplets _ _)]
    congr 1
    apply List.map_congr_left
    intro j _
    rw [ih i j]
  | compoundSym dim bd valid comp ih =>
    intro ro co
    rw [Matrix.triplets, GetNumberEntries, List.length_flatMap]
    have h : ∀ (n : Nat) (i : Fin dim),
        ((List.finRange dim).filter (fun j => j ≤ i)).foldl (fun n_entries j =>
          if valid i j then n_entries + GetNumberEntries (comp i j) else n_entries) n =
        n + (((List.finRange dim).filter (fun j => j ≤ i)).map (fun j =>
          if valid i j then GetNumberEntries (comp i j) else 0)).sum :=
      fun n i => List.foldl_add_if_eq (valid i) (fun j => GetNumberEntries (comp i j)) _ n
    simp only [h]
    rw [List.foldl_add_eq, Nat.zero_add]
    congr 1
    apply List.map_congr_left
    intro i _
    rw [Function.comp_apply,
      List.length_flatMap_if (valid i) (fun j => (comp i j).triplets _ _)]
    congr 1
    apply List.map_congr_left
    intro j _
    rw [ih i j]

end TripletHelper

/-- A loop that writes the rows and columns of one list of triplets after the
other writes those of their concatenation. -/
theorem List.foldl_writeRowCol {ι : Type} (T : ι → List (Index × Index × Number))
    (f : (Nat → Index) × (Nat → Index) × Nat → ι → (Nat → Index) × (Nat → Index) × Nat)
    (l : List ι) :
    (∀ i ∈ l, ∀ st, f st i =
      (writeEntries ((T i).map (fun t => t.1)) st.1 st.2.2,
        writeEntries ((T i).map (fun t => t.2.1)) st.2.1 st.2.2, st.2.2 + (T i).length)) →
    ∀ st, l.foldl f st =
      (writeEntries ((l.flatMap T).map (fun t => t.1)) st.1 st.2.2,
        writeEntries ((l.flatMap T).map (fun t => t.2.1)) st.2.1 st.2.2,
        st.2.2 + (l.flatMap T).length) := by
  induction l with
  | nil =>
    intro _ st
    simp [writeEntries_nil]
  | cons x l ih =>
    intro hf st
    rw [List.foldl_cons, hf x (List.mem_cons_self _ _),
      ih (fun i hi => hf i (List.mem_cons_of_mem _ hi)), List.flatMap_cons, List.map_append,
      List.map_append, List.length_append, Nat.add_assoc]
    have h1 := writeEntries_append ((T x).map (fun t => t.1)) ((l.flatMap T).map (fun t => t.1))
      st.1 st.2.2
    have h2 := writeEntries_append ((T x).map (fun t => t.2.1))
      ((l.flatMap T).map (fun t => t.2.1)) st.2.1 st.2.2
    rw [List.length_map] at h1 h2
    rw [h1, h2]

/-- A loop that writes the values of one list of triplets after the other
writes those of their concatenation. -/
theorem List.foldl_writeValues {ι : Type} (T : ι → List (Index × Index × Number))
    (f : (Nat → Number) × Nat → ι → (Nat → Number) × Nat) (l : List ι) :
    (∀ i ∈ l, ∀ st, f st i =
      (writeEntries ((T i).map (fun t => t.2.2)) st.1 st.2, st.2 + (T i).length)) →
    ∀ st, l.foldl f st =
      (writeEntries ((l.flatMap T).map (fun t => t.2.2)) st.1 st.2,
        st.2 + (l.flatMap T).length) := by
  induction l with
  | nil =>
    intro _ st
    simp [writeEntries_nil]
  | cons x l ih =>
    intro hf st
    rw [List.foldl_cons, hf x (List.mem_cons_self _ _),
      ih (fun i hi => hf i (List.mem_cons_of_mem _ hi)), List.flatMap_cons, List.map_append,
      List.length_append, Nat.add_assoc]
    have h1 := writeEntries_append ((T x).map (fun t => t.2.2))
      ((l.flatMap T).map (fun t => t.2.2)) st.1 st.2
    rw [List.length_map] at h1
    rw [h1]

namespace TripletHelper

theorem FillRowCol_eq (m : Matrix) :
    ∀ (iRow jCol : Nat → Index) (off : Nat) (ro co : Index),
      FillRowCol (GetNumberEntries m) m iRow jCol off ro co =
        (writeEntries ((m.triplets ro co).map (fun t => t.1)) iRow off,
          writeEntries ((m.triplets ro co).map (fun t => t.2.1)) jCol off) := by
  induction m with
  | genT Nonzeros irow jcol vals =>
    intro iRow jCol off ro co
    rw [FillRowCol, GetNumberEntries, AssignLoop_eq, AssignLoop_eq, Matrix.triplets,
      List.map_map, List.map_map]
    rfl
  | symT Nonzeros irow jcol vals =>
    intro iRow jCol off ro co
    rw [FillRowCol, GetNumberEntries, AssignLoop_eq, AssignLoop_eq, Matrix.triplets,
      List.map_map, List.map_map]
    rfl
  | diag Dim v =>
    intro iRow jCol off ro co
    rw [FillRowCol, GetNumberEntries, AssignLoop_eq, AssignLoop_eq, Matrix.triplets,
      List.map_map, List.map_map]
    rfl
  | identity Dim factor =>
    intro iRow jCol off ro co
    rw [FillRowCol, GetNumberEntries, AssignLoop_eq, AssignLoop_eq, Matrix.triplets,
      List.map_map, List.map_map]
    rfl
  | expansion NCols exp_pos =>
    intro iRow jCol off ro co
    rw [FillRowCol, GetNumberEntries, AssignLoop_eq, AssignLoop_eq, Matrix.triplets,
      List.map_map, List.map_map]
    rfl
  | zero =>
    intro iRow jCol off ro co
    rw [FillRowCol, Matrix.triplets, List.map_nil, List.map_nil, writeEntries_nil,
      writeEntries_nil]
  | sum nterms factor term ih =>
    intro iRow jCol off ro co
    rw [FillRowCol, Matrix.triplets,
      List.foldl_writeRowCol
        (fun i => ((term i).triplets ro co).map (fun t => (t.1, t.2.1, factor i * t.2.2)))
        _ (List.finRange nterms)
        (fun i _ st => by
          show ((FillRowCol (GetNumberEntries (term i)) (term i) st.1 st.2.1 st.2.2 ro co).1,
            (FillRowCol (GetNumberEntries (term i)) (term i) st.1 st.2.1 st.2.2 ro co).2,
            st.2.2 + GetNumberEntries (term i)) = _
          rw [ih i, List.length_map, length_triplets, List.map_map, List.map_map]
          rfl)]
  | sumSym nterms factor term ih =>
    intro iRow jCol off ro co
    rw [FillRowCol, Matrix.triplets,
      List.foldl_writeRowCol
        (fun i => ((term i).triplets ro co).map (fun t => (t.1, t.2.1, factor i * t.2.2)))
        _ (List.finRange nterms)
        (fun i _ st => by
          show ((FillRowCol (GetNumberEntries (term i)) (term i) st.1 st.2.1 st.2.2 ro co).1,
            (FillRowCol (GetNumberEntries (term i)) (term i) st.1 st.2.1 st.2.2 ro co).2,
            st.2.2 + GetNumberEntries (term i)) = _
          rw [ih i, List.length_map, length_triplets, List.map_map, List.map_map]
          rfl)]
  | compound nrows ncols br bc valid comp ih =>
    intro iRow jCol off ro co
    have hstep : ∀ (i : Fin nrows) (j : Fin ncols) (cr cc : Index)
        (st : (Nat → Index) × (Nat → Index) × Nat),
        (if valid i j = true then
          ((FillRowCol (GetNumberEntries (comp i j)) (comp i j) st.1 st.2.1 st.2.2 cr cc).1,
            (FillRowCol (GetNumberEntries (comp i j)) (comp i j) st.1 st.2.1 st.2.2 cr cc).2,
            st.2.2 + GetNumberEntries (comp i j))
        else st) =
        (writeEntries ((if valid i j = true then (comp i j).triplets cr cc else []).map
            (fun t => t.1)) st.1 st.2.2,
          writeEntries ((if valid i j = true then (comp i j).triplets cr cc else []).map
            (fun t => t.2.1)) st.2.1 st.2.2,
          st.2.2 + (if valid i j = true then (comp i j).triplets cr cc else []).length) := by
      intro i j cr cc st
      by_cases h : valid i j = true
      · rw [if_pos h, if_pos h, ih i j, length_triplets]
      · rw [if_neg h, if_neg h, List.map_nil, List.map_nil, writeEntries_nil, writeEntries_nil]
        rfl
    have hinner : ∀ (i : Fin nrows) (cr : Index) (s : (Nat → Index) × (Nat → Index) × Nat),
        ((List.finRange ncols).foldl
          (fun (st : ((Nat → Index) × (Nat → Index) × Nat) × Index) j =>
            (if valid i j = true then
              ((FillRowCol (GetNumberEntries (comp i j)) (comp i j) st.1.1 st.1.2.1 st.1.2.2
                  cr st.2).1,
                (FillRowCol (GetNumberEntries (comp i j)) (comp i j) st.1.1 st.1.2.1 st.1.2.2
                  cr st.2).2,
                st.1.2.2 + GetNumberEntries (comp i j))
            else st.1, st.2 + bc j)) (s, co)).1 =
        (writeEntries (((List.finRange ncols).flatMap (fun j =>
            if valid i j = true then (comp i j).triplets cr (co + BlockOffset bc j) else [])).map
            (fun t => t.1)) s.1 s.2.2,
          writeEntries (((List.finRange ncols).flatMap (fun j =>
            if valid i j = true then (comp i j).triplets cr (co + BlockOffset bc j) else [])).map
            (fun t => t.2.1)) s.2.1 s.2.2,
          s.2.2 + ((List.finRange ncols).flatMap (fun j =>
            if valid i j = true then (comp i j).triplets cr (co + BlockOffset bc j)
            else [])).length) := by
      intro i cr s
      have h := List.foldl_BlockOffset bc
        (fun (s : (Nat → Index) × (Nat → Index) × Nat) (cc : Index) (j : Fin ncols) =>
          if valid i j = true then
            ((FillRowCol (GetNumberEntries (comp i j)) (comp i j) s.1 s.2.1 s.2.2 cr cc).1,
              (FillRowCol (GetNumberEntries (comp i j)) (comp i j) s.1 s.2.1 s.2.2 cr cc).2,
              s.2.2 + GetNumberEntries (comp i j))
          else s) s co
      refine Eq.trans (congrArg Prod.fst h) ?_
      exact List.foldl_writeRowCol
        (fun j => if valid i j = true then (comp i j).triplets cr (co + BlockOffset bc j) else [])
        _ (List.finRange ncols) (fun j _ st => hstep i j cr (co + BlockOffset bc j) st) s
    have houter := List.foldl_BlockOffset br
      (fun (s : (Nat → Index) × (Nat → Index) × Nat) (cr : Index) (i : Fin nrows) =>
        ((List.finRange ncols).foldl
          (fun (st : ((Nat → Index) × (Nat → Index) × Nat) × Index) j =>
            (if valid i j = true then
              ((FillRowCol (GetNumberEntries (comp i j)) (comp i j) st.1.1 st.1.2.1 st.1.2.2
                  cr st.2).1,
                (FillRowCol (GetNumberEntries (comp i j)) (comp i j) st.1.1 st.1.2.1 st.1.2.2
                  cr st.2).2,
                st.1.2.2 + GetNumberEntries (comp i j))
            else st.1, st.2 + bc j)) (s, co)).1) (iRow, jCol, off) ro
    have hfold := List.foldl_writeRowCol
      (fun i => (List.finRange ncols).flatMap (fun j =>
        if valid i j = true then
          (comp i j).triplets (ro + BlockOffset br i) (co + BlockOffset bc j)
        else []))
      _ (List.finRange nrows) (fun i _ st => hinner i (ro + BlockOffset br i) st)
      (iRow, jCol, off)
    rw [FillRowCol, Matrix.triplets]
    refine Eq.trans (congrArg (fun st => (st.1.1, st.1.2.1)) houter) ?_
    exact congrArg (fun st => (st.1, st.2.1)) hfold
  | compoundSym dim bd valid comp ih =>
    intro iRow jCol off ro co
    have hstep : ∀ (i : Fin dim) (j : Fin dim) (cr cc : Index)
        (st : (Nat → Index) × (Nat → Index) × Nat),
        (if valid i j = true then
          ((FillRowCol (GetNumberEntries (comp i j)) (comp i j) st.1 st.2.1 st.2.2 cr cc).1,
            (FillRowCol (GetNumberEntries (comp i j)) (comp i j) st.1 st.2.1 st.2.2 cr cc).2,
            st.2.2 + GetNumberEntries (comp i j))
        else st) =
        (writeEntries ((if valid i j = true then (comp i j).triplets cr cc else []).map
            (fun t => t.1)) st.1 st.2.2,
          writeEntries ((if valid i j = true then (comp i j).triplets cr cc else []).map
            (fun t => t.2.1)) st.2.1 st.2.2,
          st.2.2 + (if valid i j = true then (comp i j).triplets cr cc else []).length) := by
      intro i j cr cc st
      by_cases h : valid i j = true
      · rw [if_pos h, if_pos h, ih i j, length_triplets]
      · rw [if_neg h, if_neg h, List.map_nil, List.map_nil, writeEntries_nil, writeEntries_nil]
        rfl
    have hinner : ∀ (i : Fin dim) (cr : Index) (s : (Nat → Index) × (Nat → Index) × Nat),
        (((List.finRange dim).filter (fun j => j ≤ i)).foldl
          (fun (st : ((Nat → Index) × (Nat → Index) × Nat) × Index) j =>
            (if valid i j = true then
              ((FillRowCol (GetNumberEntries (comp i j)) (comp i j) st.1.1 st.1.2.1 st.1.2.2
                  cr st.2).1,
                (FillRowCol (GetNumberEntries (comp i j)) (comp i j) st.1.1 st.1.2.1 st.1.2.2
                  cr st.2).2,
                st.1.2.2 + GetNumberEntries (comp i j))
            else st.1, st.2 + bd j)) (s, co)).1 =
        (writeEntries ((((List.finRange dim).filter (fun j => j ≤ i)).flatMap (fun j =>
            if valid i j = true then (comp i j).triplets cr (co + BlockOffset bd j) else [])).map
            (fun t => t.1)) s.1 s.2.2,
          writeEntries ((((List.finRange dim).filter (fun j => j ≤ i)).flatMap (fun j =>
            if valid i j = true then (comp i j).triplets cr (co + BlockOffset bd j) else [])).map
            (fun t => t.2.1)) s.2.1 s.2.2,
          s.2.2 + (((List.finRange dim).filter (fun j => j ≤ i)).flatMap (fun j =>
            if valid i j = true then (comp i j).triplets cr (co + BlockOffset bd j)
            else [])).length) := by
      intro i cr s
      have h := List.foldl_BlockOffset_le bd
        (fun (s : (Nat → Index) × (Nat → Index) × Nat) (cc : Index) (j : Fin dim) =>
          if valid i j = true then
            ((FillRowCol (GetNumberEntries (comp i j)) (comp i j) s.1 s.2.1 s.2.2 cr cc).1,
              (FillRowCol (GetNumberEntries (comp i j)) (comp i j) s.1 s.2.1 s.2.2 cr cc).2,
              s.2.2 + GetNumberEntries (comp i j))
          else s) i s co
      refine Eq.trans h ?_
      exact List.foldl_writeRowCol
        (fun j => if valid i j = true then (comp i j).triplets cr (co + BlockOffset bd j) else [])
        _ ((List.finRange dim).filter (fun j => j ≤ i)) (fun j _ st => hstep i j cr (co + BlockOffset bd j) st) s
    have houter := List.foldl_BlockOffset bd
      (fun (s : (Nat → Index) × (Nat → Index) × Nat) (cr : Index) (i : Fin dim) =>
        (((List.finRange dim).filter (fun j => j ≤ i)).foldl
          (fun (st : ((Nat → Index) × (Nat → Index) × Nat) × Index) j =>
            (if valid i j = true then
              ((FillRowCol (GetNumberEntries (comp i j)) (comp i j) st.1.1 st.1.2.1 st.1.2.2
                  cr st.2).1,
                (FillRowCol (GetNumberEntries (comp i j)) (comp i j) st.1.1 st.1.2.1 st.1.2.2
                  cr st.2).2,
                st.1.2.2 + GetNumberEntries (comp i j))
            else st.1, st.2 + bd j)) (s, co)).1) (iRow, jCol, off) ro
    have hfold := List.foldl_writeRowCol
      (fun i => ((List.finRange dim).filter (fun j => j ≤ i)).flatMap (fun j =>
        if valid i j = true then
          (comp i j).triplets (ro + BlockOffset bd i) (co + BlockOffset bd j)
        else []))
      _ (List.finRange dim) (fun i _ st => hinner i (ro + BlockOffset bd i) st)
      (iRow, jCol, off)
    rw [FillRowCol, Matrix.triplets]
    refine Eq.trans (congrArg (fun st => (st.1.1, st.1.2.1)) houter) ?_
    exact congrArg (fun st => (st.1, st.2.1)) hfold

end TripletHelper

theorem List.map_range_getD {α : Type} (l : List α) (d : α) :
    (List.range l.length).map (fun k => l.getD k d) = l := by
  apply List.ext_getElem
  · simp
  · intro k h1 h2
    simp [List.getD_eq_getElem?_getD, List.getElem?_eq_getElem h2]

namespace TripletHelper

theorem FillValues_eq (m : Matrix) :
    m.WellFormed → ∀ (values : Nat → Number) (off : Nat) (ro co : Index),
      FillValues (GetNumberEntries m) m values off =
        writeEntries ((m.triplets ro co).map (fun t => t.2.2)) values off := by
  induction m with
  | genT Nonzeros irow jcol vals =>
    intro _ values off ro co
    rw [FillValues, GetNumberEntries, AssignLoop_eq, Matrix.triplets, List.map_map]
    rfl
  | symT Nonzeros irow jcol vals =>
    intro _ values off ro co
    rw [FillValues, SymTMatrix_FillValues, IpBlasDcopy_eq, Matrix.triplets, List.map_map]
    rfl
  | diag Dim v =>
    intro hwf values off ro co
    obtain ⟨hdim, hv⟩ := hwf
    rw [FillValues, GetNumberEntries, ← hdim, FillValuesFromVector_eq v hv, Matrix.triplets,
      List.map_map]
    have h := List.map_range_getD v.toList 0
    rw [Vector_length_toList v hv] at h
    exact congrArg (fun l => writeEntries l values off) h.symm
  | identity Dim factor =>
    intro _ values off ro co
    rw [FillValues, GetNumberEntries, AssignLoop_eq, Matrix.triplets, List.map_map]
    rfl
  | expansion NCols exp_pos =>
    intro _ values off ro co
    rw [FillValues, GetNumberEntries, AssignLoop_eq, Matrix.triplets, List.map_map]
    rfl
  | zero =>
    intro _ values off ro co
    rw [FillValues, Matrix.triplets, List.map_nil, writeEntries_nil]
  | sum nterms factor term ih =>
    intro hwf values off ro co
    rw [FillValues, Matrix.triplets,
      List.foldl_writeValues
        (fun i => ((term i).triplets ro co).map (fun t => (t.1, t.2.1, factor i * t.2.2)))
        _ (List.finRange nterms)
        (fun i _ st => by
          show (IpBlasDscal (GetNumberEntries (term i)) (factor i)
            (FillValues (GetNumberEntries (term i)) (term i) st.1 st.2) st.2,
            st.2 + GetNumberEntries (term i)) = _
          have hlen : (((term i).triplets ro co).map (fun t => t.2.2)).length =
              GetNumberEntries (term i) := by
            rw [List.length_map, length_triplets]
          rw [ih i (hwf i) st.1 st.2 ro co, ← hlen, IpBlasDscal_writeEntries, hlen,
            List.length_map, length_triplets, List.map_map, List.map_map]
          rfl)]
  | sumSym nterms factor term ih =>
    intro hwf values off ro co
    rw [FillValues, Matrix.triplets,
      List.foldl_writeValues
        (fun i => ((term i).triplets ro co).map (fun t => (t.1, t.2.1, factor i * t.2.2)))
        _ (List.finRange nterms)
        (fun i _ st => by
          show (IpBlasDscal (GetNumberEntries (term i)) (factor i)
            (FillValues (GetNumberEntries (term i)) (term i) st.1 st.2) st.2,
            st.2 + GetNumberEntries (term i)) = _
          have hlen : (((term i).triplets ro co).map (fun t => t.2.2)).length =
              GetNumberEntries (term i) := by
            rw [List.length_map, length_triplets]
          rw [ih i (hwf i) st.1 st.2 ro co, ← hlen, IpBlasDscal_writeEntries, hlen,
            List.length_map, length_triplets, List.map_map, List.map_map]
          rfl)]
  | compound nrows ncols br bc valid comp ih =>
    intro hwf values off ro co
    have hstep : ∀ (i : Fin nrows) (j : Fin ncols) (cr cc : Index) (st : (Nat → Number) × Nat),
        (if valid i j = true then
          (FillValues (GetNumberEntries (comp i j)) (comp i j) st.1 st.2,
            st.2 + GetNumberEntries (comp i j))
        else st) =
        (writeEntries ((if valid i j = true then (comp i j).triplets cr cc else []).map
            (fun t => t.2.2)) st.1 st.2,
          st.2 + (if valid i j = true then (comp i j).triplets cr cc else []).length) := by
      intro i j cr cc st
      by_cases h : valid i j = true
      · rw [if_pos h, if_pos h, ih i j (hwf i j h) st.1 st.2 cr cc, length_triplets]
      · rw [if_neg h, if_neg h, List.map_nil, writeEntries_nil]
        rfl
    rw [FillValues, Matrix.triplets]
    exact congrArg Prod.fst (List.foldl_writeValues
      (fun i => (List.finRange ncols).flatMap (fun j =>
        if valid i j = true then
          (comp i j).triplets (ro + BlockOffset br i) (co + BlockOffset bc j)
        else []))
      _ (List.finRange nrows)
      (fun i _ st => List.foldl_writeValues
        (fun j => if valid i j = true then
          (comp i j).triplets (ro + BlockOffset br i) (co + BlockOffset bc j) else [])
        _ (List.finRange ncols)
        (fun j _ st => hstep i j (ro + BlockOffset br i) (co + BlockOffset bc j) st) st)
      (values, off))
  | compoundSym dim bd valid comp ih =>
    intro hwf values off ro co
    have hstep : ∀ (i : Fin dim) (j : Fin dim), j ≤ i → ∀ (cr cc : Index)
        (st : (Nat → Number) × Nat),
        (if valid i j = true then
          (FillValues (GetNumberEntries (comp i j)) (comp i j) st.1 st.2,
            st.2 + GetNumberEntries (comp i j))
        else st) =
        (writeEntries ((if valid i j = true then (comp i j).triplets cr cc else []).map
            (fun t => t.2.2)) st.1 st.2,
          st.2 + (if valid i j = true then (comp i j).triplets cr cc else []).length) := by
      intro i j hji cr cc st
      by_cases h : valid i j = true
      · rw [if_pos h, if_pos h, ih i j (hwf i j hji h) st.1 st.2 cr cc, length_triplets]
      · rw [if_neg h, if_neg h, List.map_nil, writeEntries_nil]
        rfl
    rw [FillValues, Matrix.triplets]
    exact congrArg Prod.fst (List.foldl_writeValues
      (fun i => ((List.finRange dim).filter (fun j => j ≤ i)).flatMap (fun j =>
        if valid i j = true then
          (comp i j).triplets (ro + BlockOffset bd i) (co + BlockOffset bd j)
        else []))
      _ (List.finRange dim)
      (fun i _ st => List.foldl_writeValues
        (fun j => if valid i j = true then
          (comp i j).triplets (ro + BlockOffset bd i) (co + BlockOffset bd j) else [])
        _ ((List.finRange dim).filter (fun j => j ≤ i))
        (fun j hj st => hstep i j (by simpa using (List.mem_filter.1 hj).2)
          (ro + BlockOffset bd i) (co + BlockOffset bd j) st) st)
      (values, off))

end TripletHelper

namespace TripletHelper

theorem GetNumberEntries_eq (m : Matrix) : GetNumberEntries m = m.numberOfEntries := by
  induction m with
  | genT Nonzeros irow jcol vals => rfl
  | symT Nonzeros irow jcol vals => rfl
  | diag Dim v => rfl
  | identity Dim factor => rfl
  | expansion NCols exp_pos => rfl
  | zero => rfl
  | sum nterms factor term ih =>
    rw [GetNumberEntries, Matrix.numberOfEntries, List.foldl_add_eq, Nat.zero_add]
    congr 1
    exact List.map_congr_left (fun i _ => ih i)
  | sumSym nterms factor term ih =>
    rw [GetNumberEntries, Matrix.numberOfEntries, List.foldl_add_eq, Nat.zero_add]
    congr 1
    exact List.map_congr_left (fun i _ => ih i)
  | compound nrows ncols br bc valid comp ih =>
    rw [GetNumberEntries, Matrix.numberOfEntries]
    have h : ∀ (n : Nat) (i : Fin nrows),
        (List.finRange ncols).foldl (fun n_entries j =>
          if valid i j then n_entries + GetNumberEntries (comp i j) else n_entries) n =
        n + ((List.finRange ncols).map (fun j =>
          if valid i j then GetNumberEntries (comp i j) else 0)).sum :=
      fun n i => List.foldl_add_if_eq (valid i) (fun j => GetNumberEntries (comp i j)) _ n
    simp only [h]
    rw [List.foldl_add_eq, Nat.zero_add]
    congr 1
    apply List.map_congr_left
    intro i _
    congr 1
    apply List.map_congr_left
    intro j _
    rw [ih i j]
  | compoundSym dim bd valid comp ih =>
    rw [GetNumberEntries, Matrix.numberOfEntries]
    have h : ∀ (n : Nat) (i : Fin dim),
        ((List.finRange dim).filter (fun j => j ≤ i)).foldl (fun n_entries j =>
          if valid i j then n_entries + GetNumberEntries (comp i j) else n_entries) n =
        n + (((List.finRange dim).filter (fun j => j ≤ i)).map (fun j =>
          if valid i j then GetNumberEntries (comp i j) else 0)).sum :=
      fun n i => List.foldl_add_if_eq (valid i) (fun j => GetNumberEntries (comp i j)) _ n
    simp only [h]
    rw [List.foldl_add_eq, Nat.zero_add]
    congr 1
    apply List.map_congr_left
    intro i _
    congr 1
    apply List.map_congr_left
    intro j _
    rw [ih i j]

theorem exampleMatrix_WellFormed : exampleMatrix.WellFormed := by
  intro i
  by_cases h : i = 0
  · simp only [if_pos h]
    exact trivial
  · simp only [if_neg h]
    intro _ _ _
    exact ⟨rfl, trivial⟩

end TripletHelper

theorem tripletSum_nil (r c : Index) : tripletSum [] r c = 0 := rfl

theorem tripletSum_append (l₁ l₂ : List (Index × Index × Number)) (r c : Index) :
    tripletSum (l₁ ++ l₂) r c = tripletSum l₁ r c + tripletSum l₂ r c := by
  simp [tripletSum]

theorem tripletSum_flatMap {ι : Type} (T : ι → List (Index × Index × Number)) (l : List ι)
    (r c : Index) :
    tripletSum (l.flatMap T) r c = (l.map (fun i => tripletSum (T i) r c)).sum := by
  induction l with
  | nil => rfl
  | cons x l ih => rw [List.flatMap_cons, tripletSum_append, ih, List.map_cons, List.sum_cons]

theorem tripletSum_scale (l : List (Index × Index × Number)) (factor : Number) (r c : Index) :
    tripletSum (l.map (fun t => (t.1, t.2.1, factor * t.2.2))) r c = factor * tripletSum l r c := by
  induction l with
  | nil => simp [tripletSum]
  | cons x l ih =>
    have hx : tripletSum (List.map (fun t => (t.1, t.2.1, factor * t.2.2)) (x :: l)) r c =
        (if x.1 = r ∧ x.2.1 = c then factor * x.2.2 else 0) +
          tripletSum (l.map (fun t => (t.1, t.2.1, factor * t.2.2))) r c := by
      simp [tripletSum]
    have hx' : tripletSum (x :: l) r c =
        (if x.1 = r ∧ x.2.1 = c then x.2.2 else 0) + tripletSum l r c := by
      simp [tripletSum]
    rw [hx, hx', ih, mul_add]
    congr 1
    by_cases h : x.1 = r ∧ x.2.1 = c
    · rw [if_pos h, if_pos h]
    · rw [if_neg h, if_neg h, mul_zero]

/-- A sum over `0, ..., n - 1` in which at most the index `k0` meets the
condition. -/
theorem List.sum_map_range_unique (n k0 : Nat) (P : Nat → Prop) [DecidablePred P]
    (f : Nat → Number) (h : ∀ k, P k → k = k0) :
    ((List.range n).map (fun k => if P k then f k else 0)).sum =
      if k0 < n ∧ P k0 then f k0 else 0 := by
  induction n with
  | zero => simp
  | succ n ih =>
    rw [List.range_succ, List.map_append, List.sum_append, ih, List.map_singleton,
      List.sum_singleton]
    by_cases hP : P k0
    · by_cases hn : k0 < n
      · have hne : ¬ P n := fun hc => by have := h n hc; omega
        rw [if_pos ⟨hn, hP⟩, if_neg hne, if_pos ⟨by omega, hP⟩, add_zero]
      · by_cases he : n = k0
        · subst he
          rw [if_neg (fun hc => hn hc.1), if_pos hP, if_pos ⟨by omega, hP⟩, zero_add]
        · have hne : ¬ P n := fun hc => he (h n hc)
          rw [if_neg (fun hc => hn hc.1), if_neg hne, if_neg (fun hc => by omega), add_zero]
    · have hne : ¬ P n := fun hc => by
        have := h n hc
        subst this
        exact hP hc
      rw [if_neg (fun hc => hP hc.2), if_neg hne, if_neg (fun hc => hP hc.2), add_zero]

theorem tripletSum_map_range (n : Nat) (row col : Nat → Index) (val : Nat → Number)
    (r c : Index) :
    tripletSum ((List.range n).map (fun (k : Nat) => (row k, col k, val k))) r c =
      ((List.range n).map (fun (k : Nat) => if row k = r ∧ col k = c then val k else 0)).sum := by
  rw [tripletSum, List.map_map]
  rfl

theorem expansion_cond (e : Nat → Int) (n : Nat) (r c ro co : Int) :
    ((c - co - 1).toNat < n ∧
      (e (c - co - 1).toNat + ro + 1 = r ∧ ((c - co - 1).toNat : Int) + co + 1 = c)) ↔
    (1 ≤ c - co ∧ c - co ≤ n ∧ r - ro = e (c - co - 1).toNat + 1) := by
  constructor
  · rintro ⟨h1, h2, h3⟩
    omega
  · rintro ⟨h1, h2, h3⟩
    omega

namespace TripletHelper

/-- The triplets of a matrix of the non-symmetric kinds sum up to its
elements. -/
theorem tripletSum_triplets (m : Matrix) :
    m.NonSym → ∀ (ro co r c : Int),
      tripletSum (m.triplets ro co) r c = m.element (r - ro) (c - co) := by
  induction m with
  | genT Nonzeros irow jcol vals =>
    intro _ ro co r c
    rw [Matrix.triplets, Matrix.element, tripletSum_map_range]
    congr 1
    apply List.map_congr_left
    intro k _
    have h : (irow k + ro = r ∧ jcol k + co = c) ↔ (irow k = r - ro ∧ jcol k = c - co) :=
      and_congr eq_sub_iff_add_eq.symm eq_sub_iff_add_eq.symm
    by_cases hc : irow k + ro = r ∧ jcol k + co = c
    · rw [if_pos hc, if_pos (h.1 hc)]
    · rw [if_neg hc, if_neg (fun hc' => hc (h.2 hc'))]
  | symT Nonzeros irow jcol vals => intro h; exact h.elim
  | sumSym nterms factor term ih => intro h; exact h.elim
  | compoundSym dim bd valid comp ih => intro h; exact h.elim
  | diag Dim v =>
    intro _ ro co r c
    rw [Matrix.triplets, Matrix.element, tripletSum_map_range,
      List.sum_map_range_unique Dim (r - ro - 1).toNat
        (fun k => (k : Int) + ro + 1 = r ∧ (k : Int) + co + 1 = c)
        (fun k => v.toList.getD k 0) (fun k hk => by have := hk.1; omega)]
    by_cases h : r - ro = c - co ∧ 1 ≤ r - ro ∧ r - ro ≤ Dim
    · rw [if_pos h, if_pos (by obtain ⟨h1, h2, h3⟩ := h; omega)]
    · rw [if_neg h, if_neg (fun hc => h (by obtain ⟨h1, h2, h3⟩ := hc; omega))]
  | identity Dim factor =>
    intro _ ro co r c
    rw [Matrix.triplets, Matrix.element, tripletSum_map_range,
      List.sum_map_range_unique Dim (r - ro - 1).toNat
        (fun k => (k : Int) + ro + 1 = r ∧ (k : Int) + co + 1 = c)
        (fun _ => factor) (fun k hk => by have := hk.1; omega)]
    by_cases h : r - ro = c - co ∧ 1 ≤ r - ro ∧ r - ro ≤ Dim
    · rw [if_pos h, if_pos (by obtain ⟨h1, h2, h3⟩ := h; omega)]
    · rw [if_neg h, if_neg (fun hc => h (by obtain ⟨h1, h2, h3⟩ := hc; omega))]
  | expansion NCols exp_pos =>
    intro _ ro co r c
    rw [Matrix.triplets, Matrix.element, tripletSum_map_range,
      List.sum_map_range_unique NCols (c - co - 1).toNat
        (fun k => exp_pos k + ro + 1 = r ∧ (k : Int) + co + 1 = c)
        (fun _ => 1) (fun k hk => by have := hk.2; omega)]
    by_cases h : 1 ≤ c - co ∧ c - co ≤ NCols ∧ r - ro = exp_pos (c - co - 1).toNat + 1
    · rw [if_pos h, if_pos ((expansion_cond exp_pos NCols r c ro co).2 h)]
    · rw [if_neg h, if_neg (fun hc => h ((expansion_cond exp_pos NCols r c ro co).1 hc))]
  | zero =>
    intro _ ro co r c
    rfl
  | sum nterms factor term ih =>
    intro hns ro co r c
    rw [Matrix.triplets, Matrix.element, tripletSum_flatMap]
    congr 1
    apply List.map_congr_left
    intro i _
    rw [tripletSum_scale, ih i (hns i)]
  | compound nrows ncols br bc valid comp ih =>
    intro hns ro co r c
    rw [Matrix.triplets, Matrix.element, tripletSum_flatMap]
    congr 1
    apply List.map_congr_left
    intro i _
    rw [tripletSum_flatMap]
    congr 1
    apply List.map_congr_left
    intro j _
    by_cases h : valid i j = true
    · rw [if_pos h, if_pos h, ih i j (hns i j h), sub_sub, sub_sub]
    · rw [if_neg h, if_neg h, tripletSum_nil]

end TripletHelper

namespace TripletHelper

theorem exampleMatrix_NonSym : exampleMatrix.NonSym := by
  intro i
  by_cases h : i = 0
  · simp only [if_pos h]
    exact trivial
  · simp only [if_neg h]
    intro _ _ _
    exact trivial

/-- The sum over the entries of arrays that hold a list of triplets. -/
theorem sum_range_writeEntries (T : List (Index × Index × Number)) (iRow jCol : Nat → Index)
    (values : Nat → Number) (r c : Index) :
    ((List.range T.length).map (fun k =>
      if writeEntries (T.map (fun t => t.1)) iRow 0 k = r ∧
          writeEntries (T.map (fun t => t.2.1)) jCol 0 k = c then
        writeEntries (T.map (fun t => t.2.2)) values 0 k
      else 0)).sum = tripletSum T r c := by
  have h : (List.range T.length).map (fun k =>
      if writeEntries (T.map (fun t => t.1)) iRow 0 k = r ∧
          writeEntries (T.map (fun t => t.2.1)) jCol 0 k = c then
        writeEntries (T.map (fun t => t.2.2)) values 0 k
      else 0) =
      (List.range T.length).map (fun k =>
        (fun (t : Index × Index × Number) => if t.1 = r ∧ t.2.1 = c then t.2.2 else 0)
          (T.getD k (0, 0, 0))) := by
    apply List.map_congr_left
    intro k hk
    have hk' : k < T.length := List.mem_range.1 hk
    have h1 := writeEntries_apply_of_lt (T.map (fun t => t.1)) iRow 0 k
      (by rw [List.length_map]; exact hk') 0
    have h2 := writeEntries_apply_of_lt (T.map (fun t => t.2.1)) jCol 0 k
      (by rw [List.length_map]; exact hk') 0
    have h3 := writeEntries_apply_of_lt (T.map (fun t => t.2.2)) values 0 k
      (by rw [List.length_map]; exact hk') 0
    rw [Nat.zero_add] at h1 h2 h3
    rw [h1, h2, h3]
    simp [List.getD_eq_getElem?_getD, List.getElem?_eq_getElem hk']
  have h2 : (List.range T.length).map (fun k =>
      (fun (t : Index × Index × Number) => if t.1 = r ∧ t.2.1 = c then t.2.2 else 0)
        (T.getD k (0, 0, 0))) =
      ((List.range T.length).map (fun k => T.getD k (0, 0, 0))).map
        (fun (t : Index × Index × Number) => if t.1 = r ∧ t.2.1 = c then t.2.2 else 0) := by
    rw [List.map_map]
    rfl
  rw [h, h2, List.map_range_getD]
  rfl

end TripletHelper

/-! ## The claims on the filter -/

/-- C1: for every filter content and every pair `(φ, θ)`, `Filter::Acceptable`
returns true if and only if no stored entry `(φ_i, θ_i)` has `φ_i ≤ φ` and
`θ_i ≤ θ`. -/
theorem C1_Acceptable_iff_not_dominated (f : Filter) (phi theta : Number) :
    f.Acceptable phi theta = true ↔
      ∀ e ∈ f.filter_list_, ¬ (e.phi_ ≤ phi ∧ e.theta_ ≤ theta) :=
  Filter.AcceptableLoop_iff phi theta f.filter_list_

/-- C2, as stated, fails: after `AddEntry(1, 1, 0)` and `AddEntry(2, 2, 1)` on the
empty filter both entries are stored, and the first dominates the second. -/
theorem C2_counterexample :
    ¬ (Filter.run [FilterOp.AddEntry 1 1 0, FilterOp.AddEntry 2 2 1]).NoDominatedPair := by
  have h : (Filter.run [FilterOp.AddEntry 1 1 0, FilterOp.AddEntry 2 2 1]).filter_list_ =
      [⟨1, 1, 0⟩, ⟨2, 2, 1⟩] := by
    simp [Filter.run, Filter.apply, Filter.AddEntry_list, Filter.empty,
      FilterEntry.Dominated]
  unfold Filter.NoDominatedPair
  rw [h]
  simp [FilterEntry.Dominates]

/-- C2, amended: starting from the empty filter, after any sequence of `AddEntry`
and `Clear` calls in which every `AddEntry(φ, θ, ·)` is made with a pair that
`Acceptable(φ, θ)` accepts at that time, the filter holds no two distinct
entries such that one dominates the other. -/
theorem C2_no_dominated_pair_when_adds_acceptable (ops : List FilterOp)
    (h : Filter.empty.AddsAcceptable ops) : (Filter.run ops).NoDominatedPair :=
  Filter.NoDominatedPair_foldl ops Filter.empty List.Pairwise.nil h

/-- Witness of C2 (amended): two admissible insertions. -/
theorem C2_no_dominated_pair_witness :
    (Filter.run [FilterOp.AddEntry 2 2 0, FilterOp.AddEntry 1 3 1]).NoDominatedPair :=
  C2_no_dominated_pair_when_adds_acceptable
    [FilterOp.AddEntry 2 2 0, FilterOp.AddEntry 1 3 1]
    (by simp [Filter.AddsAcceptable, Filter.Acceptable, Filter.AddEntry_list,
          Filter.AcceptableLoop, FilterEntry.Acceptable, FilterEntry.Dominated,
          Filter.empty])

/-- C3: for every filter content and every `(φ, θ, iter)`, right after
`AddEntry(φ, θ, iter)` the call `Acceptable(φ, θ)` returns false. -/
theorem C3_not_acceptable_after_AddEntry (f : Filter) (phi theta : Number)
    (iteration : Index) :
    (f.AddEntry phi theta iteration).Acceptable phi theta = false := by
  rw [← Bool.not_eq_true, Filter.Acceptable, Filter.AcceptableLoop_iff, Filter.AddEntry_list]
  intro h
  exact h ⟨phi, theta, iteration⟩ (by simp) ⟨le_refl _, le_refl _⟩

/-- C4, as stated, fails: the filter holding `(1, 1)` accepts `(0, 0)` but, with
`a = b = 1 ≥ 0`, it does not accept `(0 + 1, 0 + 1)`. -/
theorem C4_counterexample :
    (0 : Number) ≤ 1 ∧ Filter.Acceptable ⟨[⟨1, 1, 0⟩]⟩ 0 0 = true ∧
      Filter.Acceptable ⟨[⟨1, 1, 0⟩]⟩ (0 + 1) (0 + 1) = false := by
  refine ⟨by norm_num, ?_, ?_⟩ <;>
    simp [Filter.Acceptable, Filter.AcceptableLoop, FilterEntry.Acceptable]

/-- C4, amended: for every filter content, every pair `(φ, θ)` and all `a ≥ 0`,
`b ≥ 0`: if `Acceptable(φ + a, θ + b)` is true then `Acceptable(φ, θ)` is true
(the accepted region is closed downwards, not upwards). -/
theorem C4_Acceptable_downward (f : Filter) (phi theta a b : Number)
    (ha : 0 ≤ a) (hb : 0 ≤ b) (h : f.Acceptable (phi + a) (theta + b) = true) :
    f.Acceptable phi theta = true := by
  rw [Filter.Acceptable, Filter.AcceptableLoop_iff] at h ⊢
  intro e he hdom
  exact h e he ⟨by linarith [hdom.1], by linarith [hdom.2]⟩

/-- Witness of C4 (amended): the filter holding `(1, 1)` accepts `(0 + 1/2, 0 + 3)`,
hence `(0, 0)`. -/
theorem C4_Acceptable_downward_witness :
    Filter.Acceptable ⟨[⟨1, 1, 0⟩]⟩ 0 0 = true :=
  C4_Acceptable_downward ⟨[⟨1, 1, 0⟩]⟩ 0 0 (1 / 2) 3 (by norm_num) (by norm_num)
    (by simp [Filter.Acceptable, Filter.AcceptableLoop, FilterEntry.Acceptable]; norm_num)

/-- C5: for every filter content and every `(φ, θ, iter)`, `AddEntry(φ, θ, iter)`
yields the previously stored entries that the new pair does not dominate
(those without `φ ≤ φ_i` and `θ ≤ θ_i`), in their previous order, followed by
the new entry as last element. -/
theorem C5_AddEntry_result (f : Filter) (phi theta : Number) (iteration : Index) :
    (f.AddEntry phi theta iteration).filter_list_ =
      f.filter_list_.filter (fun e => decide (¬ (phi ≤ e.phi_ ∧ theta ≤ e.theta_))) ++
        [⟨phi, theta, iteration⟩] := by
  rw [Filter.AddEntry_list]
  congr 2
  funext e
  by_cases h1 : phi ≤ e.phi_ <;> by_cases h2 : theta ≤ e.theta_ <;>
    simp [FilterEntry.Dominated, h1, h2]

/-! ## The claims on the acceptance test -/

/-- C6: for every state of a line search in use (`Initialised`: the state the
constructor and `InitializeImpl` set up, or any state reached from it) and
every test step size `α`, `CheckAcceptabilityOfTrialPoint(α)` returns true if
and only if the trial quantities `θ_trial`, `φ_trial` are obtained,
`θ_trial ≤ θ_max`, the branch test holds (`ArmijoHolds(α)` when `IsFtype(α)` and
`θ_cur ≤ θ_min`, otherwise `IsAcceptableToCurrentIterate(φ_trial, θ_trial)`), and
the filter accepts `(φ_trial, θ_trial)`; `θ_max` and `θ_min` are the gates as
the call leaves them. -/
theorem C6_CheckAcceptabilityOfTrialPoint_iff (s : FilterLineSearch) (m : CMath)
    (cq : IpoptCalculatedQuantities) (alpha : Number) (hs : s.Initialised) :
    (FilterLineSearch.CheckAcceptabilityOfTrialPoint s m cq alpha).2 = .ok true ↔
      ∃ trial_theta trial_barr,
        cq.trial_constraint_violation = .ok trial_theta ∧
        cq.trial_barrier_obj = .ok trial_barr ∧
        trial_theta ≤
          (FilterLineSearch.CheckAcceptabilityOfTrialPoint s m cq alpha).1.theta_max_ ∧
        (if FilterLineSearch.IsFtype s m cq alpha = true ∧
              cq.curr_constraint_violation ≤
                (FilterLineSearch.CheckAcceptabilityOfTrialPoint s m cq alpha).1.theta_min_ then
            FilterLineSearch.ArmijoHolds s cq alpha = .ok true
          else
            FilterLineSearch.IsAcceptableToCurrentIterate s m cq trial_barr trial_theta = true) ∧
        s.filter_.Acceptable trial_barr trial_theta = true := by
  rw [FilterLineSearch.CheckAcceptabilityOfTrialPoint_snd,
    FilterLineSearch.CheckAcceptabilityOfTrialPoint_fst]
  rcases ht : cq.trial_constraint_violation with e | trial_theta
  · simp
  · have hpos := FilterLineSearch.InitThetaGates_theta_max_pos s
      cq.curr_constraint_violation hs.1 hs.2
    simp only [FilterLineSearch.CheckTests_eq_true_iff,
      FilterLineSearch.IsFtype_InitThetaGates, FilterLineSearch.ArmijoHolds_InitThetaGates,
      FilterLineSearch.IsAcceptableToCurrentIterate_InitThetaGates]
    have hfil : (FilterLineSearch.InitThetaGates s cq.curr_constraint_violation).filter_ =
        s.filter_ := by
      rw [FilterLineSearch.InitThetaGates_frame]
    rw [hfil]
    constructor
    · rintro ⟨trial_barr, hb, hg, hbr, hf⟩
      refine ⟨trial_theta, trial_barr, rfl, hb, ?_, hbr, hf⟩
      by_contra hlt
      exact hg ⟨hpos, not_le.mp hlt⟩
    · rintro ⟨trial_theta', trial_barr, ht', hb, hg, hbr, hf⟩
      have : trial_theta' = trial_theta := by
        injection ht' with h
        exact h.symm
      subst this
      exact ⟨trial_barr, hb, fun hc => absurd hg (not_le.mpr hc.2), hbr, hf⟩

/-- Witness of C6: the freshly initialised line search at an iterate with
`θ_cur = 1` and a trial point with `θ_trial = 1/2`, `φ_trial = 0`, `α = 1`. -/
theorem C6_CheckAcceptabilityOfTrialPoint_witness :
    (FilterLineSearch.CheckAcceptabilityOfTrialPoint exampleLineSearch exampleMath
        exampleCq 1).2 = .ok true ↔
      ∃ trial_theta trial_barr,
        exampleCq.trial_constraint_violation = .ok trial_theta ∧
        exampleCq.trial_barrier_obj = .ok trial_barr ∧
        trial_theta ≤
          (FilterLineSearch.CheckAcceptabilityOfTrialPoint exampleLineSearch exampleMath
            exampleCq 1).1.theta_max_ ∧
        (if FilterLineSearch.IsFtype exampleLineSearch exampleMath exampleCq 1 = true ∧
              exampleCq.curr_constraint_violation ≤
                (FilterLineSearch.CheckAcceptabilityOfTrialPoint exampleLineSearch exampleMath
                  exampleCq 1).1.theta_min_ then
            FilterLineSearch.ArmijoHolds exampleLineSearch exampleCq 1 = .ok true
          else
            FilterLineSearch.IsAcceptableToCurrentIterate exampleLineSearch exampleMath
              exampleCq trial_barr trial_theta = true) ∧
        exampleLineSearch.filter_.Acceptable trial_barr trial_theta = true :=
  C6_CheckAcceptabilityOfTrialPoint_iff exampleLineSearch exampleMath exampleCq 1
    FilterLineSearch.exampleLineSearch_Initialised

/-! ## The claims on `FindAcceptableTrialPoint` -/

/-- C7: for every call of `FindAcceptableTrialPoint` whose backtracking loop ends
with an accepted trial at the test step size `α`: the call returns normally and
`ArmijoHolds(α)` has a value; if the step is not f-type at `α` or the Armijo
test does not hold at `α`, the filter after the call is the filter before the
call with `AddEntry(φ_cur − γ_φ·θ_cur, (1 − γ_θ)·θ_cur, iter_count)` applied
once; if the step is f-type and Armijo holds, the filter is the one before the
call. -/
theorem C7_filter_after_accepted_trial (env : Env) (fuel : Nat) (r r1 : LSRun)
    (v1 : Locals)
    (hloop : FilterLineSearch.BacktrackingLoop env
      (FilterLineSearch.CalculateAlphaMin r.ls env.m r.cq)
      env.curr_primal_frac_to_the_bound fuel r (FilterLineSearch.InitialLocals env) =
        some (r1, .ok v1))
    (hacc : v1.accept = true) :
    ∃ r2, FilterLineSearch.FindAcceptableTrialPoint env fuel r = some (r2, .ok ()) ∧
      (∃ armijo, FilterLineSearch.ArmijoHolds r.ls r1.cq v1.alpha_primal_test = .ok armijo) ∧
      (FilterLineSearch.IsFtype r.ls env.m r1.cq v1.alpha_primal_test = false ∨
          FilterLineSearch.ArmijoHolds r.ls r1.cq v1.alpha_primal_test = .ok false →
        r2.ls.filter_ = r.ls.filter_.AddEntry
          (r.cq.curr_barrier_obj - r.ls.gamma_phi_ * r.cq.curr_constraint_violation)
          ((1 - r.ls.gamma_theta_) * r.cq.curr_constraint_violation) env.iter_count) ∧
      (FilterLineSearch.IsFtype r.ls env.m r1.cq v1.alpha_primal_test = true ∧
          FilterLineSearch.ArmijoHolds r.ls r1.cq v1.alpha_primal_test = .ok true →
        r2.ls.filter_ = r.ls.filter_) := by
  obtain ⟨hF, armijo, hA⟩ :=
    FilterLineSearch.FindAcceptableTrialPoint_of_accept env fuel r r1 v1 hloop hacc
  obtain ⟨h2, hls, _⟩ := FilterLineSearch.Commit_of_ArmijoHolds env r1 v1 armijo hA
  obtain ⟨hG, _, hcb, hct, _⟩ :=
    FilterLineSearch.BacktrackingLoop_LoopFrame env _ _ fuel r _ _ hloop
  simp only at hG hcb hct
  have hA' : FilterLineSearch.ArmijoHolds r.ls r1.cq v1.alpha_primal_test = .ok armijo := by
    rw [← FilterLineSearch.ArmijoHolds_of_GatesOnly hG]
    exact hA
  rw [FilterLineSearch.IsFtype_of_GatesOnly hG] at hls
  refine ⟨(FilterLineSearch.Commit env r1 v1).1, ?_, ⟨armijo, hA'⟩, ?_, ?_⟩
  · rw [hF, ← h2]
  · intro hc
    have hc' : FilterLineSearch.IsFtype r.ls env.m r1.cq v1.alpha_primal_test = false ∨
        armijo = false := by
      rcases hc with hc | hc
      · exact Or.inl hc
      · rw [hA'] at hc
        injection hc with hc
        exact Or.inr hc
    rw [hls, if_pos hc', FilterLineSearch.AugmentFilter_filter, hG.filter_eq,
      hG.gamma_phi_eq, hG.gamma_theta_eq, hcb, hct]
  · rintro ⟨hf, ha⟩
    have hc' : ¬ (FilterLineSearch.IsFtype r.ls env.m r1.cq v1.alpha_primal_test = false ∨
        armijo = false) := by
      rw [hA'] at ha
      injection ha with ha
      simp [hf, ha]
    rw [hls, if_neg hc', hG.filter_eq]

/-- Witness of C7: the example call accepts the full step. -/
theorem C7_filter_after_accepted_trial_witness :
    ∃ r2, FilterLineSearch.FindAcceptableTrialPoint exampleEnvF 1 exampleRunF =
        some (r2, .ok ()) ∧
      (∃ armijo, FilterLineSearch.ArmijoHolds exampleRunF.ls exampleRunF1.cq
        exampleLocalsF1.alpha_primal_test = .ok armijo) ∧
      (FilterLineSearch.IsFtype exampleRunF.ls exampleEnvF.m exampleRunF1.cq
            exampleLocalsF1.alpha_primal_test = false ∨
          FilterLineSearch.ArmijoHolds exampleRunF.ls exampleRunF1.cq
            exampleLocalsF1.alpha_primal_test = .ok false →
        r2.ls.filter_ = exampleRunF.ls.filter_.AddEntry
          (exampleRunF.cq.curr_barrier_obj -
            exampleRunF.ls.gamma_phi_ * exampleRunF.cq.curr_constraint_violation)
          ((1 - exampleRunF.ls.gamma_theta_) * exampleRunF.cq.curr_constraint_violation)
          exampleEnvF.iter_count) ∧
      (FilterLineSearch.IsFtype exampleRunF.ls exampleEnvF.m exampleRunF1.cq
            exampleLocalsF1.alpha_primal_test = true ∧
          FilterLineSearch.ArmijoHolds exampleRunF.ls exampleRunF1.cq
            exampleLocalsF1.alpha_primal_test = .ok true →
        r2.ls.filter_ = exampleRunF.ls.filter_) :=
  C7_filter_after_accepted_trial exampleEnvF 1 exampleRunF exampleRunF1 exampleLocalsF1
    (FilterLineSearch.exampleF_BacktrackingLoop _) rfl

/-- C8, as stated, fails: in the example the trial is accepted through the
sufficient-reduction branch (`θ_cur = 1/2` exceeds `θ_min = 1e-4`), yet the
step is f-type and Armijo holds, and the recorded flag is `'f'`. -/
theorem C8_counterexample :
    FilterLineSearch.BacktrackingLoop exampleEnvF
        (FilterLineSearch.CalculateAlphaMin exampleRunF.ls exampleEnvF.m exampleRunF.cq)
        exampleEnvF.curr_primal_frac_to_the_bound 1 exampleRunF
        (FilterLineSearch.InitialLocals exampleEnvF) =
      some (exampleRunF1, .ok exampleLocalsF1) ∧
    exampleLocalsF1.accept = true ∧
    FilterLineSearch.FindAcceptableTrialPoint exampleEnvF 1 exampleRunF =
      some (exampleRunF2, .ok ()) ∧
    exampleRunF2.info_alpha_primal_char = 'f' ∧
    ¬ (exampleRunF1.cq.curr_constraint_violation ≤ exampleRunF2.ls.theta_min_) := by
  refine ⟨FilterLineSearch.exampleF_BacktrackingLoop _, rfl,
    FilterLineSearch.exampleF_FindAcceptableTrialPoint, rfl, ?_⟩
  norm_num [exampleRunF1, exampleRunF2, exampleRunF, exampleCqF, exampleLineSearchF]

/-- C8, amended: for every call of `FindAcceptableTrialPoint` whose backtracking
loop accepts a trial at the test step size `α`, the recorded primal-step flag
is `'f'` or `'F'` exactly when the step is f-type at `α` and `ArmijoHolds(α)` is
true (whether or not `θ_cur ≤ θ_min`, that is, whichever branch of the
acceptance test the trial passed), and `'h'` or `'H'` in every other case. -/
theorem C8_flag_after_accepted_trial (env : Env) (fuel : Nat) (r r1 : LSRun)
    (v1 : Locals)
    (hloop : FilterLineSearch.BacktrackingLoop env
      (FilterLineSearch.CalculateAlphaMin r.ls env.m r.cq)
      env.curr_primal_frac_to_the_bound fuel r (FilterLineSearch.InitialLocals env) =
        some (r1, .ok v1))
    (hacc : v1.accept = true) :
    ∃ r2, FilterLineSearch.FindAcceptableTrialPoint env fuel r = some (r2, .ok ()) ∧
      ((r2.info_alpha_primal_char = 'f' ∨ r2.info_alpha_primal_char = 'F') ↔
        (FilterLineSearch.IsFtype r.ls env.m r1.cq v1.alpha_primal_test = true ∧
          FilterLineSearch.ArmijoHolds r.ls r1.cq v1.alpha_primal_test = .ok true)) ∧
      ((r2.info_alpha_primal_char = 'h' ∨ r2.info_alpha_primal_char = 'H') ↔
        ¬ (FilterLineSearch.IsFtype r.ls env.m r1.cq v1.alpha_primal_test = true ∧
          FilterLineSearch.ArmijoHolds r.ls r1.cq v1.alpha_primal_test = .ok true)) := by
  obtain ⟨hF, armijo, hA⟩ :=
    FilterLineSearch.FindAcceptableTrialPoint_of_accept env fuel r r1 v1 hloop hacc
  obtain ⟨h2, _, hchar⟩ := FilterLineSearch.Commit_of_ArmijoHolds env r1 v1 armijo hA
  obtain ⟨hG, _⟩ := FilterLineSearch.BacktrackingLoop_LoopFrame env _ _ fuel r _ _ hloop
  simp only at hG
  have hA' : FilterLineSearch.ArmijoHolds r.ls r1.cq v1.alpha_primal_test = .ok armijo := by
    rw [← FilterLineSearch.ArmijoHolds_of_GatesOnly hG]
    exact hA
  rw [FilterLineSearch.IsFtype_of_GatesOnly hG] at hchar
  have hh : 'h'.toUpper = 'H' := by decide
  have hf : 'f'.toUpper = 'F' := by decide
  refine ⟨(FilterLineSearch.Commit env r1 v1).1, ?_, ?_⟩
  · rw [hF, ← h2]
  · rw [hchar, hA']
    rcases v1.soc_taken <;>
      rcases FilterLineSearch.IsFtype r.ls env.m r1.cq v1.alpha_primal_test <;>
      rcases armijo <;> simp [hh, hf]

/-- Witness of C8 (amended): the example call accepts the full step. -/
theorem C8_flag_after_accepted_trial_witness :
    ∃ r2, FilterLineSearch.FindAcceptableTrialPoint exampleEnvF 1 exampleRunF =
        some (r2, .ok ()) ∧
      ((r2.info_alpha_primal_char = 'f' ∨ r2.info_alpha_primal_char = 'F') ↔
        (FilterLineSearch.IsFtype exampleRunF.ls exampleEnvF.m exampleRunF1.cq
            exampleLocalsF1.alpha_primal_test = true ∧
          FilterLineSearch.ArmijoHolds exampleRunF.ls exampleRunF1.cq
            exampleLocalsF1.alpha_primal_test = .ok true)) ∧
      ((r2.info_alpha_primal_char = 'h' ∨ r2.info_alpha_primal_char = 'H') ↔
        ¬ (FilterLineSearch.IsFtype exampleRunF.ls exampleEnvF.m exampleRunF1.cq
            exampleLocalsF1.alpha_primal_test = true ∧
          FilterLineSearch.ArmijoHolds exampleRunF.ls exampleRunF1.cq
            exampleLocalsF1.alpha_primal_test = .ok true)) :=
  C8_flag_after_accepted_trial exampleEnvF 1 exampleRunF exampleRunF1 exampleLocalsF1
    (FilterLineSearch.exampleF_BacktrackingLoop _) rfl

/-- C9, as stated, fails: on a freshly initialised line search
(`theta_max_fact_ = 1e4`, `theta_min_fact_ = 1e-4`, gates at `-1`) the first call
of `CheckAcceptabilityOfTrialPoint`, made at `θ_cur = 1`, raises `Eval_Error`
while asking for the trial constraint violation (line 459) and leaves
`theta_max_` and `theta_min_` at `-1` instead of `1e4` and `1e-4`. -/
theorem C9_counterexample :
    0 < exampleLineSearch.theta_max_fact_ ∧ 0 < exampleLineSearch.theta_min_fact_ ∧
    exampleLineSearch.theta_max_ = -1 ∧ exampleLineSearch.theta_min_ = -1 ∧
    (FilterLineSearch.CheckAcceptabilityOfTrialPoint exampleLineSearch exampleMath
      exampleCqE 1).2 = .error Exception.Eval_Error ∧
    (FilterLineSearch.CheckAcceptabilityOfTrialPoint exampleLineSearch exampleMath
      exampleCqE 1).1.theta_max_ = -1 ∧
    (FilterLineSearch.CheckAcceptabilityOfTrialPoint exampleLineSearch exampleMath
      exampleCqE 1).1.theta_min_ = -1 ∧
    exampleLineSearch.theta_max_fact_ * max 1 exampleCqE.curr_constraint_violation = 10000 ∧
    exampleLineSearch.theta_min_fact_ * max 1 exampleCqE.curr_constraint_violation =
      1 / 10000 := by
  refine ⟨?_, ?_, rfl, rfl, rfl, rfl, rfl, ?_, ?_⟩ <;>
    norm_num [exampleLineSearch, exampleCqE, exampleCq]

/-- C9, amended: provided `θ_max_fact > 0` and `θ_min_fact > 0`, the first call of
`CheckAcceptabilityOfTrialPoint` that obtains the trial constraint violation
without an evaluation error (the gates are still negative, as the constructor
left them), made at constraint violation `θ_cur`, sets
`θ_max = θ_max_fact·max(1, θ_cur)` and `θ_min = θ_min_fact·max(1, θ_cur)`; every
later sequence of operations of the line search
(`CheckAcceptabilityOfTrialPoint`, `AugmentFilter`, `FindAcceptableTrialPoint`,
`Reset`) leaves both values unchanged. -/
theorem C9_gates_set_once (s : FilterLineSearch) (m : CMath)
    (cq : IpoptCalculatedQuantities) (alpha trial_theta : Number)
    (hmaxf : 0 < s.theta_max_fact_) (hminf : 0 < s.theta_min_fact_)
    (hmax : s.theta_max_ < 0) (hmin : s.theta_min_ < 0)
    (hok : cq.trial_constraint_violation = .ok trial_theta) :
    (FilterLineSearch.CheckAcceptabilityOfTrialPoint s m cq alpha).1.theta_max_ =
        s.theta_max_fact_ * max 1 cq.curr_constraint_violation ∧
      (FilterLineSearch.CheckAcceptabilityOfTrialPoint s m cq alpha).1.theta_min_ =
        s.theta_min_fact_ * max 1 cq.curr_constraint_violation ∧
      ∀ (ops : List LSOp) (s' : FilterLineSearch),
        (FilterLineSearch.CheckAcceptabilityOfTrialPoint s m cq alpha).1.applyOps ops =
          some s' →
        s'.theta_max_ = s.theta_max_fact_ * max 1 cq.curr_constraint_violation ∧
          s'.theta_min_ = s.theta_min_fact_ * max 1 cq.curr_constraint_violation := by
  have h1 : (FilterLineSearch.CheckAcceptabilityOfTrialPoint s m cq alpha).1.theta_max_ =
      s.theta_max_fact_ * max 1 cq.curr_constraint_violation := by
    rw [FilterLineSearch.CheckAcceptabilityOfTrialPoint_fst, hok]
    simp only [FilterLineSearch.InitThetaGates_theta_max, if_pos hmax]
  have h2 : (FilterLineSearch.CheckAcceptabilityOfTrialPoint s m cq alpha).1.theta_min_ =
      s.theta_min_fact_ * max 1 cq.curr_constraint_violation := by
    rw [FilterLineSearch.CheckAcceptabilityOfTrialPoint_fst, hok]
    simp only [FilterLineSearch.InitThetaGates_theta_min, if_pos hmin]
  have hone : (0 : Number) < max 1 cq.curr_constraint_violation :=
    lt_of_lt_of_le one_pos (le_max_left 1 _)
  refine ⟨h1, h2, ?_⟩
  intro ops s' hops
  have hk := FilterLineSearch.applyOps_GatesKept ops _ s' hops
  constructor
  · rw [hk.1 (by rw [h1]; exact le_of_lt (mul_pos hmaxf hone)), h1]
  · rw [hk.2 (by rw [h2]; exact le_of_lt (mul_pos hminf hone)), h2]

/-- Witness of C9 (amended): the freshly initialised line search at an iterate
with `θ_cur = 1` and a trial point with `θ_trial = 1/2`. -/
theorem C9_gates_set_once_witness :
    (FilterLineSearch.CheckAcceptabilityOfTrialPoint exampleLineSearch exampleMath
        exampleCq 1).1.theta_max_ =
        exampleLineSearch.theta_max_fact_ * max 1 exampleCq.curr_constraint_violation ∧
      (FilterLineSearch.CheckAcceptabilityOfTrialPoint exampleLineSearch exampleMath
        exampleCq 1).1.theta_min_ =
        exampleLineSearch.theta_min_fact_ * max 1 exampleCq.curr_constraint_violation ∧
      ∀ (ops : List LSOp) (s' : FilterLineSearch),
        (FilterLineSearch.CheckAcceptabilityOfTrialPoint exampleLineSearch exampleMath
          exampleCq 1).1.applyOps ops = some s' →
        s'.theta_max_ =
            exampleLineSearch.theta_max_fact_ * max 1 exampleCq.curr_constraint_violation ∧
          s'.theta_min_ =
            exampleLineSearch.theta_min_fact_ * max 1 exampleCq.curr_constraint_violation :=
  C9_gates_set_once exampleLineSearch exampleMath exampleCq 1 (1 / 2)
    (by norm_num [exampleLineSearch]) (by norm_num [exampleLineSearch])
    (by norm_num [exampleLineSearch]) (by norm_num [exampleLineSearch]) rfl

/-- C10 fails on the code: when the constraints cannot be evaluated at the first
trial point, the `Eval_Error` raised inside `CheckAcceptabilityOfTrialPoint` is
caught (lines 246-251), but line 259 asks for the trial constraint violation
again outside of any `try` block, and the error leaves
`FindAcceptableTrialPoint` after a single trial, whatever the fuel. -/
theorem C10_Eval_Error_escapes (fuel : Nat) :
    FilterLineSearch.FindAcceptableTrialPoint exampleEnvE (fuel + 1) exampleRunF =
      some (exampleRunE1, .error Exception.Eval_Error) :=
  FilterLineSearch.exampleE_FindAcceptableTrialPoint fuel

/-! ## The claims on the step-size bound and on the sufficient-reduction test -/

/-- C15, as stated, fails: with the default parameters (all in their admissible
ranges), at a feasible iterate (`θ_cur = 0`) with `∇φᵀΔ = -1 < 0`,
`CalculateAlphaMin` returns `0.05 · min(1e-5, 1e-5·0/1) = 0`, which is not
strictly positive.  And a positive `θ_cur` alone does not make the value
positive either when `pow` underflows to `0`: at `θ_cur = 1e-300 ≤ θ_min`,
`∇φᵀΔ = -1`, the third term `δ·pow(θ_cur, s_θ)/pow(-∇φᵀΔ, s_φ)` is `0`. -/
theorem C15_counterexample :
    (0 < exampleLineSearch.gamma_theta_ ∧ exampleLineSearch.gamma_theta_ < 1) ∧
    (0 < exampleLineSearch.gamma_phi_ ∧ exampleLineSearch.gamma_phi_ < 1) ∧
    0 < exampleLineSearch.delta_ ∧ 1 < exampleLineSearch.s_phi_ ∧
    1 < exampleLineSearch.s_theta_ ∧ 0 < exampleLineSearch.alpha_min_frac_ ∧
    0 ≤ exampleCqZ.curr_constraint_violation ∧
    (0 < exampleCqZ.curr_constraint_violation ∨ exampleCqZ.curr_gradBarrTDelta < 0) ∧
    FilterLineSearch.CalculateAlphaMin exampleLineSearch exampleMath exampleCqZ = 0 ∧
    0 < exampleCqU.curr_constraint_violation ∧
    FilterLineSearch.CalculateAlphaMin exampleLineSearchF exampleMathUnderflow exampleCqU =
      0 := by
  refine ⟨?_, ?_, ?_, ?_, ?_, ?_, ?_, ?_, ?_, ?_, ?_⟩
  all_goals
    norm_num [FilterLineSearch.CalculateAlphaMin, exampleLineSearch, exampleLineSearchF,
      exampleCqZ, exampleCq, exampleCqU, exampleCqF, exampleMathUnderflow]

/-- C15, amended: computed in exact arithmetic, for all parameter values in
their admissible ranges (`γ_θ > 0`, `γ_φ > 0`, `δ > 0`, `α_min_frac > 0`), a
`pow` that is positive on positive bases (no underflow), and every state:
whenever `θ_cur > 0`, the value returned by `CalculateAlphaMin` is strictly
positive, and it is at most `α_min_frac · γ_θ` (so it is finite). -/
theorem C15_CalculateAlphaMin_pos (s : FilterLineSearch) (m : CMath)
    (cq : IpoptCalculatedQuantities)
    (hpow : ∀ x y : Number, 0 < x → 0 < m.pow x y)
    (hgt : 0 < s.gamma_theta_) (hgp : 0 < s.gamma_phi_) (hd : 0 < s.delta_)
    (hf : 0 < s.alpha_min_frac_) (htheta : 0 < cq.curr_constraint_violation) :
    0 < FilterLineSearch.CalculateAlphaMin s m cq ∧
      FilterLineSearch.CalculateAlphaMin s m cq ≤ s.alpha_min_frac_ * s.gamma_theta_ := by
  unfold FilterLineSearch.CalculateAlphaMin
  simp only
  constructor
  · apply mul_pos hf
    split_ifs with hg ht
    · have hneg : 0 < -cq.curr_gradBarrTDelta := by linarith
      exact lt_min (lt_min hgt (div_pos (mul_pos hgp htheta) hneg))
        (div_pos (mul_pos hd (hpow _ _ htheta)) (hpow _ _ hneg))
    · have hneg : 0 < -cq.curr_gradBarrTDelta := by linarith
      exact lt_min hgt (div_pos (mul_pos hgp htheta) hneg)
    · exact hgt
  · apply mul_le_mul_of_nonneg_left _ hf.le
    split_ifs with hg ht
    · exact (min_le_left _ _).trans (min_le_left _ _)
    · exact min_le_left _ _
    · exact le_refl _

/-- Witness of C15 (amended): the default parameters at an iterate with
`θ_cur = 1`. -/
theorem C15_CalculateAlphaMin_pos_witness :
    0 < FilterLineSearch.CalculateAlphaMin exampleLineSearch exampleMath exampleCq ∧
      FilterLineSearch.CalculateAlphaMin exampleLineSearch exampleMath exampleCq ≤
        exampleLineSearch.alpha_min_frac_ * exampleLineSearch.gamma_theta_ :=
  C15_CalculateAlphaMin_pos exampleLineSearch exampleMath exampleCq
    (fun x y hx => by simp only [exampleMath]; exact pow_pos hx _)
    (by norm_num [exampleLineSearch]) (by norm_num [exampleLineSearch])
    (by norm_num [exampleLineSearch]) (by norm_num [exampleLineSearch])
    (by norm_num [exampleCq])

/-- C17, as stated, fails: with the default parameters, `φ_cur = 0`, `θ_cur = 1`,
`θ_trial = 0 ≤ (1 − γ_θ)·θ_cur` and `φ_trial = 10^6`, the test of lines 548-557
finds `log10(φ_trial − φ_cur) = 6 > obj_max_inc · 1 = 5` and
`IsAcceptableToCurrentIterate` returns false. -/
theorem C17_counterexample :
    (0 : Number) ≤ (1 - exampleLineSearch.gamma_theta_) * exampleCq.curr_constraint_violation ∧
    FilterLineSearch.IsAcceptableToCurrentIterate exampleLineSearch exampleMathLog
      exampleCq 1000000 0 = false := by
  constructor
  · norm_num [exampleLineSearch, exampleCq]
  · have hl : Nat.log 10 1000000 = 6 := by
      rw [show (1000000 : ℕ) = 10 ^ 6 by norm_num, Nat.log_pow (by norm_num)]
    norm_num [FilterLineSearch.IsAcceptableToCurrentIterate, exampleLineSearch,
      exampleMathLog, exampleCq, hl]

/-- C17, amended: for every `θ_cur`, `φ_cur`, `θ_trial`, `φ_trial` such that the
trial point is not rejected by the test on the increase of the barrier
objective (not both `φ_trial > φ_cur` and
`log10(φ_trial − φ_cur) > obj_max_inc · basval`, where `basval` is
`log10 |φ_cur|` if `|φ_cur| > 10` and `1` otherwise): if
`θ_trial ≤ (1 − γ_θ)·θ_cur` or `φ_trial − φ_cur ≤ −γ_φ·θ_cur`, then
`IsAcceptableToCurrentIterate(φ_trial, θ_trial)` returns true. -/
theorem C17_sufficient_reduction (s : FilterLineSearch) (m : CMath)
    (cq : IpoptCalculatedQuantities) (trial_barr trial_theta : Number)
    (hinc : ¬ (trial_barr > cq.curr_barrier_obj ∧
      m.log10 (trial_barr - cq.curr_barrier_obj) >
        s.obj_max_inc_ *
          (if |cq.curr_barrier_obj| > 10 then m.log10 |cq.curr_barrier_obj| else 1)))
    (h : trial_theta ≤ (1 - s.gamma_theta_) * cq.curr_constraint_violation ∨
      trial_barr - cq.curr_barrier_obj ≤ -s.gamma_phi_ * cq.curr_constraint_violation) :
    FilterLineSearch.IsAcceptableToCurrentIterate s m cq trial_barr trial_theta = true := by
  unfold FilterLineSearch.IsAcceptableToCurrentIterate
  simp only
  rw [if_neg hinc]
  have htol : ∀ b : Number, (0 : Number) ≤ 1e-15 * |b| :=
    fun b => mul_nonneg (by norm_num) (abs_nonneg b)
  rcases h with h | h
  · have : FilterLineSearch.Compare_le trial_theta
        ((1 - s.gamma_theta_) * cq.curr_constraint_violation)
        cq.curr_constraint_violation = true := by
      simp only [FilterLineSearch.Compare_le, decide_eq_true_eq]
      linarith [htol cq.curr_constraint_violation]
    simp only [Bool.or_eq_true]
    exact Or.inl this
  · have : FilterLineSearch.Compare_le (trial_barr - cq.curr_barrier_obj)
        (-s.gamma_phi_ * cq.curr_constraint_violation) cq.curr_barrier_obj = true := by
      simp only [FilterLineSearch.Compare_le, decide_eq_true_eq]
      linarith [htol cq.curr_barrier_obj]
    simp only [Bool.or_eq_true]
    exact Or.inr this

/-- Witness of C17 (amended): default parameters, `φ_cur = 0`, `θ_cur = 1`, and
the trial point `φ_trial = 0`, `θ_trial = 1/2`. -/
theorem C17_sufficient_reduction_witness :
    FilterLineSearch.IsAcceptableToCurrentIterate exampleLineSearch exampleMathLog
      exampleCq 0 (1 / 2) = true :=
  C17_sufficient_reduction exampleLineSearch exampleMathLog exampleCq 0 (1 / 2)
    (by norm_num [exampleCq]) (Or.inl (by norm_num [exampleLineSearch, exampleCq]))

/-! ## The claims on `InitializeImpl` -/

/-- C18: when `InitializeImpl` runs with no option set, a PD solver is available
and the restoration phase, if any, initializes successfully, it returns true
and the parameters are `θ_max_fact = 1e4`, `θ_min_fact = 1e-4`, `η_φ = 1e-4`,
`δ = 1`, `s_φ = 2.3`, `s_θ = 1.1`, `γ_φ = 1e-5`, `γ_θ = 1e-5`,
`α_min_frac = 0.05`, `α_red_factor = 0.5`, `max_soc = 4`, `κ_soc = 0.99`,
`obj_max_inc = 5`, `magic_steps = off`. -/
theorem C18_InitializeImpl_defaults (s : FilterLineSearch) (options : OptionsList)
    (pfx : String) (resto_Initialize : Bool)
    (hnum : ∀ tag, options.GetNumericValue tag pfx = none)
    (hint : ∀ tag, options.GetIntegerValue tag pfx = none)
    (hpd : s.pd_solver_ = true)
    (hresto : s.resto_phase_ = true → resto_Initialize = true) :
    (s.InitializeImpl options pfx resto_Initialize).2 = .ok true ∧
    (s.InitializeImpl options pfx resto_Initialize).1.theta_max_fact_ = 1e4 ∧
    (s.InitializeImpl options pfx resto_Initialize).1.theta_min_fact_ = 1e-4 ∧
    (s.InitializeImpl options pfx resto_Initialize).1.eta_phi_ = 1e-4 ∧
    (s.InitializeImpl options pfx resto_Initialize).1.delta_ = 1 ∧
    (s.InitializeImpl options pfx resto_Initialize).1.s_phi_ = 2.3 ∧
    (s.InitializeImpl options pfx resto_Initialize).1.s_theta_ = 1.1 ∧
    (s.InitializeImpl options pfx resto_Initialize).1.gamma_phi_ = 1e-5 ∧
    (s.InitializeImpl options pfx resto_Initialize).1.gamma_theta_ = 1e-5 ∧
    (s.InitializeImpl options pfx resto_Initialize).1.alpha_min_frac_ = 0.05 ∧
    (s.InitializeImpl options pfx resto_Initialize).1.alpha_red_factor_ = 0.5 ∧
    (s.InitializeImpl options pfx resto_Initialize).1.max_soc_ = 4 ∧
    (s.InitializeImpl options pfx resto_Initialize).1.kappa_soc_ = 0.99 ∧
    (s.InitializeImpl options pfx resto_Initialize).1.obj_max_inc_ = 5 ∧
    (s.InitializeImpl options pfx resto_Initialize).1.magic_steps_ = false := by
  have hr : options.InRange pfx s.pd_solver_ := by
    simp [OptionsList.InRange, hnum, hint, hpd]
  rw [FilterLineSearch.InitializeImpl_of_InRange s options pfx resto_Initialize hr]
  refine ⟨?_, ?_⟩
  · by_cases hp : s.resto_phase_ = true
    · simp [hp, hresto hp]
    · simp [hp]
  · simp [FilterLineSearch.withOptions, hnum, hint]

/-- Witness of C18: the empty options list on a line search that has a PD
solver and a restoration phase that initializes successfully. -/
theorem C18_InitializeImpl_defaults_witness :
    (exampleLineSearch.InitializeImpl exampleOptionsNone "" true).2 = .ok true ∧
    (exampleLineSearch.InitializeImpl exampleOptionsNone "" true).1.theta_max_fact_ = 1e4 ∧
    (exampleLineSearch.InitializeImpl exampleOptionsNone "" true).1.theta_min_fact_ = 1e-4 ∧
    (exampleLineSearch.InitializeImpl exampleOptionsNone "" true).1.eta_phi_ = 1e-4 ∧
    (exampleLineSearch.InitializeImpl exampleOptionsNone "" true).1.delta_ = 1 ∧
    (exampleLineSearch.InitializeImpl exampleOptionsNone "" true).1.s_phi_ = 2.3 ∧
    (exampleLineSearch.InitializeImpl exampleOptionsNone "" true).1.s_theta_ = 1.1 ∧
    (exampleLineSearch.InitializeImpl exampleOptionsNone "" true).1.gamma_phi_ = 1e-5 ∧
    (exampleLineSearch.InitializeImpl exampleOptionsNone "" true).1.gamma_theta_ = 1e-5 ∧
    (exampleLineSearch.InitializeImpl exampleOptionsNone "" true).1.alpha_min_frac_ = 0.05 ∧
    (exampleLineSearch.InitializeImpl exampleOptionsNone "" true).1.alpha_red_factor_ = 0.5 ∧
    (exampleLineSearch.InitializeImpl exampleOptionsNone "" true).1.max_soc_ = 4 ∧
    (exampleLineSearch.InitializeImpl exampleOptionsNone "" true).1.kappa_soc_ = 0.99 ∧
    (exampleLineSearch.InitializeImpl exampleOptionsNone "" true).1.obj_max_inc_ = 5 ∧
    (exampleLineSearch.InitializeImpl exampleOptionsNone "" true).1.magic_steps_ = false :=
  C18_InitializeImpl_defaults exampleLineSearch exampleOptionsNone "" true
    (fun _ => rfl) (fun _ => rfl) rfl (fun _ => rfl)

/-- C19: `InitializeImpl` raises `OPTION_OUT_OF_RANGE` whenever a supplied option
value lies outside its range: `theta_max_fact ≤ 0`; `theta_min_fact ≤ 0` or
`≥ theta_max_fact` (the supplied `theta_max_fact`, or its default `1e4`);
`eta_phi` outside `(0, 0.5)`; `delta ≤ 0`; `s_phi ≤ 1`; `s_theta ≤ 1`;
`gamma_phi` or `gamma_theta` outside `(0, 1)`; `alpha_min_frac ≤ 0`;
`alpha_red_factor ≤ 0`; `max_soc < 0`; `kappa_soc ≤ 0`. -/
theorem C19_InitializeImpl_out_of_range (s : FilterLineSearch) (options : OptionsList)
    (pfx : String) (resto_Initialize : Bool)
    (h : (∃ v, options.GetNumericValue "theta_max_fact" pfx = some v ∧ v ≤ 0) ∨
      (∃ v, options.GetNumericValue "theta_min_fact" pfx = some v ∧
        (v ≤ 0 ∨ v ≥ (options.GetNumericValue "theta_max_fact" pfx).getD 1e4)) ∨
      (∃ v, options.GetNumericValue "eta_phi" pfx = some v ∧ (v ≤ 0 ∨ v ≥ 0.5)) ∨
      (∃ v, options.GetNumericValue "delta" pfx = some v ∧ v ≤ 0) ∨
      (∃ v, options.GetNumericValue "s_phi" pfx = some v ∧ v ≤ 1) ∨
      (∃ v, options.GetNumericValue "s_theta" pfx = some v ∧ v ≤ 1) ∨
      (∃ v, options.GetNumericValue "gamma_phi" pfx = some v ∧ (v ≤ 0 ∨ v ≥ 1)) ∨
      (∃ v, options.GetNumericValue "gamma_theta" pfx = some v ∧ (v ≤ 0 ∨ v ≥ 1)) ∨
      (∃ v, options.GetNumericValue "alpha_min_frac" pfx = some v ∧ v ≤ 0) ∨
      (∃ v, options.GetNumericValue "alpha_red_factor" pfx = some v ∧ v ≤ 0) ∨
      (∃ v, options.GetIntegerValue "max_soc" pfx = some v ∧ v < 0) ∨
      (∃ v, options.GetNumericValue "kappa_soc" pfx = some v ∧ v ≤ 0)) :
    (s.InitializeImpl options pfx resto_Initialize).2 =
      .error OptionsException.OPTION_OUT_OF_RANGE := by
  apply FilterLineSearch.InitializeImpl_error_of_not_InRange
  rintro ⟨h1, h2, h3, h4, h5, h6, h7, h8, h9, h10, ⟨h11, -⟩, h12, -⟩
  rcases h with ⟨v, hv, hb⟩ | ⟨v, hv, hb⟩ | ⟨v, hv, hb⟩ | ⟨v, hv, hb⟩ | ⟨v, hv, hb⟩ |
    ⟨v, hv, hb⟩ | ⟨v, hv, hb⟩ | ⟨v, hv, hb⟩ | ⟨v, hv, hb⟩ | ⟨v, hv, hb⟩ | ⟨v, hv, hb⟩ |
    ⟨v, hv, hb⟩
  · exact absurd (h1 v hv) (not_lt.mpr hb)
  · rcases hb with hb | hb
    · exact absurd (h2 v hv).1 (not_lt.mpr hb)
    · exact absurd (h2 v hv).2 (not_lt.mpr hb)
  · rcases hb with hb | hb
    · exact absurd (h3 v hv).1 (not_lt.mpr hb)
    · exact absurd (h3 v hv).2 (not_lt.mpr hb)
  · exact absurd (h4 v hv) (not_lt.mpr hb)
  · exact absurd (h5 v hv) (not_lt.mpr hb)
  · exact absurd (h6 v hv) (not_lt.mpr hb)
  · rcases hb with hb | hb
    · exact absurd (h7 v hv).1 (not_lt.mpr hb)
    · exact absurd (h7 v hv).2 (not_lt.mpr hb)
  · rcases hb with hb | hb
    · exact absurd (h8 v hv).1 (not_lt.mpr hb)
    · exact absurd (h8 v hv).2 (not_lt.mpr hb)
  · exact absurd (h9 v hv) (not_lt.mpr hb)
  · exact absurd (h10 v hv) (not_lt.mpr hb)
  · exact absurd (h11 v hv) (not_le.mpr hb)
  · exact absurd (h12 v hv) (not_lt.mpr hb)

/-- Witness of C19: the options list that sets `delta` to `-1`. -/
theorem C19_InitializeImpl_out_of_range_witness :
    (exampleLineSearch.InitializeImpl exampleOptionsBadDelta "" true).2 =
      .error OptionsException.OPTION_OUT_OF_RANGE :=
  C19_InitializeImpl_out_of_range exampleLineSearch exampleOptionsBadDelta "" true
    (Or.inr (Or.inr (Or.inr (Or.inl ⟨-1, by simp [exampleOptionsBadDelta], by norm_num⟩))))

/-- C20 fails on the code: with `theta_max_fact` set to `1e-5` and no other option
set, `InitializeImpl` returns true, and the parameters are
`θ_max_fact = 1e-5` and the default `θ_min_fact = 1e-4`, which is not below
`θ_max_fact`: the comparison of line 58 is only made for a supplied
`theta_min_fact`. -/
theorem C20_InitializeImpl_default_theta_min_fact :
    (exampleLineSearch.InitializeImpl exampleOptionsSmallMax "" true).2 = .ok true ∧
    (exampleLineSearch.InitializeImpl exampleOptionsSmallMax "" true).1.theta_max_fact_ =
      1e-5 ∧
    (exampleLineSearch.InitializeImpl exampleOptionsSmallMax "" true).1.theta_min_fact_ =
      1e-4 ∧
    ¬ ((exampleLineSearch.InitializeImpl exampleOptionsSmallMax "" true).1.theta_min_fact_ <
      (exampleLineSearch.InitializeImpl exampleOptionsSmallMax "" true).1.theta_max_fact_) := by
  have hr : exampleOptionsSmallMax.InRange "" exampleLineSearch.pd_solver_ := by
    simp [OptionsList.InRange, exampleOptionsSmallMax, exampleLineSearch]
    norm_num
  rw [FilterLineSearch.InitializeImpl_of_InRange _ _ _ _ hr]
  simp [FilterLineSearch.withOptions, exampleOptionsSmallMax, exampleLineSearch]
  norm_num

/-! ## The claims on the calls made by `FindAcceptableTrialPoint` -/

/-- C11: with a restoration phase configured, a call of `FindAcceptableTrialPoint`
whose backtracking loop ends without an accepted trial calls
`PerformRestoration` exactly once, and a call whose loop ends with an accepted
(regular or SOC) trial never calls it. -/
theorem C11_PerformRestoration_calls (env : Env) (fuel : Nat) (r r1 : LSRun)
    (v1 : Locals) (hresto : r.ls.resto_phase_ = true)
    (hloop : FilterLineSearch.BacktrackingLoop env
      (FilterLineSearch.CalculateAlphaMin r.ls env.m r.cq)
      env.curr_primal_frac_to_the_bound fuel r (FilterLineSearch.InitialLocals env) =
        some (r1, .ok v1)) :
    ∃ out, FilterLineSearch.FindAcceptableTrialPoint env fuel r = some out ∧
      (v1.accept = false →
        out.1.trace.count Event.PerformRestoration =
          r.trace.count Event.PerformRestoration + 1) ∧
      (v1.accept = true →
        out.1.trace.count Event.PerformRestoration =
          r.trace.count Event.PerformRestoration) := by
  have hloopc : r1.trace.count Event.PerformRestoration =
      r.trace.count Event.PerformRestoration :=
    LSRun.Extends.count_eq Event.PerformRestoration
      (FilterLineSearch.BacktrackingLoop_Extends _ env _ _ fuel r _ _ hloop
        (FilterLineSearch.LoopEventsOk_ne_PerformRestoration _) rfl).1 (by simp)
  have hr1 : r1.ls.resto_phase_ = true := by
    have hG := (FilterLineSearch.BacktrackingLoop_LoopFrame env _ _ fuel r _ _ hloop).1
    simp only at hG
    rw [hG]
    exact hresto
  have hfb := FilterLineSearch.RestorationFallback_trace env r1 v1
  have hfbc : (FilterLineSearch.RestorationFallback env r1 v1).1.trace.count
      Event.PerformRestoration =
      r.trace.count Event.PerformRestoration + (if v1.accept = false then 1 else 0) := by
    rw [hfb]
    rcases hv : v1.accept <;> simp [hr1, hloopc]
  have hF := FilterLineSearch.FindAcceptableTrialPoint_of_loop env fuel r r1 v1 hloop
  rcases hrf : FilterLineSearch.RestorationFallback env r1 v1 with ⟨rf, e | b⟩
  · rw [hrf] at hF hfbc
    simp only at hF hfbc
    refine ⟨_, hF, fun ha => ?_, fun ha => ?_⟩
    · simp only [hfbc, ha, if_true]
    · simp only [hfbc, ha]
      simp
  · rw [hrf] at hF hfbc
    simp only at hF hfbc
    have hc : (FilterLineSearch.Commit env rf v1).1.trace.count Event.PerformRestoration =
        rf.trace.count Event.PerformRestoration :=
      LSRun.Extends.count_eq Event.PerformRestoration
        (FilterLineSearch.Commit_Extends (fun e => e ≠ Event.PerformRestoration) env rf v1
          (by simp) (by simp) (by simp)) (by simp)
    refine ⟨_, hF, fun ha => ?_, fun ha => ?_⟩
    · simp only [hc, hfbc, ha, if_true]
    · simp only [hc, hfbc, ha]
      simp

/-- Witness of C11: the example call, which accepts the full step. -/
theorem C11_PerformRestoration_calls_witness :
    ∃ out, FilterLineSearch.FindAcceptableTrialPoint exampleEnvF 1 exampleRunF = some out ∧
      (exampleLocalsF1.accept = false →
        out.1.trace.count Event.PerformRestoration =
          exampleRunF.trace.count Event.PerformRestoration + 1) ∧
      (exampleLocalsF1.accept = true →
        out.1.trace.count Event.PerformRestoration =
          exampleRunF.trace.count Event.PerformRestoration) :=
  C11_PerformRestoration_calls exampleEnvF 1 exampleRunF exampleRunF1 exampleLocalsF1 rfl
    (FilterLineSearch.exampleF_BacktrackingLoop _)

/-- C16: for every state and whatever the minimal step size is, the
backtracking loop of `FindAcceptableTrialPoint` makes a first pass, started
with the step size `α` equal to `curr_primal_frac_to_the_bound(curr_tau)` and
the step held by `IpData()`; that pass ends, and the first call it makes on a
collaborator is `SetTrialPrimalVariablesFromStep` with that `α`, forming the
first trial point.  So every call of `FindAcceptableTrialPoint` that ends has
this call as its first one, and a call whose loop goes on for ever has made
it too. -/
theorem C16_first_trial_step_size (env : Env) (r : LSRun) :
    ∃ out1, FilterLineSearch.BacktrackingStep env env.curr_primal_frac_to_the_bound r
        (FilterLineSearch.InitialLocals env) = some out1 ∧
      (∃ rest, out1.1.trace =
        r.trace ++
          Event.SetTrialPrimalVariablesFromStep env.curr_primal_frac_to_the_bound
            Direction.orig :: rest) ∧
      (∀ fuel, FilterLineSearch.BacktrackingLoop env
          (FilterLineSearch.CalculateAlphaMin r.ls env.m r.cq)
          env.curr_primal_frac_to_the_bound (fuel + 1) r
          (FilterLineSearch.InitialLocals env) =
        match out1 with
        | (r1, .error e) => some (r1, .error e)
        | (r1, .ok v1) =>
          if v1.accept then some (r1, .ok v1)
          else FilterLineSearch.BacktrackingLoop env
            (FilterLineSearch.CalculateAlphaMin r.ls env.m r.cq)
            env.curr_primal_frac_to_the_bound fuel r1 v1) ∧
      (∀ fuel out, FilterLineSearch.FindAcceptableTrialPoint env fuel r = some out →
        ∃ rest, out.1.trace =
          r.trace ++
            Event.SetTrialPrimalVariablesFromStep env.curr_primal_frac_to_the_bound
              Direction.orig :: rest) := by
  obtain ⟨out1, hout⟩ := FilterLineSearch.BacktrackingStep_terminates env
    env.curr_primal_frac_to_the_bound r (FilterLineSearch.InitialLocals env)
  refine ⟨out1, hout, ?_, ?_, ?_⟩
  · exact FilterLineSearch.BacktrackingStep_first_call env _ r _ out1 hout
  · intro fuel
    have hc : (FilterLineSearch.InitialLocals env).alpha_primal >
        FilterLineSearch.CalculateAlphaMin r.ls env.m r.cq ∨
        (FilterLineSearch.InitialLocals env).n_steps = 0 := Or.inr rfl
    rw [FilterLineSearch.BacktrackingLoop, if_pos hc, hout]
    rcases out1 with ⟨r1, e | v1⟩ <;> rfl
  · intro fuel out h
    have key : ∀ (r1 r2 : LSRun) (rest : List Event),
        r1.trace = r.trace ++
          Event.SetTrialPrimalVariablesFromStep env.curr_primal_frac_to_the_bound
            Direction.orig :: rest →
        r1.Extends (fun _ => True) r2 →
        ∃ rest, r2.trace = r.trace ++
          Event.SetTrialPrimalVariablesFromStep env.curr_primal_frac_to_the_bound
            Direction.orig :: rest := by
      rintro r1 r2 rest h1 ⟨added, ha, -⟩
      exact ⟨rest ++ added, by rw [ha, h1]; simp⟩
    rcases hl : FilterLineSearch.BacktrackingLoop env
        (FilterLineSearch.CalculateAlphaMin r.ls env.m r.cq)
        env.curr_primal_frac_to_the_bound fuel r (FilterLineSearch.InitialLocals env)
      with _ | ⟨r1, e | v1⟩
    · rw [FilterLineSearch.FindAcceptableTrialPoint_none_of_loop env fuel r hl] at h
      simp at h
    · rw [FilterLineSearch.FindAcceptableTrialPoint_of_loop_error env fuel r r1 e hl] at h
      simp only [Option.some.injEq] at h
      rw [← h]
      exact FilterLineSearch.BacktrackingLoop_first_call env _ _ fuel r _ _ hl rfl rfl
    · obtain ⟨rest, h1⟩ :=
        FilterLineSearch.BacktrackingLoop_first_call env _ _ fuel r _ _ hl rfl rfl
      simp only at h1
      have hfb := FilterLineSearch.RestorationFallback_trace env r1 v1
      rw [FilterLineSearch.FindAcceptableTrialPoint_of_loop env fuel r r1 v1 hl] at h
      have hext1 : r1.Extends (fun _ => True) (FilterLineSearch.RestorationFallback env r1 v1).1 := by
        by_cases hc : v1.accept = false ∧ r1.ls.resto_phase_ = true
        · exact ⟨[Event.PerformRestoration], by rw [hfb, if_pos hc], fun _ _ => trivial⟩
        · exact ⟨[], by rw [hfb, if_neg hc]; simp, fun _ _ => trivial⟩
      rcases hrf : FilterLineSearch.RestorationFallback env r1 v1 with ⟨rf, e | b⟩
      · rw [hrf] at h hext1
        simp only [Option.some.injEq] at h
        rw [← h]
        exact key r1 rf rest h1 hext1
      · rw [hrf] at h hext1
        simp only [Option.some.injEq] at h
        rw [← h]
        exact key r1 _ rest h1 (hext1.trans_ext
          (FilterLineSearch.Commit_Extends _ env rf v1 trivial trivial trivial))

/-- C12 fails on the code: in an optimized build (`DBG_ASSERT` compiled out), a
call without restoration phase whose backtracking loop ends without an
accepted trial (here: one trial at `α_max = 1e-7`, rejected, and
`α_max · 0.5 ≤ α_min`) returns normally, after augmenting the filter and
setting the trial multipliers. -/
theorem C12_no_fatal_error_without_assertions :
    exampleRunN.ls.resto_phase_ = false ∧ exampleEnvN.debug = false ∧
    FilterLineSearch.BacktrackingLoop exampleEnvN
        (FilterLineSearch.CalculateAlphaMin exampleRunN.ls exampleEnvN.m exampleRunN.cq)
        exampleEnvN.curr_primal_frac_to_the_bound 2 exampleRunN
        (FilterLineSearch.InitialLocals exampleEnvN) =
      some (exampleRunN1, .ok exampleLocalsN1) ∧
    exampleLocalsN1.accept = false ∧
    FilterLineSearch.FindAcceptableTrialPoint exampleEnvN 2 exampleRunN =
      some (FilterLineSearch.Commit exampleEnvN exampleRunN1 exampleLocalsN1) ∧
    (FilterLineSearch.Commit exampleEnvN exampleRunN1 exampleLocalsN1).2 = .ok () ∧
    (FilterLineSearch.Commit exampleEnvN exampleRunN1 exampleLocalsN1).1.trace =
      [Event.SetTrialPrimalVariablesFromStep 1e-7 Direction.orig,
        Event.CheckAcceptabilityOfTrialPoint 1e-7,
        Event.AugmentFilter,
        Event.SetTrialEqMultipilersFromStep (1e-7 * 0.5) Direction.orig,
        Event.SetTrialBoundMutlipliersFromStep 1 Direction.orig] ∧
    (FilterLineSearch.Commit exampleEnvN exampleRunN1 exampleLocalsN1).1.ls.filter_ =
      exampleRunN.ls.filter_.AddEntry
        (exampleRunN.cq.curr_barrier_obj -
          exampleRunN.ls.gamma_phi_ * exampleRunN.cq.curr_constraint_violation)
        ((1 - exampleRunN.ls.gamma_theta_) * exampleRunN.cq.curr_constraint_violation)
        exampleEnvN.iter_count := by
  have hC : FilterLineSearch.Commit exampleEnvN exampleRunN1 exampleLocalsN1 =
      ({ exampleRunN1 with
          ls := FilterLineSearch.AugmentFilter exampleRunN1.ls exampleRunN1.cq
            exampleEnvN.iter_count
          info_alpha_primal_char := 'h'
          info_ls_count := 2
          info_alpha_primal := 1e-7 * 0.5
          info_alpha_dual := 1
          trace := [Event.SetTrialPrimalVariablesFromStep 1e-7 Direction.orig,
            Event.CheckAcceptabilityOfTrialPoint 1e-7,
            Event.AugmentFilter,
            Event.SetTrialEqMultipilersFromStep (1e-7 * 0.5) Direction.orig,
            Event.SetTrialBoundMutlipliersFromStep 1 Direction.orig] }, .ok ()) := by
    unfold FilterLineSearch.Commit
    simp only [FilterLineSearch.exampleN_IsFtype]
    rfl
  refine ⟨rfl, rfl, FilterLineSearch.exampleN_BacktrackingLoop, rfl,
    FilterLineSearch.exampleN_FindAcceptableTrialPoint, ?_, ?_, ?_⟩
  · rw [hC]
  · rw [hC]
  · rw [hC]
    rfl

/-- C13: when `max_soc = 0`, for every state and every outcome of the trials, the
calls that `FindAcceptableTrialPoint` makes include no solve of the PD system
and none that uses the direction of a second-order correction, and a call
that returns normally records the primal-step flag `'f'` or `'h'`
(lowercase). -/
theorem C13_no_SOC_when_max_soc_zero (env : Env) (fuel : Nat) (r : LSRun)
    (out : LSRun × Except Exception Unit) (hms : r.ls.max_soc_ = 0)
    (h : FilterLineSearch.FindAcceptableTrialPoint env fuel r = some out) :
    (∃ added, out.1.trace = r.trace ++ added ∧ ∀ e ∈ added, e.NoSoc) ∧
      (out.2 = .ok () →
        out.1.info_alpha_primal_char = 'f' ∨ out.1.info_alpha_primal_char = 'h') := by
  have hQ : LoopEventsOk Event.NoSoc r.ls.max_soc_ := by
    rw [hms]
    exact FilterLineSearch.LoopEventsOk_NoSoc
  rcases hl : FilterLineSearch.BacktrackingLoop env
      (FilterLineSearch.CalculateAlphaMin r.ls env.m r.cq)
      env.curr_primal_frac_to_the_bound fuel r (FilterLineSearch.InitialLocals env)
    with _ | ⟨r1, e | v1⟩
  · rw [FilterLineSearch.FindAcceptableTrialPoint_none_of_loop env fuel r hl] at h
    simp at h
  · rw [FilterLineSearch.FindAcceptableTrialPoint_of_loop_error env fuel r r1 e hl] at h
    simp only [Option.some.injEq] at h
    rw [← h]
    exact ⟨(FilterLineSearch.BacktrackingLoop_Extends _ env _ _ fuel r _ _ hl hQ rfl).1,
      fun hc => by simp at hc⟩
  · obtain ⟨hext, hloc⟩ :=
      FilterLineSearch.BacktrackingLoop_Extends _ env _ _ fuel r _ _ hl hQ rfl
    have hplain : v1.dir = Direction.orig ∧ v1.soc_taken = false := by
      rcases hloc v1 rfl with hp | hp
      · exact hp
      · rw [hms] at hp
        exact absurd hp (lt_irrefl 0)
    have hfb := FilterLineSearch.RestorationFallback_trace env r1 v1
    have hext1 : r1.Extends Event.NoSoc (FilterLineSearch.RestorationFallback env r1 v1).1 := by
      by_cases hc : v1.accept = false ∧ r1.ls.resto_phase_ = true
      · refine ⟨[Event.PerformRestoration], by rw [hfb, if_pos hc], fun e he => ?_⟩
        rw [List.mem_singleton] at he
        rw [he]
        trivial
      · exact ⟨[], by rw [hfb, if_neg hc]; simp, fun e he => by simp at he⟩
    rw [FilterLineSearch.FindAcceptableTrialPoint_of_loop env fuel r r1 v1 hl] at h
    rcases hrf : FilterLineSearch.RestorationFallback env r1 v1 with ⟨rf, e | b⟩
    · rw [hrf] at h hext1
      simp only [Option.some.injEq] at h
      rw [← h]
      exact ⟨hext.trans_ext hext1, fun hc => by simp at hc⟩
    · rw [hrf] at h hext1
      simp only [Option.some.injEq] at h
      rw [← h]
      refine ⟨(hext.trans_ext hext1).trans_ext
        (FilterLineSearch.Commit_Extends Event.NoSoc env rf v1 trivial ?_ ?_), ?_⟩
      · rw [hplain.1]
        trivial
      · rw [hplain.1]
        trivial
      · exact FilterLineSearch.Commit_flag_of_Plain env rf v1 hplain.2

/-- Witness of C13: the example call with `max_soc = 0`. -/
theorem C13_no_SOC_when_max_soc_zero_witness :
    (∃ added, (FilterLineSearch.Commit exampleEnvN exampleRunN1 exampleLocalsN1).1.trace =
        exampleRunN.trace ++ added ∧ ∀ e ∈ added, e.NoSoc) ∧
      ((FilterLineSearch.Commit exampleEnvN exampleRunN1 exampleLocalsN1).2 = .ok () →
        (FilterLineSearch.Commit exampleEnvN exampleRunN1
            exampleLocalsN1).1.info_alpha_primal_char = 'f' ∨
          (FilterLineSearch.Commit exampleEnvN exampleRunN1
            exampleLocalsN1).1.info_alpha_primal_char = 'h') :=
  C13_no_SOC_when_max_soc_zero exampleEnvN 2 exampleRunN
    (FilterLineSearch.Commit exampleEnvN exampleRunN1 exampleLocalsN1) rfl
    FilterLineSearch.exampleN_FindAcceptableTrialPoint

/-- C14 (fails in the code): a second-order correction is tried whenever
`alpha_primal == alpha_primal_max` (line 260, commented "i.e. first trial
point"), and with `alpha_red_factor = 1` that holds after a rejected step size
too.  The options `alpha_red_factor = 1`, `max_soc = 1`, `s_phi = s_theta = 2`
pass `InitializeImpl` and give the example line search (its gates apart).  From
the example iterate the first pass of the loop rejects the trial point at
`α = α_max = 1` and its correction, and leaves `n_steps = 1` with `α = 1 · 1`;
the second pass, made with one step size rejected, solves for a correction
again; the loop then goes on from there. -/
theorem C14_SOC_tried_again_after_rejected_step (fuel : Nat) :
    exampleLineSearch.InitializeImpl exampleOptionsS "" true =
      ({ exampleLineSearchS with theta_min_ := -1, theta_max_ := -1 }, .ok true) ∧
    0 < exampleLineSearchS.alpha_red_factor_ ∧
    FilterLineSearch.BacktrackingStep exampleEnvS exampleEnvS.curr_primal_frac_to_the_bound
        exampleRunS (FilterLineSearch.InitialLocals exampleEnvS) =
      some (exampleRunSAfter examplePassS, .ok (exampleLocalsS 1)) ∧
    (exampleLocalsS 1).n_steps = 1 ∧
    FilterLineSearch.BacktrackingStep exampleEnvS exampleEnvS.curr_primal_frac_to_the_bound
        (exampleRunSAfter examplePassS) (exampleLocalsS 1) =
      some (exampleRunSAfter (examplePassS ++ examplePassS), .ok (exampleLocalsS 2)) ∧
    Event.Solve 0 ∈ examplePassS ∧
    FilterLineSearch.BacktrackingLoop exampleEnvS
        (FilterLineSearch.CalculateAlphaMin exampleRunS.ls exampleEnvS.m exampleRunS.cq)
        exampleEnvS.curr_primal_frac_to_the_bound (fuel + 2) exampleRunS
        (FilterLineSearch.InitialLocals exampleEnvS) =
      FilterLineSearch.BacktrackingLoop exampleEnvS
        (FilterLineSearch.CalculateAlphaMin exampleRunS.ls exampleEnvS.m exampleRunS.cq)
        exampleEnvS.curr_primal_frac_to_the_bound fuel
        (exampleRunSAfter (examplePassS ++ examplePassS)) (exampleLocalsS 2) := by
  have hmax : exampleEnvS.curr_primal_frac_to_the_bound = 1 := rfl
  have h1 : FilterLineSearch.BacktrackingStep exampleEnvS 1 exampleRunS
      (FilterLineSearch.InitialLocals exampleEnvS) =
      some (exampleRunSAfter examplePassS, .ok (exampleLocalsS 1)) :=
    FilterLineSearch.exampleS_BacktrackingStep [] (.ok 0) (.ok (-1)) 0 0
  have h2 : FilterLineSearch.BacktrackingStep exampleEnvS 1 (exampleRunSAfter examplePassS)
      (exampleLocalsS 1) =
      some (exampleRunSAfter (examplePassS ++ examplePassS), .ok (exampleLocalsS 2)) :=
    FilterLineSearch.exampleS_BacktrackingStep examplePassS (.ok 1) (.ok 0) 1 1
  have hr : exampleOptionsS.InRange "" exampleLineSearch.pd_solver_ := by
    simp [OptionsList.InRange, exampleOptionsS, exampleLineSearch]
  refine ⟨?_, ?_, ?_, rfl, ?_, ?_, ?_⟩
  · rw [FilterLineSearch.InitializeImpl_of_InRange _ _ _ _ hr]
    simp [FilterLineSearch.withOptions, exampleOptionsS, exampleLineSearchS,
      exampleLineSearchF, exampleLineSearch]
  · norm_num [exampleLineSearchS]
  · rw [hmax]
    exact h1
  · rw [hmax]
    exact h2
  · simp [examplePassS]
  · rw [hmax, FilterLineSearch.exampleS_CalculateAlphaMin,
      FilterLineSearch.BacktrackingLoop_of_reject exampleEnvS _ 1 (fuel + 1) _ _ _ _
        (Or.inr rfl) h1 rfl,
      FilterLineSearch.BacktrackingLoop_of_reject exampleEnvS _ 1 fuel _ _ _ _
        (Or.inl (by norm_num [exampleLocalsS])) h2 rfl]

/-! ## The claims on the options `obj_max_inc` and `max_soc`, and on a failed
`InitializeImpl` -/

/-- C21 fails on the code: `InitializeImpl` asks the options list for the name
`"obj_max_inc_"` (line 161), with the trailing underscore of the member
variable, so a value supplied for the option named `obj_max_inc` is never
looked at.  Whatever that value is (`1/2`, which is out of range, or `10`),
the call succeeds, and the parameter is the default `5`. -/
theorem C21_obj_max_inc_option_not_read (value : Number) :
    exampleLineSearch.InitializeImpl (exampleOptionsObjMaxInc value) "" true =
      (exampleLineSearch.withOptions exampleOptionsNone "", .ok true) ∧
    (exampleLineSearch.InitializeImpl (exampleOptionsObjMaxInc value) "" true).1.obj_max_inc_ =
      5 := by
  have hr : (exampleOptionsObjMaxInc value).InRange "" exampleLineSearch.pd_solver_ := by
    simp [OptionsList.InRange, exampleOptionsObjMaxInc, exampleLineSearch]
  rw [FilterLineSearch.InitializeImpl_of_InRange _ _ _ _ hr]
  refine ⟨?_, ?_⟩
  · simp [FilterLineSearch.withOptions, exampleOptionsObjMaxInc, exampleOptionsNone,
      exampleLineSearch]
  · simp [FilterLineSearch.withOptions, exampleOptionsObjMaxInc]

/-- C22: without a PD system solver, `InitializeImpl` raises
`OPTION_OUT_OF_RANGE` whenever the effective `max_soc` (the supplied value, or
the default `4`) is positive; and with `max_soc` supplied as `0` the call ends
the same way without a PD solver as with one. -/
theorem C22_max_soc_needs_pd_solver (s : FilterLineSearch) (options : OptionsList)
    (pfx : String) (resto_Initialize : Bool) :
    (s.pd_solver_ = false → (options.GetIntegerValue "max_soc" pfx).getD 4 > 0 →
      (s.InitializeImpl options pfx resto_Initialize).2 =
        .error OptionsException.OPTION_OUT_OF_RANGE) ∧
    (options.GetIntegerValue "max_soc" pfx = some 0 →
      (FilterLineSearch.InitializeImpl { s with pd_solver_ := false } options pfx
          resto_Initialize).2 =
        (FilterLineSearch.InitializeImpl { s with pd_solver_ := true } options pfx
          resto_Initialize).2) := by
  refine ⟨fun hpd hpos => ?_, fun hm => ?_⟩
  · apply FilterLineSearch.InitializeImpl_error_of_not_InRange
    rintro ⟨-, -, -, -, -, -, -, -, -, -, ⟨-, h11⟩, -, -⟩
    rw [hpd] at h11
    exact absurd (h11 hpos) (by simp)
  · have hiff : options.InRange pfx false ↔ options.InRange pfx true := by
      simp [OptionsList.InRange, hm]
    by_cases hr : options.InRange pfx true
    · rw [FilterLineSearch.InitializeImpl_of_InRange _ _ _ _ (hiff.mpr hr),
        FilterLineSearch.InitializeImpl_of_InRange _ _ _ _ hr]
    · rw [FilterLineSearch.InitializeImpl_error_of_not_InRange _ _ _ _
          (fun h => hr (hiff.mp h)),
        FilterLineSearch.InitializeImpl_error_of_not_InRange _ _ _ _ hr]

/-- Witness of C22: a line search without PD solver fails to initialise with
the default `max_soc = 4` and initialises with `max_soc = 0`. -/
theorem C22_max_soc_needs_pd_solver_witness :
    (FilterLineSearch.InitializeImpl { exampleLineSearch with pd_solver_ := false }
        exampleOptionsNone "" true).2 = .error OptionsException.OPTION_OUT_OF_RANGE ∧
    (FilterLineSearch.InitializeImpl { exampleLineSearch with pd_solver_ := false }
        (exampleOptionsMaxSoc 0) "" true).2 =
      (FilterLineSearch.InitializeImpl { exampleLineSearch with pd_solver_ := true }
        (exampleOptionsMaxSoc 0) "" true).2 :=
  ⟨(C22_max_soc_needs_pd_solver { exampleLineSearch with pd_solver_ := false }
      exampleOptionsNone "" true).1 rfl (by simp [exampleOptionsNone]),
    (C22_max_soc_needs_pd_solver exampleLineSearch (exampleOptionsMaxSoc 0) "" true).2
      (by simp [exampleOptionsMaxSoc])⟩

/-- C23, as stated, fails: with `theta_max_fact = 7` and `delta = -1` the call
raises `OPTION_OUT_OF_RANGE` at the check of `delta` (line 81), after
`theta_max_fact_` was overwritten (line 50): it was `1e4` before the call and
is `7` after it. -/
theorem C23_counterexample :
    (exampleLineSearch.InitializeImpl exampleOptionsPartial "" true).2 =
      .error OptionsException.OPTION_OUT_OF_RANGE ∧
    exampleLineSearch.theta_max_fact_ = 1e4 ∧
    (exampleLineSearch.InitializeImpl exampleOptionsPartial "" true).1.theta_max_fact_ = 7 ∧
    (exampleLineSearch.InitializeImpl exampleOptionsPartial "" true).1.theta_max_fact_ ≠
      exampleLineSearch.theta_max_fact_ := by
  have h := examplePartial_InitializeImpl
  rw [h]
  refine ⟨rfl, rfl, rfl, ?_⟩
  norm_num [exampleLineSearch]

/-- C23, amended: when `InitializeImpl` raises `OPTION_OUT_OF_RANGE`, there is a
first failing check `i` (every check before it is passed, check `i` is not);
the parameters stored before that check (`storedBefore i` of them, in the
order of the source) hold the supplied or default values of their options, and
every other member, the parameters of check `i` and of all later options
among them, has the value it had before the call. -/
theorem C23_failed_InitializeImpl_state (s : FilterLineSearch) (options : OptionsList)
    (pfx : String) (resto_Initialize : Bool)
    (h : (s.InitializeImpl options pfx resto_Initialize).2 =
      .error OptionsException.OPTION_OUT_OF_RANGE) :
    ∃ i, i < 14 ∧ (∀ j, j < i → options.CheckHolds pfx s.pd_solver_ j) ∧
      ¬ options.CheckHolds pfx s.pd_solver_ i ∧
      (s.InitializeImpl options pfx resto_Initialize).1 =
        s.withOptionsUpTo (InitializeImpl.storedBefore i) options pfx := by
  unfold FilterLineSearch.InitializeImpl at h ⊢
  rcases hr : FilterLineSearch.InitializeOptions s options pfx with ⟨s1, e | u⟩
  · have h2 := FilterLineSearch.InitializeOptions_error_check s options pfx e (by rw [hr])
    rw [hr] at h2
    exact h2
  · rw [hr] at h
    simp at h

/-- Witness of C23: the options list with `theta_max_fact = 7` and
`delta = -1`. -/
theorem C23_failed_InitializeImpl_state_witness :
    (exampleLineSearch.InitializeImpl exampleOptionsPartial "" true).2 =
      .error OptionsException.OPTION_OUT_OF_RANGE ∧
    ∃ i, i < 14 ∧
      (∀ j, j < i → exampleOptionsPartial.CheckHolds "" exampleLineSearch.pd_solver_ j) ∧
      ¬ exampleOptionsPartial.CheckHolds "" exampleLineSearch.pd_solver_ i ∧
      (exampleLineSearch.InitializeImpl exampleOptionsPartial "" true).1 =
        exampleLineSearch.withOptionsUpTo (InitializeImpl.storedBefore i)
          exampleOptionsPartial "" :=
  have h : (exampleLineSearch.InitializeImpl exampleOptionsPartial "" true).2 =
      .error OptionsException.OPTION_OUT_OF_RANGE := by
    rw [examplePartial_InitializeImpl]
  ⟨h, C23_failed_InitializeImpl_state exampleLineSearch exampleOptionsPartial "" true h⟩

/-! ## The claim on the region rejected by the filter -/

/-- C35: adding an entry never shrinks the region the filter rejects: a pair
`(φ, θ)` that `Filter::Acceptable` rejects before `AddEntry(φ', θ', iter)` is
still rejected afterwards, although `AddEntry` erases stored entries. -/
theorem C35_AddEntry_keeps_rejections (f : Filter) (phi' theta' : Number)
    (iteration : Index) (phi theta : Number) (h : f.Acceptable phi theta = false) :
    (f.AddEntry phi' theta' iteration).Acceptable phi theta = false := by
  have hex : ∃ e ∈ f.filter_list_, e.phi_ ≤ phi ∧ e.theta_ ≤ theta := by
    by_contra hcon
    have hall : ∀ e ∈ f.filter_list_, ¬ (e.phi_ ≤ phi ∧ e.theta_ ≤ theta) :=
      fun e he hd => hcon ⟨e, he, hd⟩
    have ht : f.Acceptable phi theta = true :=
      (Filter.AcceptableLoop_iff phi theta f.filter_list_).mpr hall
    rw [h] at ht
    cases ht
  obtain ⟨e, he, hd⟩ := hex
  rcases hacc : (f.AddEntry phi' theta' iteration).Acceptable phi theta
  · rfl
  · exfalso
    have hall := (Filter.AcceptableLoop_iff phi theta _).mp hacc
    rw [Filter.AddEntry_list] at hall
    by_cases hdom : e.Dominated phi' theta' = true
    · have hd' : phi' ≤ e.phi_ ∧ theta' ≤ e.theta_ := by
        simpa [FilterEntry.Dominated] using hdom
      exact hall ⟨phi', theta', iteration⟩ (by simp)
        ⟨hd'.1.trans hd.1, hd'.2.trans hd.2⟩
    · have hmem : e ∈ f.filter_list_.filter (fun e => !e.Dominated phi' theta') := by
        rw [List.mem_filter]
        exact ⟨he, by simpa using hdom⟩
      exact hall e (List.mem_append_left _ hmem) hd

/-- Witness of C35: the filter `{(1, 1)}` rejects `(2, 2)`; after
`AddEntry(0, 0, 1)`, which erases `(1, 1)`, the pair is still rejected. -/
theorem C35_AddEntry_keeps_rejections_witness :
    (Filter.mk [⟨1, 1, 0⟩]).Acceptable 2 2 = false ∧
    (Filter.AddEntry (Filter.mk [⟨1, 1, 0⟩]) 0 0 1).filter_list_ = [⟨0, 0, 1⟩] ∧
    (Filter.AddEntry (Filter.mk [⟨1, 1, 0⟩]) 0 0 1).Acceptable 2 2 = false :=
  have h : (Filter.mk [⟨1, 1, 0⟩]).Acceptable 2 2 = false := by
    simp [Filter.Acceptable, Filter.AcceptableLoop, FilterEntry.Acceptable]
  ⟨h, by simp [Filter.AddEntry_list, FilterEntry.Dominated],
    C35_AddEntry_keeps_rejections (Filter.mk [⟨1, 1, 0⟩]) 0 0 1 2 2 h⟩

/-! ## The claim on the minimal step size of the first call -/

/-- C29 fails on the code at the first call: `CalculateAlphaMin` is called at
line 211, before the first `CheckAcceptabilityOfTrialPoint` has set the gates
(lines 461-466), so it compares `θ_cur` with `theta_min_ = -1`.  At the
iterate `θ_cur = 1e-5`, `∇φᵀΔ = -10` the gate set during that same call is
`θ_min = 1e-4·max(1, θ_cur) = 1e-4 ≥ θ_cur`, so the claimed value is
`0.05·min(1e-5, 1e-11, 1e-12) = 5e-14`; the code leaves the third term out and
returns `0.05·min(1e-5, 1e-11) = 5e-13`.  With the gate set, the same function
returns the claimed value. -/
theorem C29_first_call_compares_with_unset_gate :
    exampleLineSearchP.theta_min_ = -1 ∧
    exampleCqP.curr_gradBarrTDelta < 0 ∧
    (FilterLineSearch.InitThetaGates exampleLineSearchP
      exampleCqP.curr_constraint_violation).theta_min_ =
        exampleLineSearchP.theta_min_fact_ * max 1 exampleCqP.curr_constraint_violation ∧
    exampleCqP.curr_constraint_violation ≤
      exampleLineSearchP.theta_min_fact_ * max 1 exampleCqP.curr_constraint_violation ∧
    FilterLineSearch.CalculateAlphaMin exampleLineSearchP exampleMath exampleCqP = 5e-13 ∧
    exampleLineSearchP.alpha_min_frac_ *
      min (min exampleLineSearchP.gamma_theta_
          (exampleLineSearchP.gamma_phi_ * exampleCqP.curr_constraint_violation /
            (-exampleCqP.curr_gradBarrTDelta)))
        (exampleLineSearchP.delta_ *
          exampleMath.pow exampleCqP.curr_constraint_violation exampleLineSearchP.s_theta_ /
          exampleMath.pow (-exampleCqP.curr_gradBarrTDelta) exampleLineSearchP.s_phi_) =
      5e-14 ∧
    FilterLineSearch.CalculateAlphaMin
      (FilterLineSearch.InitThetaGates exampleLineSearchP
        exampleCqP.curr_constraint_violation) exampleMath exampleCqP = 5e-14 := by
  have hg : FilterLineSearch.InitThetaGates exampleLineSearchP
      exampleCqP.curr_constraint_violation =
      { exampleLineSearchP with theta_min_ := 1e-4, theta_max_ := 1e4 } := by
    unfold FilterLineSearch.InitThetaGates
    norm_num [exampleLineSearchP, exampleLineSearch, exampleCqP]
  rw [hg]
  refine ⟨rfl, ?_, ?_, ?_, ?_, ?_, ?_⟩
  all_goals
    norm_num [FilterLineSearch.CalculateAlphaMin, exampleLineSearchP, exampleLineSearch,
      exampleCqP, exampleMath, show Int.toNat 2 = 2 from rfl]

/-! ## The claims on the C interface -/

/-- C27: `get_starting_point` (called with the sizes of the problem when
assertions are compiled in) returns, and the value it returns is false exactly
when bound multipliers are requested while `start_z_L_` or `start_z_U_` is
`NULL`, or constraint multipliers are requested while `start_lam_` is `NULL`;
when `init_x` is set, `x[i] = start_x_[i]` for every `0 ≤ i < n` whatever the
result; when it returns true, every requested multiplier array was supplied
and equals the stored one on its index range. -/
theorem C27_get_starting_point (t : StdInterfaceTNLP) (n m : Index)
    (init_x init_z init_lambda : Bool) (b : StartBuffers)
    (hdbg : t.debug = true → n = t.n_var_ ∧ m = t.n_con_) :
    ∃ out retval, t.get_starting_point n init_x init_z m init_lambda b = .ok (out, retval) ∧
      (retval = false ↔
        (init_z = true ∧ (t.start_z_L_ = none ∨ t.start_z_U_ = none)) ∨
          (init_lambda = true ∧ t.start_lam_ = none)) ∧
      (init_x = true → ∀ i, 0 ≤ i → i < n → out.x i = t.start_x_ i) ∧
      (retval = true → init_z = true →
        ∃ zl zu, t.start_z_L_ = some zl ∧ t.start_z_U_ = some zu ∧
          ∀ i, 0 ≤ i → i < n → out.z_L i = zl i ∧ out.z_U i = zu i) ∧
      (retval = true → init_lambda = true →
        ∃ lam, t.start_lam_ = some lam ∧ ∀ i, 0 ≤ i → i < m → out.lambda i = lam i) := by
  rw [StdInterfaceTNLP.get_starting_point_eq t n m init_x init_z init_lambda b hdbg]
  refine ⟨_, _, rfl, ?_, ?_, ?_, ?_⟩
  · cases init_z <;> cases init_lambda <;> cases t.start_z_L_ <;> cases t.start_z_U_ <;>
      cases t.start_lam_ <;> simp
  · intro hx i h0 hn
    subst hx
    exact CopyArray_of_mem n _ _ i h0 hn
  · intro hr hz
    subst hz
    cases hL : t.start_z_L_ with
    | none => rw [hL] at hr; cases t.start_z_U_ <;> simp at hr
    | some zl =>
      cases hU : t.start_z_U_ with
      | none => rw [hL, hU] at hr; simp at hr
      | some zu =>
        exact ⟨zl, zu, rfl, rfl, fun i h0 hn =>
          ⟨CopyArray_of_mem n _ _ i h0 hn, CopyArray_of_mem n _ _ i h0 hn⟩⟩
  · intro hr hl
    subst hl
    cases hlam : t.start_lam_ with
    | none => rw [hlam] at hr; simp at hr
    | some lam => exact ⟨lam, rfl, fun i h0 hn => CopyArray_of_mem m _ _ i h0 hn⟩

/-- C27 at a problem with two variables and one constraint for which no bound
multipliers were supplied: asked for `x` and `z`, the call returns false and
has copied `x`. -/
theorem C27_get_starting_point_witness :
    (exampleTNLP.debug = true → (2 : Index) = exampleTNLP.n_var_ ∧ (1 : Index) = exampleTNLP.n_con_) ∧
    ∃ out retval, exampleTNLP.get_starting_point 2 true true 1 false exampleStartBuffers =
        .ok (out, retval) ∧
      (retval = false ↔
        (true = true ∧ (exampleTNLP.start_z_L_ = none ∨ exampleTNLP.start_z_U_ = none)) ∨
          (false = true ∧ exampleTNLP.start_lam_ = none)) ∧
      (true = true → ∀ i, 0 ≤ i → i < 2 → out.x i = exampleTNLP.start_x_ i) ∧
      (retval = true → true = true →
        ∃ zl zu, exampleTNLP.start_z_L_ = some zl ∧ exampleTNLP.start_z_U_ = some zu ∧
          ∀ i, 0 ≤ i → i < 2 → out.z_L i = zl i ∧ out.z_U i = zu i) ∧
      (retval = true → false = true →
        ∃ lam, exampleTNLP.start_lam_ = some lam ∧
          ∀ i, 0 ≤ i → i < 1 → out.lambda i = lam i) :=
  ⟨fun _ => ⟨rfl, rfl⟩,
    C27_get_starting_point exampleTNLP 2 1 true true false exampleStartBuffers
      (fun _ => ⟨rfl, rfl⟩)⟩

/-- C26 fails on the code in a build without assertions: with `iRow`, `jCol`
and `values` all present (or all absent) the callback is not invoked, as the
claim says, but `retval` keeps its initial value `1` and the call returns
true, although the callback of this problem would have reported failure.  The
only code on that path is the `DBG_ASSERT` of lines 218-220, which a debug
build fails. -/
theorem C26_invalid_pointers_report_success :
    (∃ out, exampleTNLP.eval_jac_g 2 (fun _ => 0) true 2 exampleJacBuffersAll = .ok out ∧
      out.calls = [] ∧ out.retval = true) ∧
    (∃ out, exampleTNLP.eval_jac_g 2 (fun _ => 0) true 2 exampleJacBuffersNone = .ok out ∧
      out.calls = [] ∧ out.retval = true) ∧
    (∃ msg, StdInterfaceTNLP.eval_jac_g { exampleTNLP with debug := true } 2 (fun _ => 0) true 2
      exampleJacBuffersAll = .error msg) ∧
    (∃ out, exampleTNLP.eval_jac_g 2 (fun _ => 0) true 2
        { exampleJacBuffersAll with values := none } = .ok out ∧
      out.calls.length = 1 ∧ out.retval = false) :=
  ⟨⟨_, rfl, rfl, rfl⟩, ⟨_, rfl, rfl, rfl⟩, ⟨_, rfl⟩, ⟨_, rfl, rfl, rfl⟩⟩

/-! ## The claims on the passes of the backtracking loop -/

/-- C33: when the backtracking loop of `FindAcceptableTrialPoint` ends with an
accepted second-order correction, say number `k` (counted from 0), the last
calls of the loop are the solve for that correction, the trial point formed
with `α_soc`, the fraction-to-the-boundary step size of the corrected
direction, and the acceptance test at the step size `α_max` of the
uncorrected step, which that trial point passes; the call returns normally,
the recorded `α_primal` is `α_soc`, and the equality and bound multipliers are
set along the corrected direction. -/
theorem C33_accepted_second_order_correction (env : Env) (fuel : Nat) (r r1 : LSRun)
    (v1 : Locals)
    (hloop : FilterLineSearch.BacktrackingLoop env
      (FilterLineSearch.CalculateAlphaMin r.ls env.m r.cq)
      env.curr_primal_frac_to_the_bound fuel r (FilterLineSearch.InitialLocals env) =
        some (r1, .ok v1))
    (hsoc : v1.soc_taken = true) :
    ∃ k, v1.accept = true ∧ v1.dir = Direction.soc k ∧
      (∃ before, r1.trace = r.trace ++ (before ++
        [Event.Solve k,
         Event.SetTrialPrimalVariablesFromStep (env.primal_frac_to_the_bound k)
           (Direction.soc k),
         Event.CheckAcceptabilityOfTrialPoint env.curr_primal_frac_to_the_bound])) ∧
      r1.AcceptedAt env env.curr_primal_frac_to_the_bound ∧
      ∃ out, FilterLineSearch.FindAcceptableTrialPoint env fuel r = some (out, .ok ()) ∧
        out.info_alpha_primal = env.primal_frac_to_the_bound k ∧
        ∃ pre, out.trace = pre ++
          [Event.SetTrialEqMultipilersFromStep (env.primal_frac_to_the_bound k)
             (Direction.soc k),
           Event.SetTrialBoundMutlipliersFromStep
             (env.dual_frac_to_the_bound (Direction.soc k)) (Direction.soc k)] := by
  obtain ⟨passes, htr, -, -, hpass, hend⟩ := FilterLineSearch.BacktrackingLoop_spec env _ _
    fuel r _ _ hloop rfl rfl rfl (FilterLineSearch.InitialLocals_alpha_primal env _)
  simp only at htr
  have hn0 : (FilterLineSearch.InitialLocals env).n_steps = 0 := rfl
  rw [hn0] at htr hpass hend
  rcases hend v1 rfl with ⟨-, h2, -⟩ | ⟨hacc, -, k, hdir, hn, hlast, ha, htest⟩ | ⟨-, h2, -⟩
  · rw [hsoc] at h2
    cases h2
  · obtain ⟨init, hinit⟩ := List.getLast?_eq_some_iff.mp hlast
    have hil : init.length = v1.n_steps := by
      rw [hinit, List.length_append, List.length_singleton] at hn
      omega
    rw [hinit] at hpass htr
    have hP := FilterLineSearch.LoopPassesOk_append_last _ init (k + 1) 0 hpass
    rw [zero_add, hil] at hP
    obtain ⟨hamax, -⟩ := hP.2.1 (by omega)
    rw [hamax] at htest
    have hAcc := FilterLineSearch.BacktrackingLoop_AcceptedAt env _ _ fuel r r1 _ v1 hloop
      rfl hacc
    rw [htest] at hAcc
    obtain ⟨hfat, armijo, harm⟩ :=
      FilterLineSearch.FindAcceptableTrialPoint_of_accept env fuel r r1 v1 hloop hacc
    have hC := FilterLineSearch.Commit_of_ArmijoHolds env r1 v1 armijo harm
    obtain ⟨aug, hctr, -, hcα, -, -⟩ := FilterLineSearch.Commit_spec env r1 v1
      (FilterLineSearch.Commit env r1 v1).1 (by rw [← hC.1])
    refine ⟨k, hacc, hdir, ⟨FilterLineSearch.LoopEvents env r.ls.magic_steps_
        env.curr_primal_frac_to_the_bound r.ls.alpha_red_factor_ 0 init ++
        (FilterLineSearch.TrialEvents env r.ls.magic_steps_ env.curr_primal_frac_to_the_bound
          env.curr_primal_frac_to_the_bound Direction.orig ++
          FilterLineSearch.SocPasses env env.curr_primal_frac_to_the_bound 0 k), ?_⟩, hAcc,
      (FilterLineSearch.Commit env r1 v1).1, by rw [hfat, ← hC.1], by rw [hcα, ha],
      r1.trace ++ (if aug then [Event.AugmentFilter] else []), ?_⟩
    · rw [htr, FilterLineSearch.LoopEvents_append_last, zero_add, hil, hamax,
        FilterLineSearch.SocPasses_succ_last]
      simp [FilterLineSearch.SocPass]
    · rw [hctr, ha, hdir]
      simp
  · rw [hsoc] at h2
    cases h2

/-- C33 at the example in which the regular trial at `α_max = 1` is rejected
and the first second-order correction, with `α_soc = 1/2`, is accepted. -/
theorem C33_accepted_second_order_correction_witness :
    exampleLocalsC2.soc_taken = true ∧
    ∃ k, exampleLocalsC2.accept = true ∧ exampleLocalsC2.dir = Direction.soc k ∧
      (∃ before, exampleRunC2.trace = exampleRunF.trace ++ (before ++
        [Event.Solve k,
         Event.SetTrialPrimalVariablesFromStep (exampleEnvC.primal_frac_to_the_bound k)
           (Direction.soc k),
         Event.CheckAcceptabilityOfTrialPoint exampleEnvC.curr_primal_frac_to_the_bound])) ∧
      exampleRunC2.AcceptedAt exampleEnvC exampleEnvC.curr_primal_frac_to_the_bound ∧
      ∃ out, FilterLineSearch.FindAcceptableTrialPoint exampleEnvC 1 exampleRunF =
          some (out, .ok ()) ∧
        out.info_alpha_primal = exampleEnvC.primal_frac_to_the_bound k ∧
        ∃ pre, out.trace = pre ++
          [Event.SetTrialEqMultipilersFromStep (exampleEnvC.primal_frac_to_the_bound k)
             (Direction.soc k),
           Event.SetTrialBoundMutlipliersFromStep
             (exampleEnvC.dual_frac_to_the_bound (Direction.soc k)) (Direction.soc k)] :=
  ⟨rfl, C33_accepted_second_order_correction exampleEnvC 1 exampleRunF exampleRunC2
    exampleLocalsC2 (FilterLineSearch.exampleC_BacktrackingLoop _ 0) rfl⟩

/-- C31 fails on the code in two places.  Without a restoration phase no
restoration request follows: in `exampleRunN` (build without assertions) the
only regular trial is rejected, `α_max · alpha_red_factor ≤ alpha_min` ends
the loop, and the call returns normally without calling `PerformRestoration`.
And with magic steps switched on the first trial point is formed but not
checked when `PerformMagicStep` raises: in `exampleRunM` the call ends with
the calls `SetTrialPrimalVariablesFromStep` and `PerformMagicStep` only. -/
theorem C31_counterexample :
    (exampleRunN.ls.resto_phase_ = false ∧
      FilterLineSearch.BacktrackingLoop exampleEnvN
          (FilterLineSearch.CalculateAlphaMin exampleRunN.ls exampleEnvN.m exampleRunN.cq)
          exampleEnvN.curr_primal_frac_to_the_bound 2 exampleRunN
          (FilterLineSearch.InitialLocals exampleEnvN) =
        some (exampleRunN1, .ok exampleLocalsN1) ∧
      exampleLocalsN1.accept = false ∧
      exampleEnvN.curr_primal_frac_to_the_bound * exampleRunN.ls.alpha_red_factor_ ≤
        FilterLineSearch.CalculateAlphaMin exampleRunN.ls exampleEnvN.m exampleRunN.cq ∧
      FilterLineSearch.FindAcceptableTrialPoint exampleEnvN 2 exampleRunN =
        some (FilterLineSearch.Commit exampleEnvN exampleRunN1 exampleLocalsN1) ∧
      (FilterLineSearch.Commit exampleEnvN exampleRunN1 exampleLocalsN1).2 = .ok () ∧
      Event.PerformRestoration ∉
        (FilterLineSearch.Commit exampleEnvN exampleRunN1 exampleLocalsN1).1.trace) ∧
    (exampleRunM.ls.magic_steps_ = true ∧
      (∀ fuel, FilterLineSearch.FindAcceptableTrialPoint exampleEnvM (fuel + 1) exampleRunM =
        some (exampleRunM1, .error Exception.Eval_Error)) ∧
      exampleRunM1.trace = exampleRunM.trace ++
        [Event.SetTrialPrimalVariablesFromStep exampleEnvM.curr_primal_frac_to_the_bound
          Direction.orig, Event.PerformMagicStep]) := by
  have hC : FilterLineSearch.Commit exampleEnvN exampleRunN1 exampleLocalsN1 =
      ({ exampleRunN1 with
          ls := FilterLineSearch.AugmentFilter exampleRunN1.ls exampleRunN1.cq
            exampleEnvN.iter_count
          info_alpha_primal_char := 'h'
          info_ls_count := 2
          info_alpha_primal := 1e-7 * 0.5
          info_alpha_dual := 1
          trace := [Event.SetTrialPrimalVariablesFromStep 1e-7 Direction.orig,
            Event.CheckAcceptabilityOfTrialPoint 1e-7,
            Event.AugmentFilter,
            Event.SetTrialEqMultipilersFromStep (1e-7 * 0.5) Direction.orig,
            Event.SetTrialBoundMutlipliersFromStep 1 Direction.orig] }, .ok ()) := by
    unfold FilterLineSearch.Commit
    simp only [FilterLineSearch.exampleN_IsFtype]
    rfl
  refine ⟨⟨rfl, FilterLineSearch.exampleN_BacktrackingLoop, rfl, ?_,
    FilterLineSearch.exampleN_FindAcceptableTrialPoint, ?_, ?_⟩,
    rfl, FilterLineSearch.exampleM_FindAcceptableTrialPoint, rfl⟩
  · rw [FilterLineSearch.exampleN_CalculateAlphaMin]
    norm_num [exampleEnvN, exampleRunN, exampleLineSearchN, exampleLineSearchF,
      exampleLineSearch]
  · rw [hC]
  · rw [hC]
    simp

/-- C31, amended: for every state, the first pass of the backtracking loop of
`FindAcceptableTrialPoint` is made and ends, whatever `α_max` and `alpha_min`
are: it forms the trial point with the step size `α_max` and, unless magic
steps are switched on and `PerformMagicStep` raises, calls
`CheckAcceptabilityOfTrialPoint` for it; the loop goes on from its result.  If
that pass ends without an accepted step and `α_max · alpha_red_factor ≤
alpha_min`, the loop ends there, having formed exactly one regular trial point,
and if a restoration phase is configured the next call is
`PerformRestoration`. -/
theorem C31_first_trial_then_restoration (env : Env) (r : LSRun) :
    ∃ r1 res n,
      FilterLineSearch.BacktrackingStep env env.curr_primal_frac_to_the_bound r
        (FilterLineSearch.InitialLocals env) = some (r1, res) ∧
      r1.trace = r.trace ++
        (FilterLineSearch.TrialEvents env r.ls.magic_steps_ env.curr_primal_frac_to_the_bound
            env.curr_primal_frac_to_the_bound Direction.orig ++
          FilterLineSearch.SocPasses env env.curr_primal_frac_to_the_bound 0 n) ∧
      (∃ rest, FilterLineSearch.TrialEvents env r.ls.magic_steps_
          env.curr_primal_frac_to_the_bound env.curr_primal_frac_to_the_bound Direction.orig =
        Event.SetTrialPrimalVariablesFromStep env.curr_primal_frac_to_the_bound
          Direction.orig :: rest) ∧
      ((r.ls.magic_steps_ = true → ∃ u, env.magic env.curr_primal_frac_to_the_bound = .ok u) →
        Event.CheckAcceptabilityOfTrialPoint env.curr_primal_frac_to_the_bound ∈
          FilterLineSearch.TrialEvents env r.ls.magic_steps_ env.curr_primal_frac_to_the_bound
            env.curr_primal_frac_to_the_bound Direction.orig) ∧
      (∀ fuel, FilterLineSearch.BacktrackingLoop env
          (FilterLineSearch.CalculateAlphaMin r.ls env.m r.cq)
          env.curr_primal_frac_to_the_bound (fuel + 1) r (FilterLineSearch.InitialLocals env) =
        match res with
        | .error e => some (r1, .error e)
        | .ok v1 =>
          if v1.accept then some (r1, .ok v1)
          else FilterLineSearch.BacktrackingLoop env
            (FilterLineSearch.CalculateAlphaMin r.ls env.m r.cq)
            env.curr_primal_frac_to_the_bound fuel r1 v1) ∧
      ∀ v1, res = .ok v1 → v1.accept = false →
        env.curr_primal_frac_to_the_bound * r.ls.alpha_red_factor_ ≤
          FilterLineSearch.CalculateAlphaMin r.ls env.m r.cq →
        (∀ fuel, FilterLineSearch.BacktrackingLoop env
          (FilterLineSearch.CalculateAlphaMin r.ls env.m r.cq)
          env.curr_primal_frac_to_the_bound (fuel + 2) r (FilterLineSearch.InitialLocals env) =
            some (r1, .ok v1)) ∧
        (r1.trace.filter Event.isRegularTrial).length =
          (r.trace.filter Event.isRegularTrial).length + 1 ∧
        (r.ls.resto_phase_ = true → ∀ fuel, ∃ out rest,
          FilterLineSearch.FindAcceptableTrialPoint env (fuel + 2) r = some out ∧
          out.1.trace = r1.trace ++ Event.PerformRestoration :: rest) := by
  obtain ⟨⟨r1, res⟩, hstep⟩ := FilterLineSearch.BacktrackingStep_terminates env
    env.curr_primal_frac_to_the_bound r (FilterLineSearch.InitialLocals env)
  obtain ⟨n, htr, hg, -, -, hloc⟩ :=
    FilterLineSearch.BacktrackingStep_spec env _ _ _ _ hstep rfl
  have hc : (FilterLineSearch.InitialLocals env).alpha_primal >
      FilterLineSearch.CalculateAlphaMin r.ls env.m r.cq ∨
      (FilterLineSearch.InitialLocals env).n_steps = 0 := Or.inr rfl
  have hloop1 := fun fuel => FilterLineSearch.BacktrackingLoop_first_pass env
    (FilterLineSearch.CalculateAlphaMin r.ls env.m r.cq) env.curr_primal_frac_to_the_bound
    fuel r r1 (FilterLineSearch.InitialLocals env) res hc hstep
  refine ⟨r1, res, n, hstep, htr, ?_, ?_, hloop1, ?_⟩
  · exact ⟨_, rfl⟩
  · intro hm
    unfold FilterLineSearch.TrialEvents
    cases hms : r.ls.magic_steps_
    · simp
    · obtain ⟨u, hu⟩ := hm hms
      rw [hu]
      simp
  · intro v1 hres hacc hmin
    subst hres
    have hv1 : v1 = { FilterLineSearch.InitialLocals env with
        alpha_primal := (FilterLineSearch.InitialLocals env).alpha_primal *
          r.ls.alpha_red_factor_,
        alpha_primal_test := (FilterLineSearch.InitialLocals env).alpha_primal,
        accept := false,
        n_steps := (FilterLineSearch.InitialLocals env).n_steps + 1 } := by
      rcases hloc v1 rfl with ⟨-, hw⟩ | ⟨k, -, hw⟩ | hw
      · rw [hw] at hacc
        cases hacc
      · rw [hw] at hacc
        cases hacc
      · exact hw
    have hcond : ¬ (v1.alpha_primal > FilterLineSearch.CalculateAlphaMin r.ls env.m r.cq ∨
        v1.n_steps = 0) := by
      rw [hv1]
      intro h
      rcases h with h | h
      · exact absurd hmin (not_le.mpr h)
      · cases h
    have hloop2 : ∀ fuel, FilterLineSearch.BacktrackingLoop env
        (FilterLineSearch.CalculateAlphaMin r.ls env.m r.cq)
        env.curr_primal_frac_to_the_bound (fuel + 2) r (FilterLineSearch.InitialLocals env) =
          some (r1, .ok v1) := by
      intro fuel
      rw [hloop1 (fuel + 1)]
      simp only [hacc, Bool.false_eq_true, if_false]
      rw [FilterLineSearch.BacktrackingLoop, if_neg hcond]
    refine ⟨hloop2, ?_, fun hresto fuel => ?_⟩
    · rw [htr, List.filter_append, List.filter_append, List.length_append, List.length_append,
        FilterLineSearch.TrialEvents_filter_isRegularTrial,
        FilterLineSearch.SocPasses_filter_isRegularTrial]
      rfl
    · have hr1 : r1.ls.resto_phase_ = true := by
        rw [hg.fields_eq.2.2.2.2]
        exact hresto
      rw [FilterLineSearch.FindAcceptableTrialPoint_of_loop env (fuel + 2) r r1 v1
        (hloop2 fuel)]
      have hrt := FilterLineSearch.RestorationFallback_trace env r1 v1
      rw [if_pos ⟨hacc, hr1⟩] at hrt
      rcases hrf : FilterLineSearch.RestorationFallback env r1 v1 with ⟨r2, e | b⟩
      · rw [hrf] at hrt
        exact ⟨_, [], rfl, hrt⟩
      · rw [hrf] at hrt
        simp only at hrt
        obtain ⟨added, hadd, -⟩ := FilterLineSearch.Commit_Extends (fun _ => True) env r2 v1
          trivial trivial trivial
        refine ⟨_, added, rfl, ?_⟩
        rw [hadd, hrt, List.append_assoc]
        rfl

/-- C31, amended, at the example with a restoration phase in which the only
regular trial (`α_max = 1e-7`) is rejected and `α_max · 0.5 ≤ alpha_min =
2.5e-7`: the loop ends after that trial and `PerformRestoration` is called
next. -/
theorem C31_first_trial_then_restoration_witness :
    exampleLocalsN1.accept = false ∧ exampleRunR.ls.resto_phase_ = true ∧
    exampleEnvN.curr_primal_frac_to_the_bound * exampleRunR.ls.alpha_red_factor_ ≤
      FilterLineSearch.CalculateAlphaMin exampleRunR.ls exampleEnvN.m exampleRunR.cq ∧
    (∀ fuel, FilterLineSearch.BacktrackingLoop exampleEnvN
      (FilterLineSearch.CalculateAlphaMin exampleRunR.ls exampleEnvN.m exampleRunR.cq)
      exampleEnvN.curr_primal_frac_to_the_bound (fuel + 2) exampleRunR
      (FilterLineSearch.InitialLocals exampleEnvN) = some (exampleRunR1, .ok exampleLocalsN1)) ∧
    (exampleRunR1.trace.filter Event.isRegularTrial).length =
      (exampleRunR.trace.filter Event.isRegularTrial).length + 1 ∧
    ∀ fuel, ∃ out rest,
      FilterLineSearch.FindAcceptableTrialPoint exampleEnvN (fuel + 2) exampleRunR = some out ∧
      out.1.trace = exampleRunR1.trace ++ Event.PerformRestoration :: rest := by
  have hmin : exampleEnvN.curr_primal_frac_to_the_bound * exampleRunR.ls.alpha_red_factor_ ≤
      FilterLineSearch.CalculateAlphaMin exampleRunR.ls exampleEnvN.m exampleRunR.cq := by
    rw [FilterLineSearch.exampleR_CalculateAlphaMin]
    norm_num [exampleEnvN, exampleRunR, exampleLineSearchR, exampleLineSearchN,
      exampleLineSearchF, exampleLineSearch]
  obtain ⟨r1, res, n, hstep, -, -, -, -, hrest⟩ :=
    C31_first_trial_then_restoration exampleEnvN exampleRunR
  rw [FilterLineSearch.exampleR_BacktrackingStep] at hstep
  simp only [Option.some.injEq, Prod.mk.injEq] at hstep
  obtain ⟨h1, h2⟩ := hstep
  subst h1
  obtain ⟨hl, hc, hr⟩ := hrest exampleLocalsN1 h2.symm rfl hmin
  exact ⟨rfl, rfl, hmin, hl, hc, hr rfl⟩

/-! ## The claims on `PerformMagicStep` -/

/-- C25 fails on the code: at one inequality with lower bound `0`, slack `1`
and `d(x_trial) - s_trial = 1e-15`, the correction is `Δs = 1e-15`, so
`‖Δs‖_∞ = 1e-15` is positive but not larger than
`10·ε_mach·‖s_trial‖_∞ = 10·2^-52`; no `M` is appended, yet the slack is
replaced by `1 + 1e-15`. -/
theorem C25_counterexample :
    (FilterLineSearch.delta_s_magic exampleMagic).Amax = 1e-15 ∧
    ¬ ((FilterLineSearch.delta_s_magic exampleMagic).Amax >
      10 * exampleMagic.mach_eps * exampleMagic.trial_s.Amax) ∧
    (FilterLineSearch.PerformMagicStep exampleMagic).info_string = exampleMagic.info_string ∧
    (FilterLineSearch.PerformMagicStep exampleMagic).trial_s 0 = 1 + 1e-15 ∧
    (FilterLineSearch.PerformMagicStep exampleMagic).trial_s 0 ≠ exampleMagic.trial_s 0 := by
  have hL : Function.Injective exampleMagic.Pd_L.exp_pos :=
    fun a b _ => Subsingleton.elim a b
  have hd : FilterLineSearch.delta_s_magic exampleMagic 0 = 1e-15 := by
    rw [FilterLineSearch.delta_s_magic_lower exampleMagic hL 0 0 rfl (fun j => j.elim0)]
    norm_num [exampleMagic]
  have hA : (FilterLineSearch.delta_s_magic exampleMagic).Amax = 1e-15 := by
    rw [Vec.Amax_one, hd]
    norm_num
  have hs : exampleMagic.trial_s.Amax = 1 := by
    rw [Vec.Amax_one]
    norm_num [exampleMagic]
  have hnot : ¬ ((FilterLineSearch.delta_s_magic exampleMagic).Amax >
      10 * exampleMagic.mach_eps * exampleMagic.trial_s.Amax) := by
    rw [hA, hs]
    norm_num [exampleMagic]
  have ht : (FilterLineSearch.PerformMagicStep exampleMagic).trial_s 0 = 1 + 1e-15 := by
    rw [FilterLineSearch.PerformMagicStep_trial_s, hd]
    rfl
  refine ⟨hA, hnot, ?_, ht, ?_⟩
  · rw [FilterLineSearch.PerformMagicStep_info_string, if_neg (fun h => hnot h.2)]
  · rw [ht]
    norm_num [exampleMagic]

/-- C25, amended: `PerformMagicStep` replaces `s_trial` by `s_trial + Δs`
whenever `‖Δs‖_∞ > 0`, and appends `M` to the info string exactly when in
addition `‖Δs‖_∞ > 10·ε_mach·‖s_trial‖_∞`; when `‖Δs‖_∞ > 0` does not hold,
the slacks and the info string are left as they are. -/
theorem C25_magic_step_commit {n nL nU : Nat} (m : MagicData n nL nU) :
    ((FilterLineSearch.delta_s_magic m).Amax > 0 →
      (FilterLineSearch.PerformMagicStep m).trial_s =
        fun i => m.trial_s i + FilterLineSearch.delta_s_magic m i) ∧
    (((FilterLineSearch.delta_s_magic m).Amax > 0 ∧
        (FilterLineSearch.delta_s_magic m).Amax > 10 * m.mach_eps * m.trial_s.Amax) →
      (FilterLineSearch.PerformMagicStep m).info_string = m.info_string ++ "M") ∧
    (¬ ((FilterLineSearch.delta_s_magic m).Amax > 0 ∧
        (FilterLineSearch.delta_s_magic m).Amax > 10 * m.mach_eps * m.trial_s.Amax) →
      (FilterLineSearch.PerformMagicStep m).info_string = m.info_string) ∧
    (¬ (FilterLineSearch.delta_s_magic m).Amax > 0 →
      FilterLineSearch.PerformMagicStep m = m) := by
  refine ⟨fun _ => funext fun i => FilterLineSearch.PerformMagicStep_trial_s m i,
    fun h => ?_, fun h => ?_, fun h => ?_⟩
  · rw [FilterLineSearch.PerformMagicStep_info_string, if_pos h]
  · rw [FilterLineSearch.PerformMagicStep_info_string, if_neg h]
  · unfold FilterLineSearch.PerformMagicStep
    simp only
    rw [if_neg h]

/-! ## The claim on `CompoundMatrix` -/

/-- C39: for compound vectors `x` and `y`, `MultVector(α, x, β, y)` of a
`CompoundMatrix` `A` leaves every component `y_i` equal to
`β·y_i(old) + α·Σ_j A_ij·x_j`, where a block that is not set contributes zero,
and for `β = 0` the result does not depend on the old content of `y`;
`TransMultVector(α, x, β, y)` leaves `y_j = β·y_j(old) + α·Σ_i A_ijᵀ·x_i`,
likewise. -/
theorem C39_CompoundMatrix_MultVector {nr nc : Nat} {block_rows : Fin nr → Nat}
    {block_cols : Fin nc → Nat} (A : CompoundMatrix nr nc block_rows block_cols)
    (alpha beta : Number) :
    (∀ (x : CompoundVector nc block_cols) (y : CompoundVector nr block_rows) (i : Fin nr)
        (k : Fin (block_rows i)),
      A.MultVectorImpl alpha x beta y i k =
        beta * y i k +
          alpha * ∑ j : Fin nc, (A.ConstComp i j).elim 0 (fun comp => comp.mult (x j) k)) ∧
    (∀ (x : CompoundVector nc block_cols) (y y' : CompoundVector nr block_rows), beta = 0 →
      A.MultVectorImpl alpha x beta y = A.MultVectorImpl alpha x beta y') ∧
    (∀ (x : CompoundVector nr block_rows) (y : CompoundVector nc block_cols) (j : Fin nc)
        (k : Fin (block_cols j)),
      A.TransMultVectorImpl alpha x beta y j k =
        beta * y j k +
          alpha * ∑ i : Fin nr,
            (A.ConstComp i j).elim 0 (fun comp => comp.transMult (x i) k)) ∧
    (∀ (x : CompoundVector nr block_rows) (y y' : CompoundVector nc block_cols), beta = 0 →
      A.TransMultVectorImpl alpha x beta y = A.TransMultVectorImpl alpha x beta y') := by
  refine ⟨fun x y i k => A.MultVectorImpl_apply alpha x beta y i k, fun x y y' hb => ?_,
    fun x y j k => A.TransMultVectorImpl_apply alpha x beta y j k, fun x y y' hb => ?_⟩
  · funext i k
    rw [A.MultVectorImpl_apply, A.MultVectorImpl_apply, hb, zero_mul, zero_mul]
  · funext j k
    rw [A.TransMultVectorImpl_apply, A.TransMultVectorImpl_apply, hb, zero_mul, zero_mul]

/-! ## The claim on the vectors of `TripletHelper` -/

/-- C40: for every dense or nested compound vector `vec` whose compound parts
have the sum of the dimensions of their components as dimension, with
`dim = vec.Dim`, and for all arrays `v` and `out`: `PutValuesInVector(dim, v,
vec)` followed by `FillValuesFromVector(dim, vec, out)` leaves `out[k] = v[k]`
for every `k < dim`, and the entries of `out` from `dim` on as they were. -/
theorem C40_put_then_fill_round_trip (vec : Vector) (dim : Nat) (v out : Nat → Number)
    (hdim : dim = vec.Dim) (hwf : vec.WellFormed) :
    (∀ k, k < dim →
      TripletHelper.FillValuesFromVector dim (TripletHelper.PutValuesInVector dim v 0 vec) out 0 k =
        v k) ∧
    (∀ k, dim ≤ k →
      TripletHelper.FillValuesFromVector dim (TripletHelper.PutValuesInVector dim v 0 vec) out 0 k =
        out k) := by
  subst hdim
  refine ⟨fun k hk => ?_, fun k hk => ?_⟩
  · have h : 0 ≤ k ∧ k < 0 + vec.Dim := by omega
    rw [TripletHelper.round_trip vec hwf, if_pos h]
    congr 1
    omega
  · have h : ¬ (0 ≤ k ∧ k < 0 + vec.Dim) := by omega
    rw [TripletHelper.round_trip vec hwf, if_neg h]

/-- Witness for C40: the nested compound vector `exampleVector` of dimension 3
with the array `v[k] = k + 1`. -/
theorem C40_put_then_fill_round_trip_witness :
    exampleVector.WellFormed ∧
    ((∀ k, k < 3 →
      TripletHelper.FillValuesFromVector 3
        (TripletHelper.PutValuesInVector 3 (fun k => (k : Number) + 1) 0 exampleVector)
        (fun _ => 0) 0 k = (k : Number) + 1) ∧
    (∀ k, 3 ≤ k →
      TripletHelper.FillValuesFromVector 3
        (TripletHelper.PutValuesInVector 3 (fun k => (k : Number) + 1) 0 exampleVector)
        (fun _ => 0) 0 k = 0)) :=
  have hwf : exampleVector.WellFormed :=
    ⟨rfl, fun i => by
      by_cases h : i = 0
      · simp only [if_pos h]; exact trivial
      · simp only [if_neg h]; exact ⟨rfl, fun _ => trivial⟩⟩
  ⟨hwf, C40_put_then_fill_round_trip exampleVector 3 (fun k => (k : Number) + 1) (fun _ => 0)
    rfl hwf⟩

/-! ## The claims on the matrices of `TripletHelper` -/

/-- C38: for every matrix `m` of a kind that `TripletHelper` handles, whose
diagonal matrices have a diagonal vector of their dimension (with compound
vectors of the dimension of their components together), `FillRowCol` and
`FillValues` called with `n_entries = GetNumberEntries(m)` on pointers at the
offset `off` write exactly the entries `off, ..., off + n_entries - 1` of
`iRow`, `jCol` and `values`: entry `off + k` of the three arrays is the row,
the column and the value of the `k`-th triplet of `m`, so the three arrays
have the same entry order, and every other entry is left as it was.
`GetNumberEntries(m)` is the number of triplets of `m`, and it is the number
that the specification names: the sum over the terms, over the valid blocks,
over the valid blocks `j ≤ i`, 0 for a zero matrix, the dimension of a
diagonal matrix and of an identity, the number of columns of an expansion
matrix. -/
theorem C38_FillRowCol_FillValues_entries (m : Matrix) (iRow jCol : Nat → Index)
    (values : Nat → Number) (off : Nat) (row_offset col_offset : Index) (hwf : m.WellFormed) :
    (∀ k, k < TripletHelper.GetNumberEntries m →
      ((TripletHelper.FillRowCol (TripletHelper.GetNumberEntries m) m iRow jCol off
          row_offset col_offset).1 (off + k),
        (TripletHelper.FillRowCol (TripletHelper.GetNumberEntries m) m iRow jCol off
          row_offset col_offset).2 (off + k),
        TripletHelper.FillValues (TripletHelper.GetNumberEntries m) m values off (off + k)) =
      (m.triplets row_offset col_offset).getD k (0, 0, 0)) ∧
    (∀ k, k < off ∨ off + TripletHelper.GetNumberEntries m ≤ k →
      (TripletHelper.FillRowCol (TripletHelper.GetNumberEntries m) m iRow jCol off
          row_offset col_offset).1 k = iRow k ∧
      (TripletHelper.FillRowCol (TripletHelper.GetNumberEntries m) m iRow jCol off
          row_offset col_offset).2 k = jCol k ∧
      TripletHelper.FillValues (TripletHelper.GetNumberEntries m) m values off k = values k) ∧
    (m.triplets row_offset col_offset).length = TripletHelper.GetNumberEntries m ∧
    TripletHelper.GetNumberEntries m = m.numberOfEntries := by
  have hlen := TripletHelper.length_triplets m row_offset col_offset
  refine ⟨fun k hk => ?_, fun k hk => ?_, hlen, TripletHelper.GetNumberEntries_eq m⟩
  · rw [TripletHelper.FillRowCol_eq, TripletHelper.FillValues_eq m hwf values off row_offset
      col_offset]
    dsimp only
    rw [writeEntries_apply_of_lt _ iRow _ _ (by rw [List.length_map, hlen]; exact hk) 0,
      writeEntries_apply_of_lt _ jCol _ _ (by rw [List.length_map, hlen]; exact hk) 0,
      writeEntries_apply_of_lt _ values _ _ (by rw [List.length_map, hlen]; exact hk) 0]
    have hk' : k < (m.triplets row_offset col_offset).length := by rw [hlen]; exact hk
    simp [List.getD_eq_getElem?_getD, List.getElem?_eq_getElem hk']
  · rw [TripletHelper.FillRowCol_eq, TripletHelper.FillValues_eq m hwf values off row_offset
      col_offset]
    rcases hk with hk | hk
    · exact ⟨writeEntries_apply_of_before _ _ _ _ hk, writeEntries_apply_of_before _ _ _ _ hk,
        writeEntries_apply_of_before _ _ _ _ hk⟩
    · exact ⟨writeEntries_apply_of_ge _ _ _ _ (by rw [List.length_map, hlen]; exact hk),
        writeEntries_apply_of_ge _ _ _ _ (by rw [List.length_map, hlen]; exact hk),
        writeEntries_apply_of_ge _ _ _ _ (by rw [List.length_map, hlen]; exact hk)⟩

/-- Witness for C38: the matrix `exampleMatrix` with four entries, written to
arrays of zeros from the start. -/
theorem C38_FillRowCol_FillValues_entries_witness :
    exampleMatrix.WellFormed ∧
    ((∀ k, k < TripletHelper.GetNumberEntries exampleMatrix →
      ((TripletHelper.FillRowCol (TripletHelper.GetNumberEntries exampleMatrix) exampleMatrix
          (fun _ => 0) (fun _ => 0) 0 0 0).1 (0 + k),
        (TripletHelper.FillRowCol (TripletHelper.GetNumberEntries exampleMatrix) exampleMatrix
          (fun _ => 0) (fun _ => 0) 0 0 0).2 (0 + k),
        TripletHelper.FillValues (TripletHelper.GetNumberEntries exampleMatrix) exampleMatrix
          (fun _ => 0) 0 (0 + k)) =
      (exampleMatrix.triplets 0 0).getD k (0, 0, 0)) ∧
    (∀ k, k < 0 ∨ 0 + TripletHelper.GetNumberEntries exampleMatrix ≤ k →
      (TripletHelper.FillRowCol (TripletHelper.GetNumberEntries exampleMatrix) exampleMatrix
          (fun _ => 0) (fun _ => 0) 0 0 0).1 k = (fun _ => 0) k ∧
      (TripletHelper.FillRowCol (TripletHelper.GetNumberEntries exampleMatrix) exampleMatrix
          (fun _ => 0) (fun _ => 0) 0 0 0).2 k = (fun _ => 0) k ∧
      TripletHelper.FillValues (TripletHelper.GetNumberEntries exampleMatrix) exampleMatrix
        (fun _ => 0) 0 k = (fun _ => 0) k) ∧
    (exampleMatrix.triplets 0 0).length = TripletHelper.GetNumberEntries exampleMatrix ∧
    TripletHelper.GetNumberEntries exampleMatrix = exampleMatrix.numberOfEntries) :=
  ⟨TripletHelper.exampleMatrix_WellFormed,
    C38_FillRowCol_FillValues_entries exampleMatrix (fun _ => 0) (fun _ => 0) (fun _ => 0) 0 0 0
      TripletHelper.exampleMatrix_WellFormed⟩

/-- C37: for every matrix `m` built from the non-symmetric kinds (triplet,
diagonal, identity, expansion, zero, sum, compound, nested in any way), whose
diagonal matrices have a diagonal vector of their dimension (with compound
vectors of the dimension of their components together), the arrays that
`FillRowCol` (with offsets 0) and `FillValues` fill for
`n_entries = GetNumberEntries(m)` denote the matrix: for every row `r` and
column `c`, counted from 1, the sum of `values[k]` over the entries
`k < n_entries` with `iRow[k] = r` and `jCol[k] = c` is the element of `m` at
`(r, c)`, where a sum has the elements of its terms times their factors and a
compound matrix those of its blocks, each block shifted by the total rows and
columns of the blocks before it. -/
theorem C37_triplets_denote_matrix (m : Matrix) (iRow jCol : Nat → Index)
    (values : Nat → Number) (r c : Index) (hwf : m.WellFormed) (hns : m.NonSym) :
    ((List.range (TripletHelper.GetNumberEntries m)).map (fun k =>
      if (TripletHelper.FillRowCol (TripletHelper.GetNumberEntries m) m iRow jCol 0 0 0).1 k = r ∧
          (TripletHelper.FillRowCol (TripletHelper.GetNumberEntries m) m iRow jCol 0 0 0).2 k = c
      then TripletHelper.FillValues (TripletHelper.GetNumberEntries m) m values 0 k
      else 0)).sum = m.element r c := by
  rw [TripletHelper.FillRowCol_eq, TripletHelper.FillValues_eq m hwf values 0 0 0,
    ← TripletHelper.length_triplets m 0 0]
  dsimp only
  rw [TripletHelper.sum_range_writeEntries, TripletHelper.tripletSum_triplets m hns, sub_zero,
    sub_zero]

/-- Witness for C37: the matrix `exampleMatrix` at row 2 and column 2, where
its element is `2 * 5 + 3 * 2`. -/
theorem C37_triplets_denote_matrix_witness :
    exampleMatrix.WellFormed ∧ exampleMatrix.NonSym ∧
    ((List.range (TripletHelper.GetNumberEntries exampleMatrix)).map (fun k =>
      if (TripletHelper.FillRowCol (TripletHelper.GetNumberEntries exampleMatrix) exampleMatrix
            (fun _ => 0) (fun _ => 0) 0 0 0).1 k = 2 ∧
          (TripletHelper.FillRowCol (TripletHelper.GetNumberEntries exampleMatrix) exampleMatrix
            (fun _ => 0) (fun _ => 0) 0 0 0).2 k = 2
      then TripletHelper.FillValues (TripletHelper.GetNumberEntries exampleMatrix) exampleMatrix
        (fun _ => 0) 0 k
      else 0)).sum = exampleMatrix.element 2 2 :=
  ⟨TripletHelper.exampleMatrix_WellFormed, TripletHelper.exampleMatrix_NonSym,
    C37_triplets_denote_matrix exampleMatrix (fun _ => 0) (fun _ => 0) (fun _ => 0) 2 2
      TripletHelper.exampleMatrix_WellFormed TripletHelper.exampleMatrix_NonSym⟩

end Ipopt
